import Mathlib

/-!
# Session tree coordinator (`web_contents_impl.cc`): shallow embedding

Sessions (`WebContentsImpl`) live in an arena indexed by natural numbers; an
index plays the role of the C++ pointer (and of its address order, which is the
order of `base::flat_set<WebContentsImpl*>`).  A destroyed session leaves an
empty slot, so a weak pointer to it reads as null and its index is never
reused.
-/

namespace WebContents

/-- Modelled from the spec: the invalid frame-slot id
`FrameTreeNode::kFrameTreeNodeInvalidId`, whose declaration (`frame_tree_node.h`)
is not among the sources.  Only its being one fixed value matters. -/
def kFrameTreeNodeInvalidId : Int := -1

/-- Modelled from the spec: the "any display" id `display::kInvalidDisplayId`
accepted by `ForSecurityDropFullscreen`, whose declaration is not among the
sources.  Only its being one fixed value matters. -/
def kInvalidDisplayId : Int := -1

/-- Fields of `WebContentsImpl::WebContentsTreeNode`.  `inner_web_contents_` is
the vector of owning pointers, in vector order.  The constructor makes
`focused_web_contents_` point to the session of the node itself; a literal of
this structure has to say so, since a record does not know its own index. -/
structure WebContentsTreeNode where
  outer_web_contents_ : Option Nat := none
  outer_contents_frame_tree_node_id_ : Int := kFrameTreeNodeInvalidId
  inner_web_contents_ : List Nat := []
  focused_web_contents_ : Option Nat := none
deriving DecidableEq, Repr

/-- Calls that reach a renderer from the focus code: `SetPageFocus` on the widget
host of the main frame of a session, and `SetFocusedFrame` on the proxy of a
session to its outer delegate. -/
inductive RendererMessage where
  | SetPageFocus (contents : Nat) (focused : Bool)
  | ProxySetFocusedFrame (contents : Nat)
deriving DecidableEq, Repr

/-- Notifications sent to the `WebContentsObserver`s of one session. -/
inductive ObserverEvent where
  | DidAcquireFullscreen (frame : Nat)
  | DidToggleFullscreenModeForTab (entered : Bool) (will_cause_resize : Bool)
deriving DecidableEq, Repr

/-- The state of one `WebContentsImpl` that the fullscreen arbiter and the
session tree read and write.

* `original_opener` is the session of `frame_tree_.root()->original_opener()`
  (what `GetAllOpeningWebContents` obtains through `GetOriginalOpener` and
  `WebContents::FromRenderFrameHost`);
* `is_fullscreen_for_tab` is the answer of `IsFullscreen()`, that is of
  `delegate_->IsFullscreenForTabOrPending(this)` (false without a delegate);
* `display_id` is `screen->GetDisplayNearestView(GetNativeView()).id()`;
* `fullscreen_frames_` is the ordered set of frames flagged fullscreen and
  `current_fullscreen_frame_` the elected one;
* `observer_log` collects what `observers_.ForEachObserver` delivered;
* `focused_frame_tree_node_id_` is the focus pointer of `frame_tree_` (the id of
  its focused frame tree node);
* `proxy_to_outer_delegate` tells whether
  `GetRenderManager()->GetProxyToOuterDelegate()` is non-null;
* `original_opener_node` and `opener_` are the ids of the frame tree nodes
  `frame_tree_.root()->original_opener()` and `frame_tree_.root()->opener()`,
  and `created_with_opener_` is the member of that name;
* `root_pending_sandbox_flags` and `root_sandbox_flags` are the sandbox flags of
  the pending and of the committed frame policy of `frame_tree_.root()`
  (`kNone` is `0`), `opener_feature_policy_state`, `initial_popup_url` and
  `popup_creator_origin` what `SetOpenerFeaturePolicyState`, `SetInitialPopupURL`
  and `SetPopupCreatorOrigin` stored on the root;
* `audio_stream_monitor_audible` is `audio_stream_monitor_.IsCurrentlyAudible()`,
  `guests_audible` is `browser_plugin_embedder_ &&
  browser_plugin_embedder_->AreAnyGuestsCurrentlyAudible()`, and
  `is_currently_audible_`, `was_ever_audible_` are the members of these names. -/
structure WebContentsImpl where
  node_ : WebContentsTreeNode := {}
  original_opener : Option Nat := none
  fullscreen_blocker_count_ : Int := 0
  is_fullscreen_for_tab : Bool := false
  display_id : Int := 0
  fullscreen_frames_ : List Nat := []
  current_fullscreen_frame_ : Option Nat := none
  observer_log : List ObserverEvent := []
  focused_frame_tree_node_id_ : Int := kFrameTreeNodeInvalidId
  proxy_to_outer_delegate : Bool := false
  original_opener_node : Option Int := none
  opener_ : Option Int := none
  created_with_opener_ : Bool := false
  root_pending_sandbox_flags : Nat := 0
  root_sandbox_flags : Nat := 0
  opener_feature_policy_state : Option Nat := none
  initial_popup_url : Option Nat := none
  popup_creator_origin : Option Nat := none
  audio_stream_monitor_audible : Bool := false
  guests_audible : Bool := false
  is_currently_audible_ : Bool := false
  was_ever_audible_ : Bool := false
deriving DecidableEq, Repr

/-- The arena of sessions of one browser context, with the per-context
fullscreen set (`FullscreenContentsSet(GetBrowserContext())`), whether
`display::Screen::GetScreen()` is non-null, the observer registrations of the
frame tree nodes (pairs of a frame tree node id and the session whose tree node
observes it), the record of the `ExitFullscreen` calls made so far and the
record of the calls sent towards renderers by the focus code. -/
@[ext]
structure World where
  contents : List (Option WebContentsImpl) := []
  fullscreen_contents_set : List Nat := []
  has_screen : Bool := true
  frame_observers : List (Int × Nat) := []
  exit_fullscreen_calls : List Nat := []
  sent_messages : List RendererMessage := []
deriving DecidableEq, Repr

/-- Dereference a session pointer: the live session stored at `id`. -/
def World.find (w : World) (id : Nat) : Option WebContentsImpl :=
  w.contents.getD id none

/-- Whether `id` points to a live session. -/
def World.live (w : World) (id : Nat) : Bool :=
  (w.find id).isSome

/-- Write through a session pointer (nothing happens on a dead one). -/
def World.modify (w : World) (id : Nat) (f : WebContentsImpl → WebContentsImpl) : World :=
  match w.find id with
  | some c => { w with contents := w.contents.set id (some (f c)) }
  | none => w

/-! ## `base::flat_set` as a strictly increasing list -/

/-- The method `flat_set::insert`: keeps the order, ignores a value already present. -/
def flatInsert (x : Nat) : List Nat → List Nat
  | [] => [x]
  | y :: ys =>
    if x < y then x :: y :: ys
    else if x = y then y :: ys
    else y :: flatInsert x ys

/-! ## `GetAllOpeningWebContents` and `CanEnterFullscreenMode` -/

/-- The session of `GetOriginalOpener()`, if any. -/
def GetOriginalOpener (w : World) (id : Nat) : Option Nat :=
  (w.find id).bind (fun c => c.original_opener)

/-- The method `WebContentsImpl::GetOuterWebContents`. -/
def GetOuterWebContents (w : World) (id : Nat) : Option Nat :=
  (w.find id).bind (fun c => c.node_.outer_web_contents_)

/-- The `while (!current.empty())` loop of `GetAllOpeningWebContents`, one
iteration per unit of fuel; `none` when the fuel runs out before `current` is
empty. -/
def GetAllOpeningWebContentsLoop (w : World) : Nat → List Nat → List Nat → Option (List Nat)
  | _, [], result => some result
  | 0, _ :: _, _ => none
  | fuel + 1, current_contents :: current, result =>
    if current_contents ∈ result then
      GetAllOpeningWebContentsLoop w fuel current result
    else
      let result := flatInsert current_contents result
      let current :=
        match GetOriginalOpener w current_contents with
        | some opener => flatInsert opener current
        | none => current
      let current :=
        match GetOuterWebContents w current_contents with
        | some outer_contents => flatInsert outer_contents current
        | none => current
      GetAllOpeningWebContentsLoop w fuel current result

/-- Iterations granted to the loop: more than it can ever use in an arena of
this size (see `GetAllOpeningWebContentsLoop_isSome`). -/
def GetAllOpeningWebContentsFuel (w : World) : Nat :=
  4 * w.contents.length + 4

/-- The loop of `GetAllOpeningWebContents` started as in the source, with
`current = {web_contents}` and `result = {}`. -/
def GetAllOpeningWebContentsRun (w : World) (web_contents : Nat) : Option (List Nat) :=
  GetAllOpeningWebContentsLoop w (GetAllOpeningWebContentsFuel w) [web_contents] []

/-- The function `GetAllOpeningWebContents`: the returned `flat_set`, in set order. -/
def GetAllOpeningWebContents (w : World) (web_contents : Nat) : List Nat :=
  (GetAllOpeningWebContentsRun w web_contents).getD []

/-- The field `fullscreen_blocker_count_` read through a pointer. -/
def blockerCount (w : World) (id : Nat) : Int :=
  match w.find id with
  | some c => c.fullscreen_blocker_count_
  | none => 0

/-- The method `WebContentsImpl::CanEnterFullscreenMode`. -/
def CanEnterFullscreenMode (w : World) (this : Nat) : Bool :=
  (GetAllOpeningWebContents w this).all (fun opener => blockerCount w opener == 0)

/-- One step along an original-opener or outer-session link. -/
def OpenerOrOuter (w : World) (a b : Nat) : Prop :=
  GetOriginalOpener w a = some b ∨ GetOuterWebContents w a = some b

/-- Every session the links of the arena point to. -/
def linkTargets (w : World) : List Nat :=
  w.contents.flatMap (fun slot =>
    match slot with
    | some c => c.original_opener.toList ++ c.node_.outer_web_contents_.toList
    | none => [])

/-- The set `current` after the two `current.insert` statements of one iteration. -/
def currentAfterInserts (w : World) (current_contents : Nat) (current : List Nat) : List Nat :=
  let current :=
    match GetOriginalOpener w current_contents with
    | some opener => flatInsert opener current
    | none => current
  match GetOuterWebContents w current_contents with
  | some outer_contents => flatInsert outer_contents current
  | none => current

/-- A world with an opener cycle `0 → 1 → 0`, an inner session `2` of `1`, and
an unrelated session `3`. -/
def cyclicWorld : World :=
  { contents :=
      [ some { original_opener := some 1 },
        some { original_opener := some 0, fullscreen_blocker_count_ := 1 },
        some { node_ := { outer_web_contents_ := some 1 } },
        some {} ] }

/-! ## `ForSecurityDropFullscreen` and the returned closure runner -/

/-- The method `WebContentsImpl::IsFullscreen`. -/
def IsFullscreen (w : World) (id : Nat) : Bool :=
  match w.find id with
  | some c => c.is_fullscreen_for_tab
  | none => false

/-- The value of `screen->GetDisplayNearestView(GetNativeView()).id()` for a
session, read only when `screen` is non-null. -/
def displayOf (w : World) (id : Nat) : Int :=
  match w.find id with
  | some c => c.display_id
  | none => 0

/-- The display a session is on: known only through `display::Screen`, so there
is none without a screen. -/
def displayNearestView (w : World) (id : Nat) : Option Int :=
  if w.has_screen then some (displayOf w id) else none

/-- The display test of both passes of `ForSecurityDropFullscreen`:
`display_id == kInvalidDisplayId || !screen || display_id == <display of the session>`. -/
def displayMatches (w : World) (display_id : Int) (id : Nat) : Bool :=
  display_id == kInvalidDisplayId || !w.has_screen || display_id == displayOf w id

/-- The method `flat_set::erase(key)`. -/
def flatErase (x : Nat) (l : List Nat) : List Nat :=
  l.filter (fun y => y != x)

/-- The state changes of `WebContentsImpl::NotifyFullscreenChanged`: the elected
frame is cleared on exit, observers get `DidToggleFullscreenModeForTab`, and the
session leaves or joins the per-context fullscreen set. -/
def NotifyFullscreenChanged (w : World) (this : Nat) (will_cause_resize : Bool) : World :=
  let exitedFullscreen := !IsFullscreen w this
  let w :=
    if exitedFullscreen then
      w.modify this (fun c => { c with current_fullscreen_frame_ := none })
    else w
  let w := w.modify this (fun c =>
    { c with observer_log := c.observer_log ++
        [ObserverEvent.DidToggleFullscreenModeForTab (!exitedFullscreen) will_cause_resize] })
  if exitedFullscreen then
    { w with fullscreen_contents_set := flatErase this w.fullscreen_contents_set }
  else
    { w with fullscreen_contents_set := flatInsert this w.fullscreen_contents_set }

/-- The method `WebContentsImpl::ExitFullscreenMode`.  The embedder's
`delegate_->ExitFullscreenModeForTab(this)` is taken to leave tab fullscreen, so
the delegate answers `IsFullscreen()` with false afterwards; re-entrant
destruction of the session by the delegate is not modelled. -/
def ExitFullscreenMode (w : World) (this : Nat) (will_cause_resize : Bool) : World :=
  let w := w.modify this (fun c => { c with is_fullscreen_for_tab := false })
  if !IsFullscreen w this then NotifyFullscreenChanged w this will_cause_resize else w

/-- The method `WebContentsImpl::ExitFullscreen`; the call is recorded in
`exit_fullscreen_calls`. -/
def ExitFullscreen (w : World) (this : Nat) (will_cause_resize : Bool) : World :=
  let w := { w with exit_fullscreen_calls := w.exit_fullscreen_calls ++ [this] }
  ExitFullscreenMode w this will_cause_resize

/-- Increment of `fullscreen_blocker_count_`. -/
def incrementBlocker (c : WebContentsImpl) : WebContentsImpl :=
  { c with fullscreen_blocker_count_ := c.fullscreen_blocker_count_ + 1 }

/-- Decrement of `fullscreen_blocker_count_`. -/
def decrementBlocker (c : WebContentsImpl) : WebContentsImpl :=
  { c with fullscreen_blocker_count_ := c.fullscreen_blocker_count_ - 1 }

/-- First pass of `ForSecurityDropFullscreen`: the loop over
`fullscreen_set_copy`. -/
def dropFullscreenFirstPass (this : Nat) (display_id : Int) : List Nat → World → World
  | [], w => w
  | fullscreen_contents :: rest, w =>
    let w :=
      if IsFullscreen w fullscreen_contents &&
          displayMatches w display_id fullscreen_contents then
        if this ∈ GetAllOpeningWebContents w fullscreen_contents then
          ExitFullscreen w fullscreen_contents true
        else w
      else w
    dropFullscreenFirstPass this display_id rest w

/-- Second pass of `ForSecurityDropFullscreen`: the loop over
`GetAllOpeningWebContents(this)`, collecting `blocked_contentses`. -/
def dropFullscreenSecondPass (display_id : Int) :
    List Nat → World → List Nat → World × List Nat
  | [], w, blocked_contentses => (w, blocked_contentses)
  | opener :: rest, w, blocked_contentses =>
    let w :=
      if IsFullscreen w opener && displayMatches w display_id opener then
        ExitFullscreen w opener true
      else w
    let w := w.modify opener incrementBlocker
    dropFullscreenSecondPass display_id rest w (blocked_contentses ++ [opener])

/-- The method `WebContentsImpl::ForSecurityDropFullscreen`: the new world and the
weak pointers `blocked_contentses` bound into the returned closure. -/
def ForSecurityDropFullscreen (w : World) (this : Nat) (display_id : Int) :
    World × List Nat :=
  let fullscreen_set_copy := w.fullscreen_contents_set
  let w := dropFullscreenFirstPass this display_id fullscreen_set_copy w
  dropFullscreenSecondPass display_id (GetAllOpeningWebContents w this) w []

/-- The closure bound into the returned `base::ScopedClosureRunner`: decrement
the blocker count of every weak pointer that is still alive. -/
def RunBlockedContentses : List Nat → World → World
  | [], w => w
  | web_contents :: rest, w =>
    let w :=
      if w.live web_contents then
        w.modify web_contents decrementBlocker
      else w
    RunBlockedContentses rest w

/-- The destruction of a session as far as the arbiter sees it: the destructor
erases the session from the per-context fullscreen set and the object is gone,
so weak pointers to it read as null. -/
def DestroyWebContents (w : World) (id : Nat) : World :=
  { w with
    contents := w.contents.set id none
    fullscreen_contents_set := flatErase id w.fullscreen_contents_set }

/-- What `ExitFullscreen` leaves in the fields of the session it is called on. -/
def exitFullscreenFields (will_cause_resize : Bool) (c : WebContentsImpl) : WebContentsImpl :=
  { c with
    is_fullscreen_for_tab := false
    current_fullscreen_frame_ := none
    observer_log := c.observer_log ++
      [ObserverEvent.DidToggleFullscreenModeForTab false will_cause_resize] }

/-- Two worlds with the same arena size, the same live sessions and the same
opener and outer links. -/
structure SameTopology (w w2 : World) : Prop where
  length_eq : w2.contents.length = w.contents.length
  live_eq : ∀ x, w2.live x = w.live x
  opener_eq : ∀ x, GetOriginalOpener w2 x = GetOriginalOpener w x
  outer_eq : ∀ x, GetOuterWebContents w2 x = GetOuterWebContents w x

/-- The `ExitFullscreen` calls recorded while going from `w` to `w2` (the record
only grows, at its end). -/
def exitFullscreenCallsSince (w w2 : World) : List Nat :=
  w2.exit_fullscreen_calls.drop w.exit_fullscreen_calls.length

/-! ## Election of the fullscreen frame

Frames (`RenderFrameHostImpl*`) are natural numbers; `depth f` stands for
`f->frame_tree_node()->depth()` and `isDescendantOf f g` for
`f->IsDescendantOf(g)`, both supplied by the frame tree. -/

/-- The comparator `FrameCompareDepth`. -/
def FrameCompareDepth (depth : Nat → Nat) (a b : Nat) : Bool :=
  depth a < depth b

/-- The algorithm `std::max_element` on a range that starts after `largest`: a
later element replaces `largest` only if `comp(largest, element)` holds, so the
first of several greatest elements is returned. -/
def maxElement (comp : Nat → Nat → Bool) : Nat → List Nat → Nat
  | largest, [] => largest
  | largest, x :: xs =>
    if comp largest x then maxElement comp x xs else maxElement comp largest xs

/-- The method `WebContentsImpl::FullscreenFrameSetUpdated`. -/
def FullscreenFrameSetUpdated (depth : Nat → Nat) (c : WebContentsImpl) : WebContentsImpl :=
  match c.fullscreen_frames_ with
  | [] => { c with current_fullscreen_frame_ := none }
  | first :: rest =>
    let new_fullscreen_frame := maxElement (FrameCompareDepth depth) first rest
    if some new_fullscreen_frame = c.current_fullscreen_frame_ then c
    else
      { c with
        current_fullscreen_frame_ := some new_fullscreen_frame
        observer_log := c.observer_log ++
          [ObserverEvent.DidAcquireFullscreen new_fullscreen_frame] }

/-- The method `WebContentsImpl::FullscreenStateChanged`. -/
def FullscreenStateChanged (depth : Nat → Nat) (isDescendantOf : Nat → Nat → Bool)
    (c : WebContentsImpl) (frame : Nat) (is_fullscreen : Bool) : WebContentsImpl :=
  if is_fullscreen then
    if frame ∈ c.fullscreen_frames_ then c
    else
      FullscreenFrameSetUpdated depth
        { c with fullscreen_frames_ := flatInsert frame c.fullscreen_frames_ }
  else
    let size_before_deletion := c.fullscreen_frames_.length
    let c := { c with fullscreen_frames_ :=
      c.fullscreen_frames_.filter (fun current =>
        !(current == frame || isDescendantOf current frame)) }
    if size_before_deletion ≠ c.fullscreen_frames_.length then
      FullscreenFrameSetUpdated depth c
    else c

/-- The election property: no elected frame when no frame is flagged, and
otherwise the elected frame is flagged and no flagged frame is deeper. -/
def ElectedIsDeepest (depth : Nat → Nat) (c : WebContentsImpl) : Prop :=
  (c.fullscreen_frames_ = [] → c.current_fullscreen_frame_ = none) ∧
  (c.fullscreen_frames_ ≠ [] →
    ∃ elected ∈ c.fullscreen_frames_, c.current_fullscreen_frame_ = some elected ∧
      ∀ f ∈ c.fullscreen_frames_, depth f ≤ depth elected)

instance (depth : Nat → Nat) (c : WebContentsImpl) : Decidable (ElectedIsDeepest depth c) :=
  inferInstanceAs (Decidable (_ ∧ _))

/-- Depths of the frames of a sample tree: frame `10` at depth 2, its child `12`
at depth 3, and the child `11` of `12` at depth 4. -/
def sampleDepth (f : Nat) : Nat :=
  if f = 10 then 2 else if f = 11 then 4 else if f = 12 then 3 else 0

/-- Descendants in the sample tree: `11` below `12` below `10`. -/
def sampleIsDescendantOf (f g : Nat) : Bool :=
  (f == 12 && g == 10) || (f == 11 && g == 12) || (f == 11 && g == 10)

/-- A session in tab fullscreen whose frame `10` has reported fullscreen. -/
def electedWorld : World :=
  ({ contents := [some { is_fullscreen_for_tab := true }], fullscreen_contents_set := [0] } :
    World).modify 0 (fun c => FullscreenStateChanged sampleDepth sampleIsDescendantOf c 10 true)

/-- The same session after a tab-level exit from fullscreen (`ExitFullscreen`, as
made by `ForSecurityDropFullscreen`): `NotifyFullscreenChanged` has cleared the
elected frame, frame `10` is still flagged. -/
def exitedWorld : World :=
  ExitFullscreen electedWorld 0 true

/-- A session with no fullscreen frame. -/
def plainSession : WebContentsImpl := {}

/-- The session `plainSession` after frames `10`, `11`, `12` (depths 2, 4, 3)
reported fullscreen, in this order. -/
def threeFlagsSession : WebContentsImpl :=
  FullscreenStateChanged sampleDepth sampleIsDescendantOf
    (FullscreenStateChanged sampleDepth sampleIsDescendantOf
      (FullscreenStateChanged sampleDepth sampleIsDescendantOf plainSession 10 true)
      11 true)
    12 true

/-- The session of `exitedWorld`. -/
def exitedSession : WebContentsImpl :=
  (exitedWorld.find 0).getD plainSession

/-! ## `WebContentsTreeNode`: attach and detach -/

/-- The vector `node_.inner_web_contents_` of a session. -/
def innerWebContents (w : World) (id : Nat) : List Nat :=
  match w.find id with
  | some c => c.node_.inner_web_contents_
  | none => []

/-- The accessor `node_.outer_contents_frame_tree_node_id()` of a session. -/
def outerContentsFrameTreeNodeId (w : World) (id : Nat) : Int :=
  match w.find id with
  | some c => c.node_.outer_contents_frame_tree_node_id_
  | none => kFrameTreeNodeInvalidId

/-- The accessor `node_.focused_web_contents()` of a session. -/
def focusedWebContents (w : World) (id : Nat) : Option Nat :=
  (w.find id).bind (fun c => c.node_.focused_web_contents_)

/-- The method `WebContentsTreeNode::GetInnerWebContentsInFrame`, on the tree node
of session `this`, for the frame tree node with id `ftn_id`. -/
def GetInnerWebContentsInFrame (w : World) (this : Nat) (ftn_id : Int) : Option Nat :=
  (innerWebContents w this).find? (fun impl => outerContentsFrameTreeNodeId w impl == ftn_id)

/-- The method `WebContentsTreeNode::SetFocusedWebContents` on the tree node of `this`. -/
def SetFocusedWebContents (w : World) (this : Nat) (web_contents : Option Nat) : World :=
  w.modify this (fun c => { c with node_ := { c.node_ with focused_web_contents_ := web_contents } })

/-- The three assignments of `AttachInnerWebContents` to the tree node of the
inner session. -/
def attachedNode (outer : Nat) (ftn_id : Int) (c : WebContentsImpl) : WebContentsImpl :=
  { c with node_ :=
    { c.node_ with
      focused_web_contents_ := none
      outer_web_contents_ := some outer
      outer_contents_frame_tree_node_id_ := ftn_id } }

/-- The statement `inner_web_contents_.push_back(std::move(inner_web_contents))`. -/
def pushInner (inner : Nat) (c : WebContentsImpl) : WebContentsImpl :=
  { c with node_ :=
    { c.node_ with inner_web_contents_ := c.node_.inner_web_contents_ ++ [inner] } }

/-- The method `WebContentsTreeNode::AttachInnerWebContents` on the tree node of
`current_web_contents_`; `ftn_id` is
`render_frame_host->frame_tree_node()->frame_tree_node_id()`.  The final call
`current_web_contents_->InnerWebContentsAttached` only recomputes the audio
state, which is not part of this model. -/
def AttachInnerWebContents (w : World) (current_web_contents_ : Nat) (inner_web_contents : Nat)
    (ftn_id : Int) : World :=
  let w := w.modify inner_web_contents (attachedNode current_web_contents_ ftn_id)
  let w := w.modify current_web_contents_ (pushInner inner_web_contents)
  { w with frame_observers := w.frame_observers ++ [(ftn_id, inner_web_contents)] }

/-- The vector `inner_web_contents_` as left by `DetachInnerWebContents`. -/
def setInner (remaining : List Nat) (c : WebContentsImpl) : WebContentsImpl :=
  { c with node_ := { c.node_ with inner_web_contents_ := remaining } }

/-- The loop of `DetachInnerWebContents` over `inner_web_contents_`: at the first
element equal to `inner_web_contents` the owning pointer is moved out, the slot
takes the last element of the vector and the vector is popped; `none` when no
element matches (the `NOTREACHED()` exit). -/
def detachInnerLoop (inner_web_contents : Nat) : List Nat → Option (List Nat)
  | [] => none
  | web_contents :: rest =>
    if web_contents = inner_web_contents then
      some (((rest.getLast?.getD web_contents) :: rest).dropLast)
    else
      (detachInnerLoop inner_web_contents rest).map (fun l => web_contents :: l)

/-- The method `WebContentsTreeNode::DetachInnerWebContents` on the tree node of
`current_web_contents_`: the new world and the returned owning pointer
(`none` is `nullptr`).  The call `InnerWebContentsDetached` only recomputes the
audio state. -/
def DetachInnerWebContents (w : World) (current_web_contents_ : Nat) (inner_web_contents : Nat) :
    World × Option Nat :=
  match detachInnerLoop inner_web_contents (innerWebContents w current_web_contents_) with
  | some remaining =>
    (w.modify current_web_contents_ (setInner remaining), some inner_web_contents)
  | none => (w, none)

/-- The two assignments of `DisconnectFromOuterWebContents` to its own tree node. -/
def disconnectedNode (c : WebContentsImpl) : WebContentsImpl :=
  { c with node_ :=
    { c.node_ with
      outer_contents_frame_tree_node_id_ := kFrameTreeNodeInvalidId
      outer_web_contents_ := none } }

/-- The method `WebContentsTreeNode::DisconnectFromOuterWebContents` on the tree
node of `current_web_contents_`.  Without an outer session the source
dereferences a null pointer; the model leaves the world alone and returns
`nullptr`. -/
def DisconnectFromOuterWebContents (w : World) (current_web_contents_ : Nat) :
    World × Option Nat :=
  match GetOuterWebContents w current_web_contents_ with
  | some outer_web_contents_ =>
    let r := DetachInnerWebContents w outer_web_contents_ current_web_contents_
    let observed := (outerContentsFrameTreeNodeId r.1 current_web_contents_, current_web_contents_)
    let w := { r.1 with frame_observers := r.1.frame_observers.filter (fun p => p != observed) }
    (w.modify current_web_contents_ disconnectedNode, r.2)
  | none => (w, none)

/-- The tree-node part of `WebContentsImpl::DetachFromOuterWebContents`:
`node_.DisconnectFromOuterWebContents()`, then `node_.SetFocusedWebContents(this)`;
the views, frame sinks and accessibility data it rebuilds, and the
`InnerWebContentsDetached` notification to the observers of the outer session,
are not part of this model. -/
def DetachFromOuterWebContents (w : World) (this : Nat) : World × Option Nat :=
  let r := DisconnectFromOuterWebContents w this
  (SetFocusedWebContents r.1 this (some this), r.2)

/-- The method `WebContentsTreeNode::OnFrameTreeNodeDestroyed` on the tree node of
`current_web_contents_`: the detached owning pointer is dropped at once, which
destroys the inner session. -/
def OnFrameTreeNodeDestroyed (w : World) (current_web_contents_ : Nat) : World :=
  match GetOuterWebContents w current_web_contents_ with
  | some outer_web_contents_ =>
    let r := DetachInnerWebContents w outer_web_contents_ current_web_contents_
    match r.2 with
    | some detached => DestroyWebContents r.1 detached
    | none => r.1
  | none => w

/-- An outer session `0` with inner sessions `1`, `2`, `3` hosted at the frame
tree nodes `11`, `12`, `13`. -/
def treeWorld : World :=
  { contents :=
      [ some { node_ := { inner_web_contents_ := [1, 2, 3], focused_web_contents_ := some 0 } },
        some { node_ := { outer_web_contents_ := some 0,
                          outer_contents_frame_tree_node_id_ := 11 } },
        some { node_ := { outer_web_contents_ := some 0,
                          outer_contents_frame_tree_node_id_ := 12 } },
        some { node_ := { outer_web_contents_ := some 0,
                          outer_contents_frame_tree_node_id_ := 13 } },
        some { node_ := { focused_web_contents_ := some 4 } } ],
    frame_observers := [(11, 1), (12, 2), (13, 3)] }

/-! ## Clients of the arbiter: acquisitions, releases and other operations -/

/-- A `base::ScopedClosureRunner` returned by `ForSecurityDropFullscreen`: the
bound weak pointers, and whether the closure has already been run (a runner
runs its closure at most once). -/
structure ScopedClosureRunner where
  blocked_contentses : List Nat
  has_run : Bool
deriving DecidableEq, Repr

/-- The sessions together with every closure runner handed out so far; a runner
is named by its position in `runners`. -/
structure ArbiterState where
  world : World
  runners : List ScopedClosureRunner := []
deriving DecidableEq, Repr

/-- The operations of a client of the arbiter. -/
inductive ArbiterOp where
  | acquire (this : Nat) (display_id : Int)
  | release (runner : Nat)
  | destroy (id : Nat)
  | attach (outer : Nat) (inner : Nat) (ftn_id : Int)
  | detach (inner : Nat)
deriving DecidableEq, Repr

/-- One operation: `this->ForSecurityDropFullscreen(display_id)` on a live
session, running (or destroying) the runner handed out as number `runner`,
destroying a session, or changing the session tree by
`outer.AttachInnerWebContents(inner, ftn_id)` or
`inner.DetachFromOuterWebContents()`. -/
def ArbiterState.step (st : ArbiterState) : ArbiterOp → ArbiterState
  | ArbiterOp.acquire this display_id =>
    if st.world.live this then
      let r := ForSecurityDropFullscreen st.world this display_id
      { world := r.1, runners := st.runners ++ [{ blocked_contentses := r.2, has_run := false }] }
    else st
  | ArbiterOp.release runner =>
    match st.runners[runner]? with
    | some r =>
      if r.has_run then st
      else
        { world := RunBlockedContentses r.blocked_contentses st.world,
          runners := st.runners.set runner { r with has_run := true } }
    | none => st
  | ArbiterOp.destroy id =>
    { st with world := DestroyWebContents st.world id }
  | ArbiterOp.attach outer inner ftn_id =>
    { st with world := AttachInnerWebContents st.world outer inner ftn_id }
  | ArbiterOp.detach inner =>
    { st with world := (DetachFromOuterWebContents st.world inner).1 }

/-- A sequence of operations. -/
def ArbiterState.run (st : ArbiterState) (ops : List ArbiterOp) : ArbiterState :=
  ops.foldl ArbiterState.step st

/-- How many runners that have not run yet hold a weak pointer to `id`. -/
def pendingBlocks (id : Nat) : List ScopedClosureRunner → Nat
  | [] => 0
  | r :: rs =>
    (if r.has_run = false ∧ id ∈ r.blocked_contentses then 1 else 0) + pendingBlocks id rs

/-- The accounting kept by acquisitions and releases: the blocker count of a
live session is its base value plus the number of runners that hold it and have
not run; a runner holds each session at most once. -/
structure BlockersAccounted (base : Nat → Int) (st : ArbiterState) : Prop where
  count_eq : ∀ x, st.world.live x = true →
    blockerCount st.world x = base x + pendingBlocks x st.runners
  nodup : ∀ r ∈ st.runners, r.blocked_contentses.Nodup

/-- Operations that neither change a link nor run the runner number `k`:
acquisitions, and releases of other runners. -/
def ArbiterOp.keepsBlock (k : Nat) : ArbiterOp → Bool
  | ArbiterOp.acquire _ _ => true
  | ArbiterOp.release j => j != k
  | ArbiterOp.destroy _ => false
  | ArbiterOp.attach _ _ _ => false
  | ArbiterOp.detach _ => false

/-- A window `3` opened by `1`, a guest `2` embedded in `1`, `1` opened by `0`;
session `2` is fullscreen on display `7`, session `0` on display `8`, and
session `4` is unrelated. -/
def arbiterWorld : World :=
  { contents :=
      [ some { is_fullscreen_for_tab := true, display_id := 8 },
        some { node_ := { inner_web_contents_ := [2] }, original_opener := some 0 },
        some { node_ := { outer_web_contents_ := some 1,
                          outer_contents_frame_tree_node_id_ := 21 },
               is_fullscreen_for_tab := true, display_id := 7 },
        some { original_opener := some 1 },
        some { is_fullscreen_for_tab := true, display_id := 7 } ],
    fullscreen_contents_set := [0, 2, 4] }

/-- Two overlapping acquisitions, released in the order of acquisition, with a
guest detached and a session destroyed in between. -/
def arbiterOps : List ArbiterOp :=
  [ ArbiterOp.acquire 3 kInvalidDisplayId, ArbiterOp.acquire 1 7, ArbiterOp.detach 2,
    ArbiterOp.release 0, ArbiterOp.destroy 1, ArbiterOp.release 1 ]

/-! ## Focus: the outermost session keeps the focused-session pointer -/

/-- The `while (root->GetOuterWebContents())` loop of `GetOutermostWebContents`,
one test of the loop condition per unit of fuel; `none` when the fuel runs out
before a session without outer session is reached. -/
def GetOutermostWebContentsLoop (w : World) : Nat → Nat → Option Nat
  | 0, _ => none
  | fuel + 1, root =>
    match GetOuterWebContents w root with
    | some outer => GetOutermostWebContentsLoop w fuel outer
    | none => some root

/-- The loop of `GetOutermostWebContents` started at `root = this`, with more
fuel than a chain of distinct sessions of the arena can use. -/
def GetOutermostWebContentsRun (w : World) (this : Nat) : Option Nat :=
  GetOutermostWebContentsLoop w (w.contents.length + 1) this

/-- The method `WebContentsImpl::GetOutermostWebContents`. -/
def GetOutermostWebContents (w : World) (this : Nat) : Nat :=
  (GetOutermostWebContentsRun w this).getD this

/-- The method `WebContentsImpl::GetFocusedWebContents`. -/
def GetFocusedWebContents (w : World) (this : Nat) : Option Nat :=
  focusedWebContents w (GetOutermostWebContents w this)

/-- The `for` loop of `ContainsOrIsFocusedWebContents` over `focused_contents`,
one iteration per unit of fuel. -/
def ContainsOrIsFocusedWebContentsLoop (w : World) (this : Nat) : Nat → Option Nat → Option Bool
  | _, none => some false
  | 0, some _ => none
  | fuel + 1, some focused_contents =>
    if focused_contents = this then some true
    else ContainsOrIsFocusedWebContentsLoop w this fuel (GetOuterWebContents w focused_contents)

/-- The loop of `ContainsOrIsFocusedWebContents` started at
`GetFocusedWebContents()`. -/
def ContainsOrIsFocusedWebContentsRun (w : World) (this : Nat) : Option Bool :=
  ContainsOrIsFocusedWebContentsLoop w this (w.contents.length + 1) (GetFocusedWebContents w this)

/-- The method `WebContentsImpl::ContainsOrIsFocusedWebContents`. -/
def ContainsOrIsFocusedWebContents (w : World) (this : Nat) : Bool :=
  (ContainsOrIsFocusedWebContentsRun w this).getD false

/-- Modelled from the spec: the method `FrameTree::SetFocusedFrame(node, source)` of
the frame tree of session `this` (`frame_tree.cc` is not among the sources),
which records `node` as the focused frame of that tree. -/
def FrameTreeSetFocusedFrame (w : World) (this : Nat) (node : Int) : World :=
  w.modify this (fun c => { c with focused_frame_tree_node_id_ := node })

/-- The focused frame of the frame tree of a session
(`frame_tree_.GetFocusedFrame()`), as the id of its frame tree node. -/
def focusedFrame (w : World) (id : Nat) : Int :=
  match w.find id with
  | some c => c.focused_frame_tree_node_id_
  | none => kFrameTreeNodeInvalidId

/-- Whether `GetRenderManager()->GetProxyToOuterDelegate()` of a session is
non-null. -/
def GetProxyToOuterDelegate (w : World) (id : Nat) : Bool :=
  match w.find id with
  | some c => c.proxy_to_outer_delegate
  | none => false

/-- Record a call that reaches a renderer. -/
def World.send (w : World) (m : RendererMessage) : World :=
  { w with sent_messages := w.sent_messages ++ [m] }

/-- The method `WebContentsImpl::FocusOuterAttachmentFrameChain`, one activation of
the recursion per unit of fuel. -/
def FocusOuterAttachmentFrameChainLoop : Nat → World → Nat → Option World
  | 0, _, _ => none
  | fuel + 1, w, this =>
    match GetOuterWebContents w this with
    | none => some w
    | some outer_contents =>
      let outer_node := outerContentsFrameTreeNodeId w this
      let w := FrameTreeSetFocusedFrame w outer_contents outer_node
      let w :=
        if GetProxyToOuterDelegate w this then w.send (RendererMessage.ProxySetFocusedFrame this)
        else w
      FocusOuterAttachmentFrameChainLoop fuel w outer_contents

/-- The recursion of `FocusOuterAttachmentFrameChain` started on `this`. -/
def FocusOuterAttachmentFrameChainRun (w : World) (this : Nat) : Option World :=
  FocusOuterAttachmentFrameChainLoop (w.contents.length + 1) w this

/-- The method `WebContentsImpl::FocusOuterAttachmentFrameChain`. -/
def FocusOuterAttachmentFrameChain (w : World) (this : Nat) : World :=
  (FocusOuterAttachmentFrameChainRun w this).getD w

/-- The method `WebContentsImpl::SetAsFocusedWebContentsIfNecessary`;
`SetPageFocus` on the widget host of a main frame is recorded in
`sent_messages`. -/
def SetAsFocusedWebContentsIfNecessary (w : World) (this : Nat) : World :=
  let old_contents := GetFocusedWebContents w this
  if old_contents = some this then w
  else
    let w := SetFocusedWebContents w (GetOutermostWebContents w this) (some this)
    let w :=
      match old_contents with
      | some old => w.send (RendererMessage.SetPageFocus old false)
      | none => w
    let w := FocusOuterAttachmentFrameChain w this
    w.send (RendererMessage.SetPageFocus this true)

/-- The method `WebContentsImpl::SetFocusedFrame(node, source)`.  A frame tree
node is given by its id; `siteInstanceOfNode id` is the site instance of the
current frame host of `FrameTreeNode::GloballyFindByID(id)` (`none` when there
is no such node), and `source` may be null. -/
def SetFocusedFrame (siteInstanceOfNode : Int → Option Nat) (w : World) (this : Nat)
    (node : Int) (source : Option Nat) : World :=
  let w := FrameTreeSetFocusedFrame w this node
  match GetInnerWebContentsInFrame w this node with
  | some inner_contents =>
    if GetFocusedWebContents w this = some this then
      SetAsFocusedWebContentsIfNecessary w inner_contents
    else w
  | none =>
    match siteInstanceOfNode (outerContentsFrameTreeNodeId w this) with
    | some site_instance =>
      if some site_instance = source then
        if GetFocusedWebContents w this = GetOuterWebContents w this then
          SetAsFocusedWebContentsIfNecessary w this
        else w
      else if (GetOuterWebContents w this).isNone then
        SetAsFocusedWebContentsIfNecessary w this
      else w
    | none =>
      if (GetOuterWebContents w this).isNone then
        SetAsFocusedWebContentsIfNecessary w this
      else w

/-- The outer links of the arena lead to live sessions and strictly decrease the
rank `depth`: the sessions form a forest, `depth` bounding the nesting. -/
def OuterLinksDescend (w : World) (depth : Nat → Nat) : Prop :=
  ∀ x < w.contents.length, ∀ y ∈ GetOuterWebContents w x,
    w.live y = true ∧ depth y < depth x

instance (w : World) (depth : Nat → Nat) : Decidable (OuterLinksDescend w depth) :=
  inferInstanceAs (Decidable (∀ x < w.contents.length, ∀ y ∈ GetOuterWebContents w x,
    w.live y = true ∧ depth y < depth x))

/-- The nesting rank used for `treeWorld` and worlds of the same shape: session
`0` is outermost. -/
def treeDepth (x : Nat) : Nat :=
  if x = 0 then 0 else 1

/-- The world `treeWorld` with proxies to the outer delegate for the inner
sessions. -/
def focusWorld : World :=
  { contents :=
      [ some { node_ := { inner_web_contents_ := [1, 2, 3], focused_web_contents_ := some 0 } },
        some { node_ := { outer_web_contents_ := some 0,
                          outer_contents_frame_tree_node_id_ := 11 },
               proxy_to_outer_delegate := true },
        some { node_ := { outer_web_contents_ := some 0,
                          outer_contents_frame_tree_node_id_ := 12 } },
        some { node_ := { outer_web_contents_ := some 0,
                          outer_contents_frame_tree_node_id_ := 13 } },
        some { node_ := { focused_web_contents_ := some 4 } } ],
    frame_observers := [(11, 1), (12, 2), (13, 3)] }

/-- A session with the focused frame of its frame tree blanked out. -/
def eraseFocusedFrame (c : WebContentsImpl) : WebContentsImpl :=
  { c with focused_frame_tree_node_id_ := kFrameTreeNodeInvalidId }

/-- Two worlds that differ at most in the focused frames of the frame trees and
in the record of the calls sent to renderers. -/
structure SameUpToFocusedFrame (w w2 : World) : Prop where
  length_eq : w2.contents.length = w.contents.length
  find_eq : ∀ x, (w2.find x).map eraseFocusedFrame = (w.find x).map eraseFocusedFrame
  fullscreen_eq : w2.fullscreen_contents_set = w.fullscreen_contents_set
  screen_eq : w2.has_screen = w.has_screen
  observers_eq : w2.frame_observers = w.frame_observers
  calls_eq : w2.exit_fullscreen_calls = w.exit_fullscreen_calls

/-- The outer link as a relation: `b` is the outer session of `a`. -/
def OuterOf (w : World) (a b : Nat) : Prop :=
  GetOuterWebContents w a = some b

/-- The focus statement of the destructor `~WebContentsImpl`:
`if (this != outermost && ContainsOrIsFocusedWebContents())
outermost->SetAsFocusedWebContentsIfNecessary();` ("If the current WebContents
is in focus, unset it."). -/
def destructorUnsetFocus (w : World) (this : Nat) : World :=
  let outermost := GetOutermostWebContents w this
  if this ≠ outermost ∧ ContainsOrIsFocusedWebContents w this = true then
    SetAsFocusedWebContentsIfNecessary w outermost
  else w

/-- The world `focusWorld` after the inner session `1` has taken the focus. -/
def innerFocusedWorld : World :=
  SetAsFocusedWebContentsIfNecessary focusWorld 1

/-! ## Pending windows and pending widgets of one session -/

/-- The key `GlobalRoutingID(child_id, route_id)` of the pending registries. -/
structure GlobalRoutingID where
  child_id : Int
  route_id : Int
deriving DecidableEq, Repr

/-- The order of `GlobalRoutingID` (by process id, then by route id), which is
the order of the `std::map`s keyed by it. -/
def GlobalRoutingID.lt (a b : GlobalRoutingID) : Bool :=
  decide (a.child_id < b.child_id) ||
    (decide (a.child_id = b.child_id) && decide (a.route_id < b.route_id))

/-- The struct `CreatedWindow`: the owning pointer to the created session (which
may be null) and the target URL. -/
structure CreatedWindow where
  contents : Option Nat
  target_url : Nat
deriving DecidableEq, Repr

/-- The reasons given to `ReceivedBadMessage` in this file. -/
inductive BadMessageReason where
  | WCI_NEW_WIDGET_PROCESS_MISMATCH
  | REGISTER_PROTOCOL_HANDLER_INVALID_URL
  | WCI_INVALID_DOWNLOAD_IMAGE_RESULT
deriving DecidableEq, Repr

/-- A view saved by `CreateNewWidget`, with whether `SetWidgetType(kPopup)` was
called on it. -/
structure PendingWidgetView where
  widget_view : Nat
  is_popup : Bool
deriving DecidableEq, Repr

/-- An assignment `m[key] = value` to a `std::map` held as a list in key order. -/
def mapAssign {α : Type} (key : GlobalRoutingID) (value : α) :
    List (GlobalRoutingID × α) → List (GlobalRoutingID × α)
  | [] => [(key, value)]
  | (k, x) :: rest =>
    if key.lt k then (key, value) :: (k, x) :: rest
    else if key = k then (k, value) :: rest
    else (k, x) :: mapAssign key value rest

/-- The lookup `m.find(key)` (`none` is `end()`). -/
def mapFind {α : Type} (key : GlobalRoutingID) (m : List (GlobalRoutingID × α)) : Option α :=
  (m.find? (fun p => p.1 == key)).map (fun p => p.2)

/-- The removal `m.erase(key)`. -/
def mapErase {α : Type} (key : GlobalRoutingID) (m : List (GlobalRoutingID × α)) :
    List (GlobalRoutingID × α) :=
  m.filter (fun p => p.1 != key)

/-- The window and widget bookkeeping of one session (the opener): the map
`pending_contents_`, the keys of the map `destruction_observers_`, the map
`pending_widget_views_`, the process ids of the current frame hosts of the
nodes of `frame_tree_`, whether `delegate_` is non-null, and records of the
sessions handed to `delegate_->AddNewContents`, of the calls of
`ReceivedBadMessage` and of the widget hosts constructed. -/
structure WindowOpener where
  pending_contents_ : List (GlobalRoutingID × CreatedWindow) := []
  destruction_observers_ : List Nat := []
  pending_widget_views_ : List (GlobalRoutingID × PendingWidgetView) := []
  frame_tree_processes : List Int := []
  has_delegate : Bool := true
  added_new_contents : List Nat := []
  bad_messages : List (Int × BadMessageReason) := []
  created_widget_hosts : List GlobalRoutingID := []
deriving DecidableEq, Repr

/-- What `GetCreatedWindow` asks about a created session: whether it is a
guest, whether the process of its main frame is initialized and not dead, and
whether its main frame has a view. -/
structure CreatedContentsFacts where
  is_guest : Nat → Bool
  process_alive : Nat → Bool
  has_view : Nat → Bool

/-- The method `WebContentsImpl::AddDestructionObserver`. -/
def AddDestructionObserver (reg : WindowOpener) (web_contents : Nat) : WindowOpener :=
  if web_contents ∈ reg.destruction_observers_ then reg
  else { reg with destruction_observers_ := flatInsert web_contents reg.destruction_observers_ }

/-- The method `WebContentsImpl::RemoveDestructionObserver`. -/
def RemoveDestructionObserver (reg : WindowOpener) (web_contents : Nat) : WindowOpener :=
  { reg with destruction_observers_ := flatErase web_contents reg.destruction_observers_ }

/-- The parameters of `CreateNewWindow` that decide what is registered. -/
structure CreateNewWindowParams where
  opener_suppressed : Bool := false
  target_url : Nat := 0
deriving DecidableEq, Repr

/-- The method `WebContentsImpl::CreateNewWindow`, as far as the registries and
the delegate see it.  `render_process_id` is `opener->GetProcess()->GetID()`;
`creation_overridden` is the answer of
`delegate_->IsWebContentsCreationOverridden(...)` and `custom_contents` what
`delegate_->CreateCustomWebContents(...)` returns; `new_contents` is the session
constructed here, `main_frame_routing_id` the routing id of the widget of its
main frame; `deleted_by_delegate` tells whether the delegate deletes the new
session during `AddNewContents`.  The result is the returned pointer. -/
def CreateNewWindow (reg : WindowOpener) (render_process_id : Int)
    (params : CreateNewWindowParams) (creation_overridden : Bool) (custom_contents : Option Nat)
    (new_contents : Nat) (main_frame_routing_id : Int) (deleted_by_delegate : Bool) :
    WindowOpener × Option Nat :=
  if reg.has_delegate && creation_overridden then (reg, custom_contents)
  else
    let reg :=
      if !params.opener_suppressed then
        let id : GlobalRoutingID := ⟨render_process_id, main_frame_routing_id⟩
        let reg := { reg with pending_contents_ :=
          (mapAssign id ⟨some new_contents, params.target_url⟩ reg.pending_contents_) }
        AddDestructionObserver reg new_contents
      else reg
    if params.opener_suppressed then
      if reg.has_delegate then
        let reg := { reg with added_new_contents := reg.added_new_contents ++ [new_contents] }
        if deleted_by_delegate then (reg, none) else (reg, some new_contents)
      else (reg, some new_contents)
    else (reg, some new_contents)

/-- The method `WebContentsImpl::GetCreatedWindow`: the registries afterwards and
the returned `base::Optional<CreatedWindow>`. -/
def GetCreatedWindow (facts : CreatedContentsFacts) (reg : WindowOpener)
    (process_id main_frame_widget_route_id : Int) : WindowOpener × Option CreatedWindow :=
  let key : GlobalRoutingID := ⟨process_id, main_frame_widget_route_id⟩
  match mapFind key reg.pending_contents_ with
  | none => (reg, none)
  | some result =>
    let reg := { reg with pending_contents_ := mapErase key reg.pending_contents_ }
    let reg :=
      match result.contents with
      | some new_contents => RemoveDestructionObserver reg new_contents
      | none => reg
    match result.contents with
    | some new_contents =>
      if facts.is_guest new_contents then (reg, some result)
      else if !facts.process_alive new_contents || !facts.has_view new_contents then (reg, none)
      else (reg, some result)
    | none => (reg, none)

/-- The method `WebContentsImpl::ShowCreatedWindow` on session `this`, up to the
hand-over to the delegate: the lookup, the fullscreen drop
`ForSecurityDropFullscreen(display_id).RunAndReset()` and
`delegate->AddNewContents`. -/
def ShowCreatedWindow (facts : CreatedContentsFacts) (w : World) (this : Nat)
    (reg : WindowOpener) (process_id main_frame_widget_route_id : Int) (display_id : Int) :
    World × WindowOpener :=
  let r := GetCreatedWindow facts reg process_id main_frame_widget_route_id
  match r.2 with
  | none => (w, r.1)
  | some owned_created =>
    match owned_created.contents with
    | none => (w, r.1)
    | some created =>
      let d := ForSecurityDropFullscreen w this display_id
      let w := RunBlockedContentses d.2 d.1
      if r.1.has_delegate then
        (w, { r.1 with added_new_contents := r.1.added_new_contents ++ [created] })
      else (w, r.1)

/-- The loop of `OnWebContentsDestroyed` over `pending_contents_`: the first entry
whose session is `web_contents` is released and erased; without such an entry
the map is left alone (the `NOTREACHED()` exit). -/
def erasePendingContents (web_contents : Nat) :
    List (GlobalRoutingID × CreatedWindow) → List (GlobalRoutingID × CreatedWindow)
  | [] => []
  | e :: rest =>
    if e.2.contents ≠ some web_contents then e :: erasePendingContents web_contents rest
    else rest

/-- The method `WebContentsImpl::OnWebContentsDestroyed`. -/
def OnWebContentsDestroyed (reg : WindowOpener) (web_contents : Nat) : WindowOpener :=
  let reg := RemoveDestructionObserver reg web_contents
  { reg with pending_contents_ := erasePendingContents web_contents reg.pending_contents_ }

/-- The function `HasMatchingProcess`, on the process ids of the current frame
hosts of the nodes of the tree. -/
def HasMatchingProcess (tree : List Int) (render_process_id : Int) : Bool :=
  tree.any (fun process => process == render_process_id)

/-- The method `WebContentsImpl::CreateNewWidget` (the overload with
`is_fullscreen`, which `CreateNewWidget` and `CreateNewFullscreenWidget` call
with false and true); `process_id` is `agent_scheduling_group.GetProcess()->GetID()`
and `widget_view` what `view_->CreateViewForChildWidget(widget_host)`
returns. -/
def CreateNewWidget (reg : WindowOpener) (process_id route_id : Int) (is_fullscreen : Bool)
    (widget_view : Option Nat) : WindowOpener :=
  if !HasMatchingProcess reg.frame_tree_processes process_id then
    { reg with bad_messages :=
        (reg.bad_messages ++ [(process_id, BadMessageReason.WCI_NEW_WIDGET_PROCESS_MISMATCH)]) }
  else
    let reg := { reg with created_widget_hosts :=
      (reg.created_widget_hosts ++ [⟨process_id, route_id⟩]) }
    match widget_view with
    | none => reg
    | some view =>
      { reg with pending_widget_views_ :=
          (mapAssign ⟨process_id, route_id⟩ ⟨view, !is_fullscreen⟩ reg.pending_widget_views_) }

/-- Facts about created sessions used in examples: none is a guest, session `8`
has a dead process, all have a view. -/
def sampleFacts : CreatedContentsFacts :=
  { is_guest := fun _ => false
    process_alive := fun c => c != 8
    has_view := fun _ => true }

/-- An opener with frames in the processes `5` and `6` and two pending windows. -/
def sampleOpener : WindowOpener :=
  { pending_contents_ :=
      [(⟨5, 1⟩, ⟨some 7, 100⟩), (⟨5, 2⟩, ⟨some 8, 200⟩)],
    destruction_observers_ := [7, 8],
    frame_tree_processes := [5, 6] }

/-- The invariants of the map `pending_contents_`: the keys are in strictly
increasing order (it is a `std::map`), and no session is owned by two entries
(the entries hold `std::unique_ptr`s). -/
def PendingContentsOk (m : List (GlobalRoutingID × CreatedWindow)) : Prop :=
  (m.map (fun e => e.1)).Pairwise (fun a b => a.lt b = true) ∧
    (m.filterMap (fun e => e.2.contents)).Nodup

instance (m : List (GlobalRoutingID × CreatedWindow)) : Decidable (PendingContentsOk m) :=
  inferInstanceAs (Decidable
    ((m.map (fun e : GlobalRoutingID × CreatedWindow => e.1)).Pairwise
        (fun (a b : GlobalRoutingID) => a.lt b = true) ∧
      (m.filterMap (fun e : GlobalRoutingID × CreatedWindow => e.2.contents)).Nodup))

/-- The pending window registered under `(process_id, route_id)` in `reg` has been
consumed in `after`: the key is no longer found, every other key is found as
before, the map has one entry less, and a further `GetCreatedWindow` or
`ShowCreatedWindow` with that key returns no window and changes nothing. -/
def PendingWindowConsumed (facts : CreatedContentsFacts) (process_id route_id : Int)
    (reg after : WindowOpener) : Prop :=
  mapFind ⟨process_id, route_id⟩ after.pending_contents_ = none ∧
  (∀ k : GlobalRoutingID, k ≠ ⟨process_id, route_id⟩ →
    mapFind k after.pending_contents_ = mapFind k reg.pending_contents_) ∧
  after.pending_contents_.length + 1 = reg.pending_contents_.length ∧
  GetCreatedWindow facts after process_id route_id = (after, none) ∧
  ∀ (w : World) (this : Nat) (display_id : Int),
    ShowCreatedWindow facts w this after process_id route_id display_id = (w, after)

/-! ## The destructor `~WebContentsImpl` as a sequence of steps -/

/-- The observer methods the destructor calls through
`observers_.ForEachObserver`. -/
inductive ObserverCall where
  | OnAudioStateChanged (audible : Bool)
  | FrameDeleted
  | RenderViewDeleted
  | WebContentsDestroyed
  | ResetWebContents
deriving DecidableEq, Repr

/-- The statements of the destructor that act on something outside the local
variables, in the words of the source; `Notify observer call` is one
activation of the lambda given to `observers_.ForEachObserver`. -/
inductive DestructorStep where
  | SetIsBeingDestroyed
  | EraseFromFullscreenContentsSet
  | ResetInputEventRouter
  | CloseAllReceivers
  | OutermostSetAsFocused
  | RejectMouseLock
  | ClearRFHsPendingShutdown (node : Nat)
  | ClearWebUIInstances (node : Nat)
  | DetachDelegate (widget : Nat)
  | ClearCreatedWidgets
  | CancelDialogs
  | ResetColorChooser
  | ResetFindRequestManager
  | NotifyDisconnected
  | NotifyWebContentsDestroyedService
  | ResetChildren
  | ResetProxyHosts
  | ShutdownBackForwardCache
  | ResetRootFrameHost
  | DeleteSpeculativeFrameHost
  | Notify (observer : Nat) (call : ObserverCall)
  | OuterOnAudioStateChanged
  | DisplayCutoutWebContentsDestroyed
  | DelegateDetach (delegate : Nat)
  | ClearDelegate
deriving DecidableEq, Repr

/-- The methods of the session that the deletion of frame hosts, view hosts and
widget hosts calls back.  `RenderFrameDeleted` carries the frame host and the
frame that its call of `FullscreenStateChanged(render_frame_host, false)` newly
elects, if any; `RenderWidgetDeleted` carries the widget host and whether it is
the fullscreen widget of the session. -/
inductive DelegateCallback where
  | RenderFrameDeleted (render_frame_host : Nat) (new_fullscreen_frame : Option Nat)
  | RenderViewDeleted (rvh : Nat)
  | RenderWidgetDeleted (render_widget_host : Nat) (is_fullscreen_widget : Bool)
  | OnFrameRemoved (render_frame_host : Nat)
deriving DecidableEq, Repr

/-- The `WebContentsObserver` methods those called-back methods invoke. -/
inductive ReenteredCall where
  | RenderFrameDeleted (render_frame_host : Nat)
  | DidAcquireFullscreen (render_frame_host : Nat)
  | RenderViewDeleted (rvh : Nat)
  | DidDestroyFullscreenWidget
  | FrameDeleted (render_frame_host : Nat)
deriving DecidableEq, Repr

/-- What the destructor reads of the session before it runs: the conditions of
its `if`s and the collections its loops go through (`created_widgets_` is the
set the `DetachDelegate` loop goes through).  `RenderFrameHostManager` and
`RenderFrameHostImpl` are not part of the sources under study, so the calls
they make back into the session are part of the input:
`rfhs_pending_shutdown` pairs a frame tree node with a call that
`ClearRFHsPendingShutdown` on that node makes, in the order of the calls, and
`reset_children_callbacks` lists the calls `ResetChildren` makes. -/
structure DestructorInput where
  focus_inside_inner : Bool := false
  has_mouse_lock_widget : Bool := false
  frame_tree_nodes : List Nat := []
  created_widgets_ : List Nat := []
  has_dialog_manager : Bool := false
  has_speculative_frame_host : Bool := false
  is_currently_audible_ : Bool := false
  has_outer_web_contents : Bool := false
  observers_ : List Nat := []
  has_display_cutout_host : Bool := false
  delegate_ : Option Nat := none
  rfhs_pending_shutdown : List (Nat × DelegateCallback) := []
  reset_children_callbacks : List DelegateCallback := []
deriving DecidableEq, Repr

/-- One `observers_.ForEachObserver` call. -/
def ForEachObserver (observers_ : List Nat) (call : ObserverCall) : List DestructorStep :=
  observers_.map (fun observer => DestructorStep.Notify observer call)

/-- The method `WebContentsImpl::SetDelegate` called with `nullptr`. -/
def SetDelegateNull (delegate_ : Option Nat) : List DestructorStep :=
  match delegate_ with
  | none => []
  | some d => [DestructorStep.DelegateDetach d, DestructorStep.ClearDelegate]

/-- The destructor up to the loop over the frame tree nodes: the flag, the
per-context fullscreen set, the input event router, the receivers, the focus,
the mouse lock, and `ClearRFHsPendingShutdown` / `ClearWebUIInstances` on every
node. -/
def destructorPrologue (s : DestructorInput) : List DestructorStep :=
  [DestructorStep.SetIsBeingDestroyed,
    DestructorStep.EraseFromFullscreenContentsSet,
    DestructorStep.ResetInputEventRouter,
    DestructorStep.CloseAllReceivers] ++
  (if s.focus_inside_inner then [DestructorStep.OutermostSetAsFocused] else []) ++
  (if s.has_mouse_lock_widget then [DestructorStep.RejectMouseLock] else []) ++
  s.frame_tree_nodes.flatMap (fun node =>
    [DestructorStep.ClearRFHsPendingShutdown node, DestructorStep.ClearWebUIInstances node])

/-- The loop `for (widget : created_widgets_) widget->DetachDelegate();` and
`created_widgets_.clear()`. -/
def destructorWidgets (s : DestructorInput) : List DestructorStep :=
  s.created_widgets_.map DestructorStep.DetachDelegate ++ [DestructorStep.ClearCreatedWidgets]

/-- From `dialog_manager_->CancelDialogs` to the shutdown of the speculative
frame host: dialogs, colour chooser, find manager, the two notifications of the
notification service, the subframes, the proxy hosts, the back-forward cache
and the root frame host. -/
def destructorFrames (s : DestructorInput) : List DestructorStep :=
  (if s.has_dialog_manager then [DestructorStep.CancelDialogs] else []) ++
  [DestructorStep.ResetColorChooser,
    DestructorStep.ResetFindRequestManager,
    DestructorStep.NotifyDisconnected,
    DestructorStep.NotifyWebContentsDestroyedService,
    DestructorStep.ResetChildren,
    DestructorStep.ResetProxyHosts,
    DestructorStep.ShutdownBackForwardCache,
    DestructorStep.ResetRootFrameHost] ++
  (if s.has_speculative_frame_host then [DestructorStep.DeleteSpeculativeFrameHost] else [])

/-- The statement `if (is_currently_audible_) { ... }`. -/
def destructorAudio (s : DestructorInput) : List DestructorStep :=
  if s.is_currently_audible_ then
    ForEachObserver s.observers_ (ObserverCall.OnAudioStateChanged false) ++
      (if s.has_outer_web_contents then [DestructorStep.OuterOnAudioStateChanged] else [])
  else []

/-- The end of the destructor, from the `FrameDeleted` notification to
`SetDelegate(nullptr)`. -/
def destructorTail (s : DestructorInput) : List DestructorStep :=
  ForEachObserver s.observers_ ObserverCall.FrameDeleted ++
  ForEachObserver s.observers_ ObserverCall.RenderViewDeleted ++
  ForEachObserver s.observers_ ObserverCall.WebContentsDestroyed ++
  (if s.has_display_cutout_host then [DestructorStep.DisplayCutoutWebContentsDestroyed]
    else []) ++
  ForEachObserver s.observers_ ObserverCall.ResetWebContents ++
  SetDelegateNull s.delegate_

/-- The body of `~WebContentsImpl`, statement by statement. -/
def destructorSteps (s : DestructorInput) : List DestructorStep :=
  destructorPrologue s ++ destructorWidgets s ++ destructorFrames s ++ destructorAudio s ++
    destructorTail s

/-- The state an observer can look at while the destructor runs: the flag
`is_being_destroyed_` and the widget hosts whose delegate is still this
session. -/
structure DestructorState where
  is_being_destroyed_ : Bool := false
  widget_delegates : List Nat := []
deriving DecidableEq, Repr

/-- The widget host `widget` stops being a widget host whose delegate is the
session. -/
def DestructorState.erase (st : DestructorState) (widget : Nat) : DestructorState :=
  { st with widget_delegates := st.widget_delegates.filter (fun x => x != widget) }

/-- What is executed while the destructor runs: a statement of its body, or the
call of an observer method made by a method of the session that was called back
from inside the statement `within`. -/
inductive DestructorEvent where
  | Statement (step : DestructorStep)
  | Reentered (within : DestructorStep) (observer : Nat) (call : ReenteredCall)
deriving DecidableEq, Repr

/-- One `observers_.ForEachObserver` call made by a called-back method, every
activation paired with the state it is executed in. -/
def ReenteredForEachObserver (within : DestructorStep) (observers_ : List Nat)
    (st : DestructorState) (call : ReenteredCall) : List (DestructorEvent × DestructorState) :=
  observers_.map (fun observer => (DestructorEvent.Reentered within observer call, st))

/-- The methods `WebContentsImpl::RenderFrameDeleted`, `RenderViewDeleted`,
`RenderWidgetDeleted` and `OnFrameRemoved` as far as the observers and the
widget hosts see them: the observer calls they make, each with the state it is
made in, and the state afterwards.  `RenderFrameDeleted` notifies
`RenderFrameDeleted` and then calls `FullscreenStateChanged`, which notifies
`DidAcquireFullscreen` when a frame is newly elected.  `RenderWidgetDeleted`
erases the host from `created_widgets_` (the host is going away, so it is no
widget host of the session any more) and returns when `is_being_destroyed_` is
set; otherwise it notifies `DidDestroyFullscreenWidget` for the fullscreen
widget. -/
def DelegateCallback.run (within : DestructorStep) (observers_ : List Nat)
    (st : DestructorState) : DelegateCallback →
    List (DestructorEvent × DestructorState) × DestructorState
  | DelegateCallback.RenderFrameDeleted render_frame_host new_fullscreen_frame =>
    (ReenteredForEachObserver within observers_ st
        (ReenteredCall.RenderFrameDeleted render_frame_host) ++
      (match new_fullscreen_frame with
        | some frame =>
          ReenteredForEachObserver within observers_ st (ReenteredCall.DidAcquireFullscreen frame)
        | none => []),
      st)
  | DelegateCallback.RenderViewDeleted rvh =>
    (ReenteredForEachObserver within observers_ st (ReenteredCall.RenderViewDeleted rvh), st)
  | DelegateCallback.RenderWidgetDeleted render_widget_host is_fullscreen_widget =>
    if st.is_being_destroyed_ then ([], st.erase render_widget_host)
    else if is_fullscreen_widget then
      (ReenteredForEachObserver within observers_ (st.erase render_widget_host)
        ReenteredCall.DidDestroyFullscreenWidget, st.erase render_widget_host)
    else ([], st.erase render_widget_host)
  | DelegateCallback.OnFrameRemoved render_frame_host =>
    (ReenteredForEachObserver within observers_ st
      (ReenteredCall.FrameDeleted render_frame_host), st)

/-- The called-back methods in the order of the calls. -/
def runCallbacks (within : DestructorStep) (observers_ : List Nat) :
    DestructorState → List DelegateCallback →
    List (DestructorEvent × DestructorState) × DestructorState
  | st, [] => ([], st)
  | st, callback :: rest =>
    ((callback.run within observers_ st).1 ++
        (runCallbacks within observers_ (callback.run within observers_ st).2 rest).1,
      (runCallbacks within observers_ (callback.run within observers_ st).2 rest).2)

/-- The calls `ClearRFHsPendingShutdown` on `node` makes back into the
session. -/
def pendingShutdownCallbacks (s : DestructorInput) (node : Nat) : List DelegateCallback :=
  (s.rfhs_pending_shutdown.filter (fun entry => entry.1 == node)).map (fun entry => entry.2)

/-- What one statement of the destructor does beyond the statement itself: the
observer calls made from inside it, each with the state it is made in, and the
state afterwards.  The flag is latched; `widget->DetachDelegate()` clears the
delegate of the widget host; `ClearRFHsPendingShutdown` and `ResetChildren`
delete frame hosts, which calls back into the session. -/
def DestructorState.step (s : DestructorInput) (st : DestructorState) :
    DestructorStep → List (DestructorEvent × DestructorState) × DestructorState
  | DestructorStep.SetIsBeingDestroyed => ([], { st with is_being_destroyed_ := true })
  | DestructorStep.DetachDelegate widget => ([], st.erase widget)
  | DestructorStep.ClearRFHsPendingShutdown node =>
    runCallbacks (DestructorStep.ClearRFHsPendingShutdown node) s.observers_ st
      (pendingShutdownCallbacks s node)
  | DestructorStep.ResetChildren =>
    runCallbacks DestructorStep.ResetChildren s.observers_ st s.reset_children_callbacks
  | _ => ([], st)

/-- Run statements from a state: every statement paired with the state it is
executed in, followed by the observer calls made from inside it. -/
def runDestructorSteps (s : DestructorInput) : DestructorState → List DestructorStep →
    List (DestructorEvent × DestructorState)
  | _, [] => []
  | st, step :: rest =>
    (DestructorEvent.Statement step, st) :: (st.step s step).1 ++
      runDestructorSteps s (st.step s step).2 rest

/-- The run of the destructor of a session whose created widget hosts all have
the session as delegate. -/
def runDestructor (s : DestructorInput) : List (DestructorEvent × DestructorState) :=
  runDestructorSteps s { widget_delegates := s.created_widgets_ } (destructorSteps s)

/-- The state after a list of statements. -/
def stateAfter (s : DestructorInput) : DestructorState → List DestructorStep → DestructorState
  | st, [] => st
  | st, step :: rest => stateAfter s (st.step s step).2 rest

/-- Step `a` is executed, and `b` only after it: the list has an occurrence of
`a` with no `b` before it and a `b` behind it. -/
def Precedes (a b : DestructorStep) (l : List DestructorStep) : Prop :=
  ∃ i < l.length, l[i]? = some a ∧ b ∉ l.take i ∧ b ∈ l.drop (i + 1)

instance (a b : DestructorStep) (l : List DestructorStep) : Decidable (Precedes a b l) :=
  inferInstanceAs (Decidable (∃ i < l.length, l[i]? = some a ∧ b ∉ l.take i ∧ b ∈ l.drop (i + 1)))

/-- A session with the child widgets `1` and `2`, a frame tree of two nodes, a
dialog manager, two observers and a delegate. -/
def twoWidgetSession : DestructorInput :=
  { frame_tree_nodes := [0, 1]
    created_widgets_ := [1, 2]
    has_dialog_manager := true
    observers_ := [7, 8]
    delegate_ := some 3 }

/-- The session `twoWidgetSession` with a frame host `5` pending shutdown on node
`1` and a subframe `6`: `ClearRFHsPendingShutdown` on node `1` leads to
`RenderFrameDeleted(5)` and `RenderViewDeleted(4)`, `ResetChildren` to
`RenderFrameDeleted(6)` and `OnFrameRemoved(6)`. -/
def pendingShutdownSession : DestructorInput :=
  { twoWidgetSession with
    rfhs_pending_shutdown :=
      [(1, DelegateCallback.RenderFrameDeleted 5 none), (1, DelegateCallback.RenderViewDeleted 4)]
    reset_children_callbacks :=
      [DelegateCallback.RenderFrameDeleted 6 none, DelegateCallback.OnFrameRemoved 6] }

/-! ## `EnterFullscreenMode` and `ExitFullscreenMode` around the delegate call -/

/-- What the two fullscreen transitions do, statement by statement: calls into
the delegate, and reads of members of the session (`keyboard_lock_widget_`,
and `delegate_` through `IsFullscreen()`). -/
inductive FullscreenTransitionStep where
  | ShutdownAndDestroyWidget
  | DelegateEnterFullscreenModeForTab
  | DelegateExitFullscreenModeForTab
  | ReadKeyboardLockWidget
  | DelegateRequestKeyboardLock
  | DelegateCancelKeyboardLockRequest
  | CallIsFullscreen
  | CallNotifyFullscreenChanged
deriving DecidableEq, Repr

/-- What the transitions read: whether there is a fullscreen widget view, whether
`delegate_` is non-null, whether the delegate call destroys the session (so
that `weak_ptr` reads as null afterwards), the value read from
`keyboard_lock_widget_` and the answer of `IsFullscreen()` after the call. -/
structure FullscreenTransitionInput where
  has_fullscreen_widget_view : Bool := false
  has_delegate : Bool := true
  delegate_destroys_session : Bool := false
  keyboard_lock_widget_ : Bool := false
  is_fullscreen_after : Bool := false
deriving DecidableEq, Repr

/-- The statements executed by `WebContentsImpl::EnterFullscreenMode`. -/
def EnterFullscreenModeSteps (i : FullscreenTransitionInput) : List FullscreenTransitionStep :=
  (if i.has_fullscreen_widget_view then [FullscreenTransitionStep.ShutdownAndDestroyWidget]
    else []) ++
  (if i.has_delegate then
    [FullscreenTransitionStep.DelegateEnterFullscreenModeForTab,
      FullscreenTransitionStep.ReadKeyboardLockWidget] ++
      (if i.keyboard_lock_widget_ then [FullscreenTransitionStep.DelegateRequestKeyboardLock]
        else [])
    else []) ++
  [FullscreenTransitionStep.CallIsFullscreen] ++
  (if i.is_fullscreen_after then [FullscreenTransitionStep.CallNotifyFullscreenChanged]
    else [])

/-- The statements executed by `WebContentsImpl::ExitFullscreenMode`, with its
`if (!weak_ptr) return;` after the delegate call. -/
def ExitFullscreenModeSteps (i : FullscreenTransitionInput) : List FullscreenTransitionStep :=
  (if i.has_fullscreen_widget_view then [FullscreenTransitionStep.ShutdownAndDestroyWidget]
    else []) ++
  (if i.has_delegate then
    [FullscreenTransitionStep.DelegateExitFullscreenModeForTab] ++
      (if i.delegate_destroys_session then []
      else
        [FullscreenTransitionStep.ReadKeyboardLockWidget] ++
          (if i.keyboard_lock_widget_ then
            [FullscreenTransitionStep.DelegateCancelKeyboardLockRequest] else []) ++
          [FullscreenTransitionStep.CallIsFullscreen] ++
          (if !i.is_fullscreen_after then [FullscreenTransitionStep.CallNotifyFullscreenChanged]
            else []))
    else
      [FullscreenTransitionStep.CallIsFullscreen] ++
        (if !i.is_fullscreen_after then [FullscreenTransitionStep.CallNotifyFullscreenChanged]
          else []))

/-- The statements executed after the call `step` into the delegate. -/
def stepsAfter (step : FullscreenTransitionStep) (l : List FullscreenTransitionStep) :
    List FullscreenTransitionStep :=
  (l.dropWhile (fun x => x != step)).drop 1

/-- A delegate that destroys the session during the call, on a session with a
keyboard lock widget. -/
def destroyingDelegate : FullscreenTransitionInput :=
  { has_delegate := true
    delegate_destroys_session := true
    keyboard_lock_widget_ := true
    is_fullscreen_after := true }

/-! ## Requests that need the delegate -/

/-- The values of `blink::mojom::MediaStreamRequestResult` used here. -/
inductive MediaStreamRequestResult where
  | OK
  | PERMISSION_DENIED
  | FAILED_DUE_TO_SHUTDOWN
deriving DecidableEq, Repr

/-- What becomes of the callback of `RequestMediaAccessPermission`: it is handed
to the delegate together with the request, or it is run with a list of devices,
a result and a UI pointer (`none` is the null `std::unique_ptr<MediaStreamUI>`). -/
inductive MediaResponse where
  | HandedToDelegate (request : Nat)
  | Run (devices : List Nat) (result : MediaStreamRequestResult) (ui : Option Nat)
deriving DecidableEq, Repr

/-- The method `WebContentsImpl::RequestMediaAccessPermission`. -/
def RequestMediaAccessPermission (has_delegate : Bool) (request : Nat) : MediaResponse :=
  if has_delegate then MediaResponse.HandedToDelegate request
  else MediaResponse.Run [] MediaStreamRequestResult.FAILED_DUE_TO_SHUTDOWN none

/-- The file-select listener as `RunFileChooser` leaves it: the weak pointers of
the fullscreen block given to `SetFullscreenBlock`, whether the listener was
handed to the delegate, and whether `FileSelectionCanceled()` was called. -/
structure FileSelectListener where
  fullscreen_block : Option (List Nat) := none
  handed_to_delegate : Bool := false
  file_selection_canceled : Bool := false
deriving DecidableEq, Repr

/-- The method `WebContentsImpl::RunFileChooser` on session `this`;
`ForSecurityDropFullscreen()` is called with its default argument
`display::kInvalidDisplayId`. -/
def RunFileChooser (w : World) (this : Nat) (has_delegate : Bool)
    (listener : FileSelectListener) : World × FileSelectListener :=
  let fullscreen_block := ForSecurityDropFullscreen w this kInvalidDisplayId
  let listener := { listener with fullscreen_block := some fullscreen_block.2 }
  if has_delegate then (fullscreen_block.1, { listener with handed_to_delegate := true })
  else (fullscreen_block.1, { listener with file_selection_canceled := true })

/-- The JavaScript-dialog state of a session: whether `delegate_` and
`dialog_manager_` are non-null, the ids of the DevTools page handlers enabled
for the session, the three flags, whether a navigation deferrer is held, the
runs of response callbacks so far (`success`, `user_input`), the fullscreen
block held by a `CloseDialogCallbackWrapper` whose callback has not run, and the
number of `BeforeUnloadDialogCancelled` notifications. -/
structure JavaScriptDialogState where
  has_delegate : Bool := false
  dialog_manager_ : Bool := false
  page_handlers : List Nat := []
  is_showing_javascript_dialog_ : Bool := false
  is_showing_before_unload_dialog_ : Bool := false
  last_dialog_suppressed_ : Bool := false
  javascript_dialog_navigation_deferrer_ : Bool := false
  response_callback_runs : List (Bool × List Nat) := []
  wrapped_callback : Option (List Nat) := none
  before_unload_cancelled : Nat := 0
deriving DecidableEq, Repr

/-- The method `WebContentsImpl::OnDialogClosed`, bound to `response_callback`
and to the fullscreen block with the weak pointers `fullscreen_block`. -/
def OnDialogClosed (w : World) (st : JavaScriptDialogState) (fullscreen_block : List Nat)
    (dialog_was_suppressed success : Bool) (user_input : List Nat) :
    World × JavaScriptDialogState :=
  let st := { st with last_dialog_suppressed_ := dialog_was_suppressed }
  let w := RunBlockedContentses fullscreen_block w
  let st := { st with javascript_dialog_navigation_deferrer_ := false }
  let st :=
    if st.is_showing_before_unload_dialog_ && !success then
      { st with before_unload_cancelled := st.before_unload_cancelled + 1 }
    else st
  let st := { st with response_callback_runs :=
    (st.response_callback_runs ++ [(success, user_input)]) }
  (w, { st with is_showing_javascript_dialog_ := false
                is_showing_before_unload_dialog_ := false })

/-- The answers the delegate and the dialog manager give during
`RunJavaScriptDialog`: whether `GetJavaScriptDialogManager` returns a manager,
what `ShouldSuppressDialogs` answers, and whether the manager sets
`*did_suppress_message`. -/
structure JavaScriptDialogAnswers where
  delegate_has_manager : Bool := false
  should_suppress_dialogs : Bool := false
  manager_suppresses : Bool := false
deriving DecidableEq, Repr

/-- The method `WebContentsImpl::RunJavaScriptDialog` on session `this`.  When the
message is not suppressed at once, the callback goes into a
`CloseDialogCallbackWrapper` that the page handlers and the dialog manager
keep. -/
def RunJavaScriptDialog (w : World) (this : Nat) (st : JavaScriptDialogState)
    (answers : JavaScriptDialogAnswers) : World × JavaScriptDialogState :=
  let fullscreen_block := ForSecurityDropFullscreen w this kInvalidDisplayId
  let w := fullscreen_block.1
  let st :=
    if st.has_delegate then { st with dialog_manager_ := answers.delegate_has_manager } else st
  let st := { st with javascript_dialog_navigation_deferrer_ := true }
  let should_suppress := st.has_delegate && answers.should_suppress_dialogs
  let has_non_devtools_handlers := st.has_delegate && st.dialog_manager_
  let has_handlers := !st.page_handlers.isEmpty || has_non_devtools_handlers
  let suppress_this_message := should_suppress || !has_handlers
  if suppress_this_message then
    OnDialogClosed w st fullscreen_block.2 true false []
  else
    let st := { st with wrapped_callback := some fullscreen_block.2
                        is_showing_javascript_dialog_ := true }
    let suppress_this_message := st.dialog_manager_ && answers.manager_suppresses
    if suppress_this_message then
      OnDialogClosed w { st with wrapped_callback := none } fullscreen_block.2 true false []
    else (w, st)

/-! ## Openers of a new session -/

/-- A `FrameTreeNode*`: the session it belongs to, its id, and the id of the root
of its frame tree (`frame_tree()->root()`). -/
structure FrameTreeNodeRef where
  web_contents : Nat
  frame_tree_node_id : Int
  root_frame_tree_node_id : Int
deriving DecidableEq, Repr

/-- The method `WebContentsImpl::SetOpenerForNewContents`, on the record of the
new session.  The original opener is the root of the opener's frame tree; the
DevTools frame token is not part of this model. -/
def SetOpenerForNewContents (c : WebContentsImpl) (opener : Option FrameTreeNodeRef)
    (opener_suppressed : Bool) : WebContentsImpl :=
  match opener with
  | none => c
  | some opener =>
    let c := { c with
      original_opener := some opener.web_contents
      original_opener_node := some opener.root_frame_tree_node_id }
    if !opener_suppressed then
      { c with opener_ := some opener.frame_tree_node_id, created_with_opener_ := true }
    else c

/-- What `CreateWithOpener` reads of `opener_rfh`: its frame tree node, its
active sandbox flags, the feature state of its feature policy and its last
committed origin. -/
structure OpenerFrameHost where
  frame_tree_node : FrameTreeNodeRef
  active_sandbox_flags : Nat
  feature_state : Nat
  last_committed_origin : Nat
deriving DecidableEq, Repr

/-- The members of `WebContents::CreateParams` read by `CreateWithOpener`. -/
structure CreateParams where
  opener_suppressed : Bool := false
  starting_sandbox_flags : Nat := 0
  initial_popup_url : Nat := 0
  created_with_opener : Bool := false
deriving DecidableEq, Repr

/-- The method `WebContentsImpl::CreateWithOpener`, up to the guest delegate and
`Init`: the record of the new session.  `inherit_flag` is
`WebSandboxFlags::kPropagatesToAuxiliaryBrowsingContexts`, and `kNone` is `0`;
the frame policy of a new root has no sandbox flags. -/
def CreateWithOpener (inherit_flag : Nat) (params : CreateParams)
    (opener_rfh : Option OpenerFrameHost) : WebContentsImpl :=
  let opener := opener_rfh.map (fun rfh => rfh.frame_tree_node)
  let new_contents : WebContentsImpl := {}
  let new_contents := SetOpenerForNewContents new_contents opener params.opener_suppressed
  let new_contents :=
    match opener_rfh with
    | some rfh =>
      let opener_flags := rfh.active_sandbox_flags
      let sandbox_propagates_to_auxilary_context :=
        (opener_flags &&& inherit_flag) == inherit_flag
      let c :=
        if sandbox_propagates_to_auxilary_context then
          { new_contents with root_pending_sandbox_flags := opener_flags }
        else new_contents
      let c :=
        if opener_flags == 0 || sandbox_propagates_to_auxilary_context then
          { c with opener_feature_policy_state := some rfh.feature_state }
        else c
      { c with
        initial_popup_url := some params.initial_popup_url
        popup_creator_origin := some rfh.last_committed_origin }
    | none => new_contents
  let sandbox_flags := new_contents.root_pending_sandbox_flags ||| params.starting_sandbox_flags
  let new_contents := { new_contents with
    root_pending_sandbox_flags := sandbox_flags
    root_sandbox_flags := sandbox_flags }
  if params.created_with_opener then { new_contents with created_with_opener_ := true }
  else new_contents

/-- An opener frame: the subframe `31` of session `1`, whose main frame is the
node `30`, sandboxed with the flags `5`. -/
def sampleOpenerFrame : OpenerFrameHost :=
  { frame_tree_node := { web_contents := 1, frame_tree_node_id := 31,
                         root_frame_tree_node_id := 30 }
    active_sandbox_flags := 5
    feature_state := 9
    last_committed_origin := 2 }

/-! ## Visibility and capturers -/

/-- The values of `content::Visibility`. -/
inductive Visibility where
  | VISIBLE
  | HIDDEN
  | OCCLUDED
deriving DecidableEq, Repr

/-- The values of `PageVisibilityState`. -/
inductive PageVisibilityState where
  | kVisible
  | kHidden
  | kHiddenButPainting
deriving DecidableEq, Repr

/-- The calls `UpdateVisibilityAndNotifyPageAndView` makes on other objects. -/
inductive VisibilityEvent where
  | ControllerSetActive
  | RenderViewHostSetVisibility (rvh : Nat) (state : PageVisibilityState)
  | ViewShow
  | ViewHide
  | ViewWasOccluded
  | SetVisibilityForChildViews (visible : Bool)
  | OnVisibilityChanged (visibility : Visibility)
  | DelegateWasShown (node : Nat)
deriving DecidableEq, Repr

/-- The visibility state of a session: the members `visibility_`,
`did_first_set_visible_`, `visible_capturer_count_` and
`hidden_capturer_count_`, whether the session is the immersive VR session,
whether it has a picture-in-picture video, whether
`GetRenderWidgetHostView()` is non-null, the render view hosts (back-forward
cached ones included), the frame tree nodes with a proxy to their parent, and
the record of the calls made. -/
structure VisibilityState where
  visibility_ : Visibility := Visibility.VISIBLE
  did_first_set_visible_ : Bool := false
  visible_capturer_count_ : Int := 0
  hidden_capturer_count_ : Int := 0
  web_contents_visible_in_vr : Bool := false
  has_picture_in_picture_video : Bool := false
  has_render_widget_host_view : Bool := true
  render_view_hosts : List Nat := []
  nodes_with_proxy_to_parent : List Nat := []
  events : List VisibilityEvent := []
deriving DecidableEq, Repr

/-- Append calls to the record. -/
def VisibilityState.emit (st : VisibilityState) (l : List VisibilityEvent) : VisibilityState :=
  { st with events := st.events ++ l }

/-- The method `WebContentsImpl::SetVisibilityAndNotifyObservers`. -/
def SetVisibilityAndNotifyObservers (st : VisibilityState) (visibility : Visibility) :
    VisibilityState :=
  let previous_visibility := st.visibility_
  let st := { st with visibility_ := visibility }
  if visibility ≠ previous_visibility ∨
      (visibility = Visibility.VISIBLE ∧ st.did_first_set_visible_ = false) then
    st.emit [VisibilityEvent.OnVisibilityChanged visibility]
  else st

/-- The page visibility computed at the start of
`UpdateVisibilityAndNotifyPageAndView`. -/
def computePageVisibility (st : VisibilityState) (new_visibility : Visibility) :
    PageVisibilityState :=
  if new_visibility = Visibility.VISIBLE ∨ st.visible_capturer_count_ > 0 ∨
      st.web_contents_visible_in_vr = true then
    PageVisibilityState.kVisible
  else if st.hidden_capturer_count_ > 0 then PageVisibilityState.kHiddenButPainting
  else PageVisibilityState.kHidden

/-- The method `WebContentsImpl::UpdateVisibilityAndNotifyPageAndView`;
`last_active_time_` is not part of this model. -/
def UpdateVisibilityAndNotifyPageAndView (st : VisibilityState) (new_visibility : Visibility) :
    VisibilityState :=
  let page_visibility := computePageVisibility st new_visibility
  let view_is_visible : Bool :=
    decide (page_visibility ≠ PageVisibilityState.kHidden) || st.has_picture_in_picture_video
  let st :=
    if page_visibility ≠ PageVisibilityState.kHidden then
      st.emit (VisibilityEvent.ControllerSetActive ::
        st.render_view_hosts.map (fun rvh =>
          VisibilityEvent.RenderViewHostSetVisibility rvh page_visibility))
    else st
  let st :=
    if st.has_render_widget_host_view then
      if view_is_visible then st.emit [VisibilityEvent.ViewShow]
      else if new_visibility = Visibility.HIDDEN then st.emit [VisibilityEvent.ViewHide]
      else st.emit [VisibilityEvent.ViewWasOccluded]
    else st
  let st := st.emit [VisibilityEvent.SetVisibilityForChildViews view_is_visible]
  let st :=
    if new_visibility = Visibility.VISIBLE then
      SetVisibilityAndNotifyObservers st new_visibility
    else st
  let st :=
    if page_visibility = PageVisibilityState.kHidden then
      st.emit (st.render_view_hosts.map (fun rvh =>
        VisibilityEvent.RenderViewHostSetVisibility rvh page_visibility))
    else
      st.emit (st.nodes_with_proxy_to_parent.map VisibilityEvent.DelegateWasShown)
  if new_visibility ≠ Visibility.VISIBLE then
    SetVisibilityAndNotifyObservers st new_visibility
  else st

/-- The method `WebContentsImpl::IsBeingCaptured`. -/
def IsBeingCaptured (st : VisibilityState) : Bool :=
  decide (st.visible_capturer_count_ + st.hidden_capturer_count_ > 0)

/-- The method `WebContentsImpl::IncrementCapturerCount`, without the preferred
size for capture. -/
def IncrementCapturerCount (st : VisibilityState) (stay_hidden : Bool) : VisibilityState :=
  let st :=
    if stay_hidden then { st with hidden_capturer_count_ := st.hidden_capturer_count_ + 1 }
    else { st with visible_capturer_count_ := st.visible_capturer_count_ + 1 }
  UpdateVisibilityAndNotifyPageAndView st st.visibility_

/-- A hidden session with two render view hosts and one hidden capturer. -/
def hiddenCapturedSession : VisibilityState :=
  { visibility_ := Visibility.HIDDEN
    hidden_capturer_count_ := 1
    render_view_hosts := [1, 2] }

/-- The assignment `visibility_ = visibility`. -/
def VisibilityState.withVisibility (st : VisibilityState) (visibility : Visibility) :
    VisibilityState :=
  { st with visibility_ := visibility }

/-! ## Audio state -/

/-- The method `WebContentsImpl::IsCurrentlyAudible`. -/
def IsCurrentlyAudible (w : World) (id : Nat) : Bool :=
  match w.find id with
  | some c => c.is_currently_audible_
  | none => false

/-- The method `WebContentsImpl::WasEverAudible`. -/
def WasEverAudible (w : World) (id : Nat) : Bool :=
  match w.find id with
  | some c => c.was_ever_audible_
  | none => false

/-- The value `is_currently_audible` computed at the start of
`OnAudioStateChanged`: the stream monitor, the plugin guests, or
`AnyInnerWebContents` with `IsCurrentlyAudible`. -/
def aggregateAudible (w : World) (this : Nat) : Bool :=
  match w.find this with
  | some c =>
    c.audio_stream_monitor_audible || c.guests_audible ||
      c.node_.inner_web_contents_.any (fun inner_contents => IsCurrentlyAudible w inner_contents)
  | none => false

/-- The two assignments of `OnAudioStateChanged` to the members of the session. -/
def setAudible (is_currently_audible : Bool) (c : WebContentsImpl) : WebContentsImpl :=
  { c with
    is_currently_audible_ := is_currently_audible
    was_ever_audible_ := c.was_ever_audible_ || is_currently_audible }

/-- The method `WebContentsImpl::OnAudioStateChanged`, one activation of the
recursion per unit of fuel: the world afterwards and the sessions the method
ran on, in the order of the calls.  The page broadcast, the navigation-state
notification and the observer notification are not part of this model. -/
def OnAudioStateChangedLoop : Nat → World → Nat → Option (World × List Nat)
  | 0, _, _ => none
  | fuel + 1, w, this =>
    let is_currently_audible := aggregateAudible w this
    if is_currently_audible = IsCurrentlyAudible w this then some (w, [this])
    else
      let w := w.modify this (setAudible is_currently_audible)
      match GetOuterWebContents w this with
      | some outer =>
        (OnAudioStateChangedLoop fuel w outer).map (fun r => (r.1, this :: r.2))
      | none => some (w, [this])

/-- The recursion of `OnAudioStateChanged` started on `this`. -/
def OnAudioStateChangedRun (w : World) (this : Nat) : Option (World × List Nat) :=
  OnAudioStateChangedLoop (w.contents.length + 1) w this

/-- The method `WebContentsImpl::OnAudioStateChanged`. -/
def OnAudioStateChanged (w : World) (this : Nat) : World × List Nat :=
  (OnAudioStateChangedRun w this).getD (w, [])

/-- The statement of `WebContentsImpl::DidFinishNavigation` that writes
`was_ever_audible_`: for a committed navigation in the main frame that is not a
same-document navigation, `was_ever_audible_ = false`. -/
def DidFinishNavigation (c : WebContentsImpl) (has_committed is_in_main_frame
    is_same_document : Bool) : WebContentsImpl :=
  if has_committed && is_in_main_frame && !is_same_document then
    { c with was_ever_audible_ := false }
  else c

/-- The aggregation equation at one session: the member `is_currently_audible_`
is what `OnAudioStateChanged` would compute. -/
def AudioConsistent (w : World) (id : Nat) : Prop :=
  IsCurrentlyAudible w id = aggregateAudible w id

instance (w : World) (id : Nat) : Decidable (AudioConsistent w id) :=
  inferInstanceAs (Decidable (IsCurrentlyAudible w id = aggregateAudible w id))

/-- The inner-session vectors agree with the outer links: a session listed as
inner session of `x` has `x` as outer session. -/
def InnerListsAgree (w : World) : Prop :=
  ∀ x < w.contents.length, ∀ inner ∈ innerWebContents w x, GetOuterWebContents w inner = some x

instance (w : World) : Decidable (InnerListsAgree w) :=
  inferInstanceAs (Decidable (∀ x < w.contents.length, ∀ inner ∈ innerWebContents w x,
    GetOuterWebContents w inner = some x))

/-- A session with its audio members blanked out. -/
def eraseAudio (c : WebContentsImpl) : WebContentsImpl :=
  { c with is_currently_audible_ := false, was_ever_audible_ := false }

/-- A chain of three sessions, `2` inside `1` inside `0`: session `1` plays
audio, so `1` and `0` are audible, and the stream monitor of `2` has just become
audible. -/
def audioWorld : World :=
  { contents :=
      [ some { node_ := { inner_web_contents_ := [1], focused_web_contents_ := some 0 },
               is_currently_audible_ := true, was_ever_audible_ := true },
        some { node_ := { outer_web_contents_ := some 0, outer_contents_frame_tree_node_id_ := 11,
                          inner_web_contents_ := [2] },
               audio_stream_monitor_audible := true,
               is_currently_audible_ := true, was_ever_audible_ := true },
        some { node_ := { outer_web_contents_ := some 1,
                          outer_contents_frame_tree_node_id_ := 21 },
               audio_stream_monitor_audible := true } ] }

/-- The nesting rank of `audioWorld`. -/
def chainDepth (x : Nat) : Nat := x

/-! ## Line breaks -/

/-- Modelled from the spec: the search `input.find(delimiter, begin_index)` of
`base::SplitStringPieceUsingSubstr` (base/strings is not part of the sources
under study), on the part of the input that starts at `begin_index`: the term in
front of the first occurrence of the delimiter and the input behind that
occurrence, or `none` for `npos`.  A string is the list of its code units. -/
def findSubstr (delimiter : List Nat) : List Nat → Option (List Nat × List Nat)
  | [] => if delimiter = [] then some ([], []) else none
  | c :: rest =>
    if delimiter.isPrefixOf (c :: rest) then some ([], (c :: rest).drop delimiter.length)
    else (findSubstr delimiter rest).map (fun r => (c :: r.1, r.2))

/-- Modelled from the spec: the loop of `base::SplitStringPieceUsingSubstr` with
`KEEP_WHITESPACE` and `SPLIT_WANT_ALL`, one search per unit of fuel: every term
in front of an occurrence of the delimiter is a piece, and so is the rest of the
input behind the last occurrence. -/
def SplitStringPieceUsingSubstrLoop : Nat → List Nat → List Nat → Option (List (List Nat))
  | 0, _, _ => none
  | fuel + 1, input, delimiter =>
    match findSubstr delimiter input with
    | none => some [input]
    | some (term, rest) =>
      (SplitStringPieceUsingSubstrLoop fuel rest delimiter).map (fun pieces => term :: pieces)

/-- Modelled from the spec: `base::SplitStringPieceUsingSubstr(input, delimiter,
KEEP_WHITESPACE, SPLIT_WANT_ALL)`. -/
def SplitStringPieceUsingSubstr (input delimiter : List Nat) : Option (List (List Nat)) :=
  SplitStringPieceUsingSubstrLoop (input.length + 1) input delimiter

/-- Modelled from the spec: `base::JoinString(parts, separator)`, the parts in
order with the separator between neighbours. -/
def JoinString : List (List Nat) → List Nat → List Nat
  | [], _ => []
  | [part], _ => part
  | part :: next :: parts, separator => part ++ separator ++ JoinString (next :: parts) separator

/-- The code unit of a carriage return. -/
def kReturnUnit : Nat := 13

/-- The code unit of a line feed. -/
def kNewlineUnit : Nat := 10

/-- The constant `kReturnNewline` of `NormalizeLineBreaks`. -/
def kReturnNewline : List Nat := [kReturnUnit, kNewlineUnit]

/-- The constant `kReturn` of `NormalizeLineBreaks`. -/
def kReturn : List Nat := [kReturnUnit]

/-- The constant `kNewline` of `NormalizeLineBreaks`. -/
def kNewline : List Nat := [kNewlineUnit]

/-- The `for` loop of `NormalizeLineBreaks` over the pieces between "\r\n": each
is split at "\r" and the parts are appended to `pieces`. -/
def NormalizeLineBreaksLoop : List (List Nat) → List (List Nat) → Option (List (List Nat))
  | [], pieces => some pieces
  | rn_line :: rn_lines, pieces =>
    match SplitStringPieceUsingSubstr rn_line kReturn with
    | some r_lines => NormalizeLineBreaksLoop rn_lines (pieces ++ r_lines)
    | none => none

/-- The function `NormalizeLineBreaks`; `none` when a split does not return. -/
def NormalizeLineBreaks (source : List Nat) : Option (List Nat) :=
  match SplitStringPieceUsingSubstr source kReturnNewline with
  | some rn_lines =>
    match NormalizeLineBreaksLoop rn_lines [] with
    | some pieces => some (JoinString pieces kNewline)
    | none => none
  | none => none

/-- The replacement the claim describes, read from left to right: a carriage
return followed by a line feed becomes one line feed, any other carriage return
becomes a line feed, every other code unit is kept. -/
def lineBreaksReplaced : List Nat → List Nat
  | [] => []
  | [c] => if c = kReturnUnit then [kNewlineUnit] else [c]
  | c :: d :: rest =>
    if c = kReturnUnit then
      if d = kNewlineUnit then kNewlineUnit :: lineBreaksReplaced rest
      else kNewlineUnit :: lineBreaksReplaced (d :: rest)
    else c :: lineBreaksReplaced (d :: rest)

/-- Every carriage return replaced by a line feed. -/
def returnsReplaced (s : List Nat) : List Nat :=
  s.map (fun c => if c = kReturnUnit then kNewlineUnit else c)

/-- The string "a\r\nb\rc\r\r\nd". -/
def sampleLineBreaks : List Nat := [97, 13, 10, 98, 13, 99, 13, 13, 10, 100]

/-! ## Download headers -/

/-- Modelled from the spec: `base::TrimString(piece, whitespace, TRIM_ALL)`
(base/strings is not part of the sources under study): the piece without its
leading and trailing code units that are in `whitespace`. -/
def TrimString (whitespace : List Nat) (piece : List Nat) : List Nat :=
  (piece.dropWhile (fun c => decide (c ∈ whitespace))).rdropWhile
    (fun c => decide (c ∈ whitespace))

/-- Modelled from the spec: the pieces the loop of `base::SplitString` cuts out
of a string, before trimming: the runs of code units between consecutive code
units that are in `delimiter` (every such unit ends a piece, also an empty
one). -/
def splitAtAny (delimiter : List Nat) : List Nat → List (List Nat)
  | [] => [[]]
  | c :: rest =>
    if c ∈ delimiter then [] :: splitAtAny delimiter rest
    else
      match splitAtAny delimiter rest with
      | [] => [[c]]
      | piece :: pieces => (c :: piece) :: pieces

/-- Modelled from the spec: `base::SplitString` / `base::SplitStringPiece` with
`TRIM_WHITESPACE`: no piece for the empty input; otherwise every piece is
trimmed, and with `SPLIT_WANT_NONEMPTY` (`want_all = false`) the pieces that are
empty after trimming are left out. -/
def SplitString (whitespace : List Nat) (input delimiter : List Nat) (want_all : Bool) :
    List (List Nat) :=
  if input = [] then []
  else
    ((splitAtAny delimiter input).map (TrimString whitespace)).filter
      (fun piece => want_all || !piece.isEmpty)

/-- The code unit of the colon. -/
def kColon : Nat := 58

/-- The body of the `for` loop of `ParseDownloadHeaders`: the line is split at
":" and a pair is pushed when there are exactly two pieces. -/
def ParseDownloadHeadersStep (whitespace : List Nat)
    (request_headers : List (List Nat × List Nat)) (key_value : List Nat) :
    List (List Nat × List Nat) :=
  let pair := SplitString whitespace key_value [kColon] true
  if pair.length = 2 then request_headers ++ [(pair.getD 0 [], pair.getD 1 [])]
  else request_headers

/-- The method `WebContentsImpl::ParseDownloadHeaders`; the set of whitespace
code units of `TRIM_WHITESPACE` is a parameter. -/
def ParseDownloadHeaders (whitespace : List Nat) (headers : List Nat) :
    List (List Nat × List Nat) :=
  (SplitString whitespace headers [kReturnUnit, kNewlineUnit] false).foldl
    (ParseDownloadHeadersStep whitespace) []

/-- The pair the claim describes for one line: for a line with exactly one
colon, the trimmed text in front of the colon and the trimmed text behind it;
nothing for a line with no colon or with two or more. -/
def headerOfLine (whitespace : List Nat) (line : List Nat) : Option (List Nat × List Nat) :=
  if line.count kColon = 1 then
    some (TrimString whitespace (line.takeWhile (fun c => decide (c ≠ kColon))),
      TrimString whitespace ((line.dropWhile (fun c => decide (c ≠ kColon))).drop 1))
  else none

/-- Modelled from the spec: the code units of `base::kWhitespaceASCII`: tab,
vertical tab, form feed, space, line feed, carriage return. -/
def kWhitespaceASCII : List Nat := [9, 11, 12, 32, 10, 13]

/-- The headers "A: b\r\nReferer: http://x/\r\n\r\n C :d". -/
def sampleHeaders : List Nat :=
  [65, 58, 32, 98, 13, 10,
   82, 101, 102, 101, 114, 101, 114, 58, 32, 104, 116, 116, 112, 58, 47, 47, 120, 47, 13, 10,
   13, 10, 32, 67, 32, 58, 100]

/-- The value `audio_stream_monitor_.IsCurrentlyAudible()` of a session. -/
def streamMonitorAudible (w : World) (id : Nat) : Bool :=
  match w.find id with
  | some c => c.audio_stream_monitor_audible
  | none => false

/-- The value `browser_plugin_embedder_ &&
browser_plugin_embedder_->AreAnyGuestsCurrentlyAudible()` of a session. -/
def anyGuestAudible (w : World) (id : Nat) : Bool :=
  match w.find id with
  | some c => c.guests_audible
  | none => false

/-! # Properties -/

/-! ## Facts about `flatInsert` -/

theorem mem_flatInsert (a x : Nat) (l : List Nat) :
    a ∈ flatInsert x l ↔ a = x ∨ a ∈ l := by
  induction l with
  | nil => simp [flatInsert]
  | cons y ys ih =>
    unfold flatInsert
    split_ifs with h1 h2
    · simp
    · subst h2; simp
    · simp [ih]; tauto

theorem length_flatInsert_le (x : Nat) (l : List Nat) :
    (flatInsert x l).length ≤ l.length + 1 := by
  induction l with
  | nil => simp [flatInsert]
  | cons y ys ih =>
    unfold flatInsert
    split_ifs with h1 h2 <;> simp; omega

theorem sorted_flatInsert (x : Nat) (l : List Nat) (h : l.Sorted (· < ·)) :
    (flatInsert x l).Sorted (· < ·) := by
  induction l with
  | nil => simp [flatInsert]
  | cons y ys ih =>
    unfold flatInsert
    split_ifs with h1 h2
    · refine List.sorted_cons.2 ⟨?_, h⟩
      intro b hb
      rcases List.mem_cons.1 hb with rfl | hb
      · exact h1
      · exact lt_trans h1 (List.rel_of_sorted_cons h b hb)
    · exact h
    · refine List.sorted_cons.2 ⟨?_, ih h.of_cons⟩
      intro b hb
      rcases (mem_flatInsert b x ys).1 hb with rfl | hb
      · omega
      · exact List.rel_of_sorted_cons h b hb

/-! ## Facts about the arena -/

theorem mem_contents_of_find {w : World} {id : Nat} {c : WebContentsImpl}
    (h : w.find id = some c) : some c ∈ w.contents := by
  unfold World.find at h
  rw [List.getD_eq_getElem?_getD] at h
  cases hq : w.contents[id]? with
  | none => simp [hq] at h
  | some v =>
    simp [hq] at h
    subst h
    exact List.getElem?_mem hq

theorem mem_linkTargets {w : World} {a b : Nat} (h : OpenerOrOuter w a b) :
    b ∈ linkTargets w := by
  unfold OpenerOrOuter GetOriginalOpener GetOuterWebContents at h
  cases hf : w.find a with
  | none => simp [hf] at h
  | some c =>
    simp only [hf, Option.some_bind] at h
    unfold linkTargets
    refine List.mem_flatMap.2 ⟨some c, mem_contents_of_find hf, ?_⟩
    rcases h with h | h <;> simp [h]

theorem length_flatMap_links_le (l : List (Option WebContentsImpl)) :
    (l.flatMap (fun slot =>
      match slot with
      | some c => c.original_opener.toList ++ c.node_.outer_web_contents_.toList
      | none => [])).length ≤ 2 * l.length := by
  induction l with
  | nil => simp
  | cons slot rest ih =>
    have h1 : ∀ o : Option Nat, o.toList.length ≤ 1 := by
      intro o; cases o <;> simp
    cases slot with
    | none =>
      simp only [List.flatMap_cons, List.nil_append, List.length_cons]
      omega
    | some c =>
      have ha := h1 c.original_opener
      have hb := h1 c.node_.outer_web_contents_
      simp only [List.flatMap_cons, List.length_append, List.length_cons]
      omega

theorem length_linkTargets_le (w : World) :
    (linkTargets w).length ≤ 2 * w.contents.length :=
  length_flatMap_links_le w.contents

/-! ## The loop of `GetAllOpeningWebContents` -/

theorem loop_step_seen (w : World) (fuel c : Nat) (rest result : List Nat) (h : c ∈ result) :
    GetAllOpeningWebContentsLoop w (fuel + 1) (c :: rest) result =
      GetAllOpeningWebContentsLoop w fuel rest result := by
  simp [GetAllOpeningWebContentsLoop, h]

theorem loop_step_new (w : World) (fuel c : Nat) (rest result : List Nat) (h : c ∉ result) :
    GetAllOpeningWebContentsLoop w (fuel + 1) (c :: rest) result =
      GetAllOpeningWebContentsLoop w fuel (currentAfterInserts w c rest)
        (flatInsert c result) := by
  simp [GetAllOpeningWebContentsLoop, h, currentAfterInserts]

theorem mem_currentAfterInserts (w : World) (c x : Nat) (rest : List Nat) :
    x ∈ currentAfterInserts w c rest ↔ x ∈ rest ∨ OpenerOrOuter w c x := by
  unfold currentAfterInserts OpenerOrOuter
  cases h1 : GetOriginalOpener w c <;> cases h2 : GetOuterWebContents w c <;>
    simp [mem_flatInsert] <;> tauto

theorem length_currentAfterInserts_le (w : World) (c : Nat) (rest : List Nat) :
    (currentAfterInserts w c rest).length ≤ rest.length + 2 := by
  unfold currentAfterInserts
  cases h1 : GetOriginalOpener w c <;> cases h2 : GetOuterWebContents w c <;> simp
  · exact (length_flatInsert_le _ _).trans (by omega)
  · exact (length_flatInsert_le _ _).trans (by omega)
  · exact (length_flatInsert_le _ _).trans
      (Nat.succ_le_succ (length_flatInsert_le _ _))

theorem toFinset_flatInsert (x : Nat) (l : List Nat) :
    (flatInsert x l).toFinset = insert x l.toFinset := by
  ext a
  simp [mem_flatInsert]

/-- Termination: the loop ends within `2 * |U \ result| + |current|` iterations,
for any finite set `U` that holds `current` and every link target. -/
theorem GetAllOpeningWebContentsLoop_isSome (w : World) (U : Finset Nat)
    (hU : ∀ a b, OpenerOrOuter w a b → b ∈ U) :
    ∀ (fuel : Nat) (current result : List Nat),
      (∀ x ∈ current, x ∈ U) →
      2 * (U \ result.toFinset).card + current.length < fuel →
      (GetAllOpeningWebContentsLoop w fuel current result).isSome = true := by
  intro fuel
  induction fuel with
  | zero => intro current result _ h; omega
  | succ fuel ih =>
    intro current result hcur hlt
    cases current with
    | nil => simp [GetAllOpeningWebContentsLoop]
    | cons c rest =>
      by_cases hc : c ∈ result
      · rw [loop_step_seen w fuel c rest result hc]
        apply ih
        · intro x hx; exact hcur x (List.mem_cons_of_mem _ hx)
        · simp only [List.length_cons] at hlt; omega
      · rw [loop_step_new w fuel c rest result hc]
        apply ih
        · intro x hx
          rcases (mem_currentAfterInserts w c x rest).1 hx with hx | hx
          · exact hcur x (List.mem_cons_of_mem _ hx)
          · exact hU c x hx
        · have hcU : c ∈ U \ result.toFinset := by
            simp [hc, hcur c (List.mem_cons_self _ _)]
          have hcard : (U \ (flatInsert c result).toFinset).card + 1 =
              (U \ result.toFinset).card := by
            rw [toFinset_flatInsert, Finset.sdiff_insert]
            exact Finset.card_erase_add_one hcU
          have hlen := length_currentAfterInserts_le w c rest
          simp only [List.length_cons] at hlt
          omega

/-- What the loop returns, from any intermediate state. -/
theorem GetAllOpeningWebContentsLoop_spec (w : World) :
    ∀ (fuel : Nat) (current result r : List Nat),
      GetAllOpeningWebContentsLoop w fuel current result = some r →
      (∀ x, x ∈ result ∨ x ∈ current → x ∈ r) ∧
      (∀ x ∈ r, x ∈ result ∨ ∃ c ∈ current, Relation.ReflTransGen (OpenerOrOuter w) c x) ∧
      ((∀ x ∈ result, ∀ y, OpenerOrOuter w x y → y ∈ result ∨ y ∈ current) →
        ∀ x ∈ r, ∀ y, OpenerOrOuter w x y → y ∈ r) ∧
      (result.Sorted (· < ·) → r.Sorted (· < ·)) := by
  intro fuel
  induction fuel with
  | zero =>
    intro current result r h
    cases current with
    | nil =>
      simp only [GetAllOpeningWebContentsLoop, Option.some.injEq] at h
      subst h
      simp
    | cons c rest => simp [GetAllOpeningWebContentsLoop] at h
  | succ fuel ih =>
    intro current result r h
    cases current with
    | nil =>
      simp only [GetAllOpeningWebContentsLoop, Option.some.injEq] at h
      subst h
      simp
    | cons c rest =>
      by_cases hc : c ∈ result
      · rw [loop_step_seen w fuel c rest result hc] at h
        obtain ⟨h1, h2, h3, h4⟩ := ih rest result r h
        refine ⟨?_, ?_, ?_, h4⟩
        · intro x hx
          rcases hx with hx | hx
          · exact h1 x (Or.inl hx)
          · rcases List.mem_cons.1 hx with rfl | hx
            · exact h1 x (Or.inl hc)
            · exact h1 x (Or.inr hx)
        · intro x hx
          rcases h2 x hx with hx | ⟨d, hd, hdx⟩
          · exact Or.inl hx
          · exact Or.inr ⟨d, List.mem_cons_of_mem _ hd, hdx⟩
        · intro hcl
          apply h3
          intro x hx y hxy
          rcases hcl x hx y hxy with hy | hy
          · exact Or.inl hy
          · rcases List.mem_cons.1 hy with rfl | hy
            · exact Or.inl hc
            · exact Or.inr hy
      · rw [loop_step_new w fuel c rest result hc] at h
        obtain ⟨h1, h2, h3, h4⟩ := ih _ _ r h
        refine ⟨?_, ?_, ?_, fun hs => h4 (sorted_flatInsert c result hs)⟩
        · intro x hx
          rcases hx with hx | hx
          · exact h1 x (Or.inl ((mem_flatInsert x c result).2 (Or.inr hx)))
          · rcases List.mem_cons.1 hx with rfl | hx
            · exact h1 x (Or.inl ((mem_flatInsert x x result).2 (Or.inl rfl)))
            · exact h1 x (Or.inr ((mem_currentAfterInserts w c x rest).2 (Or.inl hx)))
        · intro x hx
          rcases h2 x hx with hx | ⟨d, hd, hdx⟩
          · rcases (mem_flatInsert x c result).1 hx with rfl | hx
            · exact Or.inr ⟨x, List.mem_cons_self _ _, Relation.ReflTransGen.refl⟩
            · exact Or.inl hx
          · rcases (mem_currentAfterInserts w c d rest).1 hd with hd | hd
            · exact Or.inr ⟨d, List.mem_cons_of_mem _ hd, hdx⟩
            · exact Or.inr ⟨c, List.mem_cons_self _ _, Relation.ReflTransGen.head hd hdx⟩
        · intro hcl
          apply h3
          intro x hx y hxy
          rcases (mem_flatInsert x c result).1 hx with rfl | hx
          · exact Or.inr ((mem_currentAfterInserts w x y rest).2 (Or.inr hxy))
          · rcases hcl x hx y hxy with hy | hy
            · exact Or.inl ((mem_flatInsert y c result).2 (Or.inr hy))
            · rcases List.mem_cons.1 hy with rfl | hy
              · exact Or.inl ((mem_flatInsert y y result).2 (Or.inl rfl))
              · exact Or.inr ((mem_currentAfterInserts w c y rest).2 (Or.inl hy))

/-- The fuel granted by `GetAllOpeningWebContentsFuel` is always enough: the
loop reaches `current.empty()` and the result is the one of the total function. -/
theorem GetAllOpeningWebContentsRun_eq_some (w : World) (web_contents : Nat) :
    GetAllOpeningWebContentsRun w web_contents =
      some (GetAllOpeningWebContents w web_contents) := by
  have hsome : (GetAllOpeningWebContentsRun w web_contents).isSome = true := by
    unfold GetAllOpeningWebContentsRun
    apply GetAllOpeningWebContentsLoop_isSome w (insert web_contents (linkTargets w).toFinset)
    · intro a b hab
      exact Finset.mem_insert_of_mem (List.mem_toFinset.2 (mem_linkTargets hab))
    · intro x hx
      simp only [List.mem_singleton] at hx
      subst hx
      exact Finset.mem_insert_self _ _
    · have h1 : (insert web_contents (linkTargets w).toFinset).card ≤
          (linkTargets w).length + 1 :=
        (Finset.card_insert_le _ _).trans
          (Nat.succ_le_succ (List.toFinset_card_le _))
      have h2 := length_linkTargets_le w
      simp only [List.toFinset_nil, Finset.sdiff_empty, List.length_singleton,
        GetAllOpeningWebContentsFuel]
      omega
  unfold GetAllOpeningWebContents
  cases h : GetAllOpeningWebContentsRun w web_contents with
  | none => simp [h] at hsome
  | some r => simp

theorem mem_GetAllOpeningWebContents (w : World) (web_contents x : Nat) :
    x ∈ GetAllOpeningWebContents w web_contents ↔
      Relation.ReflTransGen (OpenerOrOuter w) web_contents x := by
  have hrun := GetAllOpeningWebContentsRun_eq_some w web_contents
  unfold GetAllOpeningWebContentsRun at hrun
  obtain ⟨h1, h2, h3, _⟩ := GetAllOpeningWebContentsLoop_spec w _ _ _ _ hrun
  constructor
  · intro hx
    rcases h2 x hx with hx | ⟨c, hc, hcx⟩
    · simp at hx
    · simp only [List.mem_singleton] at hc
      subst hc
      exact hcx
  · intro hreach
    have hclosed := h3 (by simp)
    induction hreach with
    | refl => exact h1 _ (Or.inr (List.mem_singleton.2 rfl))
    | tail _ hbc ih => exact hclosed _ ih _ hbc

theorem sorted_GetAllOpeningWebContents (w : World) (web_contents : Nat) :
    (GetAllOpeningWebContents w web_contents).Sorted (· < ·) := by
  have hrun := GetAllOpeningWebContentsRun_eq_some w web_contents
  unfold GetAllOpeningWebContentsRun at hrun
  exact (GetAllOpeningWebContentsLoop_spec w _ _ _ _ hrun).2.2.2 (by simp)

theorem nodup_GetAllOpeningWebContents (w : World) (web_contents : Nat) :
    (GetAllOpeningWebContents w web_contents).Nodup :=
  (sorted_GetAllOpeningWebContents w web_contents).nodup

theorem self_mem_GetAllOpeningWebContents (w : World) (web_contents : Nat) :
    web_contents ∈ GetAllOpeningWebContents w web_contents :=
  (mem_GetAllOpeningWebContents w web_contents web_contents).2 Relation.ReflTransGen.refl

/-- Claim C1.  `CanEnterFullscreenMode(S)` is true iff the blocker count is zero on
every session reachable from `S` (itself included) through original-opener and
outer-session links; `GetAllOpeningWebContents(S)` is exactly that
reflexive-transitive closure; and its loop terminates in every arena, cyclic
links included (the loop run returns a result). -/
theorem C1_CanEnterFullscreenMode_iff_closure_unblocked (w : World) (S : Nat) :
    GetAllOpeningWebContentsRun w S = some (GetAllOpeningWebContents w S) ∧
    (∀ x, x ∈ GetAllOpeningWebContents w S ↔
      Relation.ReflTransGen (OpenerOrOuter w) S x) ∧
    (CanEnterFullscreenMode w S = true ↔
      ∀ x, Relation.ReflTransGen (OpenerOrOuter w) S x → blockerCount w x = 0) := by
  refine ⟨GetAllOpeningWebContentsRun_eq_some w S, mem_GetAllOpeningWebContents w S, ?_⟩
  unfold CanEnterFullscreenMode
  rw [List.all_eq_true]
  constructor
  · intro h x hx
    simpa using h x ((mem_GetAllOpeningWebContents w S x).2 hx)
  · intro h x hx
    simpa using h x ((mem_GetAllOpeningWebContents w S x).1 hx)

/-- On `cyclicWorld` the loop ends although `0` and `1` open each other; the
closure of session `2` is `0, 1, 2`, and `2` is blocked by the count of `1`,
while the unrelated session `3` is not. -/
theorem C1_CanEnterFullscreenMode_iff_closure_unblocked_witness :
    GetAllOpeningWebContentsRun cyclicWorld 2 = some (GetAllOpeningWebContents cyclicWorld 2) ∧
    GetAllOpeningWebContents cyclicWorld 2 = [0, 1, 2] ∧
    CanEnterFullscreenMode cyclicWorld 2 = false ∧
    CanEnterFullscreenMode cyclicWorld 3 = true :=
  ⟨(C1_CanEnterFullscreenMode_iff_closure_unblocked cyclicWorld 2).1, by decide, by decide,
   by decide⟩

/-! ## Reading and writing through session pointers -/

theorem find_modify (w : World) (id j : Nat) (f : WebContentsImpl → WebContentsImpl) :
    (w.modify id f).find j = if j = id then (w.find j).map f else w.find j := by
  unfold World.modify
  cases h : w.find id with
  | none =>
    by_cases hj : j = id
    · subst hj; simp [h]
    · simp [hj]
  | some c =>
    have hlt : id < w.contents.length := by
      unfold World.find at h
      rw [List.getD_eq_getElem?_getD] at h
      by_contra hge
      rw [List.getElem?_eq_none (by omega)] at h
      simp at h
    by_cases hj : j = id
    · subst hj
      simp only [World.find, List.getD_eq_getElem?_getD, List.getElem?_set, hlt, if_true]
      simp only [World.find, List.getD_eq_getElem?_getD] at h
      simp [h]
    · have hj2 : ¬ id = j := fun e => hj e.symm
      simp only [World.find, List.getD_eq_getElem?_getD, List.getElem?_set, hj2, hj, if_false]

theorem length_modify (w : World) (id : Nat) (f : WebContentsImpl → WebContentsImpl) :
    (w.modify id f).contents.length = w.contents.length := by
  unfold World.modify
  cases h : w.find id <;> simp

theorem modify_live (w : World) (id : Nat) (f : WebContentsImpl → WebContentsImpl)
    (c : WebContentsImpl) (h : w.find id = some c) :
    w.modify id f = { w with contents := w.contents.set id (some (f c)) } := by
  simp [World.modify, h]

theorem modify_modify (w : World) (id : Nat) (f g : WebContentsImpl → WebContentsImpl) :
    (w.modify id f).modify id g = w.modify id (fun c => g (f c)) := by
  cases h : w.find id with
  | none => simp [World.modify, h]
  | some c =>
    have h2 : (w.modify id f).find id = some (f c) := by simp [find_modify, h]
    rw [modify_live _ id g _ h2, modify_live w id f c h, modify_live w id _ c h]
    simp

theorem modify_dead (w : World) (id : Nat) (f : WebContentsImpl → WebContentsImpl)
    (h : w.find id = none) : w.modify id f = w := by
  simp [World.modify, h]

/-! ## `ExitFullscreen` in closed form -/

@[simp]
theorem modify_fullscreen_contents_set (w : World) (id : Nat)
    (f : WebContentsImpl → WebContentsImpl) :
    (w.modify id f).fullscreen_contents_set = w.fullscreen_contents_set := by
  unfold World.modify; cases w.find id <;> rfl

@[simp]
theorem modify_has_screen (w : World) (id : Nat) (f : WebContentsImpl → WebContentsImpl) :
    (w.modify id f).has_screen = w.has_screen := by
  unfold World.modify; cases w.find id <;> rfl

@[simp]
theorem modify_frame_observers (w : World) (id : Nat) (f : WebContentsImpl → WebContentsImpl) :
    (w.modify id f).frame_observers = w.frame_observers := by
  unfold World.modify; cases w.find id <;> rfl

@[simp]
theorem modify_sent_messages (w : World) (id : Nat)
    (f : WebContentsImpl → WebContentsImpl) :
    (w.modify id f).sent_messages = w.sent_messages := by
  unfold World.modify; cases w.find id <;> rfl

@[simp]
theorem modify_exit_fullscreen_calls (w : World) (id : Nat)
    (f : WebContentsImpl → WebContentsImpl) :
    (w.modify id f).exit_fullscreen_calls = w.exit_fullscreen_calls := by
  unfold World.modify; cases w.find id <;> rfl

theorem modify_contents_congr (w w2 : World) (id : Nat) (f : WebContentsImpl → WebContentsImpl)
    (h : w2.contents = w.contents) :
    (w2.modify id f).contents = (w.modify id f).contents := by
  have hf : w2.find id = w.find id := by unfold World.find; rw [h]
  unfold World.modify
  rw [hf]
  cases w.find id <;> simp [h]

theorem IsFullscreen_congr (w w2 : World) (id : Nat) (h : w2.contents = w.contents) :
    IsFullscreen w2 id = IsFullscreen w id := by
  unfold IsFullscreen World.find; rw [h]

theorem IsFullscreen_modify_clear (w : World) (F : Nat) :
    IsFullscreen (w.modify F (fun c => { c with is_fullscreen_for_tab := false })) F = false := by
  unfold IsFullscreen
  rw [find_modify]
  cases w.find F <;> simp

theorem NotifyFullscreenChanged_exited (w : World) (F : Nat) (b : Bool)
    (h : IsFullscreen w F = false) :
    NotifyFullscreenChanged w F b =
      { w.modify F (fun c =>
          { c with
            current_fullscreen_frame_ := none
            observer_log := c.observer_log ++
              [ObserverEvent.DidToggleFullscreenModeForTab false b] }) with
        fullscreen_contents_set := flatErase F w.fullscreen_contents_set } := by
  unfold NotifyFullscreenChanged
  simp only [h, Bool.not_false, Bool.not_true, if_true, modify_modify,
    modify_fullscreen_contents_set]

theorem ExitFullscreen_eq (w : World) (F : Nat) (b : Bool) :
    ExitFullscreen w F b =
      { w.modify F (exitFullscreenFields b) with
        exit_fullscreen_calls := w.exit_fullscreen_calls ++ [F]
        fullscreen_contents_set := flatErase F w.fullscreen_contents_set } := by
  unfold ExitFullscreen ExitFullscreenMode
  simp only [IsFullscreen_modify_clear, Bool.not_false, if_true]
  rw [NotifyFullscreenChanged_exited _ _ _ (IsFullscreen_modify_clear _ _), modify_modify]
  ext1
  · exact modify_contents_congr _ _ _ _ rfl
  · simp
  · simp
  · simp
  · simp
  · simp

/-! ## Operations that leave the links alone -/

theorem SameTopology.refl (w : World) : SameTopology w w :=
  ⟨rfl, fun _ => rfl, fun _ => rfl, fun _ => rfl⟩

theorem SameTopology.trans {w1 w2 w3 : World} (h12 : SameTopology w1 w2)
    (h23 : SameTopology w2 w3) : SameTopology w1 w3 :=
  ⟨h23.length_eq.trans h12.length_eq,
   fun x => (h23.live_eq x).trans (h12.live_eq x),
   fun x => (h23.opener_eq x).trans (h12.opener_eq x),
   fun x => (h23.outer_eq x).trans (h12.outer_eq x)⟩

theorem SameTopology.of_contents_eq {w w2 : World} (h : w2.contents = w.contents) :
    SameTopology w w2 := by
  have hf : ∀ x, w2.find x = w.find x := by intro x; unfold World.find; rw [h]
  exact ⟨by rw [h], fun x => by simp [World.live, hf],
    fun x => by simp [GetOriginalOpener, hf], fun x => by simp [GetOuterWebContents, hf]⟩

theorem SameTopology.modify (w : World) (id : Nat) (f : WebContentsImpl → WebContentsImpl)
    (hop : ∀ c, (f c).original_opener = c.original_opener)
    (hout : ∀ c, (f c).node_.outer_web_contents_ = c.node_.outer_web_contents_) :
    SameTopology w (w.modify id f) := by
  refine ⟨length_modify w id f, ?_, ?_, ?_⟩
  · intro x
    unfold World.live
    rw [find_modify]
    split_ifs <;> cases w.find x <;> simp
  · intro x
    unfold GetOriginalOpener
    rw [find_modify]
    split_ifs <;> cases w.find x <;> simp [hop]
  · intro x
    unfold GetOuterWebContents
    rw [find_modify]
    split_ifs <;> cases w.find x <;> simp [hout]

theorem GetAllOpeningWebContentsLoop_congr {w w2 : World} (h : SameTopology w w2) :
    ∀ (fuel : Nat) (current result : List Nat),
      GetAllOpeningWebContentsLoop w2 fuel current result =
        GetAllOpeningWebContentsLoop w fuel current result := by
  intro fuel
  induction fuel with
  | zero => intro current result; cases current <;> rfl
  | succ fuel ih =>
    intro current result
    cases current with
    | nil => rfl
    | cons c rest =>
      simp only [GetAllOpeningWebContentsLoop, h.opener_eq, h.outer_eq, ih]

theorem GetAllOpeningWebContents_congr {w w2 : World} (h : SameTopology w w2) (s : Nat) :
    GetAllOpeningWebContents w2 s = GetAllOpeningWebContents w s := by
  unfold GetAllOpeningWebContents GetAllOpeningWebContentsRun GetAllOpeningWebContentsFuel
  rw [h.length_eq, GetAllOpeningWebContentsLoop_congr h]

theorem blockerCount_modify (w : World) (id x : Nat) (f : WebContentsImpl → WebContentsImpl)
    (h : ∀ c, (f c).fullscreen_blocker_count_ = c.fullscreen_blocker_count_) :
    blockerCount (w.modify id f) x = blockerCount w x := by
  unfold blockerCount
  rw [find_modify]
  split_ifs <;> cases w.find x <;> simp [h]

theorem blockerCount_of_contents_eq {w w2 : World} (h : w2.contents = w.contents) (x : Nat) :
    blockerCount w2 x = blockerCount w x := by
  unfold blockerCount World.find; rw [h]

theorem ExitFullscreen_topology (w : World) (F : Nat) (b : Bool) :
    SameTopology w (ExitFullscreen w F b) := by
  rw [ExitFullscreen_eq]
  exact (SameTopology.modify w F (exitFullscreenFields b) (fun _ => rfl) (fun _ => rfl)).trans
    (SameTopology.of_contents_eq rfl)

theorem ExitFullscreen_blockerCount (w : World) (F : Nat) (b : Bool) (x : Nat) :
    blockerCount (ExitFullscreen w F b) x = blockerCount w x := by
  rw [ExitFullscreen_eq]
  exact (blockerCount_of_contents_eq rfl x).trans
    (blockerCount_modify w F x (exitFullscreenFields b) (fun _ => rfl))

theorem blockerCount_modify_increment (w : World) (o x : Nat) :
    blockerCount (w.modify o incrementBlocker) x =
      blockerCount w x + (if x = o ∧ w.live x = true then 1 else 0) := by
  unfold blockerCount World.live
  rw [find_modify]
  by_cases hx : x = o
  · subst hx
    cases w.find x <;> simp [incrementBlocker]
  · simp [hx]

theorem blockerCount_modify_decrement (w : World) (o x : Nat) :
    blockerCount (w.modify o decrementBlocker) x =
      blockerCount w x - (if x = o ∧ w.live x = true then 1 else 0) := by
  unfold blockerCount World.live
  rw [find_modify]
  by_cases hx : x = o
  · subst hx
    cases w.find x <;> simp [decrementBlocker]
  · simp [hx]

theorem dropFullscreenFirstPass_topology (this : Nat) (d : Int) :
    ∀ (l : List Nat) (w : World), SameTopology w (dropFullscreenFirstPass this d l w) := by
  intro l
  induction l with
  | nil => intro w; exact SameTopology.refl w
  | cons F rest ih =>
    intro w
    unfold dropFullscreenFirstPass
    refine SameTopology.trans ?_ (ih _)
    split_ifs
    · exact ExitFullscreen_topology w F true
    · exact SameTopology.refl w
    · exact SameTopology.refl w

theorem dropFullscreenFirstPass_blockerCount (this : Nat) (d : Int) (x : Nat) :
    ∀ (l : List Nat) (w : World),
      blockerCount (dropFullscreenFirstPass this d l w) x = blockerCount w x := by
  intro l
  induction l with
  | nil => intro w; rfl
  | cons F rest ih =>
    intro w
    unfold dropFullscreenFirstPass
    rw [ih]
    split_ifs
    · exact ExitFullscreen_blockerCount w F true x
    · rfl
    · rfl

theorem dropFullscreenSecondPass_snd (d : Int) :
    ∀ (l : List Nat) (w : World) (acc : List Nat),
      (dropFullscreenSecondPass d l w acc).2 = acc ++ l := by
  intro l
  induction l with
  | nil => intro w acc; simp [dropFullscreenSecondPass]
  | cons o rest ih =>
    intro w acc
    unfold dropFullscreenSecondPass
    rw [ih]
    simp

theorem secondPass_step_topology (d : Int) (o : Nat) (w : World) :
    SameTopology w
      ((if IsFullscreen w o && displayMatches w d o then ExitFullscreen w o true
        else w).modify o incrementBlocker) := by
  refine SameTopology.trans ?_ (SameTopology.modify _ o incrementBlocker (fun _ => rfl) (fun _ => rfl))
  split_ifs
  · exact ExitFullscreen_topology w o true
  · exact SameTopology.refl w

theorem dropFullscreenSecondPass_topology (d : Int) :
    ∀ (l : List Nat) (w : World) (acc : List Nat),
      SameTopology w (dropFullscreenSecondPass d l w acc).1 := by
  intro l
  induction l with
  | nil => intro w acc; exact SameTopology.refl w
  | cons o rest ih =>
    intro w acc
    unfold dropFullscreenSecondPass
    exact SameTopology.trans (secondPass_step_topology d o w) (ih _ _)

theorem dropFullscreenSecondPass_blockerCount (d : Int) (x : Nat) :
    ∀ (l : List Nat) (w : World) (acc : List Nat), l.Nodup →
      blockerCount (dropFullscreenSecondPass d l w acc).1 x =
        blockerCount w x + (if x ∈ l ∧ w.live x = true then 1 else 0) := by
  intro l
  induction l with
  | nil => intro w acc _; simp [dropFullscreenSecondPass]
  | cons o rest ih =>
    intro w acc hnd
    have hnd2 := List.nodup_cons.1 hnd
    unfold dropFullscreenSecondPass
    rw [ih _ _ hnd2.2]
    have htop := secondPass_step_topology d o w
    change blockerCount ((if IsFullscreen w o && displayMatches w d o then
      ExitFullscreen w o true else w).modify o incrementBlocker) x + _ = _
    rw [htop.live_eq x, blockerCount_modify_increment]
    have hcount : blockerCount (if IsFullscreen w o && displayMatches w d o then
        ExitFullscreen w o true else w) x = blockerCount w x := by
      split_ifs
      · exact ExitFullscreen_blockerCount w o true x
      · rfl
    have hlive : (if IsFullscreen w o && displayMatches w d o then
        ExitFullscreen w o true else w).live x = w.live x := by
      split_ifs
      · exact (ExitFullscreen_topology w o true).live_eq x
      · rfl
    rw [hcount, hlive]
    by_cases hx : x = o
    · subst hx
      simp [hnd2.1]
    · simp [hx]

/-! ## `ForSecurityDropFullscreen` and its closure: effect on the blocker counts -/

theorem ForSecurityDropFullscreen_snd (w : World) (this : Nat) (d : Int) :
    (ForSecurityDropFullscreen w this d).2 = GetAllOpeningWebContents w this := by
  unfold ForSecurityDropFullscreen
  simp only [dropFullscreenSecondPass_snd, List.nil_append]
  exact GetAllOpeningWebContents_congr (dropFullscreenFirstPass_topology this d _ w) this

theorem ForSecurityDropFullscreen_topology (w : World) (this : Nat) (d : Int) :
    SameTopology w (ForSecurityDropFullscreen w this d).1 := by
  unfold ForSecurityDropFullscreen
  exact SameTopology.trans (dropFullscreenFirstPass_topology this d _ w)
    (dropFullscreenSecondPass_topology d _ _ _)

theorem ForSecurityDropFullscreen_blockerCount (w : World) (this : Nat) (d : Int) (x : Nat) :
    blockerCount (ForSecurityDropFullscreen w this d).1 x =
      blockerCount w x +
        (if x ∈ GetAllOpeningWebContents w this ∧ w.live x = true then 1 else 0) := by
  have htop := dropFullscreenFirstPass_topology this d w.fullscreen_contents_set w
  unfold ForSecurityDropFullscreen
  simp only
  rw [dropFullscreenSecondPass_blockerCount d x _ _ _ (nodup_GetAllOpeningWebContents _ _),
    dropFullscreenFirstPass_blockerCount, GetAllOpeningWebContents_congr htop, htop.live_eq]

theorem RunBlockedContentses_topology :
    ∀ (l : List Nat) (w : World), SameTopology w (RunBlockedContentses l w) := by
  intro l
  induction l with
  | nil => intro w; exact SameTopology.refl w
  | cons o rest ih =>
    intro w
    unfold RunBlockedContentses
    refine SameTopology.trans ?_ (ih _)
    split_ifs
    · exact SameTopology.modify _ o decrementBlocker (fun _ => rfl) (fun _ => rfl)
    · exact SameTopology.refl w

theorem RunBlockedContentses_blockerCount (x : Nat) :
    ∀ (l : List Nat) (w : World), l.Nodup →
      blockerCount (RunBlockedContentses l w) x =
        blockerCount w x - (if x ∈ l ∧ w.live x = true then 1 else 0) := by
  intro l
  induction l with
  | nil => intro w _; simp [RunBlockedContentses]
  | cons o rest ih =>
    intro w hnd
    have hnd2 := List.nodup_cons.1 hnd
    unfold RunBlockedContentses
    rw [ih _ hnd2.2]
    by_cases hlive : w.live o = true
    · simp only [hlive, if_true]
      rw [(SameTopology.modify w o decrementBlocker (fun _ => rfl) (fun _ => rfl)).live_eq,
        blockerCount_modify_decrement]
      by_cases hx : x = o
      · subst hx
        simp [hnd2.1, hlive]
      · simp [hx]
    · simp only [hlive]
      by_cases hx : x = o
      · subst hx
        simp [hnd2.1, hlive]
      · simp [hx]

theorem find_DestroyWebContents (w : World) (id x : Nat) :
    (DestroyWebContents w id).find x = if x = id then none else w.find x := by
  unfold DestroyWebContents World.find
  simp only [List.getD_eq_getElem?_getD, List.getElem?_set]
  by_cases hx : x = id
  · subst hx
    by_cases hlt : x < w.contents.length <;> simp [hlt]
  · have hx2 : ¬ id = x := fun e => hx e.symm
    simp [hx, hx2]

theorem live_DestroyWebContents (w : World) (id x : Nat) :
    (DestroyWebContents w id).live x = (decide (x ≠ id) && w.live x) := by
  unfold World.live
  rw [find_DestroyWebContents]
  by_cases hx : x = id <;> simp [hx]

theorem blockerCount_DestroyWebContents (w : World) (id x : Nat) :
    blockerCount (DestroyWebContents w id) x = if x = id then 0 else blockerCount w x := by
  unfold blockerCount
  rw [find_DestroyWebContents]
  by_cases hx : x = id <;> simp [hx]

theorem blockerCount_dead (w : World) (x : Nat) (h : w.live x = false) :
    blockerCount w x = 0 := by
  unfold World.live at h
  unfold blockerCount
  cases hf : w.find x with
  | none => rfl
  | some c => simp [hf] at h

/-! ## Outstanding closure runners -/

theorem pendingBlocks_append (x : Nat) (rs : List ScopedClosureRunner) (r : ScopedClosureRunner) :
    pendingBlocks x (rs ++ [r]) =
      pendingBlocks x rs + (if r.has_run = false ∧ x ∈ r.blocked_contentses then 1 else 0) := by
  induction rs with
  | nil => simp [pendingBlocks]
  | cons a rs ih =>
    rw [List.cons_append]
    simp only [pendingBlocks]
    rw [ih]
    omega

theorem pendingBlocks_set_run (x : Nat) :
    ∀ (rs : List ScopedClosureRunner) (k : Nat) (r : ScopedClosureRunner),
      rs[k]? = some r → r.has_run = false →
      pendingBlocks x (rs.set k { r with has_run := true }) +
        (if x ∈ r.blocked_contentses then 1 else 0) = pendingBlocks x rs := by
  intro rs
  induction rs with
  | nil => intro k r h; simp at h
  | cons a rs ih =>
    intro k r h hr
    cases k with
    | zero =>
      simp only [List.getElem?_cons_zero, Option.some.injEq] at h
      subst h
      simp [pendingBlocks, hr]
      omega
    | succ k =>
      simp only [List.getElem?_cons_succ] at h
      have := ih k r h hr
      simp only [List.set_cons_succ, pendingBlocks]
      omega

theorem pendingBlocks_pos (x : Nat) :
    ∀ (rs : List ScopedClosureRunner) (k : Nat) (r : ScopedClosureRunner),
      rs[k]? = some r → r.has_run = false → x ∈ r.blocked_contentses →
      1 ≤ pendingBlocks x rs := by
  intro rs
  induction rs with
  | nil => intro k r h; simp at h
  | cons a rs ih =>
    intro k r h hr hx
    cases k with
    | zero =>
      simp only [List.getElem?_cons_zero, Option.some.injEq] at h
      subst h
      simp [pendingBlocks, hr, hx]
    | succ k =>
      simp only [List.getElem?_cons_succ] at h
      have := ih k r h hr hx
      simp only [pendingBlocks]
      omega

theorem pendingBlocks_all_run (x : Nat) (rs : List ScopedClosureRunner)
    (h : ∀ r ∈ rs, r.has_run = true) : pendingBlocks x rs = 0 := by
  induction rs with
  | nil => rfl
  | cons a rs ih =>
    have ha := h a (List.mem_cons_self _ _)
    simp [pendingBlocks, ha, ih (fun r hr => h r (List.mem_cons_of_mem _ hr))]

/-! ## Tree operations leave the blocker counts alone -/

theorem live_modify (w : World) (id x : Nat) (f : WebContentsImpl → WebContentsImpl) :
    (w.modify id f).live x = w.live x := by
  unfold World.live
  rw [find_modify]
  split_ifs <;> cases w.find x <;> simp

theorem live_of_contents_eq {w w2 : World} (h : w2.contents = w.contents) (x : Nat) :
    w2.live x = w.live x := by
  unfold World.live World.find; rw [h]

theorem AttachInnerWebContents_blockerCount (w : World) (O S : Nat) (F : Int) (x : Nat) :
    blockerCount (AttachInnerWebContents w O S F) x = blockerCount w x ∧
    (AttachInnerWebContents w O S F).live x = w.live x := by
  constructor
  · exact (blockerCount_of_contents_eq rfl x).trans
      ((blockerCount_modify _ O x (pushInner S) (fun _ => rfl)).trans
        (blockerCount_modify w S x (attachedNode O F) (fun _ => rfl)))
  · exact (live_of_contents_eq rfl x).trans
      ((live_modify _ O x (pushInner S)).trans (live_modify w S x (attachedNode O F)))

theorem DetachInnerWebContents_blockerCount (w : World) (O S : Nat) (x : Nat) :
    blockerCount (DetachInnerWebContents w O S).1 x = blockerCount w x ∧
    (DetachInnerWebContents w O S).1.live x = w.live x := by
  unfold DetachInnerWebContents
  cases detachInnerLoop S (innerWebContents w O) with
  | none => exact ⟨rfl, rfl⟩
  | some r => exact ⟨blockerCount_modify w O x (setInner r) (fun _ => rfl), live_modify w O x _⟩

theorem DisconnectFromOuterWebContents_blockerCount (w : World) (S : Nat) (x : Nat) :
    blockerCount (DisconnectFromOuterWebContents w S).1 x = blockerCount w x ∧
    (DisconnectFromOuterWebContents w S).1.live x = w.live x := by
  unfold DisconnectFromOuterWebContents
  cases GetOuterWebContents w S with
  | none => exact ⟨rfl, rfl⟩
  | some O =>
    have h := DetachInnerWebContents_blockerCount w O S x
    constructor
    · exact (blockerCount_modify _ S x disconnectedNode (fun _ => rfl)).trans
        ((blockerCount_of_contents_eq rfl x).trans h.1)
    · exact (live_modify _ S x disconnectedNode).trans ((live_of_contents_eq rfl x).trans h.2)

theorem DetachFromOuterWebContents_blockerCount (w : World) (S : Nat) (x : Nat) :
    blockerCount (DetachFromOuterWebContents w S).1 x = blockerCount w x ∧
    (DetachFromOuterWebContents w S).1.live x = w.live x := by
  have h := DisconnectFromOuterWebContents_blockerCount w S x
  have h1 := blockerCount_modify (DisconnectFromOuterWebContents w S).1 S x
    (fun c => { c with node_ := { c.node_ with focused_web_contents_ := some S } })
    (fun _ => rfl)
  have h2 := live_modify (DisconnectFromOuterWebContents w S).1 S x
    (fun c => { c with node_ := { c.node_ with focused_web_contents_ := some S } })
  exact ⟨h1.trans h.1, h2.trans h.2⟩

theorem step_acquire_live (st : ArbiterState) (this : Nat) (d : Int)
    (h : st.world.live this = true) :
    st.step (ArbiterOp.acquire this d) =
      { world := (ForSecurityDropFullscreen st.world this d).1,
        runners := st.runners ++
          [{ blocked_contentses := (ForSecurityDropFullscreen st.world this d).2,
             has_run := false }] } := by
  simp [ArbiterState.step, h]

theorem step_release_pending (st : ArbiterState) (k : Nat) (r : ScopedClosureRunner)
    (hk : st.runners[k]? = some r) (hr : r.has_run = false) :
    st.step (ArbiterOp.release k) =
      { world := RunBlockedContentses r.blocked_contentses st.world,
        runners := st.runners.set k { r with has_run := true } } := by
  simp [ArbiterState.step, hk, hr]

theorem BlockersAccounted.step {base : Nat → Int} {st : ArbiterState}
    (h : BlockersAccounted base st) (op : ArbiterOp) : BlockersAccounted base (st.step op) := by
  cases op with
  | acquire this d =>
    by_cases hlive : st.world.live this = true
    · rw [step_acquire_live st this d hlive]
      constructor
      · intro x hx
        have hx2 : st.world.live x = true := by
          rw [← (ForSecurityDropFullscreen_topology st.world this d).live_eq x]; exact hx
        simp only [ForSecurityDropFullscreen_blockerCount, pendingBlocks_append,
          ForSecurityDropFullscreen_snd, h.count_eq x hx2, hx2]
        by_cases hm : x ∈ GetAllOpeningWebContents st.world this <;> simp [hm]
        omega
      · intro r hr
        rcases List.mem_append.1 hr with hr | hr
        · exact h.nodup r hr
        · simp only [List.mem_singleton] at hr
          subst hr
          simp only [ForSecurityDropFullscreen_snd]
          exact nodup_GetAllOpeningWebContents _ _
    · have : st.step (ArbiterOp.acquire this d) = st := by simp [ArbiterState.step, hlive]
      rw [this]; exact h
  | release k =>
    cases hk : st.runners[k]? with
    | none =>
      have : st.step (ArbiterOp.release k) = st := by simp [ArbiterState.step, hk]
      rw [this]; exact h
    | some r =>
      by_cases hr : r.has_run = false
      · rw [step_release_pending st k r hk hr]
        have hrmem : r ∈ st.runners := List.getElem?_mem hk
        constructor
        · intro x hx
          have hx2 : st.world.live x = true := by
            rw [← (RunBlockedContentses_topology r.blocked_contentses st.world).live_eq x]
            exact hx
          have hp := pendingBlocks_set_run x st.runners k r hk hr
          simp only [RunBlockedContentses_blockerCount x _ _ (h.nodup r hrmem),
            h.count_eq x hx2, hx2]
          by_cases hm : x ∈ r.blocked_contentses <;> simp [hm] at hp ⊢ <;> omega
        · intro r2 hr2
          rcases List.mem_or_eq_of_mem_set hr2 with hr2 | hr2
          · exact h.nodup r2 hr2
          · subst hr2; exact h.nodup r hrmem
      · have : st.step (ArbiterOp.release k) = st := by
          simp only [Bool.not_eq_false] at hr
          simp [ArbiterState.step, hk, hr]
        rw [this]; exact h
  | destroy id =>
    constructor
    · intro x hx
      simp only [ArbiterState.step, live_DestroyWebContents, Bool.and_eq_true,
        decide_eq_true_eq] at hx
      simp only [ArbiterState.step, blockerCount_DestroyWebContents, hx.1, if_false]
      exact h.count_eq x hx.2
    · exact h.nodup
  | attach outer inner ftn_id =>
    constructor
    · intro x hx
      have hp := AttachInnerWebContents_blockerCount st.world outer inner ftn_id x
      simp only [ArbiterState.step] at hx ⊢
      rw [hp.1]
      exact h.count_eq x (hp.2 ▸ hx)
    · exact h.nodup
  | detach inner =>
    constructor
    · intro x hx
      have hp := DetachFromOuterWebContents_blockerCount st.world inner x
      simp only [ArbiterState.step] at hx ⊢
      rw [hp.1]
      exact h.count_eq x (hp.2 ▸ hx)
    · exact h.nodup

theorem BlockersAccounted.run {base : Nat → Int} (ops : List ArbiterOp) :
    ∀ {st : ArbiterState}, BlockersAccounted base st → BlockersAccounted base (st.run ops) := by
  induction ops with
  | nil => intro st h; exact h
  | cons op ops ih =>
    intro st h
    exact ih (h.step op)

theorem BlockersAccounted.init (w0 : World) :
    BlockersAccounted (blockerCount w0) { world := w0 } :=
  ⟨fun x _ => by simp [pendingBlocks], fun r hr => by simp at hr⟩

theorem BlockersAccounted.nonneg {base : Nat → Int} {st : ArbiterState}
    (h : BlockersAccounted base st) (hbase : ∀ x, 0 ≤ base x) (x : Nat) :
    0 ≤ blockerCount st.world x := by
  by_cases hx : st.world.live x = true
  · rw [h.count_eq x hx]
    have := hbase x
    omega
  · simp only [Bool.not_eq_true] at hx
    rw [blockerCount_dead _ _ hx]

theorem blockerCount_nonneg_of_bounded (w : World)
    (h : ∀ x < w.contents.length, 0 ≤ blockerCount w x) (x : Nat) : 0 ≤ blockerCount w x := by
  by_cases hx : x < w.contents.length
  · exact h x hx
  · have : w.find x = none := by
      unfold World.find
      rw [List.getD_eq_getElem?_getD, List.getElem?_eq_none (by omega)]
      rfl
    simp [blockerCount, this]

/-- Claim C3.  Over every sequence of `ForSecurityDropFullscreen` acquisitions,
runner releases (in any order, each runner running at most once), session
destructions and attach or detach operations on the session tree, started with
non-negative counts: no blocker count is ever
negative; once every runner handed out has run, each surviving session has the
count it had before the sequence; an acquisition increments exactly the live
sessions of `GetAllOpeningWebContents(this)`, each by one, and binds exactly
these into the runner; a release decrements exactly the sessions bound into
the runner that are still alive, each by one; and every live session bound into
a runner that has not run has a positive count (the `DCHECK_GT` of the closure
holds). -/
theorem C3_blocker_counts_balanced (w0 : World) (ops : List ArbiterOp)
    (h0 : ∀ x < w0.contents.length, 0 ≤ blockerCount w0 x) :
    (∀ x, 0 ≤ blockerCount (ArbiterState.run { world := w0 } ops).world x) ∧
    ((∀ r ∈ (ArbiterState.run { world := w0 } ops).runners, r.has_run = true) →
      ∀ x, (ArbiterState.run { world := w0 } ops).world.live x = true →
        blockerCount (ArbiterState.run { world := w0 } ops).world x = blockerCount w0 x) ∧
    (∀ this d, (ArbiterState.run { world := w0 } ops).world.live this = true →
      ((ArbiterState.run { world := w0 } ops).step (ArbiterOp.acquire this d)).runners =
        (ArbiterState.run { world := w0 } ops).runners ++
          [{ blocked_contentses :=
               GetAllOpeningWebContents (ArbiterState.run { world := w0 } ops).world this,
             has_run := false }] ∧
      ∀ x, blockerCount
          ((ArbiterState.run { world := w0 } ops).step (ArbiterOp.acquire this d)).world x =
        blockerCount (ArbiterState.run { world := w0 } ops).world x +
          (if x ∈ GetAllOpeningWebContents (ArbiterState.run { world := w0 } ops).world this ∧
              (ArbiterState.run { world := w0 } ops).world.live x = true then 1 else 0)) ∧
    (∀ k r, (ArbiterState.run { world := w0 } ops).runners[k]? = some r → r.has_run = false →
      ∀ x, blockerCount
          ((ArbiterState.run { world := w0 } ops).step (ArbiterOp.release k)).world x =
        blockerCount (ArbiterState.run { world := w0 } ops).world x -
          (if x ∈ r.blocked_contentses ∧
              (ArbiterState.run { world := w0 } ops).world.live x = true then 1 else 0)) ∧
    (∀ (k : Nat) (r : ScopedClosureRunner),
      (ArbiterState.run { world := w0 } ops).runners[k]? = some r → r.has_run = false →
      ∀ x ∈ r.blocked_contentses, (ArbiterState.run { world := w0 } ops).world.live x = true →
        0 < blockerCount (ArbiterState.run { world := w0 } ops).world x) := by
  have hinv : BlockersAccounted (blockerCount w0) (ArbiterState.run { world := w0 } ops) :=
    BlockersAccounted.run ops (BlockersAccounted.init w0)
  refine ⟨hinv.nonneg (blockerCount_nonneg_of_bounded w0 h0), ?_, ?_, ?_, ?_⟩
  rotate_left 3
  · intro k r hk hr x hx hlive
    have hpos := pendingBlocks_pos x _ k r hk hr hx
    have hbase := blockerCount_nonneg_of_bounded w0 h0 x
    rw [hinv.count_eq x hlive]
    omega
  · intro hall x hx
    rw [hinv.count_eq x hx, pendingBlocks_all_run x _ hall]
    simp
  · intro this d hlive
    rw [step_acquire_live _ this d hlive]
    refine ⟨by simp only [ForSecurityDropFullscreen_snd], ?_⟩
    intro x
    exact ForSecurityDropFullscreen_blockerCount _ this d x
  · intro k r hk hr x
    rw [step_release_pending _ k r hk hr]
    exact RunBlockedContentses_blockerCount x _ _ (hinv.nodup r (List.getElem?_mem hk))

/-- On `arbiterWorld`, after `arbiterOps` every runner has run and the counts are
back to their initial values. -/
theorem C3_blocker_counts_balanced_witness :
    (∀ x < arbiterWorld.contents.length, 0 ≤ blockerCount arbiterWorld x) ∧
    0 ≤ blockerCount (ArbiterState.run { world := arbiterWorld } arbiterOps).world 0 ∧
    blockerCount (ArbiterState.run { world := arbiterWorld } arbiterOps).world 0 =
      blockerCount arbiterWorld 0 :=
  ⟨by decide,
   (C3_blocker_counts_balanced arbiterWorld arbiterOps (by decide)).1 0,
   (C3_blocker_counts_balanced arbiterWorld arbiterOps (by decide)).2.1 (by decide) 0
     (by decide)⟩

theorem step_keepsBlock {st : ArbiterState} {k : Nat} {r : ScopedClosureRunner} {w1 : World}
    (op : ArbiterOp) (hop : op.keepsBlock k = true)
    (htop : SameTopology w1 st.world) (hk : st.runners[k]? = some r) :
    SameTopology w1 (st.step op).world ∧ (st.step op).runners[k]? = some r := by
  cases op with
  | acquire this d =>
    by_cases hlive : st.world.live this = true
    · rw [step_acquire_live st this d hlive]
      refine ⟨htop.trans (ForSecurityDropFullscreen_topology _ _ _), ?_⟩
      have hlt : k < st.runners.length := by
        by_contra hge
        rw [List.getElem?_eq_none (by omega)] at hk
        simp at hk
      simp only [List.getElem?_append_left hlt, hk]
    · have : st.step (ArbiterOp.acquire this d) = st := by simp [ArbiterState.step, hlive]
      rw [this]; exact ⟨htop, hk⟩
  | release j =>
    have hjk : j ≠ k := by simpa [ArbiterOp.keepsBlock] using hop
    cases hj : st.runners[j]? with
    | none =>
      have : st.step (ArbiterOp.release j) = st := by simp [ArbiterState.step, hj]
      rw [this]; exact ⟨htop, hk⟩
    | some r2 =>
      by_cases hr : r2.has_run = false
      · rw [step_release_pending st j r2 hj hr]
        refine ⟨htop.trans (RunBlockedContentses_topology _ _), ?_⟩
        simp only [List.getElem?_set, hjk, if_false, hk]
      · have : st.step (ArbiterOp.release j) = st := by
          simp only [Bool.not_eq_false] at hr
          simp [ArbiterState.step, hj, hr]
        rw [this]; exact ⟨htop, hk⟩
  | destroy id => simp [ArbiterOp.keepsBlock] at hop
  | attach outer inner ftn_id => simp [ArbiterOp.keepsBlock] at hop
  | detach inner => simp [ArbiterOp.keepsBlock] at hop

theorem run_keepsBlock (k : Nat) (r : ScopedClosureRunner) (w1 : World) :
    ∀ (ops : List ArbiterOp) (st : ArbiterState),
      (∀ op ∈ ops, op.keepsBlock k = true) →
      SameTopology w1 st.world → st.runners[k]? = some r →
      SameTopology w1 (st.run ops).world ∧ (st.run ops).runners[k]? = some r := by
  intro ops
  induction ops with
  | nil => intro st _ htop hk; exact ⟨htop, hk⟩
  | cons op ops ih =>
    intro st hops htop hk
    obtain ⟨h1, h2⟩ := step_keepsBlock op (hops op (List.mem_cons_self _ _)) htop hk
    exact ih (st.step op) (fun o ho => hops o (List.mem_cons_of_mem _ ho)) h1 h2

/-- Claim C2.  In any state reached from non-negative counts, let a live session `S`
call `ForSecurityDropFullscreen(display_id)`, for any `display_id`.  Through
every later sequence of acquisitions and of releases of other runners (the
operations that leave the opener and outer links alone), as long as the runner
returned by the call has not run, `CanEnterFullscreenMode()` is false on every
session `D` whose opener/outer closure contains `S`, `S` itself included; and
the call increments the blocker count of every live session upstream of `S`,
whatever its display. -/
theorem C2_blocked_until_runner_runs (w0 : World) (before after : List ArbiterOp)
    (S : Nat) (display_id : Int) (D : Nat)
    (h0 : ∀ x < w0.contents.length, 0 ≤ blockerCount w0 x)
    (hS : (ArbiterState.run { world := w0 } before).world.live S = true)
    (hafter : ∀ op ∈ after,
      op.keepsBlock (ArbiterState.run { world := w0 } before).runners.length = true)
    (hD : S ∈ GetAllOpeningWebContents (ArbiterState.run { world := w0 } before).world D) :
    CanEnterFullscreenMode
      (((ArbiterState.run { world := w0 } before).step
        (ArbiterOp.acquire S display_id)).run after).world D = false ∧
    ∀ x ∈ GetAllOpeningWebContents (ArbiterState.run { world := w0 } before).world S,
      (ArbiterState.run { world := w0 } before).world.live x = true →
      blockerCount ((ArbiterState.run { world := w0 } before).step
          (ArbiterOp.acquire S display_id)).world x =
        blockerCount (ArbiterState.run { world := w0 } before).world x + 1 := by
  refine ⟨?_, ?_⟩
  swap
  · intro x hx hlx
    rw [step_acquire_live _ S display_id hS, ForSecurityDropFullscreen_blockerCount]
    simp [hx, hlx]
  have hinv1 : BlockersAccounted (blockerCount w0) (ArbiterState.run { world := w0 } before) :=
    BlockersAccounted.run before (BlockersAccounted.init w0)
  have hinv : BlockersAccounted (blockerCount w0)
      (((ArbiterState.run { world := w0 } before).step
        (ArbiterOp.acquire S display_id)).run after) :=
    BlockersAccounted.run after (hinv1.step _)
  have hstep := step_acquire_live (ArbiterState.run { world := w0 } before) S display_id hS
  have hkeep := run_keepsBlock (ArbiterState.run { world := w0 } before).runners.length
    { blocked_contentses :=
        (ForSecurityDropFullscreen (ArbiterState.run { world := w0 } before).world S
          display_id).2,
      has_run := false }
    (ArbiterState.run { world := w0 } before).world
    after
    ((ArbiterState.run { world := w0 } before).step (ArbiterOp.acquire S display_id)) hafter
    (by rw [hstep]; exact ForSecurityDropFullscreen_topology _ _ _)
    (by rw [hstep]; simp)
  obtain ⟨htop, hk⟩ := hkeep
  have hlive := (htop.live_eq S).trans hS
  have hpos := pendingBlocks_pos S _ _ _ hk rfl
    (by simp only [ForSecurityDropFullscreen_snd]; exact self_mem_GetAllOpeningWebContents _ _)
  have hcount := hinv.count_eq S hlive
  have hbase := blockerCount_nonneg_of_bounded w0 h0 S
  have hmem : S ∈ GetAllOpeningWebContents
      (((ArbiterState.run { world := w0 } before).step
        (ArbiterOp.acquire S display_id)).run after).world D := by
    rw [GetAllOpeningWebContents_congr htop]; exact hD
  unfold CanEnterFullscreenMode
  rw [List.all_eq_false]
  refine ⟨S, hmem, ?_⟩
  simp only [beq_iff_eq]
  omega

/-- On `arbiterWorld`: window `3` calls `ForSecurityDropFullscreen` after a first
acquisition by `1`; while its runner (number 1) is pending, through another
acquisition and the release of runner 0, the guest `2` (whose closure is
`0, 1, 2`) is blocked by a later call of its embedder `1`. -/
theorem C2_blocked_until_runner_runs_witness :
    (∀ x < arbiterWorld.contents.length, 0 ≤ blockerCount arbiterWorld x) ∧
    (ArbiterState.run { world := arbiterWorld } [ArbiterOp.acquire 3 7]).world.live 1 = true ∧
    (∀ op ∈ [ArbiterOp.acquire 0 8, ArbiterOp.release 0],
      op.keepsBlock
        (ArbiterState.run { world := arbiterWorld } [ArbiterOp.acquire 3 7]).runners.length
        = true) ∧
    1 ∈ GetAllOpeningWebContents
      (ArbiterState.run { world := arbiterWorld } [ArbiterOp.acquire 3 7]).world 2 ∧
    CanEnterFullscreenMode
      (((ArbiterState.run { world := arbiterWorld } [ArbiterOp.acquire 3 7]).step
        (ArbiterOp.acquire 1 kInvalidDisplayId)).run
          [ArbiterOp.acquire 0 8, ArbiterOp.release 0]).world 2 = false :=
  ⟨by decide, by decide, by decide, by decide,
   (C2_blocked_until_runner_runs arbiterWorld [ArbiterOp.acquire 3 7]
     [ArbiterOp.acquire 0 8, ArbiterOp.release 0] 1 kInvalidDisplayId 2
     (by decide) (by decide) (by decide) (by decide)).1⟩

/-! ## Which sessions `ForSecurityDropFullscreen` forces out of fullscreen -/

theorem IsFullscreen_modify (w : World) (id x : Nat) (f : WebContentsImpl → WebContentsImpl)
    (h : ∀ c, (f c).is_fullscreen_for_tab = c.is_fullscreen_for_tab) :
    IsFullscreen (w.modify id f) x = IsFullscreen w x := by
  unfold IsFullscreen
  rw [find_modify]
  split_ifs <;> cases w.find x <;> simp [h]

theorem displayOf_modify (w : World) (id x : Nat) (f : WebContentsImpl → WebContentsImpl)
    (h : ∀ c, (f c).display_id = c.display_id) :
    displayOf (w.modify id f) x = displayOf w x := by
  unfold displayOf
  rw [find_modify]
  split_ifs <;> cases w.find x <;> simp [h]

theorem displayMatches_modify (w : World) (id x : Nat) (d : Int)
    (f : WebContentsImpl → WebContentsImpl)
    (h : ∀ c, (f c).display_id = c.display_id) :
    displayMatches (w.modify id f) d x = displayMatches w d x := by
  unfold displayMatches
  rw [displayOf_modify w id x f h, modify_has_screen]

theorem ExitFullscreen_contents (w : World) (G : Nat) (b : Bool) :
    (ExitFullscreen w G b).contents = (w.modify G (exitFullscreenFields b)).contents := by
  rw [ExitFullscreen_eq]

theorem ExitFullscreen_has_screen (w : World) (G : Nat) (b : Bool) :
    (ExitFullscreen w G b).has_screen = w.has_screen := by
  rw [ExitFullscreen_eq]; simp

theorem calls_ExitFullscreen (w : World) (G : Nat) (b : Bool) :
    (ExitFullscreen w G b).exit_fullscreen_calls = w.exit_fullscreen_calls ++ [G] := by
  rw [ExitFullscreen_eq]

theorem IsFullscreen_ExitFullscreen (w : World) (G x : Nat) (b : Bool) :
    IsFullscreen (ExitFullscreen w G b) x = (IsFullscreen w x && decide (x ≠ G)) := by
  rw [IsFullscreen_congr _ _ x (ExitFullscreen_contents w G b)]
  unfold IsFullscreen
  rw [find_modify]
  by_cases hx : x = G
  · subst hx
    cases w.find x <;> simp [exitFullscreenFields]
  · simp [hx]

theorem displayOf_congr (w w2 : World) (id : Nat) (h : w2.contents = w.contents) :
    displayOf w2 id = displayOf w id := by
  unfold displayOf World.find; rw [h]

theorem displayMatches_ExitFullscreen (w : World) (G x : Nat) (b : Bool) (d : Int) :
    displayMatches (ExitFullscreen w G b) d x = displayMatches w d x := by
  unfold displayMatches
  rw [ExitFullscreen_has_screen, displayOf_congr _ _ x (ExitFullscreen_contents w G b),
    displayOf_modify w G x (exitFullscreenFields b) (fun _ => rfl)]

theorem dropFullscreenFirstPass_displayMatches (this : Nat) (d : Int) (x : Nat) :
    ∀ (l : List Nat) (w : World),
      displayMatches (dropFullscreenFirstPass this d l w) d x = displayMatches w d x := by
  intro l
  induction l with
  | nil => intro w; rfl
  | cons G rest ih =>
    intro w
    unfold dropFullscreenFirstPass
    rw [ih]
    split_ifs
    · exact displayMatches_ExitFullscreen w G x true d
    · rfl
    · rfl

/-- The `ExitFullscreen` calls of the first pass: appended to the record, made
exactly on the members of the scanned copy that are fullscreen, match the
display test and have `this` among their openers; and only these stop being
fullscreen. -/
theorem dropFullscreenFirstPass_calls (this : Nat) (d : Int) :
    ∀ (l : List Nat) (w : World), ∃ new : List Nat,
      (dropFullscreenFirstPass this d l w).exit_fullscreen_calls =
        w.exit_fullscreen_calls ++ new ∧
      (∀ F, F ∈ new ↔ F ∈ l ∧ IsFullscreen w F = true ∧ displayMatches w d F = true ∧
        this ∈ GetAllOpeningWebContents w F) ∧
      (∀ F, IsFullscreen (dropFullscreenFirstPass this d l w) F =
        (IsFullscreen w F && !decide (F ∈ new))) := by
  intro l
  induction l with
  | nil =>
    intro w
    exact ⟨[], by simp [dropFullscreenFirstPass], by simp, by simp [dropFullscreenFirstPass]⟩
  | cons G rest ih =>
    intro w
    by_cases hG : (IsFullscreen w G && displayMatches w d G) = true ∧
        this ∈ GetAllOpeningWebContents w G
    · have hstep : dropFullscreenFirstPass this d (G :: rest) w =
          dropFullscreenFirstPass this d rest (ExitFullscreen w G true) := by
        simp [dropFullscreenFirstPass, hG.1, hG.2]
      obtain ⟨new1, hc, hm, hf⟩ := ih (ExitFullscreen w G true)
      have htop := ExitFullscreen_topology w G true
      refine ⟨G :: new1, ?_, ?_, ?_⟩
      · rw [hstep, hc, calls_ExitFullscreen]; simp
      · intro F
        rw [List.mem_cons, hm, IsFullscreen_ExitFullscreen, displayMatches_ExitFullscreen,
          GetAllOpeningWebContents_congr htop]
        simp only [Bool.and_eq_true, decide_eq_true_eq, List.mem_cons] at hG ⊢
        constructor
        · rintro (rfl | ⟨h1, h2, h3, h4⟩)
          · exact ⟨Or.inl rfl, hG.1.1, hG.1.2, hG.2⟩
          · exact ⟨Or.inr h1, h2.1, h3, h4⟩
        · rintro ⟨h1, h2, h3, h4⟩
          by_cases hFG : F = G
          · exact Or.inl hFG
          · rcases h1 with h1 | h1
            · exact absurd h1 hFG
            · exact Or.inr ⟨h1, ⟨h2, hFG⟩, h3, h4⟩
      · intro F
        rw [hstep, hf, IsFullscreen_ExitFullscreen]
        by_cases hFG : F = G <;> simp [hFG]
    · have hstep : dropFullscreenFirstPass this d (G :: rest) w =
          dropFullscreenFirstPass this d rest w := by
        by_cases h1 : (IsFullscreen w G && displayMatches w d G) = true
        · have h2 : this ∉ GetAllOpeningWebContents w G := fun h => hG ⟨h1, h⟩
          simp [dropFullscreenFirstPass, h1, h2]
        · simp [dropFullscreenFirstPass, h1]
      obtain ⟨new1, hc, hm, hf⟩ := ih w
      refine ⟨new1, by rw [hstep, hc], ?_, by intro F; rw [hstep, hf]⟩
      intro F
      rw [hm]
      simp only [Bool.and_eq_true, List.mem_cons] at hG ⊢
      constructor
      · rintro ⟨h1, h2, h3, h4⟩
        exact ⟨Or.inr h1, h2, h3, h4⟩
      · rintro ⟨h1, h2, h3, h4⟩
        rcases h1 with rfl | h1
        · exact absurd ⟨⟨h2, h3⟩, h4⟩ hG
        · exact ⟨h1, h2, h3, h4⟩

/-- The `ExitFullscreen` calls of the second pass: made exactly on the sessions
of the walked set that are fullscreen and match the display test. -/
theorem dropFullscreenSecondPass_calls (d : Int) :
    ∀ (l : List Nat) (w : World) (acc : List Nat), ∃ new : List Nat,
      (dropFullscreenSecondPass d l w acc).1.exit_fullscreen_calls =
        w.exit_fullscreen_calls ++ new ∧
      (∀ F, F ∈ new ↔ F ∈ l ∧ IsFullscreen w F = true ∧ displayMatches w d F = true) ∧
      (∀ F, IsFullscreen (dropFullscreenSecondPass d l w acc).1 F =
        (IsFullscreen w F && !decide (F ∈ new))) := by
  intro l
  induction l with
  | nil =>
    intro w acc
    exact ⟨[], by simp [dropFullscreenSecondPass], by simp, by simp [dropFullscreenSecondPass]⟩
  | cons G rest ih =>
    intro w acc
    by_cases hG : (IsFullscreen w G && displayMatches w d G) = true
    · have hstep : dropFullscreenSecondPass d (G :: rest) w acc =
          dropFullscreenSecondPass d rest ((ExitFullscreen w G true).modify G incrementBlocker)
            (acc ++ [G]) := by
        simp [dropFullscreenSecondPass, hG]
      obtain ⟨new1, hc, hm, hf⟩ :=
        ih ((ExitFullscreen w G true).modify G incrementBlocker) (acc ++ [G])
      have hfs : ∀ F, IsFullscreen ((ExitFullscreen w G true).modify G incrementBlocker) F =
          (IsFullscreen w F && decide (F ≠ G)) := by
        intro F
        rw [IsFullscreen_modify _ G F incrementBlocker (fun _ => rfl),
          IsFullscreen_ExitFullscreen]
      have hdm : ∀ F, displayMatches ((ExitFullscreen w G true).modify G incrementBlocker) d F =
          displayMatches w d F := by
        intro F
        rw [displayMatches_modify _ G F d incrementBlocker (fun _ => rfl),
          displayMatches_ExitFullscreen]
      refine ⟨G :: new1, ?_, ?_, ?_⟩
      · rw [hstep, hc, modify_exit_fullscreen_calls, calls_ExitFullscreen]; simp
      · intro F
        rw [List.mem_cons, hm, hfs, hdm]
        simp only [Bool.and_eq_true, decide_eq_true_eq, List.mem_cons] at hG ⊢
        constructor
        · rintro (rfl | ⟨h1, h2, h3⟩)
          · exact ⟨Or.inl rfl, hG.1, hG.2⟩
          · exact ⟨Or.inr h1, h2.1, h3⟩
        · rintro ⟨h1, h2, h3⟩
          by_cases hFG : F = G
          · exact Or.inl hFG
          · rcases h1 with h1 | h1
            · exact absurd h1 hFG
            · exact Or.inr ⟨h1, ⟨h2, hFG⟩, h3⟩
      · intro F
        rw [hstep, hf, hfs]
        by_cases hFG : F = G <;> simp [hFG]
    · have hstep : dropFullscreenSecondPass d (G :: rest) w acc =
          dropFullscreenSecondPass d rest (w.modify G incrementBlocker) (acc ++ [G]) := by
        simp [dropFullscreenSecondPass, hG]
      obtain ⟨new1, hc, hm, hf⟩ := ih (w.modify G incrementBlocker) (acc ++ [G])
      have hfs : ∀ F, IsFullscreen (w.modify G incrementBlocker) F = IsFullscreen w F :=
        fun F => IsFullscreen_modify _ G F incrementBlocker (fun _ => rfl)
      have hdm : ∀ F, displayMatches (w.modify G incrementBlocker) d F =
          displayMatches w d F :=
        fun F => displayMatches_modify _ G F d incrementBlocker (fun _ => rfl)
      refine ⟨new1, by rw [hstep, hc, modify_exit_fullscreen_calls], ?_,
        by intro F; rw [hstep, hf, hfs]⟩
      intro F
      rw [hm, hfs, hdm]
      simp only [Bool.and_eq_true, List.mem_cons] at hG ⊢
      constructor
      · rintro ⟨h1, h2, h3⟩
        exact ⟨Or.inr h1, h2, h3⟩
      · rintro ⟨h1, h2, h3⟩
        rcases h1 with rfl | h1
        · exact absurd ⟨h2, h3⟩ hG
        · exact ⟨h1, h2, h3⟩

theorem ForSecurityDropFullscreen_calls (w : World) (this : Nat) (d : Int) :
    ∃ new : List Nat,
      (ForSecurityDropFullscreen w this d).1.exit_fullscreen_calls =
        w.exit_fullscreen_calls ++ new ∧
      (∀ F, F ∈ new ↔ IsFullscreen w F = true ∧ displayMatches w d F = true ∧
        ((F ∈ w.fullscreen_contents_set ∧ this ∈ GetAllOpeningWebContents w F) ∨
          F ∈ GetAllOpeningWebContents w this)) ∧
      (∀ F, IsFullscreen (ForSecurityDropFullscreen w this d).1 F =
        (IsFullscreen w F && !decide (F ∈ new))) := by
  obtain ⟨new1, hc1, hm1, hf1⟩ :=
    dropFullscreenFirstPass_calls this d w.fullscreen_contents_set w
  have htop := dropFullscreenFirstPass_topology this d w.fullscreen_contents_set w
  have hdm := fun F => dropFullscreenFirstPass_displayMatches this d F w.fullscreen_contents_set w
  obtain ⟨new2, hc2, hm2, hf2⟩ := dropFullscreenSecondPass_calls d
    (GetAllOpeningWebContents (dropFullscreenFirstPass this d w.fullscreen_contents_set w) this)
    (dropFullscreenFirstPass this d w.fullscreen_contents_set w) []
  refine ⟨new1 ++ new2, ?_, ?_, ?_⟩
  · unfold ForSecurityDropFullscreen
    simp only
    rw [hc2, hc1, List.append_assoc]
  · intro F
    rw [List.mem_append, hm2, hf1, hdm, GetAllOpeningWebContents_congr htop]
    have h1 := hm1 F
    by_cases hn : F ∈ new1
    · have h1' := h1.1 hn
      simp only [hn, true_or, true_iff]
      exact ⟨h1'.2.1, h1'.2.2.1, Or.inl ⟨h1'.1, h1'.2.2.2⟩⟩
    · have h1' : ¬ (F ∈ w.fullscreen_contents_set ∧ IsFullscreen w F = true ∧
          displayMatches w d F = true ∧ this ∈ GetAllOpeningWebContents w F) :=
        fun h => hn (h1.2 h)
      simp only [hn, false_or, decide_False, Bool.not_false, Bool.and_true]
      constructor
      · rintro ⟨a, b, c⟩
        exact ⟨b, c, Or.inr a⟩
      · rintro ⟨b, c, h | a⟩
        · exact absurd ⟨h.1, b, c, h.2⟩ h1'
        · exact ⟨a, b, c⟩
  · intro F
    unfold ForSecurityDropFullscreen
    simp only
    rw [hf2, hf1]
    by_cases h1 : F ∈ new1 <;> by_cases h2 : F ∈ new2 <;> simp [h1, h2]

/-- Claim C4.  `S.ForSecurityDropFullscreen(display_id)` calls `ExitFullscreen` on
every member `F` of the per-context fullscreen set that is fullscreen, has `S`
in its opener/outer closure and whose display is `display_id` (or `display_id`
is the invalid, "any display" id), and `F` is not fullscreen afterwards; a
session on a display other than a specific `display_id` gets no
`ExitFullscreen` call and keeps its fullscreen state.  The calls made are
exactly those on the fullscreen sessions passing the display test (which every
session passes when there is no `display::Screen`) that are such members or lie
upstream of `S`. -/
theorem C4_drops_downstream_fullscreen_on_display (w : World) (S : Nat) (display_id : Int) :
    (∀ F, F ∈ w.fullscreen_contents_set → IsFullscreen w F = true →
      S ∈ GetAllOpeningWebContents w F →
      (display_id = kInvalidDisplayId ∨ displayNearestView w F = some display_id) →
      F ∈ exitFullscreenCallsSince w (ForSecurityDropFullscreen w S display_id).1 ∧
      IsFullscreen (ForSecurityDropFullscreen w S display_id).1 F = false) ∧
    (∀ F other_display, displayNearestView w F = some other_display →
      other_display ≠ display_id → display_id ≠ kInvalidDisplayId →
      F ∉ exitFullscreenCallsSince w (ForSecurityDropFullscreen w S display_id).1 ∧
      IsFullscreen (ForSecurityDropFullscreen w S display_id).1 F = IsFullscreen w F) ∧
    (∀ F, F ∈ exitFullscreenCallsSince w (ForSecurityDropFullscreen w S display_id).1 ↔
      IsFullscreen w F = true ∧ displayMatches w display_id F = true ∧
      ((F ∈ w.fullscreen_contents_set ∧ S ∈ GetAllOpeningWebContents w F) ∨
        F ∈ GetAllOpeningWebContents w S)) := by
  obtain ⟨new, hc, hm, hf⟩ := ForSecurityDropFullscreen_calls w S display_id
  have hsince : exitFullscreenCallsSince w (ForSecurityDropFullscreen w S display_id).1 = new := by
    unfold exitFullscreenCallsSince
    rw [hc, List.drop_left]
  rw [hsince]
  refine ⟨?_, ?_, hm⟩
  · intro F hset hfs hS hdisp
    have hdm : displayMatches w display_id F = true := by
      unfold displayMatches
      rcases hdisp with h | h
      · simp [h]
      · unfold displayNearestView at h
        by_cases hscreen : w.has_screen = true
        · simp only [hscreen, if_true, Option.some.injEq] at h
          simp [h]
        · simp [hscreen]
    have hmem : F ∈ new := (hm F).2 ⟨hfs, hdm, Or.inl ⟨hset, hS⟩⟩
    exact ⟨hmem, by rw [hf]; simp [hmem]⟩
  · intro F other_display hon hdisp hd
    have hdm : displayMatches w display_id F = false := by
      unfold displayNearestView at hon
      by_cases hscreen : w.has_screen = true
      · simp only [hscreen, if_true, Option.some.injEq] at hon
        unfold displayMatches
        have h2 : ¬ display_id = displayOf w F := fun e => hdisp (hon.symm.trans e.symm)
        simp [hd, hscreen, h2]
      · simp [hscreen] at hon
    have hmem : F ∉ new := by
      intro h
      have := ((hm F).1 h).2.1
      rw [hdm] at this
      exact Bool.false_ne_true this
    exact ⟨hmem, by rw [hf]; simp [hmem]⟩

/-- On `arbiterWorld`, a call by `0` for display `7` exits the guest `2` (display
`7`, downstream of `0`) and leaves `0` itself, on display `8`, in fullscreen. -/
theorem C4_drops_downstream_fullscreen_on_display_witness :
    (2 ∈ exitFullscreenCallsSince arbiterWorld (ForSecurityDropFullscreen arbiterWorld 0 7).1 ∧
      IsFullscreen (ForSecurityDropFullscreen arbiterWorld 0 7).1 2 = false) ∧
    (0 ∉ exitFullscreenCallsSince arbiterWorld (ForSecurityDropFullscreen arbiterWorld 0 7).1 ∧
      IsFullscreen (ForSecurityDropFullscreen arbiterWorld 0 7).1 0 =
        IsFullscreen arbiterWorld 0) :=
  ⟨(C4_drops_downstream_fullscreen_on_display arbiterWorld 0 7).1 2
      (by decide) (by decide) (by decide) (by decide),
   (C4_drops_downstream_fullscreen_on_display arbiterWorld 0 7).2.1 0 8
      (by decide) (by decide) (by decide)⟩

/-! ## Election of the fullscreen frame -/

theorem maxElement_mem (comp : Nat → Nat → Bool) :
    ∀ (l : List Nat) (a : Nat), maxElement comp a l ∈ a :: l := by
  intro l
  induction l with
  | nil => intro a; simp [maxElement]
  | cons x xs ih =>
    intro a
    unfold maxElement
    split_ifs
    · exact List.mem_cons_of_mem _ (ih x)
    · rcases List.mem_cons.1 (ih a) with h | h
      · rw [h]; exact List.mem_cons_self _ _
      · exact List.mem_cons_of_mem _ (List.mem_cons_of_mem _ h)

theorem maxElement_depth_ge (depth : Nat → Nat) :
    ∀ (l : List Nat) (a : Nat),
      depth a ≤ depth (maxElement (FrameCompareDepth depth) a l) ∧
      ∀ x ∈ l, depth x ≤ depth (maxElement (FrameCompareDepth depth) a l) := by
  intro l
  induction l with
  | nil => intro a; simp [maxElement]
  | cons x xs ih =>
    intro a
    unfold maxElement
    by_cases hc : FrameCompareDepth depth a x = true
    · simp only [hc, if_true]
      have hax : depth a < depth x := by simpa [FrameCompareDepth] using hc
      obtain ⟨h1, h2⟩ := ih x
      refine ⟨by omega, ?_⟩
      intro y hy
      rcases List.mem_cons.1 hy with rfl | hy
      · exact h1
      · exact h2 y hy
    · simp only [hc, Bool.false_eq_true, if_false]
      have hax : depth x ≤ depth a := by
        simp only [FrameCompareDepth, decide_eq_true_eq, not_lt] at hc
        exact hc
      obtain ⟨h1, h2⟩ := ih a
      refine ⟨h1, ?_⟩
      intro y hy
      rcases List.mem_cons.1 hy with rfl | hy
      · omega
      · exact h2 y hy

theorem FullscreenFrameSetUpdated_frames (depth : Nat → Nat) (c : WebContentsImpl) :
    (FullscreenFrameSetUpdated depth c).fullscreen_frames_ = c.fullscreen_frames_ := by
  unfold FullscreenFrameSetUpdated
  split
  · rfl
  · dsimp only
    split_ifs <;> rfl

theorem FullscreenFrameSetUpdated_elected (depth : Nat → Nat) (c : WebContentsImpl) :
    ElectedIsDeepest depth (FullscreenFrameSetUpdated depth c) := by
  unfold ElectedIsDeepest
  rw [FullscreenFrameSetUpdated_frames]
  cases hfr : c.fullscreen_frames_ with
  | nil => simp [FullscreenFrameSetUpdated, hfr]
  | cons first rest =>
    refine ⟨by simp, fun _ => ?_⟩
    have hmem := maxElement_mem (FrameCompareDepth depth) rest first
    have hge := maxElement_depth_ge depth rest first
    refine ⟨maxElement (FrameCompareDepth depth) first rest, hmem, ?_, ?_⟩
    · unfold FullscreenFrameSetUpdated
      simp only [hfr]
      split_ifs with h
      · exact h.symm
      · rfl
    · intro f hf
      rcases List.mem_cons.1 hf with rfl | hf
      · exact hge.1
      · exact hge.2 f hf

theorem flatInsert_ne_self (x : Nat) (l : List Nat) (h : x ∉ l) : flatInsert x l ≠ l := by
  intro he
  exact h (he ▸ (mem_flatInsert x x l).2 (Or.inl rfl))

theorem filter_eq_of_length_eq {α : Type} (p : α → Bool) (l : List α)
    (h : (l.filter p).length = l.length) : l.filter p = l :=
  (List.filter_sublist l).eq_of_length h

/-- A `FullscreenStateChanged` call that leaves the set of flagged frames as it
was changes nothing at all. -/
theorem FullscreenStateChanged_eq_self (depth : Nat → Nat) (isDesc : Nat → Nat → Bool)
    (c : WebContentsImpl) (frame : Nat) (b : Bool)
    (h : (FullscreenStateChanged depth isDesc c frame b).fullscreen_frames_ =
      c.fullscreen_frames_) :
    FullscreenStateChanged depth isDesc c frame b = c := by
  unfold FullscreenStateChanged at h ⊢
  cases b with
  | true =>
    simp only [if_true] at h ⊢
    by_cases hm : frame ∈ c.fullscreen_frames_
    · simp [hm]
    · simp only [hm, if_false, FullscreenFrameSetUpdated_frames] at h
      exact absurd h (flatInsert_ne_self frame _ hm)
  | false =>
    simp only [Bool.false_eq_true, if_false] at h ⊢
    by_cases hl : c.fullscreen_frames_.length =
        (c.fullscreen_frames_.filter
          (fun current => !(current == frame || isDesc current frame))).length
    · have hf := filter_eq_of_length_eq _ _ hl.symm
      simp only [ne_eq, hl, not_true_eq_false, if_false]
      rw [hf]
    · simp only [ne_eq, hl, not_false_eq_true, if_true, FullscreenFrameSetUpdated_frames] at h
      exact absurd (congrArg List.length h).symm hl

/-- A `FullscreenStateChanged` call that changes the set of flagged frames ends
with `FullscreenFrameSetUpdated`. -/
theorem FullscreenStateChanged_elected_of_changed (depth : Nat → Nat)
    (isDesc : Nat → Nat → Bool) (c : WebContentsImpl) (frame : Nat) (b : Bool)
    (h : (FullscreenStateChanged depth isDesc c frame b).fullscreen_frames_ ≠
      c.fullscreen_frames_) :
    ElectedIsDeepest depth (FullscreenStateChanged depth isDesc c frame b) := by
  unfold FullscreenStateChanged at h ⊢
  cases b with
  | true =>
    simp only [if_true] at h ⊢
    by_cases hm : frame ∈ c.fullscreen_frames_
    · simp [hm] at h
    · simp only [hm, if_false]
      exact FullscreenFrameSetUpdated_elected depth _
  | false =>
    simp only [Bool.false_eq_true, if_false] at h ⊢
    by_cases hl : c.fullscreen_frames_.length =
        (c.fullscreen_frames_.filter
          (fun current => !(current == frame || isDesc current frame))).length
    · have hf := filter_eq_of_length_eq _ _ hl.symm
      simp only [ne_eq, hl, not_true_eq_false, if_false] at h
      exact absurd hf h
    · simp only [ne_eq, hl, not_false_eq_true, if_true]
      exact FullscreenFrameSetUpdated_elected depth _

/-- Claim C5 fails as stated: after a tab-level exit cleared the elected frame of
a session whose frame `10` is still flagged (`exitedSession`), a
`FullscreenStateChanged` call that does not change the flagged set (frame `10`
reporting fullscreen again, or `RenderFrameDeleted` of the unflagged frame `7`)
returns with a flagged frame and no elected frame. -/
theorem C5_counterexample_stale_election :
    exitedSession.fullscreen_frames_ = [10] ∧
    exitedSession.current_fullscreen_frame_ = none ∧
    ¬ ElectedIsDeepest sampleDepth
      (FullscreenStateChanged sampleDepth sampleIsDescendantOf exitedSession 10 true) ∧
    ¬ ElectedIsDeepest sampleDepth
      (FullscreenStateChanged sampleDepth sampleIsDescendantOf exitedSession 7 false) := by
  decide

/-- Claim C5, amended.  After every `FullscreenFrameSetUpdated` call, and after every
`FullscreenStateChanged` call that changes the set of flagged frames, the
elected frame is null when no frame is flagged and otherwise a flagged frame of
maximal depth; a `FullscreenStateChanged` call that leaves the set as it was
changes nothing (so the property holds after it if it held before).  With flags
set on frames at depths 2, 4, 3 the elected frame is the depth-4 one; clearing
it elects the depth-3 one; clearing all leaves no fullscreen frame. -/
theorem C5_election_after_flag_set_change (depth : Nat → Nat) (isDesc : Nat → Nat → Bool)
    (c : WebContentsImpl) (frame : Nat) (is_fullscreen : Bool) :
    ElectedIsDeepest depth (FullscreenFrameSetUpdated depth c) ∧
    ((FullscreenStateChanged depth isDesc c frame is_fullscreen).fullscreen_frames_ ≠
        c.fullscreen_frames_ →
      ElectedIsDeepest depth (FullscreenStateChanged depth isDesc c frame is_fullscreen)) ∧
    ((FullscreenStateChanged depth isDesc c frame is_fullscreen).fullscreen_frames_ =
        c.fullscreen_frames_ →
      FullscreenStateChanged depth isDesc c frame is_fullscreen = c) ∧
    (ElectedIsDeepest depth c →
      ElectedIsDeepest depth (FullscreenStateChanged depth isDesc c frame is_fullscreen)) ∧
    (threeFlagsSession.current_fullscreen_frame_ = some 11 ∧ sampleDepth 11 = 4 ∧
      (FullscreenStateChanged sampleDepth sampleIsDescendantOf threeFlagsSession 11
        false).current_fullscreen_frame_ = some 12 ∧ sampleDepth 12 = 3 ∧
      (FullscreenStateChanged sampleDepth sampleIsDescendantOf
        (FullscreenStateChanged sampleDepth sampleIsDescendantOf
          (FullscreenStateChanged sampleDepth sampleIsDescendantOf threeFlagsSession 11 false)
          12 false)
        10 false).current_fullscreen_frame_ = none) := by
  refine ⟨FullscreenFrameSetUpdated_elected depth c,
    FullscreenStateChanged_elected_of_changed depth isDesc c frame is_fullscreen,
    FullscreenStateChanged_eq_self depth isDesc c frame is_fullscreen, ?_, by decide⟩
  intro hc
  by_cases h : (FullscreenStateChanged depth isDesc c frame is_fullscreen).fullscreen_frames_ =
      c.fullscreen_frames_
  · rw [FullscreenStateChanged_eq_self depth isDesc c frame is_fullscreen h]; exact hc
  · exact FullscreenStateChanged_elected_of_changed depth isDesc c frame is_fullscreen h

/-- Clearing the depth-4 frame of `threeFlagsSession` changes the flagged set, and
the election property holds afterwards. -/
theorem C5_election_after_flag_set_change_witness :
    (FullscreenStateChanged sampleDepth sampleIsDescendantOf threeFlagsSession 11
        false).fullscreen_frames_ ≠ threeFlagsSession.fullscreen_frames_ ∧
    ElectedIsDeepest sampleDepth
      (FullscreenStateChanged sampleDepth sampleIsDescendantOf threeFlagsSession 11 false) :=
  ⟨by decide,
   (C5_election_after_flag_set_change sampleDepth sampleIsDescendantOf threeFlagsSession 11
     false).2.1 (by decide)⟩

theorem detachInnerLoop_perm (s : Nat) :
    ∀ (l r : List Nat), detachInnerLoop s l = some r → (s :: r).Perm l := by
  intro l
  induction l with
  | nil => intro r h; simp [detachInnerLoop] at h
  | cons x xs ih =>
    intro r h
    unfold detachInnerLoop at h
    by_cases hx : x = s
    · subst hx
      simp only [if_true, Option.some.injEq] at h
      subst h
      cases hl : xs.getLast? with
      | none =>
        have : xs = [] := List.getLast?_eq_none_iff.1 hl
        subst this
        simp
      | some b =>
        have hxs : xs.dropLast ++ [b] = xs := List.dropLast_append_getLast? b hl
        have hne : xs ≠ [] := by
          intro e; subst e; simp at hl
        simp only [Option.getD_some, List.dropLast_cons_of_ne_nil hne]
        refine List.Perm.cons _ ?_
        conv_rhs => rw [← hxs]
        exact (List.perm_append_singleton b xs.dropLast).symm
    · simp only [hx, if_false, Option.map_eq_some'] at h
      obtain ⟨r2, hr2, rfl⟩ := h
      exact (List.Perm.swap x s r2).trans (List.Perm.cons x (ih r2 hr2))

theorem detachInnerLoop_isSome (s : Nat) :
    ∀ (l : List Nat), s ∈ l → ∃ r, detachInnerLoop s l = some r := by
  intro l
  induction l with
  | nil => intro h; simp at h
  | cons x xs ih =>
    intro h
    unfold detachInnerLoop
    by_cases hx : x = s
    · simp [hx]
    · rcases List.mem_cons.1 h with h | h
      · exact absurd h.symm hx
      · obtain ⟨r, hr⟩ := ih h
        exact ⟨x :: r, by simp [hx, hr]⟩

theorem detachInnerLoop_nodup (s : Nat) (l r : List Nat) (h : detachInnerLoop s l = some r)
    (hnd : l.Nodup) : r.Nodup ∧ s ∉ r ∧ ∀ x, x ∈ r ↔ x ∈ l ∧ x ≠ s := by
  have hp := detachInnerLoop_perm s l r h
  have hnd2 : (s :: r).Nodup := hp.nodup_iff.2 hnd
  have hnd3 := List.nodup_cons.1 hnd2
  refine ⟨hnd3.2, hnd3.1, ?_⟩
  intro x
  have hm := hp.mem_iff (a := x)
  simp only [List.mem_cons] at hm
  constructor
  · intro hx
    exact ⟨hm.1 (Or.inr hx), fun e => hnd3.1 (e ▸ hx)⟩
  · rintro ⟨hx, hne⟩
    rcases hm.2 hx with h | h
    · exact absurd h hne
    · exact h

theorem innerWebContents_modify (w : World) (id x : Nat) (f : WebContentsImpl → WebContentsImpl) :
    innerWebContents (w.modify id f) x =
      if x = id then
        (match w.find x with
          | some c => (f c).node_.inner_web_contents_
          | none => [])
      else innerWebContents w x := by
  unfold innerWebContents
  rw [find_modify]
  split_ifs <;> cases w.find x <;> simp

theorem outerContentsFrameTreeNodeId_modify (w : World) (id x : Nat)
    (f : WebContentsImpl → WebContentsImpl) :
    outerContentsFrameTreeNodeId (w.modify id f) x =
      if x = id then
        (match w.find x with
          | some c => (f c).node_.outer_contents_frame_tree_node_id_
          | none => kFrameTreeNodeInvalidId)
      else outerContentsFrameTreeNodeId w x := by
  unfold outerContentsFrameTreeNodeId
  rw [find_modify]
  split_ifs <;> cases w.find x <;> simp

theorem GetOuterWebContents_modify (w : World) (id x : Nat)
    (f : WebContentsImpl → WebContentsImpl) :
    GetOuterWebContents (w.modify id f) x =
      if x = id then (w.find x).bind (fun c => (f c).node_.outer_web_contents_)
      else GetOuterWebContents w x := by
  unfold GetOuterWebContents
  rw [find_modify]
  split_ifs <;> cases w.find x <;> simp

theorem focusedWebContents_modify (w : World) (id x : Nat)
    (f : WebContentsImpl → WebContentsImpl) :
    focusedWebContents (w.modify id f) x =
      if x = id then (w.find x).bind (fun c => (f c).node_.focused_web_contents_)
      else focusedWebContents w x := by
  unfold focusedWebContents
  rw [find_modify]
  split_ifs <;> cases w.find x <;> simp

theorem find_isSome_of_mem_inner {w : World} {O S : Nat} (h : S ∈ innerWebContents w O) :
    ∃ c, w.find O = some c ∧ c.node_.inner_web_contents_ = innerWebContents w O := by
  unfold innerWebContents at h ⊢
  cases hf : w.find O with
  | none => simp [hf] at h
  | some c => exact ⟨c, rfl, rfl⟩

theorem find_isSome_of_outer {w : World} {O S : Nat} (h : GetOuterWebContents w S = some O) :
    ∃ c, w.find S = some c ∧ c.node_.outer_web_contents_ = some O := by
  unfold GetOuterWebContents at h
  cases hf : w.find S with
  | none => simp [hf] at h
  | some c => exact ⟨c, rfl, by simpa [hf] using h⟩

theorem DetachInnerWebContents_of_loop {w : World} {O S : Nat} {r : List Nat}
    (h : detachInnerLoop S (innerWebContents w O) = some r) :
    DetachInnerWebContents w O S = (w.modify O (setInner r), some S) := by
  simp [DetachInnerWebContents, h]

theorem find_AttachInnerWebContents (w : World) (O S : Nat) (F : Int) (x : Nat) :
    (AttachInnerWebContents w O S F).find x =
      ((w.modify S (attachedNode O F)).modify O (pushInner S)).find x := rfl

theorem DisconnectFromOuterWebContents_snd {w : World} {O S : Nat} {r : List Nat}
    (hS : GetOuterWebContents w S = some O)
    (h : detachInnerLoop S (innerWebContents w O) = some r) :
    (DisconnectFromOuterWebContents w S).2 = some S := by
  simp [DisconnectFromOuterWebContents, hS, DetachInnerWebContents_of_loop h]

theorem find_DisconnectFromOuterWebContents {w : World} {O S : Nat} {r : List Nat}
    (hS : GetOuterWebContents w S = some O)
    (h : detachInnerLoop S (innerWebContents w O) = some r) (x : Nat) :
    (DisconnectFromOuterWebContents w S).1.find x =
      ((w.modify O (setInner r)).modify S disconnectedNode).find x := by
  simp only [DisconnectFromOuterWebContents, hS, DetachInnerWebContents_of_loop h]
  rw [find_modify, find_modify]
  rfl

theorem find_DetachFromOuterWebContents {w : World} {O S : Nat} {r : List Nat}
    (hS : GetOuterWebContents w S = some O)
    (h : detachInnerLoop S (innerWebContents w O) = some r) (x : Nat) :
    (DetachFromOuterWebContents w S).1.find x =
      (((w.modify O (setInner r)).modify S disconnectedNode).modify S (fun c =>
        { c with node_ := { c.node_ with focused_web_contents_ := some S } })).find x := by
  simp only [DetachFromOuterWebContents, SetFocusedWebContents]
  rw [find_modify, find_modify, find_DisconnectFromOuterWebContents hS h]

theorem find?_append_singleton (p : Nat → Bool) (S : Nat) :
    ∀ (l : List Nat), (∀ x ∈ l, x ≠ S → p x = false) → p S = true →
      (l ++ [S]).find? p = some S := by
  intro l
  induction l with
  | nil => intro _ hS; simp [hS]
  | cons a l ih =>
    intro h hS
    by_cases ha : a = S
    · subst ha; simp [hS]
    · have hpa : p a = false := h a (List.mem_cons_self _ _) ha
      simp only [List.cons_append, List.find?_cons, hpa]
      exact ih (fun x hx => h x (List.mem_cons_of_mem _ hx)) hS

/-- Claim C8.  After `O.AttachInnerWebContents(S, F)` on live sessions `S ≠ O`, where
no other inner session of `O` is hosted at the frame slot `F`: the outer session
of `S` is `O`, its frame-slot id is `F`, the inner collection of `O` is the
former one with `S` appended, `GetInnerWebContentsInFrame(F)` on `O` returns
`S`, and the focused-session pointer of `S` is null. -/
theorem C8_attach_effects (w : World) (O S : Nat) (F : Int)
    (hS : w.live S = true) (hO : w.live O = true) (hne : S ≠ O)
    (hfree : ∀ x ∈ innerWebContents w O, x ≠ S → outerContentsFrameTreeNodeId w x ≠ F) :
    GetOuterWebContents (AttachInnerWebContents w O S F) S = some O ∧
    outerContentsFrameTreeNodeId (AttachInnerWebContents w O S F) S = F ∧
    innerWebContents (AttachInnerWebContents w O S F) O = innerWebContents w O ++ [S] ∧
    GetInnerWebContentsInFrame (AttachInnerWebContents w O S F) O F = some S ∧
    focusedWebContents (AttachInnerWebContents w O S F) S = none := by
  have hne2 : O ≠ S := fun e => hne e.symm
  obtain ⟨cS, hcS⟩ : ∃ c, w.find S = some c := Option.isSome_iff_exists.1 hS
  obtain ⟨cO, hcO⟩ : ∃ c, w.find O = some c := Option.isSome_iff_exists.1 hO
  have hfind : ∀ x, (AttachInnerWebContents w O S F).find x =
      (if x = O then (w.find x).map (pushInner S)
       else if x = S then (w.find x).map (attachedNode O F) else w.find x) := by
    intro x
    rw [find_AttachInnerWebContents, find_modify, find_modify]
    by_cases hxO : x = O
    · subst hxO; simp [hne2]
    · simp [hxO]
  have hfS : (AttachInnerWebContents w O S F).find S = some (attachedNode O F cS) := by
    rw [hfind S]; simp [hne, hcS]
  have hfO : (AttachInnerWebContents w O S F).find O = some (pushInner S cO) := by
    rw [hfind O]; simp [hcO]
  have hftnS : outerContentsFrameTreeNodeId (AttachInnerWebContents w O S F) S = F := by
    simp [outerContentsFrameTreeNodeId, hfS, attachedNode]
  have hinner : innerWebContents (AttachInnerWebContents w O S F) O =
      innerWebContents w O ++ [S] := by
    simp [innerWebContents, hfO, hcO, pushInner]
  refine ⟨?_, hftnS, hinner, ?_, ?_⟩
  · simp [GetOuterWebContents, hfS, attachedNode]
  · unfold GetInnerWebContentsInFrame
    rw [hinner]
    apply find?_append_singleton
    · intro x hx hxS
      have hftn : outerContentsFrameTreeNodeId (AttachInnerWebContents w O S F) x =
          outerContentsFrameTreeNodeId w x := by
        unfold outerContentsFrameTreeNodeId
        rw [hfind x]
        by_cases hxO : x = O
        · subst hxO; simp [hcO, pushInner]
        · simp [hxO, hxS]
      rw [hftn]
      simpa using hfree x hx hxS
    · simp [hftnS]
  · simp [focusedWebContents, hfS, attachedNode]

/-- On `treeWorld`, attaching the stand-alone session `4` to `0` at the free frame
slot `14`. -/
theorem C8_attach_effects_witness :
    (treeWorld.live 4 = true ∧ treeWorld.live 0 = true ∧
      ∀ x ∈ innerWebContents treeWorld 0, x ≠ 4 →
        outerContentsFrameTreeNodeId treeWorld x ≠ 14) ∧
    GetOuterWebContents (AttachInnerWebContents treeWorld 0 4 14) 4 = some 0 ∧
    outerContentsFrameTreeNodeId (AttachInnerWebContents treeWorld 0 4 14) 4 = 14 ∧
    innerWebContents (AttachInnerWebContents treeWorld 0 4 14) 0 =
      innerWebContents treeWorld 0 ++ [4] ∧
    GetInnerWebContentsInFrame (AttachInnerWebContents treeWorld 0 4 14) 0 14 = some 4 ∧
    focusedWebContents (AttachInnerWebContents treeWorld 0 4 14) 4 = none :=
  ⟨by decide,
   C8_attach_effects treeWorld 0 4 14 (by decide) (by decide) (by decide) (by decide)⟩

/-- Claim C9.  Detaching an inner session `S` attached to `O` (`O` owns it once),
by `DisconnectFromOuterWebContents` or `DetachFromOuterWebContents`: the
returned session is `S`, afterwards `S` has no outer session and the invalid
frame-slot id, the inner collection of `O` holds exactly its former members
other than `S`, each once, and no `GetInnerWebContentsInFrame` on `O` (for `F`
or any other slot) returns `S`. -/
theorem C9_detach_effects (w : World) (O S : Nat)
    (hS : GetOuterWebContents w S = some O)
    (hmem : S ∈ innerWebContents w O) (hne : S ≠ O)
    (hnd : (innerWebContents w O).Nodup) :
    ∀ d, (d = DisconnectFromOuterWebContents w S ∨ d = DetachFromOuterWebContents w S) →
      d.2 = some S ∧
      GetOuterWebContents d.1 S = none ∧
      outerContentsFrameTreeNodeId d.1 S = kFrameTreeNodeInvalidId ∧
      (∀ x, x ∈ innerWebContents d.1 O ↔ x ∈ innerWebContents w O ∧ x ≠ S) ∧
      (innerWebContents d.1 O).Nodup ∧
      (S :: innerWebContents d.1 O).Perm (innerWebContents w O) ∧
      (∀ ftn_id, GetInnerWebContentsInFrame d.1 O ftn_id ≠ some S) := by
  obtain ⟨r, hr⟩ := detachInnerLoop_isSome S _ hmem
  obtain ⟨cO, hcO, hinO⟩ := find_isSome_of_mem_inner hmem
  obtain ⟨cS, hcS, houtS⟩ := find_isSome_of_outer hS
  have hperm := detachInnerLoop_perm S _ r hr
  obtain ⟨hrnd, hSr, hrmem⟩ := detachInnerLoop_nodup S _ r hr hnd
  have hne2 : O ≠ S := fun e => hne e.symm
  intro d hd
  have hsnd : d.2 = some S := by
    rcases hd with rfl | rfl
    · exact DisconnectFromOuterWebContents_snd hS hr
    · simp only [DetachFromOuterWebContents]
      exact DisconnectFromOuterWebContents_snd hS hr
  have hfO : d.1.find O = some (setInner r cO) := by
    rcases hd with rfl | rfl
    · rw [find_DisconnectFromOuterWebContents hS hr, find_modify, find_modify]
      simp [hne2, hcO]
    · rw [find_DetachFromOuterWebContents hS hr, find_modify, find_modify, find_modify]
      simp [hne2, hcO]
  have hfS : ∃ c, d.1.find S = some c ∧ c.node_.outer_web_contents_ = none ∧
      c.node_.outer_contents_frame_tree_node_id_ = kFrameTreeNodeInvalidId := by
    rcases hd with rfl | rfl
    · refine ⟨disconnectedNode cS, ?_, rfl, rfl⟩
      rw [find_DisconnectFromOuterWebContents hS hr, find_modify, find_modify]
      simp [hne, hcS]
    · refine ⟨{ disconnectedNode cS with node_ :=
          { (disconnectedNode cS).node_ with focused_web_contents_ := some S } }, ?_, rfl, rfl⟩
      rw [find_DetachFromOuterWebContents hS hr, find_modify, find_modify, find_modify]
      simp only [if_true, hne, if_false, hcS, Option.map_some']
  obtain ⟨c2, hc2, hout2, hftn2⟩ := hfS
  have hinner : innerWebContents d.1 O = r := by
    simp [innerWebContents, hfO, setInner]
  refine ⟨hsnd, ?_, ?_, ?_, ?_, ?_, ?_⟩
  · simp [GetOuterWebContents, hc2, hout2]
  · simp [outerContentsFrameTreeNodeId, hc2, hftn2]
  · rw [hinner]; exact hrmem
  · rw [hinner]; exact hrnd
  · rw [hinner]; exact hperm
  · intro ftn_id hfound
    unfold GetInnerWebContentsInFrame at hfound
    rw [hinner] at hfound
    exact hSr (List.mem_of_find?_eq_some hfound)

/-- On `treeWorld`, detaching the inner session `1` from `0`. -/
theorem C9_detach_effects_witness :
    (GetOuterWebContents treeWorld 1 = some 0 ∧ 1 ∈ innerWebContents treeWorld 0 ∧
      (innerWebContents treeWorld 0).Nodup) ∧
    (DetachFromOuterWebContents treeWorld 1).2 = some 1 ∧
    GetOuterWebContents (DetachFromOuterWebContents treeWorld 1).1 1 = none ∧
    outerContentsFrameTreeNodeId (DetachFromOuterWebContents treeWorld 1).1 1 =
      kFrameTreeNodeInvalidId ∧
    GetInnerWebContentsInFrame (DetachFromOuterWebContents treeWorld 1).1 0 11 ≠ some 1 :=
  ⟨by decide,
   (C9_detach_effects treeWorld 0 1 (by decide) (by decide) (by decide) (by decide)
     _ (Or.inr rfl)).1,
   (C9_detach_effects treeWorld 0 1 (by decide) (by decide) (by decide) (by decide)
     _ (Or.inr rfl)).2.1,
   (C9_detach_effects treeWorld 0 1 (by decide) (by decide) (by decide) (by decide)
     _ (Or.inr rfl)).2.2.1,
   (C9_detach_effects treeWorld 0 1 (by decide) (by decide) (by decide) (by decide)
     _ (Or.inr rfl)).2.2.2.2.2.2 11⟩

theorem OnFrameTreeNodeDestroyed_eq {w : World} {O S : Nat} {r : List Nat}
    (hS : GetOuterWebContents w S = some O)
    (h : detachInnerLoop S (innerWebContents w O) = some r) :
    OnFrameTreeNodeDestroyed w S = DestroyWebContents (w.modify O (setInner r)) S := by
  simp [OnFrameTreeNodeDestroyed, hS, DetachInnerWebContents_of_loop h]

/-- Claim C10.  When the frame node hosting the inner session `S` of `O` is destroyed,
`OnFrameTreeNodeDestroyed` performs the detach of an explicit call (the inner
collection of `O` ends as after `DisconnectFromOuterWebContents`): `S` is no
longer in the inner collection of `O`, every other inner session still is, no
`GetInnerWebContentsInFrame` on `O` returns `S`, and `S`, whose returned owning
pointer is dropped, is destroyed. -/
theorem C10_frame_node_destroyed_detaches (w : World) (O S : Nat)
    (hS : GetOuterWebContents w S = some O)
    (hmem : S ∈ innerWebContents w O) (hne : S ≠ O)
    (hnd : (innerWebContents w O).Nodup) :
    innerWebContents (OnFrameTreeNodeDestroyed w S) O =
      innerWebContents (DisconnectFromOuterWebContents w S).1 O ∧
    S ∉ innerWebContents (OnFrameTreeNodeDestroyed w S) O ∧
    (∀ x, x ≠ S → x ∈ innerWebContents w O →
      x ∈ innerWebContents (OnFrameTreeNodeDestroyed w S) O) ∧
    (∀ ftn_id, GetInnerWebContentsInFrame (OnFrameTreeNodeDestroyed w S) O ftn_id ≠ some S) ∧
    (OnFrameTreeNodeDestroyed w S).live S = false := by
  obtain ⟨r, hr⟩ := detachInnerLoop_isSome S _ hmem
  obtain ⟨cO, hcO, hinO⟩ := find_isSome_of_mem_inner hmem
  obtain ⟨hrnd, hSr, hrmem⟩ := detachInnerLoop_nodup S _ r hr hnd
  have hne2 : O ≠ S := fun e => hne e.symm
  have hinner : innerWebContents (OnFrameTreeNodeDestroyed w S) O = r := by
    rw [OnFrameTreeNodeDestroyed_eq hS hr]
    unfold innerWebContents
    rw [find_DestroyWebContents, find_modify]
    simp [hne2, hcO, setInner]
  have hinner2 : innerWebContents (DisconnectFromOuterWebContents w S).1 O = r := by
    unfold innerWebContents
    rw [find_DisconnectFromOuterWebContents hS hr, find_modify, find_modify]
    simp [hne2, hcO, setInner]
  refine ⟨by rw [hinner, hinner2], by rw [hinner]; exact hSr, ?_, ?_, ?_⟩
  · intro x hx hxm
    rw [hinner]
    exact (hrmem x).2 ⟨hxm, hx⟩
  · intro ftn_id hfound
    unfold GetInnerWebContentsInFrame at hfound
    rw [hinner] at hfound
    exact hSr (List.mem_of_find?_eq_some hfound)
  · rw [OnFrameTreeNodeDestroyed_eq hS hr, live_DestroyWebContents]
    simp

/-- On `treeWorld`, the frame node `12` hosting the inner session `2` goes away. -/
theorem C10_frame_node_destroyed_detaches_witness :
    (GetOuterWebContents treeWorld 2 = some 0 ∧ 2 ∈ innerWebContents treeWorld 0 ∧
      (innerWebContents treeWorld 0).Nodup) ∧
    2 ∉ innerWebContents (OnFrameTreeNodeDestroyed treeWorld 2) 0 ∧
    3 ∈ innerWebContents (OnFrameTreeNodeDestroyed treeWorld 2) 0 ∧
    GetInnerWebContentsInFrame (OnFrameTreeNodeDestroyed treeWorld 2) 0 12 ≠ some 2 :=
  ⟨by decide,
   (C10_frame_node_destroyed_detaches treeWorld 0 2 (by decide) (by decide) (by decide)
     (by decide)).2.1,
   (C10_frame_node_destroyed_detaches treeWorld 0 2 (by decide) (by decide) (by decide)
     (by decide)).2.2.1 3 (by decide) (by decide),
   (C10_frame_node_destroyed_detaches treeWorld 0 2 (by decide) (by decide) (by decide)
     (by decide)).2.2.2.1 12⟩


/-! ## Focus: the chain of outer sessions -/

theorem lt_length_of_live {w : World} {x : Nat} (h : w.live x = true) :
    x < w.contents.length := by
  by_contra hx
  have : w.find x = none := by
    simp only [World.find, List.getD_eq_getElem?_getD]
    rw [List.getElem?_eq_none (by omega)]
    rfl
  simp [World.live, this] at h

theorem live_of_outer {w : World} {x y : Nat} (h : GetOuterWebContents w x = some y) :
    w.live x = true := by
  obtain ⟨c, hc, _⟩ := find_isSome_of_outer h
  simp [World.live, hc]

theorem OuterLinksDescend.descend {w : World} {depth : Nat → Nat} (h : OuterLinksDescend w depth)
    {x y : Nat} (hxy : GetOuterWebContents w x = some y) :
    w.live y = true ∧ depth y < depth x :=
  h x (lt_length_of_live (live_of_outer hxy)) y hxy

theorem OuterLinksDescend.of_topology {w w2 : World} {depth : Nat → Nat}
    (h : OuterLinksDescend w depth) (ht : SameTopology w w2) : OuterLinksDescend w2 depth := by
  intro x _ y hy
  have hy2 : GetOuterWebContents w x = some y := by rw [← ht.outer_eq]; exact hy
  have := h.descend hy2
  exact ⟨by rw [ht.live_eq]; exact this.1, this.2⟩

theorem OuterLinksDescend.transGen {w : World} {depth : Nat → Nat}
    (h : OuterLinksDescend w depth) {a b : Nat}
    (hab : Relation.TransGen (fun x y => GetOuterWebContents w x = some y) a b) :
    w.live b = true ∧ depth b < depth a := by
  induction hab with
  | single h1 => exact h.descend h1
  | tail _ h2 ih => exact ⟨(h.descend h2).1, lt_trans (h.descend h2).2 ih.2⟩

/-- A rank that decreases along the outer links can be chosen below the size of
the arena. -/
theorem OuterLinksDescend.exists_bounded {w : World} {depth : Nat → Nat}
    (h : OuterLinksDescend w depth) :
    ∃ d : Nat → Nat, OuterLinksDescend w d ∧ ∀ x, d x < w.contents.length + 1 := by
  classical
  refine ⟨fun x => ((Finset.range w.contents.length).filter (fun y =>
    Relation.TransGen (fun a b => GetOuterWebContents w a = some b) x y)).card, ?_, ?_⟩
  · intro x _ y hy
    have hxy : GetOuterWebContents w x = some y := hy
    refine ⟨(h.descend hxy).1, ?_⟩
    apply Finset.card_lt_card
    rw [Finset.ssubset_iff_of_subset]
    · refine ⟨y, ?_, ?_⟩
      · simp only [Finset.mem_filter, Finset.mem_range]
        exact ⟨lt_length_of_live (h.descend hxy).1, Relation.TransGen.single hxy⟩
      · simp only [Finset.mem_filter, Finset.mem_range, not_and]
        intro _ hyy
        exact absurd (h.transGen hyy).2 (lt_irrefl _)
    · intro z hz
      simp only [Finset.mem_filter, Finset.mem_range] at hz ⊢
      exact ⟨hz.1, Relation.TransGen.head hxy hz.2⟩
  · intro x
    exact Nat.lt_succ_of_le ((Finset.card_filter_le _ _).trans (by simp))

theorem GetOutermostWebContentsLoop_congr {w w2 : World} (h : SameTopology w w2) :
    ∀ (fuel x : Nat),
      GetOutermostWebContentsLoop w2 fuel x = GetOutermostWebContentsLoop w fuel x := by
  intro fuel
  induction fuel with
  | zero => intro x; rfl
  | succ n ih =>
    intro x
    simp only [GetOutermostWebContentsLoop, h.outer_eq]
    cases GetOuterWebContents w x with
    | none => rfl
    | some y => exact ih y

theorem GetOutermostWebContents_congr {w w2 : World} (h : SameTopology w w2) (x : Nat) :
    GetOutermostWebContents w2 x = GetOutermostWebContents w x := by
  simp only [GetOutermostWebContents, GetOutermostWebContentsRun, h.length_eq,
    GetOutermostWebContentsLoop_congr h]

/-- The loop of `GetOutermostWebContents` returns once the fuel exceeds the rank
of the start, and what it returns is the end of the chain of outer links. -/
theorem GetOutermostWebContentsLoop_spec {w : World} {depth : Nat → Nat}
    (h : OuterLinksDescend w depth) :
    ∀ (fuel x : Nat), depth x < fuel →
      ∃ r, GetOutermostWebContentsLoop w fuel x = some r ∧
        GetOuterWebContents w r = none ∧
        Relation.ReflTransGen (fun a b => GetOuterWebContents w a = some b) x r ∧
        (w.live x = true → w.live r = true) := by
  intro fuel
  induction fuel with
  | zero => intro x hx; omega
  | succ n ih =>
    intro x hx
    cases hxy : GetOuterWebContents w x with
    | none =>
      exact ⟨x, by simp [GetOutermostWebContentsLoop, hxy], hxy, Relation.ReflTransGen.refl,
        fun hl => hl⟩
    | some y =>
      have hy := h.descend hxy
      obtain ⟨r, hr1, hr2, hr3, hr4⟩ := ih y (by omega)
      exact ⟨r, by simp [GetOutermostWebContentsLoop, hxy, hr1], hr2,
        Relation.ReflTransGen.head hxy hr3, fun _ => hr4 hy.1⟩

theorem GetOutermostWebContents_spec {w : World} {depth : Nat → Nat}
    (h : OuterLinksDescend w depth) (x : Nat) :
    GetOutermostWebContentsRun w x = some (GetOutermostWebContents w x) ∧
      GetOuterWebContents w (GetOutermostWebContents w x) = none ∧
      Relation.ReflTransGen (fun a b => GetOuterWebContents w a = some b) x
        (GetOutermostWebContents w x) ∧
      (w.live x = true → w.live (GetOutermostWebContents w x) = true) := by
  obtain ⟨d, hd, hb⟩ := h.exists_bounded
  obtain ⟨r, hr1, hr⟩ := GetOutermostWebContentsLoop_spec hd (w.contents.length + 1) x (hb x)
  have hrun : GetOutermostWebContentsRun w x = some r := hr1
  have hget : GetOutermostWebContents w x = r := by simp [GetOutermostWebContents, hrun]
  rw [hget]
  exact ⟨hrun, hr⟩

theorem GetOutermostWebContents_of_no_outer {w : World} {x : Nat}
    (h : GetOuterWebContents w x = none) : GetOutermostWebContents w x = x := by
  simp [GetOutermostWebContents, GetOutermostWebContentsRun, GetOutermostWebContentsLoop, h]

theorem GetOutermostWebContents_of_outer {w : World} {depth : Nat → Nat}
    (h : OuterLinksDescend w depth) {x y : Nat} (hxy : GetOuterWebContents w x = some y) :
    GetOutermostWebContents w x = GetOutermostWebContents w y := by
  obtain ⟨d, hd, hb⟩ := h.exists_bounded
  have hy := hd.descend hxy
  obtain ⟨r, hr1, _⟩ := GetOutermostWebContentsLoop_spec hd (w.contents.length) y
    (by have := hb x; omega)
  obtain ⟨r2, hr2, _⟩ := GetOutermostWebContentsLoop_spec hd (w.contents.length + 1) y (hb y)
  have hx : GetOutermostWebContentsLoop w (w.contents.length + 1) x = some r := by
    simp [GetOutermostWebContentsLoop, hxy, hr1]
  -- the loop gives the same answer with more fuel
  have hmono : ∀ (fuel z : Nat) (s : Nat), GetOutermostWebContentsLoop w fuel z = some s →
      GetOutermostWebContentsLoop w (fuel + 1) z = some s := by
    intro fuel
    induction fuel with
    | zero => intro z s hz; simp [GetOutermostWebContentsLoop] at hz
    | succ n ih =>
      intro z s hz
      rw [GetOutermostWebContentsLoop] at hz ⊢
      cases hzo : GetOuterWebContents w z with
      | none => simpa [hzo] using hz
      | some o =>
        simp only [hzo] at hz ⊢
        exact ih o s hz
  have := hmono _ _ _ hr1
  rw [hr2] at this
  simp only [GetOutermostWebContents, GetOutermostWebContentsRun, hx, hr2, Option.getD_some]
  exact (Option.some.inj this).symm


/-! ## Focus: changes that leave the session tree alone -/

theorem SameUpToFocusedFrame.reflexive (w : World) : SameUpToFocusedFrame w w :=
  ⟨rfl, fun _ => rfl, rfl, rfl, rfl, rfl⟩

theorem SameUpToFocusedFrame.transitive {w1 w2 w3 : World} (h12 : SameUpToFocusedFrame w1 w2)
    (h23 : SameUpToFocusedFrame w2 w3) : SameUpToFocusedFrame w1 w3 :=
  ⟨h23.length_eq.trans h12.length_eq, fun x => (h23.find_eq x).trans (h12.find_eq x),
    h23.fullscreen_eq.trans h12.fullscreen_eq, h23.screen_eq.trans h12.screen_eq,
    h23.observers_eq.trans h12.observers_eq, h23.calls_eq.trans h12.calls_eq⟩

theorem SameUpToFocusedFrame.field {w w2 : World} (h : SameUpToFocusedFrame w w2)
    {α : Type} (g : WebContentsImpl → α) (hg : ∀ c, g (eraseFocusedFrame c) = g c) (x : Nat) :
    (w2.find x).map g = (w.find x).map g := by
  have := congrArg (Option.map g) (h.find_eq x)
  simp only [Option.map_map] at this
  have hcomp : g ∘ eraseFocusedFrame = g := funext hg
  rwa [hcomp] at this

theorem SameUpToFocusedFrame.node {w w2 : World} (h : SameUpToFocusedFrame w w2) (x : Nat) :
    (w2.find x).map (fun c => c.node_) = (w.find x).map (fun c => c.node_) :=
  h.field (fun c => c.node_) (fun _ => rfl) x

theorem SameUpToFocusedFrame.live {w w2 : World} (h : SameUpToFocusedFrame w w2) (x : Nat) :
    w2.live x = w.live x := by
  have := h.find_eq x
  unfold World.live
  cases h2 : w2.find x <;> cases h1 : w.find x <;> simp [h1, h2] at this ⊢

theorem SameUpToFocusedFrame.outer {w w2 : World} (h : SameUpToFocusedFrame w w2) (x : Nat) :
    GetOuterWebContents w2 x = GetOuterWebContents w x := by
  have := h.node x
  unfold GetOuterWebContents
  cases h2 : w2.find x <;> cases h1 : w.find x <;> simp [h1, h2] at this ⊢
  rw [this]

theorem SameUpToFocusedFrame.focused {w w2 : World} (h : SameUpToFocusedFrame w w2) (x : Nat) :
    focusedWebContents w2 x = focusedWebContents w x := by
  have := h.node x
  unfold focusedWebContents
  cases h2 : w2.find x <;> cases h1 : w.find x <;> simp [h1, h2] at this ⊢
  rw [this]

theorem SameUpToFocusedFrame.inner {w w2 : World} (h : SameUpToFocusedFrame w w2) (x : Nat) :
    innerWebContents w2 x = innerWebContents w x := by
  have := h.node x
  unfold innerWebContents
  cases h2 : w2.find x <;> cases h1 : w.find x <;> simp [h1, h2] at this ⊢
  rw [this]

theorem SameUpToFocusedFrame.frameId {w w2 : World} (h : SameUpToFocusedFrame w w2) (x : Nat) :
    outerContentsFrameTreeNodeId w2 x = outerContentsFrameTreeNodeId w x := by
  have := h.node x
  unfold outerContentsFrameTreeNodeId
  cases h2 : w2.find x <;> cases h1 : w.find x <;> simp [h1, h2] at this ⊢
  rw [this]

theorem SameUpToFocusedFrame.opener {w w2 : World} (h : SameUpToFocusedFrame w w2) (x : Nat) :
    GetOriginalOpener w2 x = GetOriginalOpener w x := by
  have := h.field (fun c => c.original_opener) (fun _ => rfl) x
  unfold GetOriginalOpener
  cases h2 : w2.find x <;> cases h1 : w.find x <;> simp [h1, h2] at this ⊢
  exact this

theorem SameUpToFocusedFrame.topology {w w2 : World} (h : SameUpToFocusedFrame w w2) :
    SameTopology w w2 :=
  ⟨h.length_eq, h.live, h.opener, h.outer⟩

theorem SameUpToFocusedFrame.send {w : World} (m : RendererMessage) :
    SameUpToFocusedFrame w (w.send m) :=
  ⟨rfl, fun _ => rfl, rfl, rfl, rfl, rfl⟩

theorem SameUpToFocusedFrame.setFocusedFrame (w : World) (id : Nat) (node : Int) :
    SameUpToFocusedFrame w (FrameTreeSetFocusedFrame w id node) := by
  unfold FrameTreeSetFocusedFrame
  refine ⟨length_modify _ _ _, ?_, by simp, by simp, by simp, by simp⟩
  intro x
  rw [find_modify]
  split_ifs <;> cases w.find x <;> simp [eraseFocusedFrame]

theorem find_FrameTreeSetFocusedFrame_of_ne (w : World) (id x : Nat) (node : Int) (h : x ≠ id) :
    (FrameTreeSetFocusedFrame w id node).find x = w.find x := by
  unfold FrameTreeSetFocusedFrame
  rw [find_modify, if_neg h]

theorem focusedFrame_FrameTreeSetFocusedFrame (w : World) (id : Nat) (node : Int)
    (h : w.live id = true) : focusedFrame (FrameTreeSetFocusedFrame w id node) id = node := by
  unfold focusedFrame FrameTreeSetFocusedFrame
  rw [find_modify, if_pos rfl]
  unfold World.live at h
  cases hf : w.find id with
  | none => simp [hf] at h
  | some c => simp

theorem sent_messages_FrameTreeSetFocusedFrame (w : World) (id : Nat) (node : Int) :
    (FrameTreeSetFocusedFrame w id node).sent_messages = w.sent_messages := by
  simp [FrameTreeSetFocusedFrame]


/-! ## `FocusOuterAttachmentFrameChain` -/

theorem OuterOf.congr {w w2 : World} (h : SameTopology w w2) (a b : Nat) :
    OuterOf w2 a b ↔ OuterOf w a b := by
  unfold OuterOf
  rw [h.outer_eq]

theorem ReflTransGen_OuterOf_congr {w w2 : World} (h : SameTopology w w2) (a b : Nat) :
    Relation.ReflTransGen (OuterOf w2) a b ↔ Relation.ReflTransGen (OuterOf w) a b := by
  have : OuterOf w2 = OuterOf w := by
    funext x y
    exact propext (OuterOf.congr h x y)
  rw [this]

/-- The recursion of `FocusOuterAttachmentFrameChain` returns once the fuel
exceeds the rank of the start.  It changes focused frames only: each session
hosting a member of the outer chain of `x` gets as focused frame the frame tree
node that hosts that member; the calls it sends are `SetFocusedFrame` on proxies
of members of the chain. -/
theorem FocusOuterAttachmentFrameChainLoop_spec {depth : Nat → Nat} :
    ∀ (fuel : Nat) (w : World) (x : Nat), OuterLinksDescend w depth → depth x < fuel →
      ∃ w2, FocusOuterAttachmentFrameChainLoop fuel w x = some w2 ∧
        SameUpToFocusedFrame w w2 ∧
        (∃ mid, w2.sent_messages = w.sent_messages ++ mid ∧
          ∀ m ∈ mid, ∃ c, m = RendererMessage.ProxySetFocusedFrame c ∧
            Relation.ReflTransGen (OuterOf w) x c) ∧
        (∀ a b, Relation.ReflTransGen (OuterOf w) x a → OuterOf w a b →
          focusedFrame w2 b = outerContentsFrameTreeNodeId w a) ∧
        (∀ z, ¬ Relation.TransGen (OuterOf w) x z → w2.find z = w.find z) := by
  intro fuel
  induction fuel with
  | zero => intro w x _ hx; omega
  | succ n ih =>
    intro w x hwf hx
    cases hxy : GetOuterWebContents w x with
    | none =>
      refine ⟨w, by simp [FocusOuterAttachmentFrameChainLoop, hxy],
        SameUpToFocusedFrame.reflexive w, ⟨[], by simp, by simp⟩, ?_, fun _ _ => rfl⟩
      intro a b hxa hab
      cases hxa using Relation.ReflTransGen.head_induction_on with
      | refl => unfold OuterOf at hab; rw [hxy] at hab; cases hab
      | head h1 _ => unfold OuterOf at h1; rw [hxy] at h1; cases h1
    | some y =>
      have hy := hwf.descend hxy
      -- the world after the body of this activation
      have hs1 := SameUpToFocusedFrame.setFocusedFrame w y (outerContentsFrameTreeNodeId w x)
      obtain ⟨w1, hw1, hs, hmsg1, hfind1⟩ : ∃ w1,
          (if GetProxyToOuterDelegate
              (FrameTreeSetFocusedFrame w y (outerContentsFrameTreeNodeId w x)) x = true then
            (FrameTreeSetFocusedFrame w y (outerContentsFrameTreeNodeId w x)).send
              (RendererMessage.ProxySetFocusedFrame x)
          else FrameTreeSetFocusedFrame w y (outerContentsFrameTreeNodeId w x)) = w1 ∧
          SameUpToFocusedFrame w w1 ∧
          (∃ mid, w1.sent_messages = w.sent_messages ++ mid ∧
            ∀ m ∈ mid, m = RendererMessage.ProxySetFocusedFrame x) ∧
          (∀ z, w1.find z = (FrameTreeSetFocusedFrame w y
            (outerContentsFrameTreeNodeId w x)).find z) := by
        split_ifs
        · exact ⟨_, rfl, hs1.transitive (SameUpToFocusedFrame.send _),
            ⟨[RendererMessage.ProxySetFocusedFrame x],
              by simp [World.send, sent_messages_FrameTreeSetFocusedFrame], by simp⟩,
            fun _ => rfl⟩
        · exact ⟨_, rfl, hs1, ⟨[], by simp [sent_messages_FrameTreeSetFocusedFrame], by simp⟩,
            fun _ => rfl⟩
      have ht := hs.topology
      obtain ⟨w2, hw2, hs2, ⟨mid2, hmid2, hmid2c⟩, hff, hkeep⟩ :=
        ih w1 y (hwf.of_topology ht) (by omega)
      obtain ⟨mid1, hmid1, hmid1c⟩ := hmsg1
      have hloop : FocusOuterAttachmentFrameChainLoop (n + 1) w x = some w2 := by
        rw [FocusOuterAttachmentFrameChainLoop]
        simp only [hxy]
        rw [hw1]
        exact hw2
      have hirr : ∀ z, ¬ Relation.TransGen (OuterOf w) z z := fun z hz =>
        absurd (hwf.transGen hz).2 (lt_irrefl _)
      have hchain : ∀ {a b : Nat}, Relation.TransGen (OuterOf w1) a b ↔
          Relation.TransGen (OuterOf w) a b := by
        intro a b
        have : OuterOf w1 = OuterOf w := by
          funext p q
          exact propext (OuterOf.congr ht p q)
        rw [this]
      refine ⟨w2, hloop, hs.transitive hs2, ⟨mid1 ++ mid2, ?_, ?_⟩, ?_, ?_⟩
      · rw [hmid2, hmid1, List.append_assoc]
      · intro m hm
        rcases List.mem_append.1 hm with hm | hm
        · exact ⟨x, hmid1c m hm, Relation.ReflTransGen.refl⟩
        · obtain ⟨c, hc, hyc⟩ := hmid2c m hm
          exact ⟨c, hc, Relation.ReflTransGen.head hxy
            ((ReflTransGen_OuterOf_congr ht y c).1 hyc)⟩
      · intro a b hxa hab
        cases hxa using Relation.ReflTransGen.head_induction_on with
        | refl =>
          have hby : b = y := by
            unfold OuterOf at hab
            rw [hxy] at hab
            exact (Option.some.inj hab).symm
          subst hby
          have hkeepy : w2.find b = w1.find b :=
            hkeep b (fun hbb => hirr b (hchain.1 hbb))
          have : focusedFrame w2 b = focusedFrame w1 b := by
            unfold focusedFrame; rw [hkeepy]
          rw [this]
          have : focusedFrame w1 b =
              focusedFrame (FrameTreeSetFocusedFrame w b (outerContentsFrameTreeNodeId w x)) b := by
            unfold focusedFrame; rw [hfind1]
          rw [this]
          exact focusedFrame_FrameTreeSetFocusedFrame w b _ hy.1
        | @head x2 c h1 h2 _ =>
          have hcy : c = y := by
            unfold OuterOf at h1
            rw [hxy] at h1
            exact (Option.some.inj h1).symm
          subst hcy
          rw [hff a b ((ReflTransGen_OuterOf_congr ht c a).2 h2) ((OuterOf.congr ht a b).2 hab),
            hs.frameId]
      · intro z hz
        have hzy : z ≠ y := by
          rintro rfl
          exact hz (Relation.TransGen.single hxy)
        have h1 : w2.find z = w1.find z := by
          apply hkeep
          intro hyz
          exact hz (Relation.TransGen.head hxy (hchain.1 hyz))
        rw [h1, hfind1, find_FrameTreeSetFocusedFrame_of_ne _ _ _ _ hzy]

theorem FocusOuterAttachmentFrameChain_spec {w : World} {depth : Nat → Nat}
    (hwf : OuterLinksDescend w depth) (x : Nat) :
    FocusOuterAttachmentFrameChainRun w x = some (FocusOuterAttachmentFrameChain w x) ∧
      SameUpToFocusedFrame w (FocusOuterAttachmentFrameChain w x) ∧
      (∃ mid, (FocusOuterAttachmentFrameChain w x).sent_messages = w.sent_messages ++ mid ∧
        ∀ m ∈ mid, ∃ c, m = RendererMessage.ProxySetFocusedFrame c ∧
          Relation.ReflTransGen (OuterOf w) x c) ∧
      (∀ a b, Relation.ReflTransGen (OuterOf w) x a → OuterOf w a b →
        focusedFrame (FocusOuterAttachmentFrameChain w x) b =
          outerContentsFrameTreeNodeId w a) ∧
      (∀ z, ¬ Relation.TransGen (OuterOf w) x z →
        (FocusOuterAttachmentFrameChain w x).find z = w.find z) := by
  obtain ⟨d, hd, hb⟩ := hwf.exists_bounded
  obtain ⟨w2, hw2, h⟩ :=
    FocusOuterAttachmentFrameChainLoop_spec (w.contents.length + 1) w x hd (hb x)
  have hrun : FocusOuterAttachmentFrameChainRun w x = some w2 := hw2
  have hget : FocusOuterAttachmentFrameChain w x = w2 := by
    simp [FocusOuterAttachmentFrameChain, hrun]
  rw [hget]
  exact ⟨hrun, h⟩


/-! ## `SetAsFocusedWebContentsIfNecessary` -/

theorem SetFocusedWebContents_topology (w : World) (id : Nat) (p : Option Nat) :
    SameTopology w (SetFocusedWebContents w id p) :=
  SameTopology.modify w id _ (fun _ => rfl) (fun _ => rfl)

theorem focusedWebContents_SetFocusedWebContents (w : World) (id x : Nat) (p : Option Nat) :
    focusedWebContents (SetFocusedWebContents w id p) x =
      if x = id ∧ w.live id = true then p else focusedWebContents w x := by
  unfold SetFocusedWebContents
  rw [focusedWebContents_modify]
  unfold focusedWebContents World.live
  by_cases hx : x = id
  · subst hx
    cases w.find x <;> simp
  · simp [hx]

theorem outerContentsFrameTreeNodeId_SetFocusedWebContents (w : World) (id x : Nat)
    (p : Option Nat) :
    outerContentsFrameTreeNodeId (SetFocusedWebContents w id p) x =
      outerContentsFrameTreeNodeId w x := by
  unfold SetFocusedWebContents
  rw [outerContentsFrameTreeNodeId_modify]
  unfold outerContentsFrameTreeNodeId
  split_ifs <;> cases w.find x <;> rfl

theorem focusedFrame_SetFocusedWebContents (w : World) (id x : Nat) (p : Option Nat) :
    focusedFrame (SetFocusedWebContents w id p) x = focusedFrame w x := by
  unfold SetFocusedWebContents focusedFrame
  rw [find_modify]
  split_ifs <;> cases w.find x <;> rfl

theorem sent_messages_SetFocusedWebContents (w : World) (id : Nat) (p : Option Nat) :
    (SetFocusedWebContents w id p).sent_messages = w.sent_messages := by
  simp [SetFocusedWebContents]

theorem SetAsFocusedWebContentsIfNecessary_of_focused {w : World} {S : Nat}
    (h : GetFocusedWebContents w S = some S) :
    SetAsFocusedWebContentsIfNecessary w S = w := by
  simp [SetAsFocusedWebContentsIfNecessary, h]

/-- The world after the blur of `SetAsFocusedWebContentsIfNecessary`. -/
theorem blur_sameUpToFocusedFrame (w : World) (old : Option Nat) :
    SameUpToFocusedFrame w
      (match old with
        | some o => w.send (RendererMessage.SetPageFocus o false)
        | none => w) ∧
    (match old with
        | some o => w.send (RendererMessage.SetPageFocus o false)
        | none => w).sent_messages =
      w.sent_messages ++ (old.map (fun o => RendererMessage.SetPageFocus o false)).toList := by
  cases old with
  | none => exact ⟨SameUpToFocusedFrame.reflexive w, by simp⟩
  | some o => exact ⟨SameUpToFocusedFrame.send _, by simp [World.send]⟩

/-- What `SetAsFocusedWebContentsIfNecessary` does on a session that is not the
focused one. -/
theorem SetAsFocusedWebContentsIfNecessary_spec {w : World} {depth : Nat → Nat}
    (hwf : OuterLinksDescend w depth) {S : Nat} (hS : w.live S = true)
    (hne : GetFocusedWebContents w S ≠ some S) :
    SameTopology w (SetAsFocusedWebContentsIfNecessary w S) ∧
      (∀ x, focusedWebContents (SetAsFocusedWebContentsIfNecessary w S) x =
        if x = GetOutermostWebContents w S then some S else focusedWebContents w x) ∧
      (∃ mid, (SetAsFocusedWebContentsIfNecessary w S).sent_messages =
        w.sent_messages ++
          ((GetFocusedWebContents w S).map
            (fun o => RendererMessage.SetPageFocus o false)).toList ++ mid ++
          [RendererMessage.SetPageFocus S true] ∧
        ∀ m ∈ mid, ∃ c, m = RendererMessage.ProxySetFocusedFrame c ∧
          Relation.ReflTransGen (OuterOf w) S c) ∧
      (∀ a b, Relation.ReflTransGen (OuterOf w) S a → OuterOf w a b →
        focusedFrame (SetAsFocusedWebContentsIfNecessary w S) b =
          outerContentsFrameTreeNodeId w a) ∧
      (∀ z, ¬ Relation.TransGen (OuterOf w) S z →
        focusedFrame (SetAsFocusedWebContentsIfNecessary w S) z = focusedFrame w z) := by
  have hroot := (GetOutermostWebContents_spec hwf S).2.2.2 hS
  have ht1 := SetFocusedWebContents_topology w (GetOutermostWebContents w S) (some S)
  obtain ⟨hb1, hb2⟩ := blur_sameUpToFocusedFrame
    (SetFocusedWebContents w (GetOutermostWebContents w S) (some S)) (GetFocusedWebContents w S)
  have ht2 := ht1.trans hb1.topology
  obtain ⟨_, hc1, ⟨mid, hmid, hmidc⟩, hc3, hc4⟩ :=
    FocusOuterAttachmentFrameChain_spec (hwf.of_topology ht2) S
  have hdef : SetAsFocusedWebContentsIfNecessary w S =
      (FocusOuterAttachmentFrameChain
        (match GetFocusedWebContents w S with
          | some o => (SetFocusedWebContents w (GetOutermostWebContents w S) (some S)).send
              (RendererMessage.SetPageFocus o false)
          | none => SetFocusedWebContents w (GetOutermostWebContents w S) (some S)) S).send
        (RendererMessage.SetPageFocus S true) := by
    simp only [SetAsFocusedWebContentsIfNecessary, if_neg hne]
  rw [hdef]
  have hs3 := hb1.transitive (hc1.transitive (SameUpToFocusedFrame.send (RendererMessage.SetPageFocus S true)))
  refine ⟨ht1.trans hs3.topology, ?_, ⟨mid, ?_, ?_⟩, ?_, ?_⟩
  · intro x
    rw [hs3.focused, focusedWebContents_SetFocusedWebContents]
    simp [hroot]
  · have h5 : ∀ (v : World) (m : RendererMessage),
        (v.send m).sent_messages = v.sent_messages ++ [m] := fun _ _ => rfl
    rw [h5, hmid, hb2, sent_messages_SetFocusedWebContents]
  · intro m hm
    obtain ⟨c, hc, hSc⟩ := hmidc m hm
    exact ⟨c, hc, (ReflTransGen_OuterOf_congr ht2 S c).1 hSc⟩
  · intro a b hSa hab
    have h1 := hc3 a b ((ReflTransGen_OuterOf_congr ht2 S a).2 hSa) ((OuterOf.congr ht2 a b).2 hab)
    have h2 : outerContentsFrameTreeNodeId
        (match GetFocusedWebContents w S with
          | some o => (SetFocusedWebContents w (GetOutermostWebContents w S) (some S)).send
              (RendererMessage.SetPageFocus o false)
          | none => SetFocusedWebContents w (GetOutermostWebContents w S) (some S)) a =
        outerContentsFrameTreeNodeId w a := by
      rw [hb1.frameId, outerContentsFrameTreeNodeId_SetFocusedWebContents]
    rw [← h2, ← h1]
    rfl
  · intro z hz
    have hz2 : ¬ Relation.TransGen (OuterOf
        (match GetFocusedWebContents w S with
          | some o => (SetFocusedWebContents w (GetOutermostWebContents w S) (some S)).send
              (RendererMessage.SetPageFocus o false)
          | none => SetFocusedWebContents w (GetOutermostWebContents w S) (some S))) S z := by
      have : OuterOf
        (match GetFocusedWebContents w S with
          | some o => (SetFocusedWebContents w (GetOutermostWebContents w S) (some S)).send
              (RendererMessage.SetPageFocus o false)
          | none => SetFocusedWebContents w (GetOutermostWebContents w S) (some S)) =
          OuterOf w := by
        funext p q
        exact propext (OuterOf.congr ht2 p q)
      rw [this]
      exact hz
    have h1 := hc4 z hz2
    have h3 : ∀ (v : World) (m : RendererMessage), focusedFrame (v.send m) z = focusedFrame v z :=
      fun _ _ => rfl
    rw [h3]
    unfold focusedFrame
    rw [h1]
    have h4 : ∀ v : World, focusedFrame
        (match GetFocusedWebContents w S with
          | some o => v.send (RendererMessage.SetPageFocus o false)
          | none => v) z = focusedFrame v z := by
      intro v
      cases GetFocusedWebContents w S <;> rfl
    have := h4 (SetFocusedWebContents w (GetOutermostWebContents w S) (some S))
    rw [focusedFrame_SetFocusedWebContents] at this
    exact this

theorem GetFocusedWebContents_congr {w w2 : World} (ht : SameTopology w w2)
    (hf : ∀ x, focusedWebContents w2 x = focusedWebContents w x) (x : Nat) :
    GetFocusedWebContents w2 x = GetFocusedWebContents w x := by
  unfold GetFocusedWebContents
  rw [GetOutermostWebContents_congr ht, hf]


/-! ## Claims on focus -/

/-- Claim C11.  Focus bookkeeping lives on the outermost session only.  In a
forest of sessions, for a live session `S`: the loop of
`GetOutermostWebContents` returns, and what it returns has no outer session;
`GetFocusedWebContents(S)` is the focused-session pointer stored there; a
session and its outer session have the same outermost session, so all sessions
with the same outermost session report the same focused session; and
`SetAsFocusedWebContentsIfNecessary` on `S` leaves the pointer of every session
other than the outermost one, hence of every inner session, as it was. -/
theorem C11_focus_kept_on_outermost (w : World) (depth : Nat → Nat) (S : Nat)
    (hwf : OuterLinksDescend w depth) (hS : w.live S = true) :
    GetOutermostWebContentsRun w S = some (GetOutermostWebContents w S) ∧
    GetOuterWebContents w (GetOutermostWebContents w S) = none ∧
    GetFocusedWebContents w S = focusedWebContents w (GetOutermostWebContents w S) ∧
    (∀ T O, OuterOf w T O →
      GetOutermostWebContents w T = GetOutermostWebContents w O ∧
      GetFocusedWebContents w T = GetFocusedWebContents w O) ∧
    (∀ T, GetOutermostWebContents w T = GetOutermostWebContents w S →
      GetFocusedWebContents w T = GetFocusedWebContents w S) ∧
    (∀ x, x ≠ GetOutermostWebContents w S →
      focusedWebContents (SetAsFocusedWebContentsIfNecessary w S) x = focusedWebContents w x) ∧
    (∀ x, (GetOuterWebContents w x).isSome = true →
      focusedWebContents (SetAsFocusedWebContentsIfNecessary w S) x =
        focusedWebContents w x) := by
  obtain ⟨h1, h2, _, _⟩ := GetOutermostWebContents_spec hwf S
  have hkeep : ∀ x, x ≠ GetOutermostWebContents w S →
      focusedWebContents (SetAsFocusedWebContentsIfNecessary w S) x =
        focusedWebContents w x := by
    intro x hx
    by_cases hf : GetFocusedWebContents w S = some S
    · rw [SetAsFocusedWebContentsIfNecessary_of_focused hf]
    · rw [(SetAsFocusedWebContentsIfNecessary_spec hwf hS hf).2.1 x, if_neg hx]
  refine ⟨h1, h2, rfl, ?_, ?_, hkeep, ?_⟩
  · intro T O hTO
    have := GetOutermostWebContents_of_outer hwf hTO
    exact ⟨this, by unfold GetFocusedWebContents; rw [this]⟩
  · intro T hT
    unfold GetFocusedWebContents
    rw [hT]
  · intro x hx
    apply hkeep
    rintro rfl
    rw [h2] at hx
    cases hx

theorem C11_focus_kept_on_outermost_witness :
    GetOutermostWebContentsRun focusWorld 1 = some 0 ∧
    GetFocusedWebContents focusWorld 1 = some 0 ∧
    focusedWebContents (SetAsFocusedWebContentsIfNecessary focusWorld 1) 0 = some 1 ∧
    focusedWebContents (SetAsFocusedWebContentsIfNecessary focusWorld 1) 1 = none ∧
    (∀ x, (GetOuterWebContents focusWorld x).isSome = true →
      focusedWebContents (SetAsFocusedWebContentsIfNecessary focusWorld 1) x =
        focusedWebContents focusWorld x) :=
  ⟨by decide, by decide, by decide, by decide,
    (C11_focus_kept_on_outermost focusWorld treeDepth 1 (by decide) (by decide)).2.2.2.2.2.2⟩

/-- Claim C13.  In a forest of sessions, `SetAsFocusedWebContentsIfNecessary` on a
live session `S` changes nothing when `S` is already the focused session.
Otherwise `GetFocusedWebContents()` is `S` afterwards; the calls sent are a
`SetPageFocus(false)` to the session focused before (when there was one), then
only `SetFocusedFrame` calls on proxies of sessions on the outer chain of `S`,
and last `SetPageFocus(true)` to `S`; and every session hosting a member of
the outer chain of `S` has as focused frame the frame tree node hosting that
member.  A second call changes nothing. -/
theorem C13_SetAsFocusedWebContentsIfNecessary_effects (w : World) (depth : Nat → Nat) (S : Nat)
    (hwf : OuterLinksDescend w depth) (hS : w.live S = true) :
    (GetFocusedWebContents w S = some S → SetAsFocusedWebContentsIfNecessary w S = w) ∧
    (GetFocusedWebContents w S ≠ some S →
      GetFocusedWebContents (SetAsFocusedWebContentsIfNecessary w S) S = some S ∧
      (∃ mid, (SetAsFocusedWebContentsIfNecessary w S).sent_messages =
        w.sent_messages ++
          ((GetFocusedWebContents w S).map
            (fun o => RendererMessage.SetPageFocus o false)).toList ++ mid ++
          [RendererMessage.SetPageFocus S true] ∧
        ∀ m ∈ mid, ∃ c, m = RendererMessage.ProxySetFocusedFrame c ∧
          Relation.ReflTransGen (OuterOf w) S c) ∧
      (∀ a b, Relation.ReflTransGen (OuterOf w) S a → OuterOf w a b →
        focusedFrame (SetAsFocusedWebContentsIfNecessary w S) b =
          outerContentsFrameTreeNodeId w a)) ∧
    SetAsFocusedWebContentsIfNecessary (SetAsFocusedWebContentsIfNecessary w S) S =
      SetAsFocusedWebContentsIfNecessary w S := by
  have hafter : GetFocusedWebContents w S ≠ some S →
      GetFocusedWebContents (SetAsFocusedWebContentsIfNecessary w S) S = some S := by
    intro hne
    obtain ⟨ht, hf, _⟩ := SetAsFocusedWebContentsIfNecessary_spec hwf hS hne
    unfold GetFocusedWebContents
    rw [GetOutermostWebContents_congr ht, hf, if_pos rfl]
  refine ⟨SetAsFocusedWebContentsIfNecessary_of_focused, ?_, ?_⟩
  · intro hne
    obtain ⟨_, _, hm, hff, _⟩ := SetAsFocusedWebContentsIfNecessary_spec hwf hS hne
    exact ⟨hafter hne, hm, hff⟩
  · by_cases hf : GetFocusedWebContents w S = some S
    · rw [SetAsFocusedWebContentsIfNecessary_of_focused hf,
        SetAsFocusedWebContentsIfNecessary_of_focused hf]
    · exact SetAsFocusedWebContentsIfNecessary_of_focused (hafter hf)

theorem C13_SetAsFocusedWebContentsIfNecessary_effects_witness :
    (SetAsFocusedWebContentsIfNecessary focusWorld 1).sent_messages =
      [RendererMessage.SetPageFocus 0 false, RendererMessage.ProxySetFocusedFrame 1,
        RendererMessage.SetPageFocus 1 true] ∧
    focusedFrame (SetAsFocusedWebContentsIfNecessary focusWorld 1) 0 = 11 ∧
    GetFocusedWebContents (SetAsFocusedWebContentsIfNecessary focusWorld 1) 1 = some 1 ∧
    SetAsFocusedWebContentsIfNecessary (SetAsFocusedWebContentsIfNecessary focusWorld 1) 1 =
      SetAsFocusedWebContentsIfNecessary focusWorld 1 :=
  ⟨by decide, by decide,
    ((C13_SetAsFocusedWebContentsIfNecessary_effects focusWorld treeDepth 1 (by decide)
      (by decide)).2.1 (by decide)).1,
    (C13_SetAsFocusedWebContentsIfNecessary_effects focusWorld treeDepth 1 (by decide)
      (by decide)).2.2⟩


/-! ## `SetFocusedFrame` -/

theorem GetInnerWebContentsInFrame_congr {w w2 : World} (h : SameUpToFocusedFrame w w2)
    (this : Nat) (node : Int) :
    GetInnerWebContentsInFrame w2 this node = GetInnerWebContentsInFrame w this node := by
  unfold GetInnerWebContentsInFrame
  rw [h.inner]
  congr 1
  funext impl
  rw [h.frameId]

theorem GetFocusedWebContents_sameUpTo {w w2 : World} (h : SameUpToFocusedFrame w w2)
    (x : Nat) : GetFocusedWebContents w2 x = GetFocusedWebContents w x :=
  GetFocusedWebContents_congr h.topology h.focused x

/-- After `SetAsFocusedWebContentsIfNecessary` on a live session `I`, every
session with the same outermost session reports `I` as the focused session. -/
theorem GetFocusedWebContents_SetAsFocused {w : World} {depth : Nat → Nat}
    (hwf : OuterLinksDescend w depth) {I : Nat} (hI : w.live I = true) (T : Nat)
    (hT : GetOutermostWebContents w T = GetOutermostWebContents w I) :
    GetFocusedWebContents (SetAsFocusedWebContentsIfNecessary w I) T = some I := by
  by_cases hf : GetFocusedWebContents w I = some I
  · rw [SetAsFocusedWebContentsIfNecessary_of_focused hf]
    unfold GetFocusedWebContents at hf ⊢
    rw [hT]
    exact hf
  · obtain ⟨ht, hfoc, _⟩ := SetAsFocusedWebContentsIfNecessary_spec hwf hI hf
    unfold GetFocusedWebContents
    rw [GetOutermostWebContents_congr ht, hfoc, hT, if_pos rfl]

theorem focusedFrame_SetAsFocused_of_not_chain {w : World} {depth : Nat → Nat}
    (hwf : OuterLinksDescend w depth) {I : Nat} (hI : w.live I = true) (z : Nat)
    (hz : ¬ Relation.TransGen (OuterOf w) I z) :
    focusedFrame (SetAsFocusedWebContentsIfNecessary w I) z = focusedFrame w z := by
  by_cases hf : GetFocusedWebContents w I = some I
  · rw [SetAsFocusedWebContentsIfNecessary_of_focused hf]
  · exact (SetAsFocusedWebContentsIfNecessary_spec hwf hI hf).2.2.2.2 z hz

theorem focusedFrame_SetAsFocused_of_outer {w : World} {depth : Nat → Nat}
    (hwf : OuterLinksDescend w depth) {I S : Nat} (hI : OuterOf w I S)
    (hS : focusedFrame w S = outerContentsFrameTreeNodeId w I) :
    focusedFrame (SetAsFocusedWebContentsIfNecessary w I) S =
      outerContentsFrameTreeNodeId w I := by
  by_cases hf : GetFocusedWebContents w I = some I
  · rw [SetAsFocusedWebContentsIfNecessary_of_focused hf, hS]
  · exact (SetAsFocusedWebContentsIfNecessary_spec hwf (live_of_outer hI) hf).2.2.2.1 I S
      Relation.ReflTransGen.refl hI

/-- Claim C14.  In a forest of sessions whose inner-session lists agree with the
outer links, `SetFocusedFrame(node, source)` on a live session `S` leaves `node`
as the focused frame of `S`, and the focused session reported by `S`
afterwards is: (2) when `node` hosts an inner session `I`: `I` if `S` was the
focused session, else the one before; (3) else, when the frame hosting `S`
exists and its site instance is `source`: `S` if the focused session was the
outer session of `S`, else the one before; (4) else, when `S` has no outer
session: `S`; and in every other case the one before. -/
theorem C14_SetFocusedFrame_cases (siteInstanceOfNode : Int → Option Nat) (w : World)
    (depth : Nat → Nat) (S : Nat) (node : Int) (source : Option Nat)
    (hwf : OuterLinksDescend w depth) (hS : w.live S = true)
    (hinner : ∀ I ∈ innerWebContents w S, GetOuterWebContents w I = some S) :
    focusedFrame (SetFocusedFrame siteInstanceOfNode w S node source) S = node ∧
    GetFocusedWebContents (SetFocusedFrame siteInstanceOfNode w S node source) S =
      (match GetInnerWebContentsInFrame w S node with
        | some I => if GetFocusedWebContents w S = some S then some I
            else GetFocusedWebContents w S
        | none =>
          if (siteInstanceOfNode (outerContentsFrameTreeNodeId w S)).isSome = true ∧
              siteInstanceOfNode (outerContentsFrameTreeNodeId w S) = source then
            if GetFocusedWebContents w S = GetOuterWebContents w S then some S
            else GetFocusedWebContents w S
          else if GetOuterWebContents w S = none then some S
          else GetFocusedWebContents w S) := by
  have hs0 := SameUpToFocusedFrame.setFocusedFrame w S node
  have hwf0 := hwf.of_topology hs0.topology
  have hS0 : (FrameTreeSetFocusedFrame w S node).live S = true := by rw [hs0.live]; exact hS
  have hff0 : focusedFrame (FrameTreeSetFocusedFrame w S node) S = node :=
    focusedFrame_FrameTreeSetFocusedFrame w S node hS
  have hirr : ¬ Relation.TransGen (OuterOf (FrameTreeSetFocusedFrame w S node)) S S :=
    fun h => absurd (hwf0.transGen h).2 (lt_irrefl _)
  have hself : focusedFrame (SetAsFocusedWebContentsIfNecessary
      (FrameTreeSetFocusedFrame w S node) S) S = node := by
    rw [focusedFrame_SetAsFocused_of_not_chain hwf0 hS0 S hirr, hff0]
  have hselfF : GetFocusedWebContents (SetAsFocusedWebContentsIfNecessary
      (FrameTreeSetFocusedFrame w S node) S) S = some S :=
    GetFocusedWebContents_SetAsFocused hwf0 hS0 S rfl
  unfold SetFocusedFrame
  simp only [GetInnerWebContentsInFrame_congr hs0, GetFocusedWebContents_sameUpTo hs0,
    hs0.frameId, hs0.outer]
  cases hin : GetInnerWebContentsInFrame w S node with
  | some I =>
    have hmem : I ∈ innerWebContents w S := List.mem_of_find?_eq_some hin
    have hid : outerContentsFrameTreeNodeId w I = node := by
      have := List.find?_some hin
      simpa using this
    have hIS := hinner I hmem
    have hIS0 : OuterOf (FrameTreeSetFocusedFrame w S node) I S := by
      unfold OuterOf; rw [hs0.outer]; exact hIS
    simp only []
    by_cases hf : GetFocusedWebContents w S = some S
    · simp only [hf, if_true]
      constructor
      · rw [focusedFrame_SetAsFocused_of_outer hwf0 hIS0 (by rw [hff0, hs0.frameId, hid]),
          hs0.frameId, hid]
      · exact GetFocusedWebContents_SetAsFocused hwf0 (live_of_outer hIS0) S
          (GetOutermostWebContents_of_outer hwf0 hIS0).symm
    · simp only [hf, if_false]
      exact ⟨hff0, GetFocusedWebContents_sameUpTo hs0 S⟩
  | none =>
    simp only []
    cases hsite : siteInstanceOfNode (outerContentsFrameTreeNodeId w S) with
    | none =>
      have hno : ¬ ((none : Option Nat).isSome = true ∧ none = source) := by
        rintro ⟨h, _⟩; cases h
      simp only [hno, if_false]
      cases hout : GetOuterWebContents w S with
      | none => simpa using ⟨hself, hselfF⟩
      | some O => simpa using ⟨hff0, GetFocusedWebContents_sameUpTo hs0 S⟩
    | some site =>
      simp only []
      by_cases hsrc : some site = source
      · subst hsrc
        have hyes : (some site).isSome = true ∧ some site = some site := ⟨rfl, rfl⟩
        simp only [hyes, if_true]
        by_cases hf : GetFocusedWebContents w S = GetOuterWebContents w S
        · simp only [hf, if_true]
          exact ⟨hself, hselfF⟩
        · simp only [hf, if_false]
          exact ⟨hff0, GetFocusedWebContents_sameUpTo hs0 S⟩
      · have hno : ¬ ((some site).isSome = true ∧ some site = source) := fun h => hsrc h.2
        simp only [hsrc, hno, if_false]
        cases hout : GetOuterWebContents w S with
        | none => simpa using ⟨hself, hselfF⟩
        | some O => simpa using ⟨hff0, GetFocusedWebContents_sameUpTo hs0 S⟩

theorem C14_SetFocusedFrame_cases_witness :
    focusedFrame (SetFocusedFrame (fun _ => none) focusWorld 0 11 none) 0 = 11 ∧
    GetFocusedWebContents (SetFocusedFrame (fun _ => none) focusWorld 0 11 none) 0 = some 1 ∧
    GetFocusedWebContents (SetFocusedFrame (fun _ => none) focusWorld 4 40 none) 4 = some 4 ∧
    GetFocusedWebContents (SetFocusedFrame (fun _ => some 7) focusWorld 2 20 (some 7)) 2 =
      some 2 ∧
    GetFocusedWebContents (SetFocusedFrame (fun _ => some 7) focusWorld 2 20 (some 8)) 2 =
      some 0 :=
  ⟨(C14_SetFocusedFrame_cases (fun _ => none) focusWorld treeDepth 0 11 none (by decide)
      (by decide) (by decide)).1, by decide, by decide, by decide, by decide⟩


/-- Claim C12.  Evaluation of the code where focus uniqueness fails: in the tree of
the outer session `0` with the focused inner session `1`, the destructor of `1`
would hand the focus back to `0`, but `1.DetachFromOuterWebContents()` leaves
the pointer of `0` at `1`, which is then the outermost session of another tree;
afterwards no session of the tree of `0` contains or is the focused session. -/
theorem C12_detach_leaves_focus_outside_tree :
    GetFocusedWebContents innerFocusedWorld 0 = some 1 ∧
    ContainsOrIsFocusedWebContents innerFocusedWorld 0 = true ∧
    ContainsOrIsFocusedWebContents innerFocusedWorld 1 = true ∧
    GetFocusedWebContents (destructorUnsetFocus innerFocusedWorld 1) 0 = some 0 ∧
    GetOuterWebContents (DetachFromOuterWebContents innerFocusedWorld 1).1 1 = none ∧
    innerWebContents (DetachFromOuterWebContents innerFocusedWorld 1).1 0 = [3, 2] ∧
    GetFocusedWebContents (DetachFromOuterWebContents innerFocusedWorld 1).1 0 = some 1 ∧
    (∀ x ∈ [0, 2, 3],
      GetOutermostWebContents (DetachFromOuterWebContents innerFocusedWorld 1).1 x = 0 ∧
      ContainsOrIsFocusedWebContents (DetachFromOuterWebContents innerFocusedWorld 1).1 x =
        false) := by
  decide


/-! ## The pending registries as maps -/

theorem mapFind_cons {α : Type} (key : GlobalRoutingID) (e : GlobalRoutingID × α)
    (rest : List (GlobalRoutingID × α)) :
    mapFind key (e :: rest) = if e.1 = key then some e.2 else mapFind key rest := by
  unfold mapFind
  rw [List.find?_cons]
  by_cases h : e.1 = key
  · simp [h]
  · have h2 : (e.1 == key) = false := by simpa using h
    simp [h, h2]

theorem mapErase_cons {α : Type} (key : GlobalRoutingID) (e : GlobalRoutingID × α)
    (rest : List (GlobalRoutingID × α)) :
    mapErase key (e :: rest) = if e.1 = key then mapErase key rest else e :: mapErase key rest := by
  unfold mapErase
  rw [List.filter_cons]
  by_cases h : e.1 = key
  · simp [h]
  · simp [h]

theorem mapFind_mapErase_self {α : Type} (key : GlobalRoutingID)
    (m : List (GlobalRoutingID × α)) : mapFind key (mapErase key m) = none := by
  induction m with
  | nil => rfl
  | cons e rest ih =>
    rw [mapErase_cons]
    split_ifs with h
    · exact ih
    · rw [mapFind_cons, if_neg h, ih]

theorem mapFind_mapErase_ne {α : Type} {key k : GlobalRoutingID} (hk : k ≠ key)
    (m : List (GlobalRoutingID × α)) : mapFind k (mapErase key m) = mapFind k m := by
  induction m with
  | nil => rfl
  | cons e rest ih =>
    rw [mapErase_cons, mapFind_cons]
    split_ifs with h1 h2 h2
    · exact absurd (h2.symm.trans h1) hk
    · exact ih
    · rw [mapFind_cons, if_pos h2]
    · rw [mapFind_cons, if_neg h2, ih]

theorem mapErase_of_absent {α : Type} {key : GlobalRoutingID} {m : List (GlobalRoutingID × α)}
    (h : mapFind key m = none) : mapErase key m = m := by
  unfold mapFind at h
  unfold mapErase
  rw [List.filter_eq_self]
  intro e he
  simp only [Option.map_eq_none', List.find?_eq_none] at h
  have := h e he
  simpa using this

theorem mapFind_mapAssign_self {α : Type} (key : GlobalRoutingID) (v : α)
    (m : List (GlobalRoutingID × α)) : mapFind key (mapAssign key v m) = some v := by
  induction m with
  | nil => simp [mapAssign, mapFind_cons]
  | cons e rest ih =>
    obtain ⟨k, x⟩ := e
    unfold mapAssign
    split_ifs with h1 h2
    · simp [mapFind_cons]
    · subst h2; simp [mapFind_cons]
    · rw [mapFind_cons, if_neg (fun h => h2 h.symm), ih]

theorem mapFind_mapAssign_ne {α : Type} {key k : GlobalRoutingID} (hk : k ≠ key) (v : α)
    (m : List (GlobalRoutingID × α)) : mapFind k (mapAssign key v m) = mapFind k m := by
  induction m with
  | nil =>
    simp only [mapAssign, mapFind_cons]
    rw [if_neg (fun h => hk (Eq.symm h))]
  | cons e rest ih =>
    obtain ⟨k2, x⟩ := e
    unfold mapAssign
    split_ifs with h1 h2
    · rw [mapFind_cons, if_neg (fun h => hk (Eq.symm h))]
    · subst h2
      rw [mapFind_cons, mapFind_cons, if_neg (fun h => hk (Eq.symm h)),
        if_neg (fun h => hk (Eq.symm h))]
    · rw [mapFind_cons, mapFind_cons, ih]

theorem GlobalRoutingID.lt_irrefl (a : GlobalRoutingID) : a.lt a = false := by
  simp [GlobalRoutingID.lt]

theorem GlobalRoutingID.lt_trans {a b c : GlobalRoutingID} (hab : a.lt b = true)
    (hbc : b.lt c = true) : a.lt c = true := by
  simp only [GlobalRoutingID.lt, Bool.or_eq_true, decide_eq_true_eq, Bool.and_eq_true] at *
  omega

theorem GlobalRoutingID.ne_of_lt {a b : GlobalRoutingID} (hab : a.lt b = true) : a ≠ b := by
  rintro rfl
  rw [GlobalRoutingID.lt_irrefl] at hab
  cases hab

theorem GlobalRoutingID.lt_of_not_lt {a b : GlobalRoutingID} (h1 : a.lt b = false)
    (h2 : a ≠ b) : b.lt a = true := by
  have h3 : ¬ (a.child_id = b.child_id ∧ a.route_id = b.route_id) := by
    rintro ⟨h4, h5⟩
    apply h2
    cases a; cases b
    simp only at h4 h5
    rw [h4, h5]
  have h6 : ¬ (a.lt b = true) := by rw [h1]; simp
  simp only [GlobalRoutingID.lt, Bool.or_eq_true, decide_eq_true_eq, Bool.and_eq_true] at *
  omega

/-- In a map in key order a key is found at most once: erasing the key of an
entry removes that entry only. -/
theorem mapErase_cons_of_sorted {α : Type} (e : GlobalRoutingID × α)
    (rest : List (GlobalRoutingID × α))
    (h : ((e :: rest).map (fun p => p.1)).Pairwise (fun a b => a.lt b = true)) :
    mapErase e.1 (e :: rest) = rest := by
  unfold mapErase
  simp only [List.map_cons, List.pairwise_cons, List.mem_map, forall_exists_index, and_imp,
    forall_apply_eq_imp_iff₂] at h
  rw [List.filter_cons]
  simp only [bne_self_eq_false, Bool.false_eq_true, if_false]
  rw [List.filter_eq_self]
  intro p hp
  have := GlobalRoutingID.ne_of_lt (h.1 p hp)
  simpa using fun h2 => this h2.symm


/-! ## `OnWebContentsDestroyed` -/

theorem mem_of_mapFind {α : Type} {key : GlobalRoutingID} {v : α}
    {m : List (GlobalRoutingID × α)} (h : mapFind key m = some v) : (key, v) ∈ m := by
  induction m with
  | nil => cases h
  | cons e rest ih =>
    rw [mapFind_cons] at h
    split_ifs at h with h1
    · have : e = (key, v) := by
        obtain ⟨k, x⟩ := e
        simp only at h1
        simp only [Option.some.injEq] at h
        rw [h1, h]
      rw [this]
      exact List.mem_cons_self _ _
    · exact List.mem_cons_of_mem _ (ih h)

theorem nodup_owners_tail {e : GlobalRoutingID × CreatedWindow}
    {rest : List (GlobalRoutingID × CreatedWindow)}
    (h : ((e :: rest).filterMap (fun e => e.2.contents)).Nodup) :
    (rest.filterMap (fun e => e.2.contents)).Nodup :=
  h.sublist ((List.sublist_cons_self e rest).filterMap _)

theorem owner_not_in_tail {e : GlobalRoutingID × CreatedWindow}
    {rest : List (GlobalRoutingID × CreatedWindow)} {C : Nat}
    (h : ((e :: rest).filterMap (fun e => e.2.contents)).Nodup)
    (hc : e.2.contents = some C) : ∀ p ∈ rest, p.2.contents ≠ some C := by
  intro p hp hpc
  simp only [List.filterMap_cons, hc, List.nodup_cons] at h
  exact h.1 (List.mem_filterMap.2 ⟨p, hp, hpc⟩)

theorem erasePendingContents_eq_filter (C : Nat) (m : List (GlobalRoutingID × CreatedWindow))
    (h : (m.filterMap (fun e => e.2.contents)).Nodup) :
    erasePendingContents C m = m.filter (fun e => e.2.contents != some C) := by
  induction m with
  | nil => rfl
  | cons e rest ih =>
    unfold erasePendingContents
    by_cases hc : e.2.contents = some C
    · rw [if_neg (not_not.2 hc), List.filter_cons]
      simp only [hc, bne_self_eq_false, Bool.false_eq_true, if_false]
      rw [List.filter_eq_self.2]
      intro p hp
      have : p.2.contents ≠ some C := owner_not_in_tail h hc p hp
      simpa using this
    · rw [if_pos hc, List.filter_cons]
      have hn : (rest.filterMap (fun e => e.2.contents)).Nodup := nodup_owners_tail h
      have hb : (e.2.contents != some C) = true := by simpa using hc
      rw [hb, if_pos rfl, ih hn]

theorem erasePendingContents_eq_mapErase (C : Nat) (m : List (GlobalRoutingID × CreatedWindow))
    (h : PendingContentsOk m) (e : GlobalRoutingID × CreatedWindow) (he : e ∈ m)
    (hc : e.2.contents = some C) : erasePendingContents C m = mapErase e.1 m := by
  induction m with
  | nil => cases he
  | cons a rest ih =>
    have hrest : PendingContentsOk rest :=
      ⟨(List.pairwise_cons.1 h.1).2, nodup_owners_tail h.2⟩
    unfold erasePendingContents
    by_cases hac : a.2.contents = some C
    · have hae : a = e := by
        rcases List.mem_cons.1 he with h1 | h1
        · exact h1.symm
        · exact absurd hc (owner_not_in_tail h.2 hac e h1)
      subst hae
      rw [if_neg (not_not.2 hac), mapErase_cons_of_sorted a rest h.1]
    · have hmem : e ∈ rest := by
        rcases List.mem_cons.1 he with h1 | h1
        · subst h1; exact absurd hc hac
        · exact h1
      have hne : a.1 ≠ e.1 := by
        have h1 := (List.pairwise_cons.1 h.1).1 e.1 (List.mem_map.2 ⟨e, hmem, rfl⟩)
        exact GlobalRoutingID.ne_of_lt h1
      rw [if_pos hac, mapErase_cons, if_neg hne, ih hrest hmem]

theorem length_erasePendingContents (C : Nat) (m : List (GlobalRoutingID × CreatedWindow))
    (h : ∃ e ∈ m, e.2.contents = some C) :
    (erasePendingContents C m).length + 1 = m.length := by
  induction m with
  | nil => obtain ⟨e, he, _⟩ := h; cases he
  | cons a rest ih =>
    unfold erasePendingContents
    by_cases hac : a.2.contents = some C
    · rw [if_neg (not_not.2 hac)]
      rfl
    · rw [if_pos hac]
      obtain ⟨e, he, hc⟩ := h
      have hmem : e ∈ rest := by
        rcases List.mem_cons.1 he with h1 | h1
        · subst h1; exact absurd hc hac
        · exact h1
      simp only [List.length_cons]
      rw [ih ⟨e, hmem, hc⟩]

/-- Claim C16.  With the map `pending_contents_` in key order and no session owned
by two entries, `OnWebContentsDestroyed(C)` leaves the registries as they were
except that the entries whose session is `C` are gone from the map and `C` is
gone from the destruction observers: no entry refers to `C` afterwards, every
other entry and observer is kept; and when `C` is pending under `key`, exactly
that entry is removed. -/
theorem C16_destroyed_pending_contents_removed (reg : WindowOpener) (C : Nat)
    (hok : PendingContentsOk reg.pending_contents_) :
    OnWebContentsDestroyed reg C =
      { reg with
        pending_contents_ := reg.pending_contents_.filter (fun e => e.2.contents != some C)
        destruction_observers_ := flatErase C reg.destruction_observers_ } ∧
    (∀ e ∈ (OnWebContentsDestroyed reg C).pending_contents_, e.2.contents ≠ some C) ∧
    C ∉ (OnWebContentsDestroyed reg C).destruction_observers_ ∧
    (∀ e ∈ reg.pending_contents_, e.2.contents ≠ some C →
      e ∈ (OnWebContentsDestroyed reg C).pending_contents_) ∧
    (∀ x ∈ reg.destruction_observers_, x ≠ C →
      x ∈ (OnWebContentsDestroyed reg C).destruction_observers_) ∧
    (∀ key url, mapFind key reg.pending_contents_ = some ⟨some C, url⟩ →
      (OnWebContentsDestroyed reg C).pending_contents_ = mapErase key reg.pending_contents_ ∧
      mapFind key (OnWebContentsDestroyed reg C).pending_contents_ = none ∧
      (∀ k, k ≠ key → mapFind k (OnWebContentsDestroyed reg C).pending_contents_ =
        mapFind k reg.pending_contents_) ∧
      (OnWebContentsDestroyed reg C).pending_contents_.length + 1 =
        reg.pending_contents_.length) := by
  have hpend : (OnWebContentsDestroyed reg C).pending_contents_ =
      erasePendingContents C reg.pending_contents_ := rfl
  have hobs : (OnWebContentsDestroyed reg C).destruction_observers_ =
      flatErase C reg.destruction_observers_ := rfl
  have hfil := erasePendingContents_eq_filter C reg.pending_contents_ hok.2
  refine ⟨?_, ?_, ?_, ?_, ?_, ?_⟩
  · unfold OnWebContentsDestroyed RemoveDestructionObserver
    simp only [hfil]
  · intro e he
    rw [hpend, hfil] at he
    simpa using (List.mem_filter.1 he).2
  · rw [hobs]
    simp [flatErase]
  · intro e he hc
    rw [hpend, hfil]
    exact List.mem_filter.2 ⟨he, by simpa using hc⟩
  · intro x hx hxc
    rw [hobs]
    exact List.mem_filter.2 ⟨hx, by simpa using hxc⟩
  · intro key url hfind
    have hmem := mem_of_mapFind hfind
    have heq := erasePendingContents_eq_mapErase C reg.pending_contents_ hok _ hmem rfl
    rw [hpend, heq]
    refine ⟨rfl, mapFind_mapErase_self _ _, fun k hk => mapFind_mapErase_ne hk _, ?_⟩
    rw [← heq]
    exact length_erasePendingContents C _ ⟨_, hmem, rfl⟩

theorem C16_destroyed_pending_contents_removed_witness :
    OnWebContentsDestroyed sampleOpener 7 =
      { sampleOpener with
        pending_contents_ := [(⟨5, 2⟩, ⟨some 8, 200⟩)]
        destruction_observers_ := [8] } :=
  (C16_destroyed_pending_contents_removed sampleOpener 7 (by decide)).1


/-! ## `CreateNewWindow`, `GetCreatedWindow`, `ShowCreatedWindow` -/

theorem mem_mapAssign {α : Type} {key : GlobalRoutingID} {v : α}
    {m : List (GlobalRoutingID × α)} {e : GlobalRoutingID × α}
    (h : e ∈ mapAssign key v m) : e = (key, v) ∨ e ∈ m := by
  induction m with
  | nil =>
    simp only [mapAssign, List.mem_singleton] at h
    exact Or.inl h
  | cons a rest ih =>
    obtain ⟨k, x⟩ := a
    unfold mapAssign at h
    split_ifs at h with h1 h2
    · rcases List.mem_cons.1 h with h3 | h3
      · exact Or.inl h3
      · exact Or.inr h3
    · rcases List.mem_cons.1 h with h3 | h3
      · subst h2; exact Or.inl h3
      · exact Or.inr (List.mem_cons_of_mem _ h3)
    · rcases List.mem_cons.1 h with h3 | h3
      · exact Or.inr (h3 ▸ List.mem_cons_self _ _)
      · rcases ih h3 with h4 | h4
        · exact Or.inl h4
        · exact Or.inr (List.mem_cons_of_mem _ h4)

theorem sorted_mapAssign {α : Type} (key : GlobalRoutingID) (v : α)
    (m : List (GlobalRoutingID × α))
    (h : (m.map (fun e => e.1)).Pairwise (fun a b => a.lt b = true)) :
    ((mapAssign key v m).map (fun e => e.1)).Pairwise (fun a b => a.lt b = true) := by
  induction m with
  | nil => simp [mapAssign]
  | cons a rest ih =>
    obtain ⟨k, x⟩ := a
    have hk : ∀ p ∈ rest, k.lt p.1 = true := by
      intro p hp
      exact (List.pairwise_cons.1 h).1 p.1 (List.mem_map.2 ⟨p, hp, rfl⟩)
    have hrest := (List.pairwise_cons.1 h).2
    unfold mapAssign
    split_ifs with h1 h2
    · rw [List.map_cons, List.pairwise_cons]
      refine ⟨?_, h⟩
      intro b hb
      obtain ⟨p, hp, rfl⟩ := List.mem_map.1 hb
      rcases List.mem_cons.1 hp with h3 | h3
      · subst h3; exact h1
      · exact GlobalRoutingID.lt_trans h1 (hk p h3)
    · exact h
    · rw [List.map_cons, List.pairwise_cons]
      refine ⟨?_, ih hrest⟩
      intro b hb
      obtain ⟨p, hp, rfl⟩ := List.mem_map.1 hb
      rcases mem_mapAssign hp with h3 | h3
      · subst h3
        exact GlobalRoutingID.lt_of_not_lt (by simpa using h1) h2
      · exact hk p h3

theorem owners_cons_some {e : GlobalRoutingID × CreatedWindow}
    {rest : List (GlobalRoutingID × CreatedWindow)} {c : Nat} (h : e.2.contents = some c) :
    (e :: rest).filterMap (fun e => e.2.contents) =
      c :: rest.filterMap (fun e => e.2.contents) := by
  simp [List.filterMap_cons, h]

theorem owners_cons_none {e : GlobalRoutingID × CreatedWindow}
    {rest : List (GlobalRoutingID × CreatedWindow)} (h : e.2.contents = none) :
    (e :: rest).filterMap (fun e => e.2.contents) =
      rest.filterMap (fun e => e.2.contents) := by
  simp [List.filterMap_cons, h]

theorem nodup_owners_mapAssign (key : GlobalRoutingID) (v : CreatedWindow) (C : Nat)
    (hv : v.contents = some C) (m : List (GlobalRoutingID × CreatedWindow))
    (h : (m.filterMap (fun e => e.2.contents)).Nodup)
    (hfresh : ∀ e ∈ m, e.2.contents ≠ some C) :
    ((mapAssign key v m).filterMap (fun e => e.2.contents)).Nodup := by
  induction m with
  | nil => simp [mapAssign, hv]
  | cons a rest ih =>
    obtain ⟨k, x⟩ := a
    have hrest := nodup_owners_tail h
    have hfr : ∀ e ∈ rest, e.2.contents ≠ some C :=
      fun e he => hfresh e (List.mem_cons_of_mem _ he)
    unfold mapAssign
    split_ifs with h1 h2
    · rw [owners_cons_some (e := (key, v)) hv, List.nodup_cons]
      refine ⟨?_, h⟩
      intro hmem
      obtain ⟨e, he, hec⟩ := List.mem_filterMap.1 hmem
      exact hfresh e he hec
    · rw [owners_cons_some (e := (k, v)) hv, List.nodup_cons]
      refine ⟨?_, hrest⟩
      intro hmem
      obtain ⟨e, he, hec⟩ := List.mem_filterMap.1 hmem
      exact hfr e he hec
    · cases hx : x.contents with
      | none =>
        rw [owners_cons_none (e := (k, x)) hx]
        exact ih hrest hfr
      | some c =>
        rw [owners_cons_some (e := (k, x)) hx, List.nodup_cons]
        refine ⟨?_, ih hrest hfr⟩
        intro hmem
        obtain ⟨e, he, hec⟩ := List.mem_filterMap.1 hmem
        rcases mem_mapAssign he with h3 | h3
        · subst h3
          have h4 : v.contents = some c := hec
          rw [hv] at h4
          have h5 := hfresh (k, x) (List.mem_cons_self _ _)
          exact h5 (by rw [hx, ← Option.some.inj h4])
        · exact owner_not_in_tail h hx e h3 hec

theorem CreateNewWindow_registered (reg : WindowOpener) (pid rid : Int)
    (params : CreateNewWindowParams) (custom : Option Nat) (new_contents : Nat) (del : Bool)
    (hns : params.opener_suppressed = false) :
    CreateNewWindow reg pid params false custom new_contents rid del =
      (AddDestructionObserver
        { reg with pending_contents_ :=
            (mapAssign ⟨pid, rid⟩ ⟨some new_contents, params.target_url⟩
              reg.pending_contents_) } new_contents,
        some new_contents) := by
  simp [CreateNewWindow, hns]

theorem pending_AddDestructionObserver (reg : WindowOpener) (C : Nat) :
    (AddDestructionObserver reg C).pending_contents_ = reg.pending_contents_ := by
  unfold AddDestructionObserver
  split_ifs <;> rfl

theorem GetCreatedWindow_of_absent (facts : CreatedContentsFacts) (reg : WindowOpener)
    (pid rid : Int) (h : mapFind (⟨pid, rid⟩ : GlobalRoutingID) reg.pending_contents_ = none) :
    GetCreatedWindow facts reg pid rid = (reg, none) := by
  simp [GetCreatedWindow, h]

theorem pending_GetCreatedWindow (facts : CreatedContentsFacts) (reg : WindowOpener)
    (pid rid : Int) :
    (GetCreatedWindow facts reg pid rid).1.pending_contents_ =
      mapErase ⟨pid, rid⟩ reg.pending_contents_ := by
  cases hf : mapFind (⟨pid, rid⟩ : GlobalRoutingID) reg.pending_contents_ with
  | none =>
    rw [GetCreatedWindow_of_absent facts reg pid rid hf]
    exact (mapErase_of_absent hf).symm
  | some result =>
    unfold GetCreatedWindow
    simp only [hf]
    cases hc : result.contents with
    | none => rfl
    | some c =>
      simp only []
      split_ifs <;> rfl

theorem ShowCreatedWindow_of_absent (facts : CreatedContentsFacts) (w : World) (this : Nat)
    (reg : WindowOpener) (pid rid display_id : Int)
    (h : mapFind (⟨pid, rid⟩ : GlobalRoutingID) reg.pending_contents_ = none) :
    ShowCreatedWindow facts w this reg pid rid display_id = (w, reg) := by
  simp [ShowCreatedWindow, GetCreatedWindow_of_absent facts reg pid rid h]

theorem pending_ShowCreatedWindow (facts : CreatedContentsFacts) (w : World) (this : Nat)
    (reg : WindowOpener) (pid rid display_id : Int) :
    (ShowCreatedWindow facts w this reg pid rid display_id).2.pending_contents_ =
      mapErase ⟨pid, rid⟩ reg.pending_contents_ := by
  rw [← pending_GetCreatedWindow facts reg pid rid]
  simp only [ShowCreatedWindow]
  split
  · rfl
  · split
    · rfl
    · split_ifs <;> rfl

/-- A lookup whose session is no guest and has a dead process or no view
returns nothing, after the entry has been erased. -/
theorem GetCreatedWindow_dead (facts : CreatedContentsFacts) (reg : WindowOpener)
    (pid rid : Int) (C url : Nat)
    (h : mapFind (⟨pid, rid⟩ : GlobalRoutingID) reg.pending_contents_ = some ⟨some C, url⟩)
    (hg : facts.is_guest C = false)
    (hd : facts.process_alive C = false ∨ facts.has_view C = false) :
    (GetCreatedWindow facts reg pid rid).2 = none := by
  unfold GetCreatedWindow
  simp only [h, hg]
  rcases hd with hd | hd <;> simp [hd]


theorem length_mapErase_of_sorted {α : Type} {key : GlobalRoutingID} {v : α}
    (m : List (GlobalRoutingID × α))
    (h : (m.map (fun e => e.1)).Pairwise (fun a b => a.lt b = true))
    (hf : mapFind key m = some v) : (mapErase key m).length + 1 = m.length := by
  induction m with
  | nil => cases hf
  | cons e rest ih =>
    by_cases he : e.1 = key
    · subst he
      rw [mapErase_cons_of_sorted e rest h]
      rfl
    · rw [mapFind_cons, if_neg he] at hf
      rw [mapErase_cons, if_neg he, List.length_cons, ih (List.pairwise_cons.1 h).2 hf]
      rfl

theorem PendingWindowConsumed.of_erased (facts : CreatedContentsFacts) (pid rid : Int)
    (reg after : WindowOpener) (v : CreatedWindow)
    (hs : (reg.pending_contents_.map (fun e => e.1)).Pairwise (fun a b => a.lt b = true))
    (hf : mapFind ⟨pid, rid⟩ reg.pending_contents_ = some v)
    (h : after.pending_contents_ = mapErase ⟨pid, rid⟩ reg.pending_contents_) :
    PendingWindowConsumed facts pid rid reg after := by
  have habs : mapFind (⟨pid, rid⟩ : GlobalRoutingID) after.pending_contents_ = none := by
    rw [h]; exact mapFind_mapErase_self _ _
  refine ⟨habs, ?_, ?_, GetCreatedWindow_of_absent facts after pid rid habs,
    fun w this d => ShowCreatedWindow_of_absent facts w this after pid rid d habs⟩
  · intro k hk
    rw [h]
    exact mapFind_mapErase_ne hk _
  · rw [h]
    exact length_mapErase_of_sorted _ hs hf

/-- Claim C15.  Let `CreateNewWindow` (creation not overridden, opener not
suppressed) register the new session under the key of the opener's process id
and the routing id of the main-frame widget, in a map that is in key order and
does not own the new session yet.  Then the key is found with the new session,
and after any one of `GetCreatedWindow`, `ShowCreatedWindow` with that key or
`OnWebContentsDestroyed` of the new session, the entry is consumed: the key is
not found, the other keys are found as before, the map has one entry less, and
a second `GetCreatedWindow` or `ShowCreatedWindow` with the key returns no window
and leaves the registries unchanged.  This holds also when the first lookup
returns nothing because the process of the new session is dead or its main
frame has no view. -/
theorem C15_pending_window_consumed_once (facts : CreatedContentsFacts) (reg0 : WindowOpener)
    (pid rid : Int) (params : CreateNewWindowParams) (custom : Option Nat)
    (new_contents : Nat) (del : Bool)
    (hok : PendingContentsOk reg0.pending_contents_)
    (hfresh : ∀ e ∈ reg0.pending_contents_, e.2.contents ≠ some new_contents)
    (hns : params.opener_suppressed = false) :
    ∀ reg, reg = (CreateNewWindow reg0 pid params false custom new_contents rid del).1 →
      mapFind ⟨pid, rid⟩ reg.pending_contents_ =
        some ⟨some new_contents, params.target_url⟩ ∧
      PendingContentsOk reg.pending_contents_ ∧
      PendingWindowConsumed facts pid rid reg (GetCreatedWindow facts reg pid rid).1 ∧
      (∀ (w : World) (this : Nat) (display_id : Int),
        PendingWindowConsumed facts pid rid reg
          (ShowCreatedWindow facts w this reg pid rid display_id).2) ∧
      PendingWindowConsumed facts pid rid reg (OnWebContentsDestroyed reg new_contents) ∧
      (facts.is_guest new_contents = false →
        facts.process_alive new_contents = false ∨ facts.has_view new_contents = false →
        (GetCreatedWindow facts reg pid rid).2 = none) := by
  intro reg hreg
  rw [CreateNewWindow_registered reg0 pid rid params custom new_contents del hns] at hreg
  have hpend : reg.pending_contents_ =
      mapAssign ⟨pid, rid⟩ ⟨some new_contents, params.target_url⟩ reg0.pending_contents_ := by
    rw [hreg, pending_AddDestructionObserver]
  have hfind : mapFind (⟨pid, rid⟩ : GlobalRoutingID) reg.pending_contents_ =
      some ⟨some new_contents, params.target_url⟩ := by
    rw [hpend]; exact mapFind_mapAssign_self _ _ _
  have hok2 : PendingContentsOk reg.pending_contents_ := by
    rw [hpend]
    exact ⟨sorted_mapAssign _ _ _ hok.1,
      nodup_owners_mapAssign _ _ new_contents rfl _ hok.2 hfresh⟩
  refine ⟨hfind, hok2, ?_, ?_, ?_, ?_⟩
  · exact PendingWindowConsumed.of_erased facts pid rid reg _ _ hok2.1 hfind
      (pending_GetCreatedWindow facts reg pid rid)
  · intro w this d
    exact PendingWindowConsumed.of_erased facts pid rid reg _ _ hok2.1 hfind
      (pending_ShowCreatedWindow facts w this reg pid rid d)
  · exact PendingWindowConsumed.of_erased facts pid rid reg _ _ hok2.1 hfind
      (erasePendingContents_eq_mapErase new_contents reg.pending_contents_ hok2 _
        (mem_of_mapFind hfind) rfl)
  · intro hg hd
    exact GetCreatedWindow_dead facts reg pid rid new_contents params.target_url hfind hg hd

theorem C15_pending_window_consumed_once_witness :
    (GetCreatedWindow sampleFacts
      (GetCreatedWindow sampleFacts
        (CreateNewWindow sampleOpener 5 {} false none 9 3 false).1 5 3).1 5 3).2 = none ∧
    PendingWindowConsumed sampleFacts 5 3
      (CreateNewWindow sampleOpener 5 {} false none 9 3 false).1
      (OnWebContentsDestroyed (CreateNewWindow sampleOpener 5 {} false none 9 3 false).1 9) :=
  ⟨by decide,
    (C15_pending_window_consumed_once sampleFacts sampleOpener 5 3 {} none 9 false
      (by decide) (by decide) rfl _ rfl).2.2.2.2.1⟩


/-- Claim C17.  The claim as stated fails: with `opener_suppressed` and a delegate,
`CreateNewWindow` constructs the new session `9` but inserts no pending entry
and hands the session to `AddNewContents` at once. -/
theorem C17_counterexample_suppressed_opener :
    ¬ (∀ (reg : WindowOpener) (pid rid : Int) (params : CreateNewWindowParams)
        (custom : Option Nat) (new_contents : Nat) (del : Bool),
        mapFind ⟨pid, rid⟩
            (CreateNewWindow reg pid params false custom new_contents rid del).1.pending_contents_ =
          some ⟨some new_contents, params.target_url⟩ ∧
        (CreateNewWindow reg pid params false custom new_contents rid del).1.added_new_contents =
          reg.added_new_contents) := by
  intro h
  have h2 := h sampleOpener 5 3 { opener_suppressed := true } none 9 false
  revert h2
  decide

/-- Claim C17, amended.  A `CreateNewWindow` call whose creation is not overridden:
when the opener is not suppressed, it saves the new session under the key of
the opener's process id and the routing id of the main-frame widget, observes
its destruction, returns it and hands nothing to `AddNewContents`; when the
opener is suppressed, it leaves the pending map and the destruction observers
alone and, with a delegate, hands the new session to `AddNewContents` at once. -/
theorem C17_pending_entry_unless_opener_suppressed (reg : WindowOpener) (pid rid : Int)
    (params : CreateNewWindowParams) (custom : Option Nat) (new_contents : Nat) (del : Bool) :
    (params.opener_suppressed = false →
      mapFind ⟨pid, rid⟩
          (CreateNewWindow reg pid params false custom new_contents rid del).1.pending_contents_ =
        some ⟨some new_contents, params.target_url⟩ ∧
      new_contents ∈
        (CreateNewWindow reg pid params false custom new_contents rid del).1.destruction_observers_ ∧
      (CreateNewWindow reg pid params false custom new_contents rid del).1.added_new_contents =
        reg.added_new_contents ∧
      (CreateNewWindow reg pid params false custom new_contents rid del).2 =
        some new_contents) ∧
    (params.opener_suppressed = true →
      (CreateNewWindow reg pid params false custom new_contents rid del).1.pending_contents_ =
        reg.pending_contents_ ∧
      (CreateNewWindow reg pid params false custom new_contents rid del).1.destruction_observers_ =
        reg.destruction_observers_ ∧
      (CreateNewWindow reg pid params false custom new_contents rid del).1.added_new_contents =
        if reg.has_delegate = true then reg.added_new_contents ++ [new_contents]
        else reg.added_new_contents) := by
  constructor
  · intro hns
    rw [CreateNewWindow_registered reg pid rid params custom new_contents del hns]
    refine ⟨?_, ?_, ?_, rfl⟩
    · rw [pending_AddDestructionObserver]
      exact mapFind_mapAssign_self _ _ _
    · unfold AddDestructionObserver
      split_ifs with h
      · exact h
      · exact (mem_flatInsert _ _ _).2 (Or.inl rfl)
    · unfold AddDestructionObserver
      split_ifs <;> rfl
  · intro hs
    cases hd : reg.has_delegate <;> cases del <;> simp [CreateNewWindow, hs, hd]

theorem C17_pending_entry_unless_opener_suppressed_witness :
    mapFind ⟨5, 3⟩ (CreateNewWindow sampleOpener 5 {} false none 9 3 false).1.pending_contents_ =
      some ⟨some 9, 0⟩ ∧
    (CreateNewWindow sampleOpener 5 { opener_suppressed := true } false none 9 3
      false).1.added_new_contents = [9] :=
  ⟨((C17_pending_entry_unless_opener_suppressed sampleOpener 5 3 {} none 9 false).1 rfl).1,
    by decide⟩

/-! ## `CreateNewWidget` -/

theorem length_mapAssign_of_absent {α : Type} {key : GlobalRoutingID} (v : α)
    (m : List (GlobalRoutingID × α)) (h : mapFind key m = none) :
    (mapAssign key v m).length = m.length + 1 := by
  induction m with
  | nil => rfl
  | cons e rest ih =>
    obtain ⟨k, x⟩ := e
    rw [mapFind_cons] at h
    split_ifs at h with h1
    unfold mapAssign
    split_ifs with h2 h3
    · rfl
    · exact absurd h3.symm h1
    · rw [List.length_cons, ih h]; rfl

theorem HasMatchingProcess_iff (tree : List Int) (render_process_id : Int) :
    HasMatchingProcess tree render_process_id = true ↔ render_process_id ∈ tree := by
  unfold HasMatchingProcess
  rw [List.any_eq_true]
  constructor
  · rintro ⟨process, hmem, heq⟩
    rw [← beq_iff_eq.1 heq]
    exact hmem
  · intro h
    exact ⟨render_process_id, h, beq_self_eq_true _⟩

/-- Claim C18.  A `CreateNewWidget` / `CreateNewFullscreenWidget` request from a
process that is not the process of the current frame host of any node of the
frame tree (`pid` not among `frame_tree_processes`) does nothing but report the
process with `WCI_NEW_WIDGET_PROCESS_MISMATCH`: no widget host is created and
`pending_widget_views_` is unchanged.  A request from a process that is the
process of some node reports nothing, creates the widget host, leaves
`pending_widget_views_` unchanged when no view is created and otherwise stores
the view under the key (process id, route id), all other keys unchanged, which
is one more entry when the key was absent. -/
theorem C18_widget_from_foreign_process_is_bad_message (reg : WindowOpener) (pid rid : Int)
    (is_fullscreen : Bool) (widget_view : Option Nat) :
    (pid ∉ reg.frame_tree_processes →
      CreateNewWidget reg pid rid is_fullscreen widget_view =
        { reg with bad_messages :=
            (reg.bad_messages ++ [(pid, BadMessageReason.WCI_NEW_WIDGET_PROCESS_MISMATCH)]) }) ∧
    (pid ∈ reg.frame_tree_processes →
      (CreateNewWidget reg pid rid is_fullscreen widget_view).bad_messages = reg.bad_messages ∧
      (CreateNewWidget reg pid rid is_fullscreen widget_view).created_widget_hosts =
        reg.created_widget_hosts ++ [⟨pid, rid⟩] ∧
      (widget_view = none →
        (CreateNewWidget reg pid rid is_fullscreen widget_view).pending_widget_views_ =
          reg.pending_widget_views_) ∧
      (∀ view, widget_view = some view →
        mapFind ⟨pid, rid⟩
            (CreateNewWidget reg pid rid is_fullscreen widget_view).pending_widget_views_ =
          some ⟨view, !is_fullscreen⟩ ∧
        (∀ k : GlobalRoutingID, k ≠ ⟨pid, rid⟩ →
          mapFind k (CreateNewWidget reg pid rid is_fullscreen widget_view).pending_widget_views_ =
            mapFind k reg.pending_widget_views_) ∧
        (mapFind ⟨pid, rid⟩ reg.pending_widget_views_ = none →
          (CreateNewWidget reg pid rid is_fullscreen widget_view).pending_widget_views_.length =
            reg.pending_widget_views_.length + 1))) := by
  constructor
  · intro hnot
    have h : HasMatchingProcess reg.frame_tree_processes pid = false := by
      rw [Bool.eq_false_iff]
      exact fun hm => hnot ((HasMatchingProcess_iff _ _).1 hm)
    simp [CreateNewWidget, h]
  · intro hmem
    have h : HasMatchingProcess reg.frame_tree_processes pid = true :=
      (HasMatchingProcess_iff _ _).2 hmem
    cases widget_view with
    | none => simp [CreateNewWidget, h]
    | some v =>
      have hp : (CreateNewWidget reg pid rid is_fullscreen (some v)).pending_widget_views_ =
          mapAssign ⟨pid, rid⟩ ⟨v, !is_fullscreen⟩ reg.pending_widget_views_ := by
        simp [CreateNewWidget, h]
      refine ⟨by simp [CreateNewWidget, h], by simp [CreateNewWidget, h], by simp, ?_⟩
      intro view hv
      cases hv
      rw [hp]
      exact ⟨mapFind_mapAssign_self _ _ _, fun k hk => mapFind_mapAssign_ne hk _ _,
        fun habs => length_mapAssign_of_absent _ _ habs⟩

theorem C18_widget_from_foreign_process_is_bad_message_witness :
    (9 : Int) ∉ sampleOpener.frame_tree_processes ∧
    CreateNewWidget sampleOpener 9 1 false (some 40) =
      { sampleOpener with
        bad_messages := [(9, BadMessageReason.WCI_NEW_WIDGET_PROCESS_MISMATCH)] } ∧
    (6 : Int) ∈ sampleOpener.frame_tree_processes ∧
    (CreateNewWidget sampleOpener 6 1 false (some 40)).pending_widget_views_ =
      [(⟨6, 1⟩, ⟨40, true⟩)] :=
  ⟨by decide,
    (C18_widget_from_foreign_process_is_bad_message sampleOpener 9 1 false (some 40)).1
      (by decide),
    by decide, by decide⟩


/-! ## The order of the steps of the destructor -/

theorem Precedes.intro {a b : DestructorStep} {l pre post : List DestructorStep}
    (h : l = pre ++ a :: post) (hpre : b ∉ pre) (hpost : b ∈ post) : Precedes a b l := by
  subst h
  have hget : (pre ++ a :: post)[pre.length]? = some a := by
    rw [List.getElem?_append_right (le_refl _)]
    simp
  refine ⟨pre.length, by simp, hget, by simpa using hpre, ?_⟩
  have : List.drop (pre.length + 1) (pre ++ a :: post) = post := by
    rw [List.drop_append_eq_append_drop]
    simp
  rw [this]
  exact hpost

theorem Precedes.of_append {a b : DestructorStep} {l1 l2 : List DestructorStep}
    (ha : a ∈ l1) (hb1 : b ∉ l1) (hb2 : b ∈ l2) : Precedes a b (l1 ++ l2) := by
  obtain ⟨p, q, rfl⟩ := List.append_of_mem ha
  refine @Precedes.intro _ _ _ p (q ++ l2) (by simp) ?_ ?_
  · exact fun h => hb1 (List.mem_append_left _ h)
  · exact List.mem_append_right _ hb2

theorem not_notify_mem_prologue (s : DestructorInput) (o : Nat) (c : ObserverCall) :
    DestructorStep.Notify o c ∉ destructorPrologue s := by
  unfold destructorPrologue
  simp only [List.mem_append, List.mem_flatMap, not_or, not_exists, not_and]
  refine ⟨⟨⟨by simp, ?_⟩, ?_⟩, ?_⟩
  · split_ifs <;> simp
  · split_ifs <;> simp
  · intro node _; simp

theorem not_notify_mem_widgets (s : DestructorInput) (o : Nat) (c : ObserverCall) :
    DestructorStep.Notify o c ∉ destructorWidgets s := by
  unfold destructorWidgets
  simp

theorem not_notify_mem_frames (s : DestructorInput) (o : Nat) (c : ObserverCall) :
    DestructorStep.Notify o c ∉ destructorFrames s := by
  unfold destructorFrames
  simp only [List.mem_append, not_or]
  refine ⟨⟨?_, by simp⟩, ?_⟩
  · split_ifs <;> simp
  · split_ifs <;> simp


theorem destructorSteps_split_after_widgets (s : DestructorInput) :
    destructorSteps s =
      (destructorPrologue s ++ destructorWidgets s) ++
        (destructorFrames s ++ destructorAudio s ++ destructorTail s) := by
  simp only [destructorSteps, List.append_assoc]

theorem setFlag_mem_prologue (s : DestructorInput) :
    DestructorStep.SetIsBeingDestroyed ∈ destructorPrologue s := by
  simp [destructorPrologue]

theorem detach_mem_widgets (s : DestructorInput) {w : Nat} (hw : w ∈ s.created_widgets_) :
    DestructorStep.DetachDelegate w ∈ destructorWidgets s := by
  unfold destructorWidgets
  exact List.mem_append_left _ (List.mem_map.2 ⟨w, hw, rfl⟩)

theorem notify_mem_tail (s : DestructorInput) {o : Nat} (ho : o ∈ s.observers_)
    (c : ObserverCall) (hc : c = ObserverCall.FrameDeleted ∨ c = ObserverCall.RenderViewDeleted ∨
      c = ObserverCall.WebContentsDestroyed ∨ c = ObserverCall.ResetWebContents) :
    DestructorStep.Notify o c ∈ destructorTail s := by
  unfold destructorTail ForEachObserver
  simp only [List.mem_append, List.mem_map]
  rcases hc with rfl | rfl | rfl | rfl
  · exact Or.inl (Or.inl (Or.inl (Or.inl (Or.inl ⟨o, ho, rfl⟩))))
  · exact Or.inl (Or.inl (Or.inl (Or.inl (Or.inr ⟨o, ho, rfl⟩))))
  · exact Or.inl (Or.inl (Or.inl (Or.inr ⟨o, ho, rfl⟩)))
  · exact Or.inl (Or.inr ⟨o, ho, rfl⟩)

theorem mem_prologue_cases {s : DestructorInput} {x : DestructorStep}
    (h : x ∈ destructorPrologue s) :
    x = DestructorStep.SetIsBeingDestroyed ∨ x = DestructorStep.EraseFromFullscreenContentsSet ∨
      x = DestructorStep.ResetInputEventRouter ∨ x = DestructorStep.CloseAllReceivers ∨
      x = DestructorStep.OutermostSetAsFocused ∨ x = DestructorStep.RejectMouseLock ∨
      ∃ node, x = DestructorStep.ClearRFHsPendingShutdown node ∨
        x = DestructorStep.ClearWebUIInstances node := by
  unfold destructorPrologue at h
  simp only [List.mem_append, List.mem_flatMap, List.mem_cons, List.mem_singleton,
    List.not_mem_nil, or_false] at h
  rcases h with ((h | h) | h) | h
  · rcases h with h | h | h | h
    · exact Or.inl h
    · exact Or.inr (Or.inl h)
    · exact Or.inr (Or.inr (Or.inl h))
    · exact Or.inr (Or.inr (Or.inr (Or.inl h)))
  · split_ifs at h
    · simp only [List.mem_singleton] at h
      exact Or.inr (Or.inr (Or.inr (Or.inr (Or.inl h))))
    · cases h
  · split_ifs at h
    · simp only [List.mem_singleton] at h
      exact Or.inr (Or.inr (Or.inr (Or.inr (Or.inr (Or.inl h)))))
    · cases h
  · obtain ⟨node, _, hn⟩ := h
    exact Or.inr (Or.inr (Or.inr (Or.inr (Or.inr (Or.inr ⟨node, hn⟩)))))

theorem mem_widgets_cases {s : DestructorInput} {x : DestructorStep}
    (h : x ∈ destructorWidgets s) :
    (∃ w ∈ s.created_widgets_, x = DestructorStep.DetachDelegate w) ∨
      x = DestructorStep.ClearCreatedWidgets := by
  unfold destructorWidgets at h
  rcases List.mem_append.1 h with h1 | h1
  · obtain ⟨w, hw, rfl⟩ := List.mem_map.1 h1
    exact Or.inl ⟨w, hw, rfl⟩
  · exact Or.inr (List.mem_singleton.1 h1)

theorem erase_mem_prologue (s : DestructorInput) :
    DestructorStep.EraseFromFullscreenContentsSet ∈ destructorPrologue s := by
  simp [destructorPrologue]

theorem destructorSteps_split_after_prologue (s : DestructorInput) :
    destructorSteps s =
      destructorPrologue s ++
        (destructorWidgets s ++ destructorFrames s ++ destructorAudio s ++ destructorTail s) := by
  simp only [destructorSteps, List.append_assoc]

theorem destructorSteps_split_at_ResetChildren (s : DestructorInput) :
    destructorSteps s =
      (destructorPrologue s ++ destructorWidgets s ++
        ((if s.has_dialog_manager then [DestructorStep.CancelDialogs] else []) ++
          [DestructorStep.ResetColorChooser, DestructorStep.ResetFindRequestManager,
            DestructorStep.NotifyDisconnected,
            DestructorStep.NotifyWebContentsDestroyedService])) ++
        DestructorStep.ResetChildren ::
          ([DestructorStep.ResetProxyHosts, DestructorStep.ShutdownBackForwardCache,
              DestructorStep.ResetRootFrameHost] ++
            (if s.has_speculative_frame_host then [DestructorStep.DeleteSpeculativeFrameHost]
              else []) ++
            destructorAudio s ++ destructorTail s) := by
  simp only [destructorSteps, destructorFrames, List.append_assoc, List.cons_append,
    List.nil_append, List.singleton_append]

/-- Claim C20.  The order stated in the claim fails on a session with two widgets
and a dialog manager: the erasure from the per-context fullscreen set does not
come after the detachment of a widget or after the cancellation of the
dialogs, it precedes both; and the proxy hosts are not reset before the
subframes are destroyed. -/
theorem C20_counterexample_fullscreen_set_erased_first :
    ¬ Precedes (DestructorStep.DetachDelegate 1) DestructorStep.EraseFromFullscreenContentsSet
        (destructorSteps twoWidgetSession) ∧
    ¬ Precedes DestructorStep.CancelDialogs DestructorStep.EraseFromFullscreenContentsSet
        (destructorSteps twoWidgetSession) ∧
    ¬ Precedes DestructorStep.ResetProxyHosts DestructorStep.ResetChildren
        (destructorSteps twoWidgetSession) ∧
    Precedes DestructorStep.EraseFromFullscreenContentsSet (DestructorStep.DetachDelegate 1)
        (destructorSteps twoWidgetSession) := by
  decide

/-- Claim C20, amended.  The destructor starts by latching `is_being_destroyed_`
and then proceeds in this order: the session is erased from the per-context
fullscreen set; every created widget is detached from its delegate; the
dialogs are cancelled (when there is a dialog manager); the subframes are
destroyed; the proxy hosts are reset. -/
theorem C20_destructor_order (s : DestructorInput) :
    (destructorSteps s).head? = some DestructorStep.SetIsBeingDestroyed ∧
    Precedes DestructorStep.SetIsBeingDestroyed DestructorStep.EraseFromFullscreenContentsSet
      (destructorSteps s) ∧
    (∀ w ∈ s.created_widgets_,
      Precedes DestructorStep.EraseFromFullscreenContentsSet (DestructorStep.DetachDelegate w)
        (destructorSteps s) ∧
      Precedes (DestructorStep.DetachDelegate w) DestructorStep.ResetChildren
        (destructorSteps s) ∧
      (s.has_dialog_manager = true →
        Precedes (DestructorStep.DetachDelegate w) DestructorStep.CancelDialogs
          (destructorSteps s))) ∧
    (s.has_dialog_manager = true →
      Precedes DestructorStep.CancelDialogs DestructorStep.ResetChildren (destructorSteps s)) ∧
    Precedes DestructorStep.EraseFromFullscreenContentsSet DestructorStep.ResetChildren
      (destructorSteps s) ∧
    Precedes DestructorStep.ResetChildren DestructorStep.ResetProxyHosts (destructorSteps s) := by
  have hnotpro : ∀ x, (x = DestructorStep.ResetChildren ∨ x = DestructorStep.CancelDialogs ∨
      x = DestructorStep.ResetProxyHosts ∨ ∃ w, x = DestructorStep.DetachDelegate w) →
      x ∉ destructorPrologue s := by
    intro x hx hmem
    rcases mem_prologue_cases hmem with h | h | h | h | h | h | ⟨n, h | h⟩ <;>
      rcases hx with h2 | h2 | h2 | ⟨w, h2⟩ <;> rw [h] at h2 <;> cases h2
  have hnotwid : ∀ x, (x = DestructorStep.ResetChildren ∨ x = DestructorStep.CancelDialogs ∨
      x = DestructorStep.ResetProxyHosts) → x ∉ destructorWidgets s := by
    intro x hx hmem
    rcases mem_widgets_cases hmem with ⟨w, _, h⟩ | h <;>
      rcases hx with h2 | h2 | h2 <;> rw [h] at h2 <;> cases h2
  have hchildren : DestructorStep.ResetChildren ∈ destructorFrames s := by
    simp [destructorFrames]
  have hrest : ∀ x, x ∈ destructorFrames s →
      x ∈ destructorFrames s ++ destructorAudio s ++ destructorTail s := fun x hx =>
    List.mem_append_left _ (List.mem_append_left _ hx)
  refine ⟨by simp [destructorSteps, destructorPrologue], ?_, ?_, ?_, ?_, ?_⟩
  · refine @Precedes.intro _ _ _ [] (destructorSteps s).tail ?_ (by simp) ?_
    · simp [destructorSteps, destructorPrologue]
    · simp [destructorSteps, destructorPrologue]
  · intro w hw
    refine ⟨?_, ?_, ?_⟩
    · rw [destructorSteps_split_after_prologue]
      exact Precedes.of_append (erase_mem_prologue s) (hnotpro _ (Or.inr (Or.inr (Or.inr ⟨w, rfl⟩))))
        (List.mem_append_left _ (List.mem_append_left _
          (List.mem_append_left _ (detach_mem_widgets s hw))))
    · rw [destructorSteps_split_after_widgets]
      refine Precedes.of_append (List.mem_append_right _ (detach_mem_widgets s hw)) ?_
        (hrest _ hchildren)
      intro h
      rcases List.mem_append.1 h with h2 | h2
      · exact hnotpro _ (Or.inl rfl) h2
      · exact hnotwid _ (Or.inl rfl) h2
    · intro hd
      rw [destructorSteps_split_after_widgets]
      refine Precedes.of_append (List.mem_append_right _ (detach_mem_widgets s hw)) ?_
        (hrest _ (by simp [destructorFrames, hd]))
      intro h
      rcases List.mem_append.1 h with h2 | h2
      · exact hnotpro _ (Or.inr (Or.inl rfl)) h2
      · exact hnotwid _ (Or.inr (Or.inl rfl)) h2
  · intro hd
    rw [destructorSteps_split_at_ResetChildren, hd]
    apply Precedes.of_append
    · simp
    · intro h
      rcases List.mem_append.1 h with h2 | h2
      · rcases List.mem_append.1 h2 with h3 | h3
        · exact hnotpro _ (Or.inl rfl) h3
        · exact hnotwid _ (Or.inl rfl) h3
      · simp at h2
    · simp
  · rw [destructorSteps_split_after_prologue]
    exact Precedes.of_append (erase_mem_prologue s) (hnotpro _ (Or.inl rfl))
      (List.mem_append_left _ (List.mem_append_left _
        (List.mem_append_right _ hchildren)))
  · refine Precedes.intro (destructorSteps_split_at_ResetChildren s) ?_ (by simp)
    intro h
    rcases List.mem_append.1 h with h2 | h2
    · rcases List.mem_append.1 h2 with h3 | h3
      · exact hnotpro _ (Or.inr (Or.inr (Or.inl rfl))) h3
      · exact hnotwid _ (Or.inr (Or.inr rfl)) h3
    · rcases List.mem_append.1 h2 with h3 | h3
      · split_ifs at h3 <;> simp at h3
      · simp at h3

theorem C20_destructor_order_witness :
    Precedes DestructorStep.EraseFromFullscreenContentsSet (DestructorStep.DetachDelegate 2)
      (destructorSteps twoWidgetSession) ∧
    Precedes (DestructorStep.DetachDelegate 2) DestructorStep.CancelDialogs
      (destructorSteps twoWidgetSession) ∧
    Precedes DestructorStep.CancelDialogs DestructorStep.ResetChildren
      (destructorSteps twoWidgetSession) :=
  ⟨((C20_destructor_order twoWidgetSession).2.2.1 2 (by decide)).1,
    ((C20_destructor_order twoWidgetSession).2.2.1 2 (by decide)).2.2 rfl,
    (C20_destructor_order twoWidgetSession).2.2.2.1 rfl⟩


theorem mem_audio_cases {s : DestructorInput} {x : DestructorStep}
    (h : x ∈ destructorAudio s) :
    (∃ o, x = DestructorStep.Notify o (ObserverCall.OnAudioStateChanged false)) ∨
      x = DestructorStep.OuterOnAudioStateChanged := by
  unfold destructorAudio ForEachObserver at h
  split_ifs at h with h1 h2
  · rcases List.mem_append.1 h with h3 | h3
    · obtain ⟨o, _, rfl⟩ := List.mem_map.1 h3
      exact Or.inl ⟨o, rfl⟩
    · exact Or.inr (List.mem_singleton.1 h3)
  · rw [List.append_nil] at h
    obtain ⟨o, _, rfl⟩ := List.mem_map.1 h
    exact Or.inl ⟨o, rfl⟩
  · cases h

theorem mem_frames_cases {s : DestructorInput} {x : DestructorStep}
    (h : x ∈ destructorFrames s) :
    x ∈ [DestructorStep.CancelDialogs, DestructorStep.ResetColorChooser,
      DestructorStep.ResetFindRequestManager, DestructorStep.NotifyDisconnected,
      DestructorStep.NotifyWebContentsDestroyedService, DestructorStep.ResetChildren,
      DestructorStep.ResetProxyHosts, DestructorStep.ShutdownBackForwardCache,
      DestructorStep.ResetRootFrameHost, DestructorStep.DeleteSpeculativeFrameHost] := by
  unfold destructorFrames at h
  rcases List.mem_append.1 h with h1 | h1
  · rcases List.mem_append.1 h1 with h2 | h2
    · split_ifs at h2
      · simp only [List.mem_singleton] at h2
        simp [h2]
      · cases h2
    · simp only [List.mem_cons, List.mem_singleton, List.not_mem_nil, or_false] at h2 ⊢
      tauto
  · split_ifs at h1
    · simp only [List.mem_singleton] at h1
      simp [h1]
    · cases h1

/-- The steps before the `FrameDeleted` notification. -/
theorem destructorSteps_split_before_tail (s : DestructorInput) :
    destructorSteps s =
      (destructorPrologue s ++ destructorWidgets s ++ destructorFrames s ++ destructorAudio s) ++
        destructorTail s := rfl

theorem not_mem_before_tail (s : DestructorInput) (x : DestructorStep)
    (hx : (∃ o c, x = DestructorStep.Notify o c ∧ c ≠ ObserverCall.OnAudioStateChanged false) ∨
      x = DestructorStep.ClearDelegate ∨ (∃ d, x = DestructorStep.DelegateDetach d) ∨
      x = DestructorStep.DisplayCutoutWebContentsDestroyed) :
    x ∉ destructorPrologue s ++ destructorWidgets s ++ destructorFrames s ++
      destructorAudio s := by
  intro h
  rcases List.mem_append.1 h with h1 | h1
  · rcases List.mem_append.1 h1 with h2 | h2
    · rcases List.mem_append.1 h2 with h3 | h3
      · rcases mem_prologue_cases h3 with h4 | h4 | h4 | h4 | h4 | h4 | ⟨n, h4 | h4⟩ <;>
          rcases hx with ⟨o, c, h5, _⟩ | h5 | ⟨d, h5⟩ | h5 <;> rw [h4] at h5 <;> cases h5
      · rcases mem_widgets_cases h3 with ⟨w, _, h4⟩ | h4 <;>
          rcases hx with ⟨o, c, h5, _⟩ | h5 | ⟨d, h5⟩ | h5 <;> rw [h4] at h5 <;> cases h5
    · have h3 := mem_frames_cases h2
      simp only [List.mem_cons, List.mem_singleton, List.not_mem_nil, or_false] at h3
      rcases h3 with h4 | h4 | h4 | h4 | h4 | h4 | h4 | h4 | h4 | h4 <;>
        rcases hx with ⟨o, c, h5, _⟩ | h5 | ⟨d, h5⟩ | h5 <;> rw [h4] at h5 <;> cases h5
  · rcases mem_audio_cases h1 with ⟨o2, h4⟩ | h4
    · rcases hx with ⟨o, c, h5, hc⟩ | h5 | ⟨d, h5⟩ | h5
      · rw [h4] at h5
        cases h5
        exact hc rfl
      · rw [h4] at h5; cases h5
      · rw [h4] at h5; cases h5
      · rw [h4] at h5; cases h5
    · rcases hx with ⟨o, c, h5, _⟩ | h5 | ⟨d, h5⟩ | h5 <;> rw [h4] at h5 <;> cases h5

/-- Claim C21.  The destructor ends with: `FrameDeleted` to every observer, then
`RenderViewDeleted` to every observer, then `WebContentsDestroyed` to every
observer (and to the display cutout host), then `ResetWebContents` to every
observer, then `SetDelegate(nullptr)`; none of these notifications and no
delegate step occurs before that tail.  So each of the four notifications
reaches all observers before the next one starts, and with a delegate the last
two steps are `delegate_->Detach(this)` and the clearing of the pointer. -/
theorem C21_teardown_tail_order (s : DestructorInput) :
    (∃ head, destructorSteps s =
        head ++
          (ForEachObserver s.observers_ ObserverCall.FrameDeleted ++
            ForEachObserver s.observers_ ObserverCall.RenderViewDeleted ++
            ForEachObserver s.observers_ ObserverCall.WebContentsDestroyed ++
            (if s.has_display_cutout_host then
              [DestructorStep.DisplayCutoutWebContentsDestroyed] else []) ++
            ForEachObserver s.observers_ ObserverCall.ResetWebContents ++
            SetDelegateNull s.delegate_) ∧
      (∀ o c, c ≠ ObserverCall.OnAudioStateChanged false →
        DestructorStep.Notify o c ∉ head) ∧
      DestructorStep.ClearDelegate ∉ head ∧ ∀ d, DestructorStep.DelegateDetach d ∉ head) ∧
    (∀ o1 ∈ s.observers_, ∀ o2 ∈ s.observers_,
      Precedes (DestructorStep.Notify o1 ObserverCall.FrameDeleted)
        (DestructorStep.Notify o2 ObserverCall.RenderViewDeleted) (destructorSteps s) ∧
      Precedes (DestructorStep.Notify o1 ObserverCall.RenderViewDeleted)
        (DestructorStep.Notify o2 ObserverCall.WebContentsDestroyed) (destructorSteps s) ∧
      Precedes (DestructorStep.Notify o1 ObserverCall.WebContentsDestroyed)
        (DestructorStep.Notify o2 ObserverCall.ResetWebContents) (destructorSteps s)) ∧
    (∀ d, s.delegate_ = some d →
      (∀ o ∈ s.observers_,
        Precedes (DestructorStep.Notify o ObserverCall.ResetWebContents)
          (DestructorStep.DelegateDetach d) (destructorSteps s)) ∧
      (∃ init, destructorSteps s =
        init ++ [DestructorStep.DelegateDetach d, DestructorStep.ClearDelegate]) ∧
      (destructorSteps s).getLast? = some DestructorStep.ClearDelegate) ∧
    (s.delegate_ = none → ∀ d, DestructorStep.DelegateDetach d ∉ destructorSteps s) := by
  have hhead := not_mem_before_tail s
  have hFE : ∀ (o : Nat) (c c2 : ObserverCall), c ≠ c2 →
      DestructorStep.Notify o c ∉ ForEachObserver s.observers_ c2 := by
    intro o c c2 hc h
    obtain ⟨o2, _, h2⟩ := List.mem_map.1 h
    cases h2
    exact hc rfl
  have hFEmem : ∀ (o : Nat) (c : ObserverCall), o ∈ s.observers_ →
      DestructorStep.Notify o c ∈ ForEachObserver s.observers_ c :=
    fun o c ho => List.mem_map.2 ⟨o, ho, rfl⟩
  have hcut : ∀ (o : Nat) (c : ObserverCall), DestructorStep.Notify o c ∉
      (if s.has_display_cutout_host then [DestructorStep.DisplayCutoutWebContentsDestroyed]
        else []) := by
    intro o c h
    split_ifs at h <;> simp at h
  refine ⟨⟨_, destructorSteps_split_before_tail s, ?_, ?_, ?_⟩, ?_, ?_, ?_⟩
  · exact fun o c hc => hhead _ (Or.inl ⟨o, c, rfl, hc⟩)
  · exact hhead _ (Or.inr (Or.inl rfl))
  · exact fun d => hhead _ (Or.inr (Or.inr (Or.inl ⟨d, rfl⟩)))
  · intro o1 ho1 o2 ho2
    refine ⟨?_, ?_, ?_⟩
    · have hsplit : destructorSteps s =
          (destructorPrologue s ++ destructorWidgets s ++ destructorFrames s ++
              destructorAudio s ++ ForEachObserver s.observers_ ObserverCall.FrameDeleted) ++
            (ForEachObserver s.observers_ ObserverCall.RenderViewDeleted ++
              ForEachObserver s.observers_ ObserverCall.WebContentsDestroyed ++
              (if s.has_display_cutout_host then
                [DestructorStep.DisplayCutoutWebContentsDestroyed] else []) ++
              ForEachObserver s.observers_ ObserverCall.ResetWebContents ++
              SetDelegateNull s.delegate_) := by
        simp only [destructorSteps, destructorTail, List.append_assoc]
      rw [hsplit]
      apply Precedes.of_append
      · exact List.mem_append_right _ (hFEmem _ _ ho1)
      · intro h
        rcases List.mem_append.1 h with h2 | h2
        · exact hhead _ (Or.inl ⟨o2, _, rfl, by simp⟩) h2
        · exact hFE _ _ _ (by simp) h2
      · simp only [List.mem_append]
        exact Or.inl (Or.inl (Or.inl (Or.inl (hFEmem _ _ ho2))))
    · have hsplit : destructorSteps s =
          (destructorPrologue s ++ destructorWidgets s ++ destructorFrames s ++
              destructorAudio s ++ ForEachObserver s.observers_ ObserverCall.FrameDeleted ++
              ForEachObserver s.observers_ ObserverCall.RenderViewDeleted) ++
            (ForEachObserver s.observers_ ObserverCall.WebContentsDestroyed ++
              (if s.has_display_cutout_host then
                [DestructorStep.DisplayCutoutWebContentsDestroyed] else []) ++
              ForEachObserver s.observers_ ObserverCall.ResetWebContents ++
              SetDelegateNull s.delegate_) := by
        simp only [destructorSteps, destructorTail, List.append_assoc]
      rw [hsplit]
      apply Precedes.of_append
      · exact List.mem_append_right _ (hFEmem _ _ ho1)
      · intro h
        rcases List.mem_append.1 h with h2 | h2
        · rcases List.mem_append.1 h2 with h3 | h3
          · exact hhead _ (Or.inl ⟨o2, _, rfl, by simp⟩) h3
          · exact hFE _ _ _ (by simp) h3
        · exact hFE _ _ _ (by simp) h2
      · simp only [List.mem_append]
        exact Or.inl (Or.inl (Or.inl (hFEmem _ _ ho2)))
    · have hsplit : destructorSteps s =
          (destructorPrologue s ++ destructorWidgets s ++ destructorFrames s ++
              destructorAudio s ++ ForEachObserver s.observers_ ObserverCall.FrameDeleted ++
              ForEachObserver s.observers_ ObserverCall.RenderViewDeleted ++
              ForEachObserver s.observers_ ObserverCall.WebContentsDestroyed) ++
            ((if s.has_display_cutout_host then
                [DestructorStep.DisplayCutoutWebContentsDestroyed] else []) ++
              ForEachObserver s.observers_ ObserverCall.ResetWebContents ++
              SetDelegateNull s.delegate_) := by
        simp only [destructorSteps, destructorTail, List.append_assoc]
      rw [hsplit]
      apply Precedes.of_append
      · exact List.mem_append_right _ (hFEmem _ _ ho1)
      · intro h
        rcases List.mem_append.1 h with h2 | h2
        · rcases List.mem_append.1 h2 with h3 | h3
          · rcases List.mem_append.1 h3 with h4 | h4
            · exact hhead _ (Or.inl ⟨o2, _, rfl, by simp⟩) h4
            · exact hFE _ _ _ (by simp) h4
          · exact hFE _ _ _ (by simp) h3
        · exact hFE _ _ _ (by simp) h2
      · simp only [List.mem_append]
        exact Or.inl (Or.inr (hFEmem _ _ ho2))
  · intro d hd
    have hsplit : destructorSteps s =
        (destructorPrologue s ++ destructorWidgets s ++ destructorFrames s ++
            destructorAudio s ++ ForEachObserver s.observers_ ObserverCall.FrameDeleted ++
            ForEachObserver s.observers_ ObserverCall.RenderViewDeleted ++
            ForEachObserver s.observers_ ObserverCall.WebContentsDestroyed ++
            (if s.has_display_cutout_host then
              [DestructorStep.DisplayCutoutWebContentsDestroyed] else []) ++
            ForEachObserver s.observers_ ObserverCall.ResetWebContents) ++
          [DestructorStep.DelegateDetach d, DestructorStep.ClearDelegate] := by
      simp only [destructorSteps, destructorTail, List.append_assoc, hd, SetDelegateNull]
    refine ⟨?_, ⟨_, hsplit⟩, ?_⟩
    · intro o ho
      rw [hsplit]
      apply Precedes.of_append
      · exact List.mem_append_right _ (hFEmem _ _ ho)
      · intro h
        have hnot : ∀ c, DestructorStep.DelegateDetach d ∉ ForEachObserver s.observers_ c := by
          intro c h2
          obtain ⟨o2, _, h3⟩ := List.mem_map.1 h2
          cases h3
        rcases List.mem_append.1 h with h2 | h2
        · rcases List.mem_append.1 h2 with h3 | h3
          · rcases List.mem_append.1 h3 with h4 | h4
            · rcases List.mem_append.1 h4 with h5 | h5
              · rcases List.mem_append.1 h5 with h6 | h6
                · exact hhead _ (Or.inr (Or.inr (Or.inl ⟨d, rfl⟩))) h6
                · exact hnot _ h6
              · exact hnot _ h5
            · exact hnot _ h4
          · split_ifs at h3 <;> simp at h3
        · exact hnot _ h2
      · simp
    · rw [hsplit]
      simp
  · intro hd d h
    rw [destructorSteps_split_before_tail] at h
    rcases List.mem_append.1 h with h2 | h2
    · exact hhead _ (Or.inr (Or.inr (Or.inl ⟨d, rfl⟩))) h2
    · unfold destructorTail at h2
      rw [hd] at h2
      simp only [SetDelegateNull, List.append_nil, List.mem_append] at h2
      have hnot : ∀ c, DestructorStep.DelegateDetach d ∉ ForEachObserver s.observers_ c := by
        intro c h2
        obtain ⟨o2, _, h3⟩ := List.mem_map.1 h2
        cases h3
      rcases h2 with (((h3 | h3) | h3) | h3) | h3
      · exact hnot _ h3
      · exact hnot _ h3
      · exact hnot _ h3
      · split_ifs at h3 <;> simp at h3
      · exact hnot _ h3

theorem C21_teardown_tail_order_witness :
    Precedes (DestructorStep.Notify 8 ObserverCall.ResetWebContents)
      (DestructorStep.DelegateDetach 3) (destructorSteps twoWidgetSession) ∧
    (destructorSteps twoWidgetSession).getLast? = some DestructorStep.ClearDelegate :=
  ⟨((C21_teardown_tail_order twoWidgetSession).2.2.1 3 rfl).1 8 (by decide),
    ((C21_teardown_tail_order twoWidgetSession).2.2.1 3 rfl).2.2⟩


/-! ## C19: observer calls while the destructor runs -/

theorem runDestructorSteps_append (s : DestructorInput) (st : DestructorState)
    (l1 l2 : List DestructorStep) :
    runDestructorSteps s st (l1 ++ l2) =
      runDestructorSteps s st l1 ++ runDestructorSteps s (stateAfter s st l1) l2 := by
  induction l1 generalizing st with
  | nil => rfl
  | cons a rest ih => simp [runDestructorSteps, stateAfter, ih]

theorem mem_ReenteredForEachObserver {within : DestructorStep} {observers_ : List Nat}
    {st : DestructorState} {call : ReenteredCall} {e : DestructorEvent × DestructorState}
    (h : e ∈ ReenteredForEachObserver within observers_ st call) :
    e.2 = st ∧ ∃ o, e.1 = DestructorEvent.Reentered within o call := by
  obtain ⟨o, _, rfl⟩ := List.mem_map.1 h
  exact ⟨rfl, o, rfl⟩

/-- The observer calls made from one called-back method are made from inside
`within`, in the state the method is called in or, for `RenderWidgetDeleted`,
with its widget host erased; the state afterwards is one of these too. -/
theorem DelegateCallback.run_cases (within : DestructorStep) (observers_ : List Nat)
    (st : DestructorState) (cb : DelegateCallback) :
    (∀ e ∈ (cb.run within observers_ st).1,
      (∃ o c, e.1 = DestructorEvent.Reentered within o c) ∧
        (e.2 = st ∨ ∃ w b, cb = DelegateCallback.RenderWidgetDeleted w b ∧ e.2 = st.erase w)) ∧
    ((cb.run within observers_ st).2 = st ∨
      ∃ w b, cb = DelegateCallback.RenderWidgetDeleted w b ∧
        (cb.run within observers_ st).2 = st.erase w) := by
  cases cb with
  | RenderFrameDeleted rfh g =>
    refine ⟨?_, Or.inl rfl⟩
    intro e he
    simp only [DelegateCallback.run] at he
    rcases List.mem_append.1 he with h1 | h1
    · obtain ⟨h2, o, h3⟩ := mem_ReenteredForEachObserver h1
      exact ⟨⟨o, _, h3⟩, Or.inl h2⟩
    · cases g with
      | none => cases h1
      | some frame =>
        obtain ⟨h2, o, h3⟩ := mem_ReenteredForEachObserver h1
        exact ⟨⟨o, _, h3⟩, Or.inl h2⟩
  | RenderViewDeleted rvh =>
    refine ⟨?_, Or.inl rfl⟩
    intro e he
    obtain ⟨h2, o, h3⟩ := mem_ReenteredForEachObserver he
    exact ⟨⟨o, _, h3⟩, Or.inl h2⟩
  | OnFrameRemoved rfh =>
    refine ⟨?_, Or.inl rfl⟩
    intro e he
    obtain ⟨h2, o, h3⟩ := mem_ReenteredForEachObserver he
    exact ⟨⟨o, _, h3⟩, Or.inl h2⟩
  | RenderWidgetDeleted w b =>
    simp only [DelegateCallback.run]
    split_ifs
    · exact ⟨fun e he => absurd he (List.not_mem_nil e), Or.inr ⟨w, b, rfl, rfl⟩⟩
    · refine ⟨?_, Or.inr ⟨w, b, rfl, rfl⟩⟩
      intro e he
      obtain ⟨h2, o, h3⟩ := mem_ReenteredForEachObserver he
      exact ⟨⟨o, _, h3⟩, Or.inr ⟨w, b, rfl, h2⟩⟩
    · exact ⟨fun e he => absurd he (List.not_mem_nil e), Or.inr ⟨w, b, rfl, rfl⟩⟩

/-- A property of the state that survives the erasure of the widget hosts the
callbacks name holds at every observer call they make and afterwards. -/
theorem runCallbacks_invariant (P : DestructorState → Prop) (within : DestructorStep)
    (observers_ : List Nat) (cbs : List DelegateCallback)
    (herase : ∀ w b, DelegateCallback.RenderWidgetDeleted w b ∈ cbs →
      ∀ st, P st → P (st.erase w)) :
    ∀ st, P st →
      (∀ e ∈ (runCallbacks within observers_ st cbs).1,
        P e.2 ∧ ∃ o c, e.1 = DestructorEvent.Reentered within o c) ∧
      P (runCallbacks within observers_ st cbs).2 := by
  induction cbs with
  | nil => intro st h; exact ⟨fun e he => absurd he (List.not_mem_nil e), h⟩
  | cons cb rest ih =>
    intro st h
    obtain ⟨hev, hfin⟩ := DelegateCallback.run_cases within observers_ st cb
    have hP2 : P (cb.run within observers_ st).2 := by
      rcases hfin with h1 | ⟨w, b, h1, h2⟩
      · rw [h1]; exact h
      · rw [h2]; exact herase w b (by rw [h1]; exact List.mem_cons_self _ _) st h
    obtain ⟨ih1, ih2⟩ := ih (fun w b hm => herase w b (List.mem_cons_of_mem _ hm)) _ hP2
    refine ⟨?_, ih2⟩
    intro e he
    simp only [runCallbacks] at he
    rcases List.mem_append.1 he with h1 | h1
    · obtain ⟨h3, h4⟩ := hev e h1
      refine ⟨?_, h3⟩
      rcases h4 with h4 | ⟨w, b, h4, h5⟩
      · rw [h4]; exact h
      · rw [h5]; exact herase w b (by rw [h4]; exact List.mem_cons_self _ _) st h
    · exact ih1 e h1

/-- A property of the state that survives what the statements of `l` can do to
it (latching the flag, detaching a widget, erasing a widget host named by a
callback) holds at every statement of `l`, at every observer call made from
inside one, and afterwards. -/
theorem runDestructorSteps_invariant (s : DestructorInput) (P : DestructorState → Prop)
    (l : List DestructorStep)
    (hflag : DestructorStep.SetIsBeingDestroyed ∈ l →
      ∀ st, P st → P { st with is_being_destroyed_ := true })
    (hdetach : ∀ w, DestructorStep.DetachDelegate w ∈ l → ∀ st, P st → P (st.erase w))
    (hpending : ∀ node w b, DestructorStep.ClearRFHsPendingShutdown node ∈ l →
      DelegateCallback.RenderWidgetDeleted w b ∈ pendingShutdownCallbacks s node →
      ∀ st, P st → P (st.erase w))
    (hchildren : ∀ w b, DestructorStep.ResetChildren ∈ l →
      DelegateCallback.RenderWidgetDeleted w b ∈ s.reset_children_callbacks →
      ∀ st, P st → P (st.erase w)) :
    ∀ st, P st →
      (∀ e ∈ runDestructorSteps s st l,
        P e.2 ∧ ∃ x ∈ l, e.1 = DestructorEvent.Statement x ∨
          ∃ o c, e.1 = DestructorEvent.Reentered x o c) ∧
      P (stateAfter s st l) := by
  induction l with
  | nil => intro st h; exact ⟨fun e he => absurd he (List.not_mem_nil e), h⟩
  | cons x rest ih =>
    intro st h
    have hstep : (∀ e ∈ (st.step s x).1,
        P e.2 ∧ ∃ o c, e.1 = DestructorEvent.Reentered x o c) ∧ P (st.step s x).2 := by
      cases x with
      | SetIsBeingDestroyed =>
        exact ⟨fun e he => absurd he (List.not_mem_nil e), hflag (List.mem_cons_self _ _) st h⟩
      | DetachDelegate w =>
        exact ⟨fun e he => absurd he (List.not_mem_nil e), hdetach w (List.mem_cons_self _ _) st h⟩
      | ClearRFHsPendingShutdown node =>
        exact runCallbacks_invariant P _ _ _
          (fun w b hm => hpending node w b (List.mem_cons_self _ _) hm) st h
      | ResetChildren =>
        exact runCallbacks_invariant P _ _ _
          (fun w b hm => hchildren w b (List.mem_cons_self _ _) hm) st h
      | _ => exact ⟨fun e he => absurd he (List.not_mem_nil e), h⟩
    obtain ⟨ih1, ih2⟩ := ih (fun hm => hflag (List.mem_cons_of_mem _ hm))
      (fun w hm => hdetach w (List.mem_cons_of_mem _ hm))
      (fun node w b hm => hpending node w b (List.mem_cons_of_mem _ hm))
      (fun w b hm => hchildren w b (List.mem_cons_of_mem _ hm)) _ hstep.2
    refine ⟨?_, ih2⟩
    intro e he
    simp only [runDestructorSteps, List.cons_append, List.mem_cons, List.mem_append] at he
    rcases he with rfl | he | he
    · exact ⟨h, x, List.mem_cons_self _ _, Or.inl rfl⟩
    · exact ⟨(hstep.1 e he).1, x, List.mem_cons_self _ _, Or.inr (hstep.1 e he).2⟩
    · obtain ⟨h1, y, hy, h2⟩ := ih1 e he
      exact ⟨h1, y, List.mem_cons_of_mem _ hy, h2⟩

theorem erase_flag (st : DestructorState) (w : Nat) :
    (st.erase w).is_being_destroyed_ = st.is_being_destroyed_ := rfl

theorem not_mem_erase (st : DestructorState) (w : Nat) : w ∉ (st.erase w).widget_delegates := by
  simp [DestructorState.erase]

theorem mem_of_mem_erase {st : DestructorState} {w v : Nat}
    (h : v ∈ (st.erase w).widget_delegates) : v ∈ st.widget_delegates :=
  (List.mem_filter.1 h).1

theorem mem_erase_of_ne {st : DestructorState} {w v : Nat} (hne : v ≠ w)
    (h : v ∈ st.widget_delegates) : v ∈ (st.erase w).widget_delegates := by
  simp only [DestructorState.erase, List.mem_filter]
  exact ⟨h, by simpa using hne⟩

/-- After statements that latch the flag the flag is set. -/
theorem stateAfter_flag (s : DestructorInput) (l : List DestructorStep) (st : DestructorState)
    (h : st.is_being_destroyed_ = true ∨ DestructorStep.SetIsBeingDestroyed ∈ l) :
    (stateAfter s st l).is_being_destroyed_ = true := by
  induction l generalizing st with
  | nil =>
    rcases h with h | h
    · exact h
    · cases h
  | cons a rest ih =>
    apply ih
    rcases h with h | h
    · exact Or.inl ((runDestructorSteps_invariant s (fun t => t.is_being_destroyed_ = true) [a]
        (fun _ _ _ => rfl) (fun _ _ _ ht => ht) (fun _ _ _ _ _ _ ht => ht)
        (fun _ _ _ _ _ ht => ht) st h).2)
    · rcases List.mem_cons.1 h with h1 | h1
      · rw [← h1]; exact Or.inl rfl
      · exact Or.inr h1

/-- After statements that detach the widget `w` it is detached. -/
theorem stateAfter_detached (s : DestructorInput) (l : List DestructorStep)
    (st : DestructorState) (w : Nat)
    (h : w ∉ st.widget_delegates ∨ DestructorStep.DetachDelegate w ∈ l) :
    w ∉ (stateAfter s st l).widget_delegates := by
  induction l generalizing st with
  | nil =>
    rcases h with h | h
    · exact h
    · cases h
  | cons a rest ih =>
    apply ih
    rcases h with h | h
    · exact Or.inl ((runDestructorSteps_invariant s (fun t => w ∉ t.widget_delegates) [a]
        (fun _ _ ht => ht) (fun _ _ _ ht hm => ht (mem_of_mem_erase hm))
        (fun _ _ _ _ _ _ ht hm => ht (mem_of_mem_erase hm))
        (fun _ _ _ _ _ ht hm => ht (mem_of_mem_erase hm)) st h).2)
    · rcases List.mem_cons.1 h with h1 | h1
      · rw [← h1]; exact Or.inl (not_mem_erase st w)
      · exact Or.inr h1

theorem clearRFHs_not_mem_after_prologue (s : DestructorInput) (node : Nat) :
    DestructorStep.ClearRFHsPendingShutdown node ∉
      destructorWidgets s ++ destructorFrames s ++ destructorAudio s ++ destructorTail s := by
  intro h
  rcases List.mem_append.1 h with h1 | h1
  · rcases List.mem_append.1 h1 with h2 | h2
    · rcases List.mem_append.1 h2 with h3 | h3
      · rcases mem_widgets_cases h3 with ⟨w, _, h4⟩ | h4 <;> cases h4
      · have h4 := mem_frames_cases h3
        simp at h4
    · rcases mem_audio_cases h2 with ⟨o, h4⟩ | h4 <;> cases h4
  · unfold destructorTail at h1
    simp only [List.mem_append] at h1
    rcases h1 with ((((h2 | h2) | h2) | h2) | h2) | h2
    · obtain ⟨o, _, h3⟩ := List.mem_map.1 h2
      cases h3
    · obtain ⟨o, _, h3⟩ := List.mem_map.1 h2
      cases h3
    · obtain ⟨o, _, h3⟩ := List.mem_map.1 h2
      cases h3
    · split_ifs at h2
      · simp at h2
      · cases h2
    · obtain ⟨o, _, h3⟩ := List.mem_map.1 h2
      cases h3
    · unfold SetDelegateNull at h2
      cases hd : s.delegate_ with
      | none => rw [hd] at h2; cases h2
      | some d => rw [hd] at h2; simp at h2

theorem resetChildren_not_mem_before_frames (s : DestructorInput) :
    DestructorStep.ResetChildren ∉ destructorPrologue s ++ destructorWidgets s := by
  intro h
  rcases List.mem_append.1 h with h1 | h1
  · rcases mem_prologue_cases h1 with h4 | h4 | h4 | h4 | h4 | h4 | ⟨n, h4 | h4⟩ <;> cases h4
  · rcases mem_widgets_cases h1 with ⟨w, _, h4⟩ | h4 <;> cases h4

theorem detach_not_mem_prologue (s : DestructorInput) (w : Nat) :
    DestructorStep.DetachDelegate w ∉ destructorPrologue s := by
  intro h1
  rcases mem_prologue_cases h1 with h4 | h4 | h4 | h4 | h4 | h4 | ⟨n, h4 | h4⟩ <;> cases h4

theorem destructorPrologue_eq_cons (s : DestructorInput) :
    ∃ rest, destructorPrologue s = DestructorStep.SetIsBeingDestroyed :: rest :=
  ⟨_, rfl⟩

theorem mem_pendingShutdownCallbacks {s : DestructorInput} {node : Nat} {cb : DelegateCallback} :
    cb ∈ pendingShutdownCallbacks s node ↔ (node, cb) ∈ s.rfhs_pending_shutdown := by
  unfold pendingShutdownCallbacks
  simp only [List.mem_map, List.mem_filter, beq_iff_eq]
  constructor
  · rintro ⟨⟨n, c⟩, ⟨hm, hn⟩, hc⟩
    simp only at hn hc
    rw [← hn, ← hc]
    exact hm
  · intro h
    exact ⟨(node, cb), ⟨h, rfl⟩, rfl⟩

/-- An observer call that a callback makes in every state is made in the run of
the callbacks. -/
theorem exists_mem_runCallbacks {within : DestructorStep} {observers_ : List Nat}
    {cbs : List DelegateCallback} {cb : DelegateCallback} {ev : DestructorEvent}
    (hcb : cb ∈ cbs) (hev : ∀ st, ∃ e ∈ (cb.run within observers_ st).1, e.1 = ev) :
    ∀ st, ∃ e ∈ (runCallbacks within observers_ st cbs).1, e.1 = ev := by
  induction cbs with
  | nil => cases hcb
  | cons c rest ih =>
    intro st
    rcases List.mem_cons.1 hcb with h | h
    · obtain ⟨e, he, h2⟩ := hev st
      refine ⟨e, ?_, h2⟩
      simp only [runCallbacks]
      rw [← h]
      exact List.mem_append_left _ he
    · obtain ⟨e, he, h2⟩ := ih h (c.run within observers_ st).2
      refine ⟨e, ?_, h2⟩
      simp only [runCallbacks]
      exact List.mem_append_right _ he

/-- An observer call made from inside a statement in every state is made in the
run of a list with that statement. -/
theorem exists_mem_runDestructorSteps {s : DestructorInput} {l : List DestructorStep}
    {x : DestructorStep} {ev : DestructorEvent} (hx : x ∈ l)
    (hev : ∀ st : DestructorState, ∃ e ∈ (st.step s x).1, e.1 = ev) :
    ∀ st, ∃ e ∈ runDestructorSteps s st l, e.1 = ev := by
  induction l with
  | nil => cases hx
  | cons a rest ih =>
    intro st
    rcases List.mem_cons.1 hx with h | h
    · obtain ⟨e, he, h2⟩ := hev st
      refine ⟨e, ?_, h2⟩
      simp only [runDestructorSteps, List.cons_append, List.mem_cons, List.mem_append]
      rw [← h]
      exact Or.inr (Or.inl he)
    · obtain ⟨e, he, h2⟩ := ih h (st.step s a).2
      refine ⟨e, ?_, h2⟩
      simp only [runDestructorSteps, List.cons_append, List.mem_cons, List.mem_append]
      exact Or.inr (Or.inr he)

theorem clearRFHs_mem_prologue (s : DestructorInput) {node : Nat}
    (h : node ∈ s.frame_tree_nodes) :
    DestructorStep.ClearRFHsPendingShutdown node ∈ destructorPrologue s := by
  unfold destructorPrologue
  apply List.mem_append_right
  rw [List.mem_flatMap]
  exact ⟨node, h, List.mem_cons_self _ _⟩

/-- Claim C19 fails as stated: in `pendingShutdownSession` the call
`ClearRFHsPendingShutdown` on node `1` leads to `RenderFrameDeleted(5)`, whose
notification is delivered to observer `7` with `is_being_destroyed_` set while
the created widgets `1` and `2` still have the session as delegate: the loop
over the frame tree nodes comes before the `DetachDelegate` loop. -/
theorem C19_counterexample_reentered_notification :
    pendingShutdownSession.created_widgets_ = [1, 2] ∧
    (DestructorEvent.Reentered (DestructorStep.ClearRFHsPendingShutdown 1) 7
        (ReenteredCall.RenderFrameDeleted 5),
      ({ is_being_destroyed_ := true, widget_delegates := [1, 2] } : DestructorState)) ∈
      runDestructor pendingShutdownSession := by
  decide

/-- Claim C19, amended.  In the run of the destructor of a session whose created
widget hosts have the session as delegate: every observer notification made by
a statement of the destructor itself, and every one made by a method called
back from inside `ResetChildren`, is executed in a state where
`is_being_destroyed_` is set and no created widget host has the session as
delegate any more.  Every notification made by a method called back from inside
`ClearRFHsPendingShutdown` is executed with the flag set and with every created
widget still attached (unless one of those callbacks deleted it), and when
`ClearRFHsPendingShutdown` on a node of the tree leads to `RenderFrameDeleted`,
its notification is in the run for every observer.  For every created widget
`w` and observer `o`, `w->DetachDelegate()` precedes the `WebContentsDestroyed`
notification of `o`. -/
theorem C19_widgets_detached_before_notifications (s : DestructorInput) :
    (∀ e ∈ runDestructor s, ∀ o,
      ((∃ c, e.1 = DestructorEvent.Statement (DestructorStep.Notify o c)) ∨
        (∃ c, e.1 = DestructorEvent.Reentered DestructorStep.ResetChildren o c)) →
      e.2.is_being_destroyed_ = true ∧
        ∀ w ∈ s.created_widgets_, w ∉ e.2.widget_delegates) ∧
    (∀ e ∈ runDestructor s, ∀ node o c,
      e.1 = DestructorEvent.Reentered (DestructorStep.ClearRFHsPendingShutdown node) o c →
      e.2.is_being_destroyed_ = true ∧
        ∀ w ∈ s.created_widgets_,
          (∀ entry ∈ s.rfhs_pending_shutdown, ∀ b,
            entry.2 ≠ DelegateCallback.RenderWidgetDeleted w b) →
          w ∈ e.2.widget_delegates) ∧
    (∀ node ∈ s.frame_tree_nodes, ∀ rfh frame,
      (node, DelegateCallback.RenderFrameDeleted rfh frame) ∈ s.rfhs_pending_shutdown →
      ∀ o ∈ s.observers_, ∃ e ∈ runDestructor s,
        e.1 = DestructorEvent.Reentered (DestructorStep.ClearRFHsPendingShutdown node) o
          (ReenteredCall.RenderFrameDeleted rfh)) ∧
    (∀ w ∈ s.created_widgets_, ∀ o ∈ s.observers_,
      Precedes (DestructorStep.DetachDelegate w)
        (DestructorStep.Notify o ObserverCall.WebContentsDestroyed) (destructorSteps s)) := by
  refine ⟨?_, ?_, ?_, ?_⟩
  · intro e he o hev
    unfold runDestructor at he
    rw [destructorSteps_split_after_widgets, runDestructorSteps_append] at he
    rcases List.mem_append.1 he with h1 | h1
    · exfalso
      obtain ⟨_, x, hx, hx2⟩ := (runDestructorSteps_invariant s (fun _ => True) _
        (fun _ _ _ => trivial) (fun _ _ _ _ => trivial) (fun _ _ _ _ _ _ _ => trivial)
        (fun _ _ _ _ _ _ => trivial) _ trivial).1 e h1
      rcases hev with ⟨c, hc⟩ | ⟨c, hc⟩
      · rw [hc] at hx2
        rcases hx2 with h2 | ⟨o2, c2, h2⟩
        · cases h2
          rcases List.mem_append.1 hx with h3 | h3
          · exact not_notify_mem_prologue s o c h3
          · exact not_notify_mem_widgets s o c h3
        · cases h2
      · rw [hc] at hx2
        rcases hx2 with h2 | ⟨o2, c2, h2⟩
        · cases h2
        · cases h2
          exact resetChildren_not_mem_before_frames s hx
    · refine ((runDestructorSteps_invariant s
        (fun t => t.is_being_destroyed_ = true ∧
          ∀ w ∈ s.created_widgets_, w ∉ t.widget_delegates) _
        (fun _ _ ht => ⟨rfl, ht.2⟩)
        (fun _ _ _ ht => ⟨ht.1, fun w hw hm => ht.2 w hw (mem_of_mem_erase hm)⟩)
        (fun _ _ _ _ _ _ ht => ⟨ht.1, fun w hw hm => ht.2 w hw (mem_of_mem_erase hm)⟩)
        (fun _ _ _ _ _ ht => ⟨ht.1, fun w hw hm => ht.2 w hw (mem_of_mem_erase hm)⟩)
        _ ⟨?_, ?_⟩).1 e h1).1
      · exact stateAfter_flag s _ _
          (Or.inr (List.mem_append_left _ (setFlag_mem_prologue s)))
      · intro w hw
        exact stateAfter_detached s _ _ w
          (Or.inr (List.mem_append_right _ (detach_mem_widgets s hw)))
  · intro e he node o c hev
    unfold runDestructor at he
    rw [destructorSteps_split_after_prologue, runDestructorSteps_append] at he
    rcases List.mem_append.1 he with h1 | h1
    · constructor
      · obtain ⟨rest, hrest⟩ := destructorPrologue_eq_cons s
        rw [hrest] at h1
        have h1 := List.mem_cons.1 h1
        have hinv := runDestructorSteps_invariant s (fun t => t.is_being_destroyed_ = true) rest
          (fun _ _ _ => rfl) (fun _ _ _ ht => ht) (fun _ _ _ _ _ _ ht => ht)
          (fun _ _ _ _ _ ht => ht)
        rcases h1 with h2 | h2
        · rw [h2] at hev
          cases hev
        · rcases List.mem_append.1 h2 with h3 | h3
          · cases h3
          · refine ((hinv _ ?_).1 e h3).1
            rfl
      · intro w hw hnot
        refine ((runDestructorSteps_invariant s
          (fun t => ∀ v ∈ s.created_widgets_,
            (∀ entry ∈ s.rfhs_pending_shutdown, ∀ b,
              entry.2 ≠ DelegateCallback.RenderWidgetDeleted v b) →
            v ∈ t.widget_delegates) (destructorPrologue s)
          (fun _ _ ht => ht)
          (fun v hv => absurd hv (detach_not_mem_prologue s v))
          ?_
          (fun _ _ hm => absurd (List.mem_append_left _ hm)
            (resetChildren_not_mem_before_frames s))
          _ (fun v hv _ => hv)).1 e h1).1 w hw hnot
        intro n v b _ hcb st ht u hu hunot
        apply mem_erase_of_ne _ (ht u hu hunot)
        rintro rfl
        exact hunot _ (mem_pendingShutdownCallbacks.1 hcb) b rfl
    · exfalso
      obtain ⟨_, x, hx, hx2⟩ := (runDestructorSteps_invariant s (fun _ => True) _
        (fun _ _ _ => trivial) (fun _ _ _ _ => trivial) (fun _ _ _ _ _ _ _ => trivial)
        (fun _ _ _ _ _ _ => trivial) _ trivial).1 e h1
      rw [hev] at hx2
      rcases hx2 with h2 | ⟨o2, c2, h2⟩
      · cases h2
      · cases h2
        exact clearRFHs_not_mem_after_prologue s node hx
  · intro node hnode rfh frame hcb o ho
    unfold runDestructor
    apply exists_mem_runDestructorSteps
      (List.mem_append_left _ (List.mem_append_left _ (List.mem_append_left _
        (List.mem_append_left _ (clearRFHs_mem_prologue s hnode)))))
    intro st
    apply exists_mem_runCallbacks (mem_pendingShutdownCallbacks.2 hcb)
    intro st2
    refine ⟨(DestructorEvent.Reentered (DestructorStep.ClearRFHsPendingShutdown node) o
      (ReenteredCall.RenderFrameDeleted rfh), st2), ?_, rfl⟩
    simp only [DelegateCallback.run]
    apply List.mem_append_left
    exact List.mem_map.2 ⟨o, ho, rfl⟩
  · intro w hw o ho
    rw [destructorSteps_split_after_widgets]
    apply Precedes.of_append
    · exact List.mem_append_right _ (detach_mem_widgets s hw)
    · intro h
      rcases List.mem_append.1 h with h2 | h2
      · exact not_notify_mem_prologue s o _ h2
      · exact not_notify_mem_widgets s o _ h2
    · exact List.mem_append_right _ (notify_mem_tail s ho _ (Or.inr (Or.inr (Or.inl rfl))))

theorem C19_widgets_detached_before_notifications_witness :
    Precedes (DestructorStep.DetachDelegate 1)
      (DestructorStep.Notify 7 ObserverCall.WebContentsDestroyed)
      (destructorSteps pendingShutdownSession) ∧
    Precedes (DestructorStep.DetachDelegate 2)
      (DestructorStep.Notify 7 ObserverCall.WebContentsDestroyed)
      (destructorSteps pendingShutdownSession) ∧
    (∃ e ∈ runDestructor pendingShutdownSession,
      e.1 = DestructorEvent.Reentered (DestructorStep.ClearRFHsPendingShutdown 1) 8
        (ReenteredCall.RenderFrameDeleted 5)) :=
  ⟨(C19_widgets_detached_before_notifications pendingShutdownSession).2.2.2 1 (by decide) 7
      (by decide),
    (C19_widgets_detached_before_notifications pendingShutdownSession).2.2.2 2 (by decide) 7
      (by decide),
    (C19_widgets_detached_before_notifications pendingShutdownSession).2.2.1 1 (by decide) 5
      none (by decide) 8 (by decide)⟩

/-! ## Liveness after the delegate call of the fullscreen transitions -/

/-- Claim C22.  Evaluation of the code where the claim fails: when the delegate
destroys the session during the call, `ExitFullscreenMode` executes nothing
after `ExitFullscreenModeForTab` (for every input), but `EnterFullscreenMode`
goes on after `EnterFullscreenModeForTab`: it reads `keyboard_lock_widget_`,
requests the keyboard lock, calls `IsFullscreen()` and
`NotifyFullscreenChanged`. -/
theorem C22_EnterFullscreenMode_continues_after_destruction :
    (∀ i : FullscreenTransitionInput,
      stepsAfter FullscreenTransitionStep.DelegateExitFullscreenModeForTab
        (ExitFullscreenModeSteps
          { i with has_delegate := true, delegate_destroys_session := true }) = []) ∧
    stepsAfter FullscreenTransitionStep.DelegateEnterFullscreenModeForTab
        (EnterFullscreenModeSteps destroyingDelegate) =
      [FullscreenTransitionStep.ReadKeyboardLockWidget,
        FullscreenTransitionStep.DelegateRequestKeyboardLock,
        FullscreenTransitionStep.CallIsFullscreen,
        FullscreenTransitionStep.CallNotifyFullscreenChanged] := by
  refine ⟨?_, by decide⟩
  intro i
  cases hw : i.has_fullscreen_widget_view
  · simp [ExitFullscreenModeSteps, stepsAfter, hw, List.dropWhile]
  · simp only [ExitFullscreenModeSteps, stepsAfter, hw, if_true, List.append_nil,
      List.singleton_append]
    decide


/-! ## Requests without a delegate -/

/-- Running the closure of the block right after `ForSecurityDropFullscreen`
gives every blocker count its value from before. -/
theorem blockerCount_drop_then_run (w : World) (this : Nat) (d : Int) (x : Nat) :
    blockerCount (RunBlockedContentses (ForSecurityDropFullscreen w this d).2
      (ForSecurityDropFullscreen w this d).1) x = blockerCount w x := by
  rw [RunBlockedContentses_blockerCount x _ _ (by
      rw [ForSecurityDropFullscreen_snd]; exact nodup_GetAllOpeningWebContents _ _),
    ForSecurityDropFullscreen_blockerCount, ForSecurityDropFullscreen_snd,
    (ForSecurityDropFullscreen_topology w this d).live_eq]
  split_ifs <;> omega

/-- Claim C23.  Without a delegate: `RequestMediaAccessPermission` runs the callback
with no devices, `FAILED_DUE_TO_SHUTDOWN` and no UI; `RunJavaScriptDialog`, with
no DevTools page handler either, runs the response callback once more, with
`success = false` and empty input, suppressed, leaves no dialog marked as
showing and no callback waiting, and every blocker count has its value from
before; `RunFileChooser` calls `FileSelectionCanceled` on the listener and
hands nothing to a delegate. -/
theorem C23_no_delegate_requests_fail_at_once (w : World) (this : Nat) (request : Nat)
    (st : JavaScriptDialogState) (answers : JavaScriptDialogAnswers)
    (listener : FileSelectListener)
    (hd : st.has_delegate = false) (hp : st.page_handlers = []) :
    RequestMediaAccessPermission false request =
      MediaResponse.Run [] MediaStreamRequestResult.FAILED_DUE_TO_SHUTDOWN none ∧
    (RunJavaScriptDialog w this st answers).2.response_callback_runs =
      st.response_callback_runs ++ [(false, [])] ∧
    (RunJavaScriptDialog w this st answers).2.is_showing_javascript_dialog_ = false ∧
    (RunJavaScriptDialog w this st answers).2.is_showing_before_unload_dialog_ = false ∧
    (RunJavaScriptDialog w this st answers).2.last_dialog_suppressed_ = true ∧
    (RunJavaScriptDialog w this st answers).2.wrapped_callback = st.wrapped_callback ∧
    (∀ x, blockerCount (RunJavaScriptDialog w this st answers).1 x = blockerCount w x) ∧
    (RunFileChooser w this false listener).2.file_selection_canceled = true ∧
    (RunFileChooser w this false listener).2.handed_to_delegate =
      listener.handed_to_delegate := by
  have hrun : RunJavaScriptDialog w this st answers =
      OnDialogClosed (ForSecurityDropFullscreen w this kInvalidDisplayId).1
        { st with javascript_dialog_navigation_deferrer_ := true }
        (ForSecurityDropFullscreen w this kInvalidDisplayId).2 true false [] := by
    simp [RunJavaScriptDialog, hd, hp]
  rw [hrun]
  have hfields : ∀ (v : World) (s : JavaScriptDialogState) (b : List Nat),
      (OnDialogClosed v s b true false []).2.response_callback_runs =
        s.response_callback_runs ++ [(false, [])] ∧
      (OnDialogClosed v s b true false []).2.is_showing_javascript_dialog_ = false ∧
      (OnDialogClosed v s b true false []).2.is_showing_before_unload_dialog_ = false ∧
      (OnDialogClosed v s b true false []).2.last_dialog_suppressed_ = true ∧
      (OnDialogClosed v s b true false []).2.wrapped_callback = s.wrapped_callback ∧
      (OnDialogClosed v s b true false []).1 = RunBlockedContentses b v := by
    intro v s b
    unfold OnDialogClosed
    cases s.is_showing_before_unload_dialog_ <;> exact ⟨rfl, rfl, rfl, rfl, rfl, rfl⟩
  obtain ⟨h1, h2, h3, h4, h5, h6⟩ := hfields
    (ForSecurityDropFullscreen w this kInvalidDisplayId).1
    { st with javascript_dialog_navigation_deferrer_ := true }
    (ForSecurityDropFullscreen w this kInvalidDisplayId).2
  refine ⟨rfl, h1, h2, h3, h4, h5, ?_, rfl, rfl⟩
  intro x
  rw [h6]
  exact blockerCount_drop_then_run w this kInvalidDisplayId x

theorem C23_no_delegate_requests_fail_at_once_witness :
    (RunJavaScriptDialog arbiterWorld 3 {} {}).2.response_callback_runs = [(false, [])] ∧
    (∀ x, blockerCount (RunJavaScriptDialog arbiterWorld 3 {} {}).1 x =
      blockerCount arbiterWorld x) ∧
    (RunFileChooser arbiterWorld 3 false {}).2.file_selection_canceled = true :=
  ⟨(C23_no_delegate_requests_fail_at_once arbiterWorld 3 0 {} {} {} rfl rfl).2.1,
    (C23_no_delegate_requests_fail_at_once arbiterWorld 3 0 {} {} {} rfl rfl).2.2.2.2.2.2.1,
    by decide⟩


/-! ## The set of fullscreen frames -/

/-- Claim C24.  `FullscreenStateChanged(f, false)` leaves in the set of fullscreen
frames exactly the members other than `f` that are no descendants of `f`; it
changes nothing at all when no frame is removed, and otherwise ends with
`FullscreenFrameSetUpdated` on the reduced set.  `FullscreenStateChanged(f, true)`
changes nothing at all when `f` is in the set, and otherwise inserts `f` and
ends with `FullscreenFrameSetUpdated`.  So after a call with `false` no member
of the set is `f` or a descendant of `f`. -/
theorem C24_FullscreenStateChanged_set (depth : Nat → Nat) (isDescendantOf : Nat → Nat → Bool)
    (c : WebContentsImpl) (f : Nat) :
    (∀ x, x ∈ (FullscreenStateChanged depth isDescendantOf c f false).fullscreen_frames_ ↔
      x ∈ c.fullscreen_frames_ ∧ x ≠ f ∧ isDescendantOf x f = false) ∧
    ((∀ x ∈ c.fullscreen_frames_, x ≠ f ∧ isDescendantOf x f = false) →
      FullscreenStateChanged depth isDescendantOf c f false = c) ∧
    ((∃ x ∈ c.fullscreen_frames_, x = f ∨ isDescendantOf x f = true) →
      FullscreenStateChanged depth isDescendantOf c f false =
        FullscreenFrameSetUpdated depth
          { c with fullscreen_frames_ :=
              c.fullscreen_frames_.filter (fun current =>
                !(current == f || isDescendantOf current f)) }) ∧
    (f ∈ c.fullscreen_frames_ →
      FullscreenStateChanged depth isDescendantOf c f true = c) ∧
    (f ∉ c.fullscreen_frames_ →
      FullscreenStateChanged depth isDescendantOf c f true =
        FullscreenFrameSetUpdated depth
          { c with fullscreen_frames_ := flatInsert f c.fullscreen_frames_ } ∧
      ∀ x, x ∈ (FullscreenStateChanged depth isDescendantOf c f true).fullscreen_frames_ ↔
        x = f ∨ x ∈ c.fullscreen_frames_) ∧
    (∀ x ∈ (FullscreenStateChanged depth isDescendantOf c f false).fullscreen_frames_,
      x ≠ f ∧ isDescendantOf x f = false) := by
  have hframes : (FullscreenStateChanged depth isDescendantOf c f false).fullscreen_frames_ =
      c.fullscreen_frames_.filter (fun current =>
        !(current == f || isDescendantOf current f)) := by
    unfold FullscreenStateChanged
    simp only [Bool.false_eq_true, if_false]
    split_ifs
    · rw [FullscreenFrameSetUpdated_frames]
    · rfl
  have hmem : ∀ x, x ∈ (FullscreenStateChanged depth isDescendantOf c f false).fullscreen_frames_ ↔
      x ∈ c.fullscreen_frames_ ∧ x ≠ f ∧ isDescendantOf x f = false := by
    intro x
    rw [hframes, List.mem_filter]
    simp
  refine ⟨hmem, ?_, ?_, ?_, ?_, ?_⟩
  · intro hkeep
    apply FullscreenStateChanged_eq_self
    rw [hframes, List.filter_eq_self]
    intro x hx
    have := hkeep x hx
    simp [this.1, this.2]
  · rintro ⟨x, hx, hrem⟩
    have hlen : c.fullscreen_frames_.length ≠
        (c.fullscreen_frames_.filter (fun current =>
          !(current == f || isDescendantOf current f))).length := by
      intro hl
      have hf := filter_eq_of_length_eq _ _ hl.symm
      have hx2 : x ∈ c.fullscreen_frames_.filter (fun current =>
          !(current == f || isDescendantOf current f)) := by rw [hf]; exact hx
      have := (List.mem_filter.1 hx2).2
      rcases hrem with h | h <;> simp [h] at this
    unfold FullscreenStateChanged
    simp only [Bool.false_eq_true, if_false]
    rw [if_pos hlen]
  · intro hf
    simp [FullscreenStateChanged, hf]
  · intro hf
    have heq : FullscreenStateChanged depth isDescendantOf c f true =
        FullscreenFrameSetUpdated depth
          { c with fullscreen_frames_ := flatInsert f c.fullscreen_frames_ } := by
      simp [FullscreenStateChanged, hf]
    refine ⟨heq, ?_⟩
    intro x
    rw [heq, FullscreenFrameSetUpdated_frames]
    exact mem_flatInsert x f c.fullscreen_frames_
  · intro x hx
    exact ((hmem x).1 hx).2

theorem C24_FullscreenStateChanged_set_witness :
    (FullscreenStateChanged sampleDepth sampleIsDescendantOf threeFlagsSession 12
      true) = threeFlagsSession ∧
    (FullscreenStateChanged sampleDepth sampleIsDescendantOf threeFlagsSession 12
      false).fullscreen_frames_ = [10] :=
  ⟨(C24_FullscreenStateChanged_set sampleDepth sampleIsDescendantOf threeFlagsSession
      12).2.2.2.1 (by decide), by decide⟩


/-! ## `CreateWithOpener` and `SetOpenerForNewContents` -/

/-- Claim C25.  The sandbox flags committed on the root of a session made by
`CreateWithOpener` are the opener's active flags when an opener is given and
they contain the bit `kPropagatesToAuxiliaryBrowsingContexts`, no flags
otherwise, or-ed with `params.starting_sandbox_flags`; the opener's feature
state is applied to the new root exactly when an opener is given and its flags
are none or contain that bit. -/
theorem C25_CreateWithOpener_sandbox_flags (inherit_flag : Nat) (params : CreateParams)
    (opener_rfh : Option OpenerFrameHost) :
    (CreateWithOpener inherit_flag params opener_rfh).root_sandbox_flags =
      (match opener_rfh with
        | some rfh =>
          if rfh.active_sandbox_flags &&& inherit_flag = inherit_flag then
            rfh.active_sandbox_flags
          else 0
        | none => 0) ||| params.starting_sandbox_flags ∧
    (CreateWithOpener inherit_flag params opener_rfh).root_pending_sandbox_flags =
      (CreateWithOpener inherit_flag params opener_rfh).root_sandbox_flags ∧
    (CreateWithOpener inherit_flag params opener_rfh).opener_feature_policy_state =
      (match opener_rfh with
        | some rfh =>
          if rfh.active_sandbox_flags = 0 ∨
              rfh.active_sandbox_flags &&& inherit_flag = inherit_flag then
            some rfh.feature_state
          else none
        | none => none) := by
  cases opener_rfh with
  | none =>
    cases hc : params.created_with_opener <;>
      simp [CreateWithOpener, SetOpenerForNewContents, hc]
  | some rfh =>
    by_cases hp : rfh.active_sandbox_flags &&& inherit_flag = inherit_flag <;>
      by_cases h0 : rfh.active_sandbox_flags = 0 <;>
      cases hc : params.created_with_opener <;>
      cases hs : params.opener_suppressed <;>
      simp [CreateWithOpener, SetOpenerForNewContents, hp, h0, hc, hs]

theorem C25_CreateWithOpener_sandbox_flags_witness :
    (CreateWithOpener 4 { starting_sandbox_flags := 2 } (some sampleOpenerFrame)).root_sandbox_flags =
      7 ∧
    (CreateWithOpener 2 { starting_sandbox_flags := 2 } (some sampleOpenerFrame)).root_sandbox_flags =
      2 :=
  ⟨(C25_CreateWithOpener_sandbox_flags 4 { starting_sandbox_flags := 2 }
      (some sampleOpenerFrame)).1.trans (by decide), by decide⟩

/-- Claim C26.  `SetOpenerForNewContents` with a non-null opener records the
session and the root node of the opener's frame tree as original opener, also
when the opener is suppressed; it sets the opener node and
`created_with_opener_` only when the opener is not suppressed, and changes
nothing else; with a null opener it changes nothing.  So in a world where the
new session `this` got its opener this way, the opener's session is in
`GetAllOpeningWebContents(this)`, and `this` cannot enter fullscreen while that
session has a fullscreen blocker. -/
theorem C26_original_opener_is_root_of_opener (c : WebContentsImpl) (opener : FrameTreeNodeRef)
    (opener_suppressed : Bool) (w : World) (this : Nat) (hlive : w.live this = true) :
    SetOpenerForNewContents c none opener_suppressed = c ∧
    (SetOpenerForNewContents c (some opener) opener_suppressed).original_opener =
      some opener.web_contents ∧
    (SetOpenerForNewContents c (some opener) opener_suppressed).original_opener_node =
      some opener.root_frame_tree_node_id ∧
    SetOpenerForNewContents c (some opener) false =
      { c with
        original_opener := some opener.web_contents
        original_opener_node := some opener.root_frame_tree_node_id
        opener_ := some opener.frame_tree_node_id
        created_with_opener_ := true } ∧
    SetOpenerForNewContents c (some opener) true =
      { c with
        original_opener := some opener.web_contents
        original_opener_node := some opener.root_frame_tree_node_id } ∧
    GetOriginalOpener
      (w.modify this (fun c => SetOpenerForNewContents c (some opener) opener_suppressed))
      this = some opener.web_contents ∧
    opener.web_contents ∈ GetAllOpeningWebContents
      (w.modify this (fun c => SetOpenerForNewContents c (some opener) opener_suppressed))
      this ∧
    (blockerCount
        (w.modify this (fun c => SetOpenerForNewContents c (some opener) opener_suppressed))
        opener.web_contents ≠ 0 →
      CanEnterFullscreenMode
        (w.modify this (fun c => SetOpenerForNewContents c (some opener) opener_suppressed))
        this = false) := by
  have horig : (SetOpenerForNewContents c (some opener) opener_suppressed).original_opener =
      some opener.web_contents := by
    cases opener_suppressed <;> rfl
  have hget : GetOriginalOpener
      (w.modify this (fun c => SetOpenerForNewContents c (some opener) opener_suppressed))
      this = some opener.web_contents := by
    unfold GetOriginalOpener
    rw [find_modify, if_pos rfl]
    unfold World.live at hlive
    cases hf : w.find this with
    | none => simp [hf] at hlive
    | some c2 =>
      simp only [Option.map_some', Option.some_bind]
      cases opener_suppressed <;> rfl
  have hmem : opener.web_contents ∈ GetAllOpeningWebContents
      (w.modify this (fun c => SetOpenerForNewContents c (some opener) opener_suppressed))
      this := by
    rw [mem_GetAllOpeningWebContents]
    exact Relation.ReflTransGen.single (Or.inl hget)
  refine ⟨rfl, horig, by cases opener_suppressed <;> rfl, rfl, rfl, hget, hmem, ?_⟩
  intro hb
  unfold CanEnterFullscreenMode
  rw [Bool.eq_false_iff]
  intro hall
  rw [List.all_eq_true] at hall
  have := hall _ hmem
  simp only [beq_iff_eq] at this
  exact hb this

theorem C26_original_opener_is_root_of_opener_witness :
    (SetOpenerForNewContents {} (some sampleOpenerFrame.frame_tree_node)
      true).original_opener_node = some 30 ∧
    1 ∈ GetAllOpeningWebContents
      (arbiterWorld.modify 4 (fun c =>
        SetOpenerForNewContents c (some sampleOpenerFrame.frame_tree_node) true)) 4 :=
  ⟨(C26_original_opener_is_root_of_opener {} sampleOpenerFrame.frame_tree_node true
      arbiterWorld 4 (by decide)).2.2.1,
    (C26_original_opener_is_root_of_opener {} sampleOpenerFrame.frame_tree_node true
      arbiterWorld 4 (by decide)).2.2.2.2.2.2.1⟩


/-! ## `UpdateVisibilityAndNotifyPageAndView` -/

theorem emit_nil (st : VisibilityState) : st.emit [] = st := by
  cases st
  simp [VisibilityState.emit]

theorem emit_emit (st : VisibilityState) (a b : List VisibilityEvent) :
    (st.emit a).emit b = st.emit (a ++ b) := by
  simp [VisibilityState.emit]

theorem emit_ite (c : Prop) [Decidable c] (st : VisibilityState) (l : List VisibilityEvent) :
    (if c then st.emit l else st) = st.emit (if c then l else []) := by
  split_ifs
  · rfl
  · rw [emit_nil]

theorem ite_emit (c : Prop) [Decidable c] (st : VisibilityState) (a b : List VisibilityEvent) :
    (if c then st.emit a else st.emit b) = st.emit (if c then a else b) := by
  split_ifs <;> rfl

theorem withVisibility_emit (st : VisibilityState) (l : List VisibilityEvent) (v : Visibility) :
    (st.emit l).withVisibility v = (st.withVisibility v).emit l := rfl

theorem SetVisibilityAndNotifyObservers_emit (st : VisibilityState) (l : List VisibilityEvent)
    (v : Visibility) :
    SetVisibilityAndNotifyObservers (st.emit l) v =
      (st.withVisibility v).emit (l ++
        (if v ≠ st.visibility_ ∨ (v = Visibility.VISIBLE ∧ st.did_first_set_visible_ = false)
          then [VisibilityEvent.OnVisibilityChanged v] else [])) := by
  unfold SetVisibilityAndNotifyObservers
  simp only []
  split_ifs with h1 h2 h2
  · simp [VisibilityState.emit, VisibilityState.withVisibility]
  · exact absurd h1 h2
  · exact absurd h2 h1
  · simp [VisibilityState.emit, VisibilityState.withVisibility]

/-- The method `UpdateVisibilityAndNotifyPageAndView` in closed form: the member
`visibility_` becomes `v`, and the calls are appended in the order of the
source. -/
theorem UpdateVisibilityAndNotifyPageAndView_eq (st : VisibilityState) (v : Visibility) :
    UpdateVisibilityAndNotifyPageAndView st v =
      (st.withVisibility v).emit
        ((if computePageVisibility st v ≠ PageVisibilityState.kHidden then
            VisibilityEvent.ControllerSetActive ::
              st.render_view_hosts.map (fun rvh =>
                VisibilityEvent.RenderViewHostSetVisibility rvh (computePageVisibility st v))
            else []) ++
          (if st.has_render_widget_host_view = true then
            if (decide (computePageVisibility st v ≠ PageVisibilityState.kHidden) ||
                st.has_picture_in_picture_video) = true then [VisibilityEvent.ViewShow]
            else if v = Visibility.HIDDEN then [VisibilityEvent.ViewHide]
            else [VisibilityEvent.ViewWasOccluded]
            else []) ++
          [VisibilityEvent.SetVisibilityForChildViews
            (decide (computePageVisibility st v ≠ PageVisibilityState.kHidden) ||
              st.has_picture_in_picture_video)] ++
          (if v = Visibility.VISIBLE then
            (if v ≠ st.visibility_ ∨
                (v = Visibility.VISIBLE ∧ st.did_first_set_visible_ = false) then
              [VisibilityEvent.OnVisibilityChanged v] else [])
            else []) ++
          (if computePageVisibility st v = PageVisibilityState.kHidden then
            st.render_view_hosts.map (fun rvh =>
              VisibilityEvent.RenderViewHostSetVisibility rvh (computePageVisibility st v))
            else st.nodes_with_proxy_to_parent.map VisibilityEvent.DelegateWasShown) ++
          (if v ≠ Visibility.VISIBLE then
            (if v ≠ st.visibility_ ∨
                (v = Visibility.VISIBLE ∧ st.did_first_set_visible_ = false) then
              [VisibilityEvent.OnVisibilityChanged v] else [])
            else [])) := by
  have hproj1 : ∀ (s : VisibilityState) (l : List VisibilityEvent),
      (s.emit l).has_render_widget_host_view = s.has_render_widget_host_view := fun _ _ => rfl
  have hproj2 : ∀ (s : VisibilityState) (l : List VisibilityEvent),
      (s.emit l).render_view_hosts = s.render_view_hosts := fun _ _ => rfl
  have hproj3 : ∀ (s : VisibilityState) (l : List VisibilityEvent),
      (s.emit l).nodes_with_proxy_to_parent = s.nodes_with_proxy_to_parent := fun _ _ => rfl
  have hproj4 : ∀ (s : VisibilityState) (u : Visibility),
      (s.withVisibility u).render_view_hosts = s.render_view_hosts := fun _ _ => rfl
  have hproj5 : ∀ (s : VisibilityState) (u : Visibility),
      (s.withVisibility u).nodes_with_proxy_to_parent = s.nodes_with_proxy_to_parent :=
    fun _ _ => rfl
  unfold UpdateVisibilityAndNotifyPageAndView
  by_cases hv : v = Visibility.VISIBLE
  · simp only [hv, if_true, ne_eq, not_true_eq_false, if_false, List.append_nil,
      emit_ite, ite_emit, emit_emit, hproj1, hproj2, hproj3, hproj4, hproj5,
      SetVisibilityAndNotifyObservers_emit, List.append_assoc]
    congr 1
    split_ifs <;> simp_all
  · simp only [hv, if_false, ne_eq, not_false_eq_true, if_true, List.append_nil,
      emit_ite, ite_emit, emit_emit, hproj1, hproj2, hproj3, hproj4, hproj5,
      SetVisibilityAndNotifyObservers_emit, List.append_assoc, false_and, or_false,
      List.nil_append]
    congr 1
    split_ifs <;> simp_all

/-- Claim C27.  With no immersive VR session: the page visibility is visible when
`v` is `VISIBLE` or the visible-capturer count is positive, hidden-but-painting
when otherwise the hidden-capturer count is positive, hidden otherwise.  Among
the calls `UpdateVisibilityAndNotifyPageAndView(v)` makes, every render view
host gets `SetVisibility` with that state and with no other; the view is shown
exactly when there is one and the state is not hidden or the session has a
picture-in-picture video; afterwards `visibility_` is `v`.  When the page is
hidden, `v` is not `VISIBLE` and neither count is positive, so with counts that
are not negative the session is not being captured. -/
theorem C27_page_visibility_from_capturers (st : VisibilityState) (v : Visibility)
    (hvr : st.web_contents_visible_in_vr = false) :
    computePageVisibility st v =
      (if v = Visibility.VISIBLE ∨ st.visible_capturer_count_ > 0 then
        PageVisibilityState.kVisible
      else if st.hidden_capturer_count_ > 0 then PageVisibilityState.kHiddenButPainting
      else PageVisibilityState.kHidden) ∧
    (∀ rvh ∈ st.render_view_hosts,
      VisibilityEvent.RenderViewHostSetVisibility rvh (computePageVisibility st v) ∈
        (UpdateVisibilityAndNotifyPageAndView st v).events.drop st.events.length) ∧
    (∀ rvh s, VisibilityEvent.RenderViewHostSetVisibility rvh s ∈
        (UpdateVisibilityAndNotifyPageAndView st v).events.drop st.events.length →
      s = computePageVisibility st v) ∧
    (VisibilityEvent.ViewShow ∈
        (UpdateVisibilityAndNotifyPageAndView st v).events.drop st.events.length ↔
      st.has_render_widget_host_view = true ∧
        (computePageVisibility st v ≠ PageVisibilityState.kHidden ∨
          st.has_picture_in_picture_video = true)) ∧
    (UpdateVisibilityAndNotifyPageAndView st v).visibility_ = v ∧
    (computePageVisibility st v = PageVisibilityState.kHidden →
      v ≠ Visibility.VISIBLE ∧ st.visible_capturer_count_ ≤ 0 ∧
      st.hidden_capturer_count_ ≤ 0 ∧
      (0 ≤ st.visible_capturer_count_ → 0 ≤ st.hidden_capturer_count_ →
        IsBeingCaptured st = false)) := by
  have hpage : computePageVisibility st v =
      (if v = Visibility.VISIBLE ∨ st.visible_capturer_count_ > 0 then
        PageVisibilityState.kVisible
      else if st.hidden_capturer_count_ > 0 then PageVisibilityState.kHiddenButPainting
      else PageVisibilityState.kHidden) := by
    simp [computePageVisibility, hvr]
  have hdrop : ∀ l : List VisibilityEvent,
      List.drop st.events.length (((st.withVisibility v).emit l).events) = l := by
    intro l
    show List.drop st.events.length (st.events ++ l) = l
    simp
  rw [UpdateVisibilityAndNotifyPageAndView_eq, hdrop]
  refine ⟨hpage, ?_, ?_, ?_, rfl, ?_⟩
  · intro rvh hr
    by_cases hP : computePageVisibility st v = PageVisibilityState.kHidden
    · simp [hP, hr]
    · simp [hP, hr]
  · intro rvh s hmem
    simp only [List.mem_append, List.mem_singleton] at hmem
    rcases hmem with ((((h | h) | h) | h) | h) | h
    · split_ifs at h
      · simp only [List.mem_cons, List.mem_map] at h
        rcases h with h | ⟨r, _, h⟩
        · cases h
        · cases h; rfl
      · cases h
    · split_ifs at h <;> simp at h
    · cases h
    · split_ifs at h <;> simp at h
    · split_ifs at h
      · obtain ⟨r, _, h⟩ := List.mem_map.1 h
        cases h; rfl
      · obtain ⟨r, _, h⟩ := List.mem_map.1 h
        cases h
    · split_ifs at h <;> simp at h
  · by_cases hP : computePageVisibility st v = PageVisibilityState.kHidden <;>
      cases hview : st.has_render_widget_host_view <;>
      cases hpip : st.has_picture_in_picture_video <;>
      simp [hP, hview, hpip] <;>
      split_ifs <;> simp
  · intro hh
    rw [hpage] at hh
    split_ifs at hh with h1 h2
    have h3 : v ≠ Visibility.VISIBLE := fun h => h1 (Or.inl h)
    have h4 : st.visible_capturer_count_ ≤ 0 := by
      by_contra h
      exact h1 (Or.inr (by omega))
    have h5 : st.hidden_capturer_count_ ≤ 0 := by omega
    refine ⟨h3, h4, h5, ?_⟩
    intro h6 h7
    simp only [IsBeingCaptured, decide_eq_false_iff_not]
    omega

theorem C27_page_visibility_from_capturers_witness :
    computePageVisibility hiddenCapturedSession Visibility.HIDDEN =
      PageVisibilityState.kHiddenButPainting ∧
    (UpdateVisibilityAndNotifyPageAndView hiddenCapturedSession Visibility.HIDDEN).events =
      [VisibilityEvent.ControllerSetActive,
        VisibilityEvent.RenderViewHostSetVisibility 1 PageVisibilityState.kHiddenButPainting,
        VisibilityEvent.RenderViewHostSetVisibility 2 PageVisibilityState.kHiddenButPainting,
        VisibilityEvent.ViewShow,
        VisibilityEvent.SetVisibilityForChildViews true] ∧
    (UpdateVisibilityAndNotifyPageAndView hiddenCapturedSession Visibility.HIDDEN).visibility_ =
      Visibility.HIDDEN :=
  ⟨by decide, by decide,
    (C27_page_visibility_from_capturers hiddenCapturedSession Visibility.HIDDEN rfl).2.2.2.2.1⟩


/-! ## Audio state: the recursion of `OnAudioStateChanged` -/

theorem find_modify_setAudible_ne (w : World) (x z : Nat) (v : Bool) (h : z ≠ x) :
    (w.modify x (setAudible v)).find z = w.find z := by
  rw [find_modify, if_neg h]

theorem setAudible_topology (w : World) (x : Nat) (v : Bool) :
    SameTopology w (w.modify x (setAudible v)) :=
  SameTopology.modify w x _ (fun _ => rfl) (fun _ => rfl)

theorem innerWebContents_setAudible (w : World) (x z : Nat) (v : Bool) :
    innerWebContents (w.modify x (setAudible v)) z = innerWebContents w z := by
  rw [innerWebContents_modify]
  unfold innerWebContents
  split_ifs <;> cases w.find z <;> rfl

theorem IsCurrentlyAudible_setAudible (w : World) (x z : Nat) (v : Bool) :
    IsCurrentlyAudible (w.modify x (setAudible v)) z =
      if z = x ∧ w.live x = true then v else IsCurrentlyAudible w z := by
  unfold IsCurrentlyAudible World.live
  rw [find_modify]
  by_cases hz : z = x
  · subst hz
    cases w.find z <;> simp [setAudible]
  · simp [hz]

theorem WasEverAudible_setAudible (w : World) (x z : Nat) (v : Bool)
    (h : WasEverAudible w z = true) : WasEverAudible (w.modify x (setAudible v)) z = true := by
  unfold WasEverAudible at h ⊢
  rw [find_modify]
  by_cases hz : z = x
  · subst hz
    cases hf : w.find z with
    | none => simp [hf] at h
    | some c =>
      simp only [hf] at h
      simp [setAudible, h]
  · simpa [hz] using h

theorem any_congr_of_mem {α : Type} {f g : α → Bool} :
    ∀ (l : List α), (∀ a ∈ l, f a = g a) → l.any f = l.any g := by
  intro l
  induction l with
  | nil => intro _; rfl
  | cons a rest ih =>
    intro h
    simp only [List.any_cons]
    rw [h a (List.mem_cons_self _ _), ih (fun b hb => h b (List.mem_cons_of_mem _ hb))]

theorem aggregateAudible_eq (w : World) (x : Nat) :
    aggregateAudible w x =
      ((match w.find x with
        | some c => c.audio_stream_monitor_audible || c.guests_audible
        | none => false) ||
      (innerWebContents w x).any (fun inner => IsCurrentlyAudible w inner)) := by
  unfold aggregateAudible innerWebContents
  cases w.find x <;> rfl

/-- The aggregation equation at `x` reads the session `x` and the member
`is_currently_audible_` of its inner sessions only. -/
theorem AudioConsistent_congr {w w2 : World} {x : Nat} (hx : w2.find x = w.find x)
    (hin : ∀ inner ∈ innerWebContents w x,
      IsCurrentlyAudible w2 inner = IsCurrentlyAudible w inner) :
    AudioConsistent w2 x ↔ AudioConsistent w x := by
  have hinner : innerWebContents w2 x = innerWebContents w x := by
    unfold innerWebContents; rw [hx]
  have hagg : aggregateAudible w2 x = aggregateAudible w x := by
    rw [aggregateAudible_eq, aggregateAudible_eq, hx, hinner]
    congr 1
    exact any_congr_of_mem _ hin
  unfold AudioConsistent
  rw [hagg]
  unfold IsCurrentlyAudible
  rw [hx]


theorem InnerListsAgree.mem {w : World} (h : InnerListsAgree w) {x inner : Nat}
    (hI : inner ∈ innerWebContents w x) : GetOuterWebContents w inner = some x := by
  obtain ⟨c, hc, _⟩ := find_isSome_of_mem_inner hI
  have hlive : w.live x = true := by simp [World.live, hc]
  exact h x (lt_length_of_live hlive) inner hI

theorem InnerListsAgree.of_same {w w2 : World} (h : InnerListsAgree w) (ht : SameTopology w w2)
    (hin : ∀ z, innerWebContents w2 z = innerWebContents w z) : InnerListsAgree w2 := by
  intro x _ inner hI
  rw [hin] at hI
  rw [ht.outer_eq]
  exact h.mem hI

theorem OuterLinksDescend.reflTransGen {w : World} {depth : Nat → Nat}
    (h : OuterLinksDescend w depth) {a b : Nat}
    (hab : Relation.ReflTransGen (OuterOf w) a b) : depth b ≤ depth a := by
  rcases Relation.reflTransGen_iff_eq_or_transGen.1 hab with h1 | h1
  · rw [h1]
  · exact le_of_lt (h.transGen h1).2

theorem eraseAudio_setAudible (w : World) (x z : Nat) (v : Bool) :
    ((w.modify x (setAudible v)).find z).map eraseAudio = (w.find z).map eraseAudio := by
  rw [find_modify]
  split_ifs <;> cases w.find z <;> rfl

/-- The aggregation equation holds at `x` right after the assignment of the
aggregated value to `x`. -/
theorem AudioConsistent_setAudible_self {w : World} {depth : Nat → Nat}
    (hwf : OuterLinksDescend w depth) (hin : InnerListsAgree w) (x : Nat)
    (hlive : w.live x = true) :
    AudioConsistent (w.modify x (setAudible (aggregateAudible w x))) x := by
  unfold AudioConsistent
  rw [IsCurrentlyAudible_setAudible, if_pos ⟨rfl, hlive⟩, aggregateAudible_eq,
    aggregateAudible_eq, innerWebContents_setAudible, find_modify, if_pos rfl]
  congr 1
  · cases w.find x <;> rfl
  · apply any_congr_of_mem
    intro inner hI
    rw [IsCurrentlyAudible_setAudible, if_neg]
    rintro ⟨rfl, _⟩
    exact absurd (hwf.descend (hin.mem hI)).2 (lt_irrefl _)

/-- Sessions other than `x` and other than the outer session of `x` keep the
aggregation equation when the audible state of `x` is assigned. -/
theorem AudioConsistent_setAudible_other {w : World} (hin : InnerListsAgree w) (x y : Nat)
    (v : Bool) (hyx : y ≠ x) (hout : GetOuterWebContents w x ≠ some y) :
    AudioConsistent (w.modify x (setAudible v)) y ↔ AudioConsistent w y := by
  apply AudioConsistent_congr (find_modify_setAudible_ne w x y v hyx)
  intro inner hI
  rw [IsCurrentlyAudible_setAudible, if_neg]
  rintro ⟨rfl, _⟩
  exact hout (hin.mem hI)

/-- The recursion of `OnAudioStateChanged` returns once the fuel exceeds the rank
of the start; it changes audio members of sessions on the outer chain of `x`
only, leaves the aggregation equation true at `x`, and true everywhere when it
was true everywhere except at `x`. -/
theorem OnAudioStateChangedLoop_spec {depth : Nat → Nat} :
    ∀ (fuel : Nat) (w : World) (x : Nat), OuterLinksDescend w depth → InnerListsAgree w →
      depth x < fuel →
      ∃ w2 l, OnAudioStateChangedLoop fuel w x = some (w2, l) ∧
        SameTopology w w2 ∧
        (∀ z, innerWebContents w2 z = innerWebContents w z) ∧
        (∀ z, (w2.find z).map eraseAudio = (w.find z).map eraseAudio) ∧
        (∀ z, ¬ Relation.ReflTransGen (OuterOf w) x z → w2.find z = w.find z) ∧
        AudioConsistent w2 x ∧
        ((∀ y, y ≠ x → AudioConsistent w y) → ∀ y, AudioConsistent w2 y) ∧
        (∀ z, WasEverAudible w z = true → WasEverAudible w2 z = true) ∧
        l.head? = some x ∧
        (∀ z ∈ l, Relation.ReflTransGen (OuterOf w) x z) ∧
        (aggregateAudible w x = IsCurrentlyAudible w x → w2 = w ∧ l = [x]) ∧
        (aggregateAudible w x ≠ IsCurrentlyAudible w x →
          IsCurrentlyAudible w2 x = aggregateAudible w x ∧
          ∀ O, OuterOf w x O → O ∈ l) := by
  intro fuel
  induction fuel with
  | zero => intro w x _ _ hx; omega
  | succ n ih =>
    intro w x hwf hin hx
    by_cases hv : aggregateAudible w x = IsCurrentlyAudible w x
    · refine ⟨w, [x], by simp [OnAudioStateChangedLoop, hv], SameTopology.refl w,
        fun _ => rfl, fun _ => rfl, fun _ _ => rfl, hv.symm, ?_, fun _ h => h, rfl, ?_,
        fun _ => ⟨rfl, rfl⟩, fun h => absurd hv h⟩
      · intro hothers y
        by_cases hy : y = x
        · rw [hy]; exact hv.symm
        · exact hothers y hy
      · intro z hz
        rw [List.mem_singleton.1 hz]
    · have hlive : w.live x = true := by
        by_contra hl
        apply hv
        have hnone : w.find x = none := by
          unfold World.live at hl
          cases hf : w.find x with
          | none => rfl
          | some c => simp [hf] at hl
        simp [aggregateAudible, IsCurrentlyAudible, hnone]
      have ht1 := setAudible_topology w x (aggregateAudible w x)
      have hin1 := innerWebContents_setAudible w x
      have hwf1 := hwf.of_topology ht1
      have hagree1 : InnerListsAgree (w.modify x (setAudible (aggregateAudible w x))) :=
        hin.of_same ht1 (fun z => hin1 z _)
      have hcx1 := AudioConsistent_setAudible_self hwf hin x hlive
      have hval1 : IsCurrentlyAudible (w.modify x (setAudible (aggregateAudible w x))) x =
          aggregateAudible w x := by
        rw [IsCurrentlyAudible_setAudible, if_pos ⟨rfl, hlive⟩]
      cases hout : GetOuterWebContents w x with
      | none =>
        have hout1 : GetOuterWebContents (w.modify x (setAudible (aggregateAudible w x))) x =
            none := by rw [ht1.outer_eq]; exact hout
        refine ⟨_, [x], by simp [OnAudioStateChangedLoop, hv, hout1], ht1,
          fun z => hin1 z _, fun z => eraseAudio_setAudible w x z _, ?_, hcx1, ?_,
          fun z hz => WasEverAudible_setAudible w x z _ hz, rfl, ?_,
          fun h => absurd h hv, fun _ => ⟨hval1, ?_⟩⟩
        · intro z hz
          apply find_modify_setAudible_ne
          rintro rfl
          exact hz Relation.ReflTransGen.refl
        · intro hothers y
          by_cases hy : y = x
          · rw [hy]; exact hcx1
          · exact (AudioConsistent_setAudible_other hin x y _ hy (by rw [hout]; simp)).2
              (hothers y hy)
        · intro z hz
          rw [List.mem_singleton.1 hz]
        · intro O hO
          unfold OuterOf at hO
          rw [hout] at hO
          cases hO
      | some O =>
        have hout1 : GetOuterWebContents (w.modify x (setAudible (aggregateAudible w x))) x =
            some O := by rw [ht1.outer_eq]; exact hout
        have hO := hwf.descend hout
        obtain ⟨w2, l2, hloop, ht2, hin2, her2, hkeep2, hcO, hall2, hever2, hhead2, hmem2,
          _, _⟩ := ih _ O hwf1 hagree1 (by omega)
        have hchain : ∀ z, Relation.ReflTransGen
            (OuterOf (w.modify x (setAudible (aggregateAudible w x)))) O z →
            Relation.ReflTransGen (OuterOf w) O z :=
          fun z hz => (ReflTransGen_OuterOf_congr ht1 O z).1 hz
        have hnot : ∀ z, depth O < depth z → ¬ Relation.ReflTransGen
            (OuterOf (w.modify x (setAudible (aggregateAudible w x)))) O z := by
          intro z hz hOz
          have := hwf.reflTransGen (hchain z hOz)
          omega
        have hfindx : w2.find x = (w.modify x (setAudible (aggregateAudible w x))).find x :=
          hkeep2 x (hnot x hO.2)
        refine ⟨w2, x :: l2, ?_, ht1.trans ht2, fun z => (hin2 z).trans (hin1 z _),
          fun z => (her2 z).trans (eraseAudio_setAudible w x z _), ?_, ?_, ?_, ?_, rfl, ?_,
          fun h => absurd h hv, fun _ => ⟨?_, ?_⟩⟩
        · simp only [OnAudioStateChangedLoop, hv, if_false, hout1, hloop, Option.map_some']
        · intro z hz
          have hzx : z ≠ x := by
            rintro rfl
            exact hz Relation.ReflTransGen.refl
          rw [hkeep2 z (fun h => hz (Relation.ReflTransGen.head hout (hchain z h))),
            find_modify_setAudible_ne w x z _ hzx]
        · refine (AudioConsistent_congr hfindx ?_).2 hcx1
          intro inner hI
          have hIo : GetOuterWebContents w inner = some x := by
            rw [hin1] at hI
            exact hin.mem hI
          have := (hwf.descend hIo).2
          unfold IsCurrentlyAudible
          rw [hkeep2 inner (hnot inner (by omega))]
        · intro hothers
          apply hall2
          intro y hy
          by_cases hyx : y = x
          · rw [hyx]; exact hcx1
          · exact (AudioConsistent_setAudible_other hin x y _ hyx
              (by rw [hout]; exact fun h => hy (Option.some.inj h).symm)).2 (hothers y hyx)
        · intro z hz
          exact hever2 z (WasEverAudible_setAudible w x z _ hz)
        · intro z hz
          rcases List.mem_cons.1 hz with h1 | h1
          · rw [h1]
          · exact Relation.ReflTransGen.head hout (hchain z (hmem2 z h1))
        · unfold IsCurrentlyAudible at hval1 ⊢
          rw [hfindx]
          exact hval1
        · intro O2 hO2
          unfold OuterOf at hO2
          rw [hout] at hO2
          cases hO2
          cases l2 with
          | nil => cases hhead2
          | cons a rest =>
            simp only [List.head?_cons, Option.some.injEq] at hhead2
            rw [hhead2]
            exact List.mem_cons_of_mem _ (List.mem_cons_self _ _)


theorem AudioConsistent_iff (w : World) (x : Nat) :
    AudioConsistent w x ↔
      IsCurrentlyAudible w x =
        (streamMonitorAudible w x || anyGuestAudible w x ||
          (innerWebContents w x).any (fun inner => IsCurrentlyAudible w inner)) := by
  unfold AudioConsistent
  rw [aggregateAudible_eq]
  unfold streamMonitorAudible anyGuestAudible
  cases w.find x <;> exact Iff.rfl

theorem chain'_of_mem_imp {R1 R2 : Nat → Nat → Prop} :
    ∀ {l : List Nat}, (∀ a ∈ l, ∀ b, R1 a b → R2 a b) → l.Chain' R1 → l.Chain' R2 := by
  intro l
  induction l with
  | nil => intro _ _; exact List.chain'_nil
  | cons a tl ih =>
    intro himp h
    cases tl with
    | nil => exact List.chain'_singleton a
    | cons b rest =>
      rw [List.chain'_cons] at h ⊢
      exact ⟨himp a (List.mem_cons_self _ _) b h.1,
        ih (fun c hc d hR => himp c (List.mem_cons_of_mem _ hc) d hR) h.2⟩

/-- The sessions `OnAudioStateChanged` runs on: each one but the last has changed
its value and is followed by its outer session; the last one has kept its value
or has no outer session. -/
theorem OnAudioStateChangedLoop_ranOn {depth : Nat → Nat} :
    ∀ (fuel : Nat) (w : World) (x : Nat), OuterLinksDescend w depth → InnerListsAgree w →
      depth x < fuel → ∀ w2 l, OnAudioStateChangedLoop fuel w x = some (w2, l) →
        l.Chain' (fun a b => GetOuterWebContents w a = some b ∧
          IsCurrentlyAudible w2 a ≠ IsCurrentlyAudible w a) ∧
        (∀ z, l.getLast? = some z →
          IsCurrentlyAudible w2 z = IsCurrentlyAudible w z ∨ GetOuterWebContents w z = none) ∧
        (∀ a ∈ l, IsCurrentlyAudible w2 a ≠ IsCurrentlyAudible w a →
          ∀ O, GetOuterWebContents w a = some O → O ∈ l) := by
  intro fuel
  induction fuel with
  | zero => intro w x _ _ hx; omega
  | succ n ih =>
    intro w x hwf hin hx w2 l hrun
    by_cases hv : aggregateAudible w x = IsCurrentlyAudible w x
    · have hres : (w, [x]) = (w2, l) := by
        simpa [OnAudioStateChangedLoop, hv] using hrun
      cases hres
      refine ⟨List.chain'_singleton x, ?_, ?_⟩
      · intro z _
        exact Or.inl rfl
      · intro a _ hne
        exact absurd rfl hne
    · have ht1 := setAudible_topology w x (aggregateAudible w x)
      have hin1 := innerWebContents_setAudible w x
      have hwf1 := hwf.of_topology ht1
      have hagree1 : InnerListsAgree (w.modify x (setAudible (aggregateAudible w x))) :=
        hin.of_same ht1 (fun z => hin1 z _)
      have hlive : w.live x = true := by
        by_contra hl
        apply hv
        have hnone : w.find x = none := by
          unfold World.live at hl
          cases hf : w.find x with
          | none => rfl
          | some c => simp [hf] at hl
        simp [aggregateAudible, IsCurrentlyAudible, hnone]
      have hval1 : IsCurrentlyAudible (w.modify x (setAudible (aggregateAudible w x))) x =
          aggregateAudible w x := by
        rw [IsCurrentlyAudible_setAudible, if_pos ⟨rfl, hlive⟩]
      have hother : ∀ a, a ≠ x →
          IsCurrentlyAudible (w.modify x (setAudible (aggregateAudible w x))) a =
            IsCurrentlyAudible w a := by
        intro a ha
        rw [IsCurrentlyAudible_setAudible, if_neg (fun h => ha h.1)]
      cases hout : GetOuterWebContents w x with
      | none =>
        have hout1 : GetOuterWebContents (w.modify x (setAudible (aggregateAudible w x))) x =
            none := by rw [ht1.outer_eq]; exact hout
        have hres : (w.modify x (setAudible (aggregateAudible w x)), [x]) = (w2, l) := by
          simpa [OnAudioStateChangedLoop, hv, hout1] using hrun
        cases hres
        refine ⟨List.chain'_singleton x, ?_, ?_⟩
        · intro z hz
          simp only [List.getLast?_singleton, Option.some.injEq] at hz
          rw [← hz]
          exact Or.inr hout
        · intro a ha _ O hO
          rw [List.mem_singleton.1 ha, hout] at hO
          cases hO
      | some O =>
        have hout1 : GetOuterWebContents (w.modify x (setAudible (aggregateAudible w x))) x =
            some O := by rw [ht1.outer_eq]; exact hout
        have hO := hwf.descend hout
        obtain ⟨w3, l3, hloop, _, _, _, hkeep2, _, _, _, hhead2, hmem2, _, _⟩ :=
          OnAudioStateChangedLoop_spec n _ O hwf1 hagree1 (by omega)
        have hl : w2 = w3 ∧ l = x :: l3 := by
          simp only [OnAudioStateChangedLoop, hv, if_false, hout1, hloop, Option.map_some',
            Option.some.injEq, Prod.mk.injEq] at hrun
          exact ⟨hrun.1.symm, hrun.2.symm⟩
        obtain ⟨rfl, rfl⟩ := hl
        obtain ⟨hchain, hlast, hnext⟩ := ih _ O hwf1 hagree1 (by omega) w2 l3 hloop
        have hne_x : ∀ a ∈ l3, a ≠ x := by
          intro a ha hax
          have h1 := (ReflTransGen_OuterOf_congr ht1 O a).1 (hmem2 a ha)
          have h2 := hwf.reflTransGen h1
          rw [hax] at h2
          omega
        have hfindx : w2.find x = (w.modify x (setAudible (aggregateAudible w x))).find x := by
          apply hkeep2
          intro hOx
          have h2 := hwf.reflTransGen ((ReflTransGen_OuterOf_congr ht1 O x).1 hOx)
          omega
        have hchanged : IsCurrentlyAudible w2 x ≠ IsCurrentlyAudible w x := by
          have : IsCurrentlyAudible w2 x = aggregateAudible w x := by
            unfold IsCurrentlyAudible at hval1 ⊢
            rw [hfindx]
            exact hval1
          rw [this]
          exact hv
        have hOmem : O ∈ l3 := by
          cases l3 with
          | nil => cases hhead2
          | cons a rest =>
            simp only [List.head?_cons, Option.some.injEq] at hhead2
            rw [hhead2]
            exact List.mem_cons_self _ _
        refine ⟨?_, ?_, ?_⟩
        · cases l3 with
          | nil => cases hhead2
          | cons a rest =>
            simp only [List.head?_cons, Option.some.injEq] at hhead2
            subst hhead2
            rw [List.chain'_cons]
            refine ⟨⟨hout, hchanged⟩, chain'_of_mem_imp ?_ hchain⟩
            intro c hc d hR
            refine ⟨by rw [← ht1.outer_eq]; exact hR.1, ?_⟩
            rw [← hother c (hne_x c hc)]
            exact hR.2
        · intro z hz
          have hz3 : l3.getLast? = some z := by
            cases l3 with
            | nil => cases hhead2
            | cons a rest => rwa [List.getLast?_cons_cons] at hz
          have hzmem : z ∈ l3 := List.mem_of_mem_getLast? hz3
          rcases hlast z hz3 with h | h
          · exact Or.inl (by rw [h, hother z (hne_x z hzmem)])
          · exact Or.inr (by rw [← ht1.outer_eq]; exact h)
        · intro a ha hne O2 hO2
          rcases List.mem_cons.1 ha with rfl | ha3
          · rw [hout] at hO2
            cases hO2
            exact List.mem_cons_of_mem _ hOmem
          · apply List.mem_cons_of_mem
            apply hnext a ha3 _ O2
            · rw [ht1.outer_eq]; exact hO2
            · rw [hother a (hne_x a ha3)]
              exact hne

/-- A session `OnAudioStateChanged` did not run on is left as it was. -/
theorem OnAudioStateChangedLoop_untouched :
    ∀ (fuel : Nat) (w : World) (x : Nat) (w2 : World) (l : List Nat),
      OnAudioStateChangedLoop fuel w x = some (w2, l) →
      ∀ z, z ∉ l → w2.find z = w.find z := by
  intro fuel
  induction fuel with
  | zero => intro w x w2 l h; cases h
  | succ n ih =>
    intro w x w2 l hrun z hz
    by_cases hv : aggregateAudible w x = IsCurrentlyAudible w x
    · have hres : (w, [x]) = (w2, l) := by
        simpa [OnAudioStateChangedLoop, hv] using hrun
      cases hres
      rfl
    · cases hout : GetOuterWebContents (w.modify x (setAudible (aggregateAudible w x))) x with
      | none =>
        have hres : (w.modify x (setAudible (aggregateAudible w x)), [x]) = (w2, l) := by
          simpa [OnAudioStateChangedLoop, hv, hout] using hrun
        cases hres
        exact find_modify_setAudible_ne w x z _ (fun h => hz (by rw [h]; simp))
      | some O =>
        cases hloop : OnAudioStateChangedLoop n
            (w.modify x (setAudible (aggregateAudible w x))) O with
        | none => simp [OnAudioStateChangedLoop, hv, hout, hloop] at hrun
        | some r =>
          obtain ⟨w3, l3⟩ := r
          have hl : w2 = w3 ∧ l = x :: l3 := by
            simp only [OnAudioStateChangedLoop, hv, if_false, hout, hloop, Option.map_some',
              Option.some.injEq, Prod.mk.injEq] at hrun
            exact ⟨hrun.1.symm, hrun.2.symm⟩
          obtain ⟨rfl, rfl⟩ := hl
          rw [ih _ O w2 l3 hloop z (fun h => hz (List.mem_cons_of_mem _ h))]
          exact find_modify_setAudible_ne w x z _
            (fun h => hz (by rw [h]; exact List.mem_cons_self _ _))

/-! ## C28: audio aggregation -/

/-- Claim C28, counterexample.  In the chain `2` inside `1` inside `0`, where `1`
plays audio of its own, `OnAudioStateChanged` on `2` changes the value of `2` and
runs on `2` and `1` only: the value of `1` does not change, so the method returns
there and never runs on `0`, a session of the outer chain of `2`.  And a
committed cross-document navigation of the main frame takes `was_ever_audible_`
of session `0` from true back to false. -/
theorem C28_counterexample_recomputation_stops :
    IsCurrentlyAudible (OnAudioStateChanged audioWorld 2).1 2 ≠
        IsCurrentlyAudible audioWorld 2 ∧
      GetOuterWebContents audioWorld 2 = some 1 ∧
      GetOuterWebContents audioWorld 1 = some 0 ∧
      (OnAudioStateChanged audioWorld 2).2 = [2, 1] ∧
      0 ∉ (OnAudioStateChanged audioWorld 2).2 ∧
      (audioWorld.find 0).map (fun c => c.was_ever_audible_) = some true ∧
      (audioWorld.find 0).map
        (fun c => (DidFinishNavigation c true true false).was_ever_audible_) = some false := by
  decide

/-- Claim C28, amended.  In a well-formed session forest `OnAudioStateChanged` on
`S` returns.  Afterwards `IsCurrentlyAudible S` equals (stream monitor of `S`
audible, or a plugin guest audible, or some direct inner session of `S`
currently audible).  The method ran on `S` first and on sessions of the outer
chain of `S` only; every session it ran on except the last has changed its value
and is followed by its outer session, and the last one has kept its value or has
no outer session: a session whose value does not change returns without calling
its outer session, and a session whose value changed has had its outer session
recomputed.  When the equation held for every session other than `S` before, it
holds for every session afterwards; and the method takes `WasEverAudible` of no
session from true to false. -/
theorem C28_OnAudioStateChanged_aggregates (depth : Nat → Nat) (w : World) (S : Nat)
    (hwf : OuterLinksDescend w depth) (hin : InnerListsAgree w) :
    OnAudioStateChangedRun w S = some (OnAudioStateChanged w S) ∧
      IsCurrentlyAudible (OnAudioStateChanged w S).1 S =
        (streamMonitorAudible (OnAudioStateChanged w S).1 S ||
          anyGuestAudible (OnAudioStateChanged w S).1 S ||
          (innerWebContents (OnAudioStateChanged w S).1 S).any
            (fun inner => IsCurrentlyAudible (OnAudioStateChanged w S).1 inner)) ∧
      (OnAudioStateChanged w S).2.head? = some S ∧
      (∀ z ∈ (OnAudioStateChanged w S).2, Relation.ReflTransGen (OuterOf w) S z) ∧
      (IsCurrentlyAudible (OnAudioStateChanged w S).1 S ≠ IsCurrentlyAudible w S →
        ∀ O, GetOuterWebContents w S = some O → O ∈ (OnAudioStateChanged w S).2) ∧
      ((∀ y, y ≠ S →
          IsCurrentlyAudible w y =
            (streamMonitorAudible w y || anyGuestAudible w y ||
              (innerWebContents w y).any (fun inner => IsCurrentlyAudible w inner))) →
        ∀ y, IsCurrentlyAudible (OnAudioStateChanged w S).1 y =
          (streamMonitorAudible (OnAudioStateChanged w S).1 y ||
            anyGuestAudible (OnAudioStateChanged w S).1 y ||
            (innerWebContents (OnAudioStateChanged w S).1 y).any
              (fun inner => IsCurrentlyAudible (OnAudioStateChanged w S).1 inner))) ∧
      (∀ z, WasEverAudible w z = true →
        WasEverAudible (OnAudioStateChanged w S).1 z = true) ∧
      (OnAudioStateChanged w S).2.Chain' (fun a b => GetOuterWebContents w a = some b ∧
        IsCurrentlyAudible (OnAudioStateChanged w S).1 a ≠ IsCurrentlyAudible w a) ∧
      (∀ z, (OnAudioStateChanged w S).2.getLast? = some z →
        IsCurrentlyAudible (OnAudioStateChanged w S).1 z = IsCurrentlyAudible w z ∨
          GetOuterWebContents w z = none) ∧
      (∀ a ∈ (OnAudioStateChanged w S).2,
        IsCurrentlyAudible (OnAudioStateChanged w S).1 a ≠ IsCurrentlyAudible w a →
        ∀ O, GetOuterWebContents w a = some O → O ∈ (OnAudioStateChanged w S).2) ∧
      (∀ z, z ∉ (OnAudioStateChanged w S).2 →
        (OnAudioStateChanged w S).1.find z = w.find z) := by
  obtain ⟨d, hd, hb⟩ := hwf.exists_bounded
  obtain ⟨w2, l, hloop, _, _, _, _, hcons, hall, hever, hhead, hmem, hsame, hchanged⟩ :=
    OnAudioStateChangedLoop_spec (w.contents.length + 1) w S hd hin (hb S)
  obtain ⟨hchain, hlast, hnext⟩ :=
    OnAudioStateChangedLoop_ranOn (w.contents.length + 1) w S hd hin (hb S) w2 l hloop
  have huntouched := OnAudioStateChangedLoop_untouched (w.contents.length + 1) w S w2 l hloop
  have hrun : OnAudioStateChangedRun w S = some (w2, l) := hloop
  have hget : OnAudioStateChanged w S = (w2, l) := by simp [OnAudioStateChanged, hrun]
  rw [hget]
  refine ⟨hrun, (AudioConsistent_iff w2 S).1 hcons, hhead, hmem, ?_, ?_, hever, hchain, hlast,
    hnext, huntouched⟩
  · intro hne O hO
    by_cases hv : aggregateAudible w S = IsCurrentlyAudible w S
    · exact absurd (by rw [(hsame hv).1]) hne
    · exact (hchanged hv).2 O hO
  · intro hothers y
    exact (AudioConsistent_iff w2 y).1
      (hall (fun z hz => (AudioConsistent_iff w z).2 (hothers z hz)) y)

theorem C28_OnAudioStateChanged_aggregates_witness :
    OuterLinksDescend audioWorld chainDepth ∧ InnerListsAgree audioWorld ∧
      (OnAudioStateChanged audioWorld 2).2 = [2, 1] ∧
      (OnAudioStateChanged audioWorld 2).2.Chain'
        (fun a b => GetOuterWebContents audioWorld a = some b ∧
          IsCurrentlyAudible (OnAudioStateChanged audioWorld 2).1 a ≠
            IsCurrentlyAudible audioWorld a) ∧
      IsCurrentlyAudible (OnAudioStateChanged audioWorld 2).1 2 =
        (streamMonitorAudible (OnAudioStateChanged audioWorld 2).1 2 ||
          anyGuestAudible (OnAudioStateChanged audioWorld 2).1 2 ||
          (innerWebContents (OnAudioStateChanged audioWorld 2).1 2).any
            (fun inner => IsCurrentlyAudible (OnAudioStateChanged audioWorld 2).1 inner)) :=
  have hwf : OuterLinksDescend audioWorld chainDepth := by decide
  have hin : InnerListsAgree audioWorld := by decide
  ⟨hwf, hin, by decide,
    (C28_OnAudioStateChanged_aggregates chainDepth audioWorld 2 hwf hin).2.2.2.2.2.2.2.1,
    (C28_OnAudioStateChanged_aggregates chainDepth audioWorld 2 hwf hin).2.1⟩

/-! ## C29: line breaks -/

theorem JoinString_cons_cons (p q : List Nat) (ps : List (List Nat)) (sep : List Nat) :
    JoinString (p :: q :: ps) sep = p ++ sep ++ JoinString (q :: ps) sep := rfl

theorem JoinString_cons_of_ne_nil (p : List Nat) {ps : List (List Nat)} (sep : List Nat)
    (h : ps ≠ []) : JoinString (p :: ps) sep = p ++ sep ++ JoinString ps sep := by
  cases ps with
  | nil => exact absurd rfl h
  | cons q qs => rfl

theorem JoinString_append {a b : List (List Nat)} (sep : List Nat) (ha : a ≠ []) (hb : b ≠ []) :
    JoinString (a ++ b) sep = JoinString a sep ++ sep ++ JoinString b sep := by
  induction a with
  | nil => exact absurd rfl ha
  | cons p ps ih =>
    cases ps with
    | nil =>
      rw [List.singleton_append, JoinString_cons_of_ne_nil p sep hb]
      rfl
    | cons q qs =>
      rw [List.cons_append, JoinString_cons_of_ne_nil p sep (by simp), ih (by simp),
        JoinString_cons_cons]
      simp only [List.append_assoc]

theorem returnsReplaced_cons (c : Nat) (s : List Nat) :
    returnsReplaced (c :: s) =
      (if c = kReturnUnit then kNewlineUnit else c) :: returnsReplaced s := rfl

theorem lineBreaksReplaced_cons_not_return {c : Nat} (s : List Nat) (hc : c ≠ kReturnUnit) :
    lineBreaksReplaced (c :: s) = c :: lineBreaksReplaced s := by
  cases s with
  | nil => simp [lineBreaksReplaced, hc]
  | cons d rest => simp [lineBreaksReplaced, hc]

theorem lineBreaksReplaced_return_newline (s : List Nat) :
    lineBreaksReplaced (kReturnUnit :: kNewlineUnit :: s) =
      kNewlineUnit :: lineBreaksReplaced s := by
  simp [lineBreaksReplaced]

theorem lineBreaksReplaced_return_other (s : List Nat)
    (h : kReturnNewline.isPrefixOf (kReturnUnit :: s) = false) :
    lineBreaksReplaced (kReturnUnit :: s) = kNewlineUnit :: lineBreaksReplaced s := by
  cases s with
  | nil => simp [lineBreaksReplaced]
  | cons d rest =>
    have hd : d ≠ kNewlineUnit := by
      intro hd
      simp [kReturnNewline, List.isPrefixOf, hd] at h
    simp [lineBreaksReplaced, hd]

/-- What the search for "\r\n" says about the replacement. -/
theorem findSubstr_kReturnNewline (input : List Nat) :
    match findSubstr kReturnNewline input with
    | none => lineBreaksReplaced input = returnsReplaced input
    | some (term, rest) =>
      lineBreaksReplaced input =
          returnsReplaced term ++ kNewlineUnit :: lineBreaksReplaced rest ∧
        rest.length < input.length := by
  induction input with
  | nil => simp [findSubstr, kReturnNewline, lineBreaksReplaced, returnsReplaced]
  | cons c tl ih =>
    unfold findSubstr
    by_cases hp : kReturnNewline.isPrefixOf (c :: tl) = true
    · rw [if_pos hp]
      have : ∃ rest, c = kReturnUnit ∧ tl = kNewlineUnit :: rest := by
        cases tl with
        | nil => simp [kReturnNewline, List.isPrefixOf] at hp
        | cons d rest =>
          simp only [kReturnNewline, List.isPrefixOf, Bool.and_true, Bool.and_eq_true,
            beq_iff_eq] at hp
          exact ⟨rest, hp.1.symm, by rw [hp.2]⟩
      obtain ⟨rest, rfl, rfl⟩ := this
      simp only [kReturnNewline, List.length_cons, List.length_nil, List.drop_succ_cons,
        List.drop_zero]
      refine ⟨?_, by omega⟩
      rw [lineBreaksReplaced_return_newline]
      rfl
    · rw [if_neg hp]
      have hrepl : lineBreaksReplaced (c :: tl) =
          (if c = kReturnUnit then kNewlineUnit else c) :: lineBreaksReplaced tl := by
        by_cases hc : c = kReturnUnit
        · rw [if_pos hc, hc]
          rw [hc] at hp
          exact lineBreaksReplaced_return_other tl (Bool.eq_false_iff.2 hp)
        · rw [if_neg hc]
          exact lineBreaksReplaced_cons_not_return tl hc
      cases hf : findSubstr kReturnNewline tl with
      | none =>
        rw [hf] at ih
        simp only [Option.map_none']
        rw [hrepl, returnsReplaced_cons]
        exact congrArg _ ih
      | some r =>
        obtain ⟨term, rest⟩ := r
        rw [hf] at ih
        simp only [Option.map_some']
        refine ⟨?_, by simp only [List.length_cons]; omega⟩
        rw [hrepl, returnsReplaced_cons, ih.1]
        rfl

/-- What the search for "\r" says about the replacement of carriage returns. -/
theorem findSubstr_kReturn (input : List Nat) :
    match findSubstr kReturn input with
    | none => returnsReplaced input = input
    | some (term, rest) =>
      returnsReplaced input = term ++ kNewlineUnit :: returnsReplaced rest ∧
        rest.length < input.length := by
  induction input with
  | nil => simp [findSubstr, kReturn, returnsReplaced]
  | cons c tl ih =>
    unfold findSubstr
    by_cases hc : c = kReturnUnit
    · have hp : kReturn.isPrefixOf (c :: tl) = true := by
        simp [kReturn, List.isPrefixOf, hc]
      rw [if_pos hp]
      simp only [kReturn, List.length_cons, List.length_nil, List.drop_succ_cons,
        List.drop_zero]
      refine ⟨?_, by omega⟩
      rw [returnsReplaced_cons, if_pos hc]
      rfl
    · have hp : ¬ kReturn.isPrefixOf (c :: tl) = true := by
        simp only [kReturn, List.isPrefixOf, Bool.and_true, beq_iff_eq]
        exact fun h => hc h.symm
      rw [if_neg hp]
      cases hf : findSubstr kReturn tl with
      | none =>
        rw [hf] at ih
        simp only [Option.map_none']
        rw [returnsReplaced_cons, if_neg hc, ih]
      | some r =>
        obtain ⟨term, rest⟩ := r
        rw [hf] at ih
        simp only [Option.map_some']
        refine ⟨?_, by simp only [List.length_cons]; omega⟩
        rw [returnsReplaced_cons, if_neg hc, ih.1]
        rfl


theorem SplitStringPieceUsingSubstrLoop_kReturn :
    ∀ (fuel : Nat) (input : List Nat), input.length < fuel →
      ∃ pieces, SplitStringPieceUsingSubstrLoop fuel input kReturn = some pieces ∧
        pieces ≠ [] ∧ JoinString pieces kNewline = returnsReplaced input := by
  intro fuel
  induction fuel with
  | zero => intro input h; omega
  | succ n ih =>
    intro input hlen
    have hfind := findSubstr_kReturn input
    unfold SplitStringPieceUsingSubstrLoop
    cases hf : findSubstr kReturn input with
    | none =>
      rw [hf] at hfind
      exact ⟨[input], rfl, by simp, hfind.symm⟩
    | some r =>
      obtain ⟨term, rest⟩ := r
      rw [hf] at hfind
      obtain ⟨pieces, hp, hne, hjoin⟩ := ih rest (by have := hfind.2; omega)
      refine ⟨term :: pieces, by simp [hp], by simp, ?_⟩
      rw [JoinString_cons_of_ne_nil term kNewline hne, hjoin, hfind.1]
      simp [kNewline]

theorem SplitStringPieceUsingSubstrLoop_kReturnNewline :
    ∀ (fuel : Nat) (input : List Nat), input.length < fuel →
      ∃ pieces, SplitStringPieceUsingSubstrLoop fuel input kReturnNewline = some pieces ∧
        pieces ≠ [] ∧
        JoinString (pieces.map returnsReplaced) kNewline = lineBreaksReplaced input := by
  intro fuel
  induction fuel with
  | zero => intro input h; omega
  | succ n ih =>
    intro input hlen
    have hfind := findSubstr_kReturnNewline input
    unfold SplitStringPieceUsingSubstrLoop
    cases hf : findSubstr kReturnNewline input with
    | none =>
      rw [hf] at hfind
      exact ⟨[input], rfl, by simp, hfind.symm⟩
    | some r =>
      obtain ⟨term, rest⟩ := r
      rw [hf] at hfind
      obtain ⟨pieces, hp, hne, hjoin⟩ := ih rest (by have := hfind.2; omega)
      refine ⟨term :: pieces, by simp [hp], by simp, ?_⟩
      rw [List.map_cons, JoinString_cons_of_ne_nil _ kNewline (by simpa using hne), hjoin,
        hfind.1]
      simp [kNewline]

theorem NormalizeLineBreaksLoop_spec :
    ∀ (rn_lines pieces : List (List Nat)),
      ∃ added, NormalizeLineBreaksLoop rn_lines pieces = some (pieces ++ added) ∧
        (added = [] ↔ rn_lines = []) ∧
        JoinString added kNewline = JoinString (rn_lines.map returnsReplaced) kNewline := by
  intro rn_lines
  induction rn_lines with
  | nil => intro pieces; exact ⟨[], by simp [NormalizeLineBreaksLoop], by simp, rfl⟩
  | cons rn_line rest ih =>
    intro pieces
    obtain ⟨r_lines, hr, hne, hjoin⟩ :=
      SplitStringPieceUsingSubstrLoop_kReturn (rn_line.length + 1) rn_line (by omega)
    have hsplit : SplitStringPieceUsingSubstr rn_line kReturn = some r_lines := hr
    obtain ⟨added, hloop, hnil, hadded⟩ := ih (pieces ++ r_lines)
    refine ⟨r_lines ++ added, ?_, by simp [hne], ?_⟩
    · simp only [NormalizeLineBreaksLoop, hsplit, hloop, List.append_assoc]
    · by_cases hrest : rest = []
      · rw [hnil.2 hrest, hrest, List.append_nil, hjoin]
        rfl
      · have hadd : added ≠ [] := fun h => hrest (hnil.1 h)
        rw [JoinString_append kNewline hne hadd, hjoin, hadded, List.map_cons,
          JoinString_cons_of_ne_nil _ kNewline (by simpa using hrest)]

theorem NormalizeLineBreaks_eq (source : List Nat) :
    NormalizeLineBreaks source = some (lineBreaksReplaced source) := by
  obtain ⟨rn_lines, hr, _, hjoin⟩ :=
    SplitStringPieceUsingSubstrLoop_kReturnNewline (source.length + 1) source (by omega)
  have hsplit : SplitStringPieceUsingSubstr source kReturnNewline = some rn_lines := hr
  obtain ⟨added, hloop, _, hadded⟩ := NormalizeLineBreaksLoop_spec rn_lines []
  simp only [NormalizeLineBreaks, hsplit, hloop, List.nil_append, hadded, hjoin]

theorem lineBreaksReplaced_no_return (s : List Nat) :
    kReturnUnit ∉ lineBreaksReplaced s ∧ ∀ c, kReturnUnit ∉ lineBreaksReplaced (c :: s) := by
  have hne : kReturnUnit ≠ kNewlineUnit := by decide
  induction s with
  | nil =>
    refine ⟨by simp [lineBreaksReplaced], fun c => ?_⟩
    by_cases hc : c = kReturnUnit
    · simp [lineBreaksReplaced, hc, hne]
    · simp [lineBreaksReplaced, hc, Ne.symm hc]
  | cons d rest ih =>
    refine ⟨ih.2 d, fun c => ?_⟩
    by_cases hc : c = kReturnUnit
    · by_cases hd : d = kNewlineUnit
      · rw [hc, hd, lineBreaksReplaced_return_newline]
        simp [hne, ih.1]
      · rw [hc, lineBreaksReplaced_return_other _
          (by simpa [kReturnNewline, List.isPrefixOf] using Ne.symm hd)]
        simp [hne, ih.2 d]
    · rw [lineBreaksReplaced_cons_not_return _ hc]
      simp [Ne.symm hc, ih.2 d]

theorem lineBreaksReplaced_of_no_return (s : List Nat) (h : kReturnUnit ∉ s) :
    lineBreaksReplaced s = s := by
  induction s with
  | nil => rfl
  | cons c rest ih =>
    have hc : c ≠ kReturnUnit := fun hc => h (by simp [hc])
    rw [lineBreaksReplaced_cons_not_return _ hc, ih (fun hm => h (List.mem_cons_of_mem _ hm))]

/-- Claim C29.  `NormalizeLineBreaks` returns, for every string of code units,
the string with each "\r\n" pair replaced by one "\n" and each other "\r"
replaced by "\n", all other units kept in order; the result holds no carriage
return, normalising twice is normalising once, "a\r\nb\rc\r\r\nd" gives
"a\nb\nc\n\nd" and the empty string gives the empty string. -/
theorem C29_NormalizeLineBreaks_replaces (s : List Nat) :
    NormalizeLineBreaks s = some (lineBreaksReplaced s) ∧
      kReturnUnit ∉ (NormalizeLineBreaks s).getD [] ∧
      (NormalizeLineBreaks s).bind NormalizeLineBreaks = NormalizeLineBreaks s ∧
      NormalizeLineBreaks sampleLineBreaks = some [97, 10, 98, 10, 99, 10, 10, 100] ∧
      NormalizeLineBreaks [] = some [] := by
  refine ⟨NormalizeLineBreaks_eq s, ?_, ?_, by decide, by decide⟩
  · rw [NormalizeLineBreaks_eq, Option.getD_some]
    exact (lineBreaksReplaced_no_return s).1
  · rw [NormalizeLineBreaks_eq s, Option.some_bind, NormalizeLineBreaks_eq,
      lineBreaksReplaced_of_no_return _ (lineBreaksReplaced_no_return s).1]


/-! ## C30: download headers -/

/-- A list either satisfies `p` throughout or splits at its first element that
does not. -/
theorem dropWhile_cases (p : Nat → Bool) (l : List Nat) :
    ((∀ c ∈ l, p c = true) ∧ l.dropWhile p = [] ∧ l.takeWhile p = l) ∨
      ∃ a x b, l = a ++ x :: b ∧ (∀ c ∈ a, p c = true) ∧ p x = false ∧
        l.dropWhile p = x :: b ∧ l.takeWhile p = a := by
  induction l with
  | nil => exact Or.inl ⟨by simp, rfl, rfl⟩
  | cons c tl ih =>
    by_cases hc : p c = true
    · rcases ih with ⟨h1, h2, h3⟩ | ⟨a, x, b, h1, h2, h3, h4, h5⟩
      · refine Or.inl ⟨?_, by simp [List.dropWhile, hc, h2], by simp [List.takeWhile, hc, h3]⟩
        intro d hd
        rcases List.mem_cons.1 hd with rfl | hd
        · exact hc
        · exact h1 d hd
      · refine Or.inr ⟨c :: a, x, b, by rw [h1]; rfl, ?_, h3, by simp [List.dropWhile, hc, h4],
          by simp [List.takeWhile, hc, h5]⟩
        intro d hd
        rcases List.mem_cons.1 hd with rfl | hd
        · exact hc
        · exact h2 d hd
    · have hc2 : p c = false := by simpa using hc
      exact Or.inr ⟨[], c, tl, rfl, by simp, hc2, by simp [List.dropWhile, hc2],
        by simp [List.takeWhile, hc2]⟩

theorem dropWhile_append_cons (p : Nat → Bool) (a b : List Nat) {x : Nat} (hx : p x = false) :
    (a ++ x :: b).dropWhile p = a.dropWhile p ++ x :: b := by
  induction a with
  | nil => simp [List.dropWhile, hx]
  | cons c tl ih =>
    by_cases hc : p c = true
    · simp only [List.cons_append, List.dropWhile, hc]
      exact ih
    · have hc2 : p c = false := by simpa using hc
      simp [List.dropWhile, hc2]

theorem rdropWhile_append_cons (p : Nat → Bool) (a b : List Nat) {x : Nat} (hx : p x = false) :
    (a ++ x :: b).rdropWhile p = a ++ x :: b.rdropWhile p := by
  unfold List.rdropWhile
  rw [List.reverse_append, List.reverse_cons, List.append_assoc, List.singleton_append,
    dropWhile_append_cons p _ _ hx]
  simp

theorem dropWhile_eq_nil_of_all (p : Nat → Bool) (l : List Nat) (h : ∀ c ∈ l, p c = true) :
    l.dropWhile p = [] := by
  rcases dropWhile_cases p l with ⟨_, h2, _⟩ | ⟨a, x, b, h1, _, h3, _, _⟩
  · exact h2
  · have := h x (by rw [h1]; simp)
    rw [h3] at this
    cases this

theorem rdropWhile_eq_nil_of_all (p : Nat → Bool) (l : List Nat) (h : ∀ c ∈ l, p c = true) :
    l.rdropWhile p = [] := by
  unfold List.rdropWhile
  rw [dropWhile_eq_nil_of_all p l.reverse (fun c hc => h c (List.mem_reverse.1 hc))]
  rfl

theorem dropWhile_rdropWhile_comm (p : Nat → Bool) (l : List Nat) :
    (l.rdropWhile p).dropWhile p = (l.dropWhile p).rdropWhile p := by
  rcases dropWhile_cases p l with ⟨h1, h2, _⟩ | ⟨a, x, b, h1, h2, h3, h4, _⟩
  · rw [h2, rdropWhile_eq_nil_of_all p l h1]
    rfl
  · rw [h4, h1, rdropWhile_append_cons p a b h3, dropWhile_append_cons p a _ h3,
      dropWhile_eq_nil_of_all p a h2]
    exact (rdropWhile_append_cons p [] b h3).symm

theorem rdropWhile_rdropWhile (p : Nat → Bool) (l : List Nat) :
    (l.rdropWhile p).rdropWhile p = l.rdropWhile p := by
  unfold List.rdropWhile
  rw [List.reverse_reverse, List.dropWhile_idempotent]

theorem TrimString_dropWhile (ws l : List Nat) :
    TrimString ws (l.dropWhile (fun c => decide (c ∈ ws))) = TrimString ws l := by
  unfold TrimString
  rw [List.dropWhile_idempotent]

theorem TrimString_rdropWhile (ws l : List Nat) :
    TrimString ws (l.rdropWhile (fun c => decide (c ∈ ws))) = TrimString ws l := by
  unfold TrimString
  rw [dropWhile_rdropWhile_comm, rdropWhile_rdropWhile]

theorem count_dropWhile (p : Nat → Bool) (k : Nat) (hk : p k = false) (l : List Nat) :
    (l.dropWhile p).count k = l.count k := by
  induction l with
  | nil => rfl
  | cons c tl ih =>
    by_cases hc : p c = true
    · have hck : c ≠ k := by
        rintro rfl
        rw [hk] at hc
        cases hc
      simp only [List.dropWhile, hc]
      rw [ih, List.count_cons_of_ne (Ne.symm hck)]
    · have hc2 : p c = false := by simpa using hc
      simp [List.dropWhile, hc2]

theorem count_rdropWhile (p : Nat → Bool) (k : Nat) (hk : p k = false) (l : List Nat) :
    (l.rdropWhile p).count k = l.count k := by
  unfold List.rdropWhile
  rw [List.count_reverse, count_dropWhile p k hk, List.count_reverse]

theorem count_TrimString (ws : List Nat) (k : Nat) (hk : k ∉ ws) (l : List Nat) :
    (TrimString ws l).count k = l.count k := by
  have hp : (fun c => decide (c ∈ ws)) k = false := by simpa using hk
  unfold TrimString
  rw [count_rdropWhile _ k hp, count_dropWhile _ k hp]


theorem splitAtAny_ne_nil (d s : List Nat) : splitAtAny d s ≠ [] := by
  cases s with
  | nil => simp [splitAtAny]
  | cons c rest =>
    unfold splitAtAny
    split_ifs
    · simp
    · cases splitAtAny d rest <;> simp

theorem splitAtAny_cons_pos {d : List Nat} {c : Nat} (rest : List Nat) (hc : c ∈ d) :
    splitAtAny d (c :: rest) = [] :: splitAtAny d rest := by
  rw [splitAtAny, if_pos hc]

theorem splitAtAny_cons_neg {d : List Nat} {c : Nat} {rest piece : List Nat}
    {pieces : List (List Nat)} (hc : c ∉ d) (h : splitAtAny d rest = piece :: pieces) :
    splitAtAny d (c :: rest) = (c :: piece) :: pieces := by
  rw [splitAtAny, if_neg hc, h]

theorem splitAtAny_append_cons (d : List Nat) {a : List Nat} (b : List Nat) {x : Nat}
    (ha : ∀ c ∈ a, c ∉ d) (hx : x ∈ d) :
    splitAtAny d (a ++ x :: b) = a :: splitAtAny d b := by
  induction a with
  | nil => exact splitAtAny_cons_pos b hx
  | cons c tl ih =>
    have hc : c ∉ d := ha c (List.mem_cons_self _ _)
    have htl := ih (fun e he => ha e (List.mem_cons_of_mem _ he))
    rw [List.cons_append]
    exact splitAtAny_cons_neg hc htl

theorem splitAtAny_of_not_mem (d : List Nat) {s : List Nat} (hs : ∀ c ∈ s, c ∉ d) :
    splitAtAny d s = [s] := by
  induction s with
  | nil => rfl
  | cons c tl ih =>
    have hc : c ∉ d := hs c (List.mem_cons_self _ _)
    have htl := ih (fun e he => hs e (List.mem_cons_of_mem _ he))
    exact splitAtAny_cons_neg hc htl

theorem length_splitAtAny (k : Nat) (s : List Nat) :
    (splitAtAny [k] s).length = s.count k + 1 := by
  induction s with
  | nil => rfl
  | cons c tl ih =>
    by_cases hc : c = k
    · rw [splitAtAny_cons_pos tl (by simp [hc]), hc, List.count_cons_self, List.length_cons, ih]
    · rw [List.count_cons_of_ne (Ne.symm hc), ← ih]
      cases hsp : splitAtAny [k] tl with
      | nil => exact absurd hsp (splitAtAny_ne_nil _ _)
      | cons piece pieces =>
        rw [splitAtAny_cons_neg (by simpa using hc) hsp]
        rfl

/-- A line with exactly one colon is the text in front of the colon, the colon
and the text behind it, neither text with a colon. -/
theorem one_colon_split {line : List Nat} (h : line.count kColon = 1) :
    line = line.takeWhile (fun c => decide (c ≠ kColon)) ++
        kColon :: (line.dropWhile (fun c => decide (c ≠ kColon))).drop 1 ∧
      kColon ∉ line.takeWhile (fun c => decide (c ≠ kColon)) ∧
      kColon ∉ (line.dropWhile (fun c => decide (c ≠ kColon))).drop 1 := by
  rcases dropWhile_cases (fun c => decide (c ≠ kColon)) line with
    ⟨h1, _, _⟩ | ⟨a, x, b, h1, h2, h3, h4, h5⟩
  · have : line.count kColon = 0 := by
      rw [List.count_eq_zero]
      intro hm
      simpa using h1 kColon hm
    omega
  · have hx : x = kColon := by simpa using h3
    have ha : kColon ∉ a := fun hm => by simpa using h2 kColon hm
    rw [h4, h5, List.drop_succ_cons, List.drop_zero]
    refine ⟨by rw [h1, hx], ha, ?_⟩
    rw [h1, hx, List.count_append, List.count_cons_self, List.count_eq_zero.2 ha] at h
    exact List.count_eq_zero.1 (by omega)

/-- The body of the loop on the trimmed form of a line pushes the pair the claim
describes, and a line that is empty after trimming has no such pair. -/
theorem ParseDownloadHeadersStep_TrimString (ws : List Nat) (hws : kColon ∉ ws)
    (acc : List (List Nat × List Nat)) (line : List Nat) :
    (TrimString ws line ≠ [] →
        ParseDownloadHeadersStep ws acc (TrimString ws line) =
          acc ++ (headerOfLine ws line).toList) ∧
      (TrimString ws line = [] → headerOfLine ws line = none) := by
  have hp : (fun c => decide (c ∈ ws)) kColon = false := by simpa using hws
  have hcount := count_TrimString ws kColon hws line
  refine ⟨fun hne => ?_, fun hnil => ?_⟩
  · have hsplit : SplitString ws (TrimString ws line) [kColon] true =
        (splitAtAny [kColon] (TrimString ws line)).map (TrimString ws) := by
      unfold SplitString
      rw [if_neg hne]
      simp
    unfold ParseDownloadHeadersStep headerOfLine
    simp only [hsplit, List.length_map, length_splitAtAny, hcount]
    by_cases h1 : line.count kColon = 1
    · obtain ⟨hline, ha, hb⟩ := one_colon_split h1
      have htrim : TrimString ws line =
          (line.takeWhile (fun c => decide (c ≠ kColon))).dropWhile (fun c => decide (c ∈ ws)) ++
            kColon :: ((line.dropWhile (fun c => decide (c ≠ kColon))).drop 1).rdropWhile
              (fun c => decide (c ∈ ws)) := by
        conv_lhs => rw [hline]
        unfold TrimString
        rw [dropWhile_append_cons _ _ _ hp, rdropWhile_append_cons _ _ _ hp]
      have hpieces : splitAtAny [kColon] (TrimString ws line) =
          [(line.takeWhile (fun c => decide (c ≠ kColon))).dropWhile (fun c => decide (c ∈ ws)),
            ((line.dropWhile (fun c => decide (c ≠ kColon))).drop 1).rdropWhile
              (fun c => decide (c ∈ ws))] := by
        rw [htrim, splitAtAny_append_cons [kColon] _ ?_ (by simp), splitAtAny_of_not_mem]
        · intro c hc
          have hcb := (List.rdropWhile_prefix _ _).subset hc
          simp only [List.mem_singleton]
          rintro rfl
          exact hb hcb
        · intro c hc
          have hca := (List.dropWhile_suffix _).subset hc
          simp only [List.mem_singleton]
          rintro rfl
          exact ha hca
      rw [if_pos (by omega), if_pos h1, hpieces]
      simp only [List.map_cons, List.map_nil, TrimString_dropWhile, TrimString_rdropWhile,
        List.getD_cons_zero, List.getD_cons_succ, Option.toList_some]
    · rw [if_neg (by omega), if_neg h1]
      simp
  · unfold headerOfLine
    rw [if_neg]
    rw [← hcount, hnil]
    simp

theorem foldl_ParseDownloadHeadersStep (ws : List Nat) (hws : kColon ∉ ws) :
    ∀ (lines : List (List Nat)) (acc : List (List Nat × List Nat)),
      (((lines.map (TrimString ws)).filter (fun piece => false || !piece.isEmpty)).foldl
          (ParseDownloadHeadersStep ws) acc) =
        acc ++ lines.filterMap (headerOfLine ws) := by
  intro lines
  induction lines with
  | nil => intro acc; simp
  | cons line rest ih =>
    intro acc
    obtain ⟨h1, h2⟩ := ParseDownloadHeadersStep_TrimString ws hws acc line
    by_cases hnil : TrimString ws line = []
    · have hline := h2 hnil
      rw [List.map_cons, List.filter_cons_of_neg (by simp [hnil]), ih,
        List.filterMap_cons_none hline]
    · rw [List.map_cons, List.filter_cons_of_pos (by simpa using hnil), List.foldl_cons,
        h1 hnil, ih]
      cases hl : headerOfLine ws line with
      | none => rw [List.filterMap_cons_none hl]; simp
      | some pr => rw [List.filterMap_cons_some hl]; simp

/-- Claim C30.  With the colon not a whitespace code unit, `ParseDownloadHeaders`
returns, in the order of the input, the pair of the trimmed text in front of the
colon and the trimmed text behind it for exactly the lines (the runs between
carriage-return and line-feed units) with exactly one colon; a line with no
colon or with two or more gives nothing, so that "Referer: http://x/" is
dropped. -/
theorem C30_ParseDownloadHeaders_one_colon_lines (whitespace headers : List Nat)
    (hcolon : kColon ∉ whitespace) :
    ParseDownloadHeaders whitespace headers =
      (splitAtAny [kReturnUnit, kNewlineUnit] headers).filterMap (headerOfLine whitespace) := by
  unfold ParseDownloadHeaders SplitString
  by_cases h : headers = []
  · rw [if_pos h, h]
    rfl
  · rw [if_neg h, foldl_ParseDownloadHeadersStep whitespace hcolon, List.nil_append]

theorem C30_ParseDownloadHeaders_one_colon_lines_witness :
    kColon ∉ kWhitespaceASCII ∧
      ParseDownloadHeaders kWhitespaceASCII sampleHeaders =
        (splitAtAny [kReturnUnit, kNewlineUnit] sampleHeaders).filterMap
          (headerOfLine kWhitespaceASCII) ∧
      ParseDownloadHeaders kWhitespaceASCII sampleHeaders = [([65], [98]), ([67], [100])] :=
  ⟨by decide,
    C30_ParseDownloadHeaders_one_colon_lines kWhitespaceASCII sampleHeaders (by decide),
    by decide⟩

end WebContents
